import Mathlib

/-!
# Verification development for the peer-time-sync node (PTS) and the
# great-approximator server and codec (APX)

Shallow embedding of `src/peer-time-sync/*.c`, `src/peer-time-sync/peers.cpp`,
`src/the-great-approximator/server_logic.cpp` and
`src/the-great-approximator/msg_parser.cpp`.

Conventions of the embedding.
* A `uint8_t`, `uint16_t`, `uint32_t` or `uint64_t` is a `Nat`; every store into
  such an object reduces modulo `2 ^ w` where the C code can leave the range.
* An `int64_t` is an `Int`; every signed 64-bit operation goes through `wrap64`
  (two's complement wrap-around).
* A datagram is a `List Nat` of bytes (each `< 256`).
* The host is little-endian (the `#else` branch of the `htonll` definition):
  `memcpy` of an integer object copies its bytes least significant first, and
  `htonl`, `htons` reverse the bytes.
* Every handler receives the readings of the monotonic clock it makes as a
  function `rd : Nat → Timespec`: `rd i` is what the `i`-th `clock_gettime`
  call site of that handler (in source order) obtains.
* A sent datagram is recorded in the output list of the handler
  (`sendto` failures only log and are outside the model).
-/

namespace PTS

/-! ## Constants of `messages.c`, `node_data.h`, `peers.cpp` -/

def HELLO : Nat := 1
def HELLO_REPLY : Nat := 2
def CONNECT : Nat := 3
def ACK_CONNECT : Nat := 4
def SYNC_START : Nat := 11
def DELAY_REQUEST : Nat := 12
def DELAY_RESPONSE : Nat := 13
def LEADER : Nat := 21
def GET_TIME : Nat := 31
def TIME : Nat := 32

def MESSAGE_SIZE : Nat := 1
def COUNT_SIZE : Nat := 2
def PEER_ADDRESS_LENGTH_SIZE : Nat := 1
def PEER_ADDRESS_SIZE : Nat := 4
def PEER_PORT_SIZE : Nat := 2
def TIMESTAMP_SIZE : Nat := 8
def SYNCHRONIZED_SIZE : Nat := 1

def LEADER_SYNCHRONIZATION_DELAY : Nat := 2
def SYNCHRONIZATION_CHECK_DELAY : Nat := 20
def DELAY_RESPONSE_TIME : Nat := 5
def SYNC_START_DELAY : Nat := 5

def BUFFER_SIZE : Nat := 65536
def CLOCK_UNSYNCHRONIZED : Nat := 255
def CLOCK_LEADER : Nat := 0
def MAX_CAPACITY : Nat := 65535

/-! ## Data model -/

/-- The two fields of `struct sockaddr_in` the program reads: `sin_addr.s_addr`
(a `uint32_t` object) and `sin_port` (a `uint16_t` object), as stored. -/
structure SockAddr where
  s_addr : Nat
  sin_port : Nat
deriving DecidableEq, Repr

/-- The `struct timespec` of the monotonic clock. -/
structure Timespec where
  tv_sec : Int
  tv_nsec : Int
deriving DecidableEq, Repr

/-- A datagram handed to `sendto`: destination and payload bytes. -/
structure Datagram where
  dest : SockAddr
  bytes : List Nat
deriving DecidableEq, Repr

/-- The `NodeData` record of `node_data.h` (the socket descriptor is left out;
the three peer-list handles are replaced by the sets they name). -/
structure NodeData where
  my_addresses : List SockAddr
  known_peer : SockAddr
  peer_list : List SockAddr
  waiting_for_hello_reply : Bool
  waiting_for_ack_connect : List SockAddr
  sync_level : Nat
  offset_ms : Int
  synchronized_peer : SockAddr
  next_sync_start : Timespec
  next_sync_check : Timespec
  last_sync_start : Nat
  asked_to_synchronize : List SockAddr
  synchronizing : Bool
  synchronizing_level : Nat
  peer_to_sync : SockAddr
  waiting_for_delay_response : Timespec
  T1 : Nat
  T2 : Nat
  T3 : Nat
  T4 : Nat
deriving DecidableEq, Repr

/-! ## Machine arithmetic -/

/-- Two's complement reduction of an integer into the `int64_t` range. -/
def wrap64 (x : Int) : Int := (x + 2 ^ 63) % 2 ^ 64 - 2 ^ 63

/-- The cast `(int64_t)u` of a `uint64_t`. -/
def toInt64 (u : Nat) : Int := wrap64 (u : Int)

/-- The cast `(uint64_t)i` of a signed value. -/
def toUInt64 (i : Int) : Nat := (i % 2 ^ 64).toNat

/-! ## `clock.c` -/

/-- The function `get_natural_clock`: milliseconds between `start_time` and the
reading `cur`, in `long` arithmetic with C division, stored in a `uint64_t`. -/
def get_natural_clock (start_time cur : Timespec) : Nat :=
  toUInt64 ((cur.tv_sec - start_time.tv_sec) * 1000 +
    Int.tdiv (cur.tv_nsec - start_time.tv_nsec) 1000000)

/-- The function `get_clock`, given the natural clock value it reads. -/
def get_clock (nd : NodeData) (natural : Nat) : Nat :=
  let natural_time : Int := toInt64 natural
  if nd.sync_level = CLOCK_UNSYNCHRONIZED then toUInt64 natural_time
  else if natural_time ≥ nd.offset_ms then toUInt64 (wrap64 (natural_time - nd.offset_ms))
  else 0

/-- The function `set_event_in_x_seconds`: the reading with `x` more seconds. -/
def set_event_in_x_seconds (cur : Timespec) (x : Nat) : Timespec :=
  { cur with tv_sec := cur.tv_sec + x }

/-- The function `check_order`: `ts_before < ts_after`. -/
def check_order (ts_before ts_after : Timespec) : Bool :=
  decide (ts_before.tv_sec < ts_after.tv_sec) ||
    (decide (ts_before.tv_sec = ts_after.tv_sec) && decide (ts_before.tv_nsec < ts_after.tv_nsec))

/-- The function `now_is_after`, given the reading it makes. -/
def now_is_after (ts1 cur : Timespec) : Bool := check_order ts1 cur

/-- The function `update_offset`: three signed 64-bit additions and
subtractions, left to right, then `/= 2` (C division, towards zero). -/
def update_offset (nd : NodeData) : NodeData :=
  let s := wrap64 (wrap64 (wrap64 (toInt64 nd.T2 - toInt64 nd.T1) + toInt64 nd.T3) - toInt64 nd.T4)
  { nd with offset_ms := Int.tdiv s 2 }

/-! ## Byte order (`messages.c`, little-endian host) -/

/-- The libc function `htonl` on a little-endian host: the four bytes of a
`uint32_t` in reverse order (the argument is converted to `uint32_t` first). -/
def htonl (x : Nat) : Nat :=
  let y := x % 2 ^ 32
  ((y &&& 0xFF) <<< 24) ||| (((y >>> 8) &&& 0xFF) <<< 16) |||
    (((y >>> 16) &&& 0xFF) <<< 8) ||| ((y >>> 24) &&& 0xFF)

/-- The libc function `ntohl`: the same byte reversal. -/
def ntohl (x : Nat) : Nat := htonl x

/-- The libc function `htons` on a little-endian host. -/
def htons (x : Nat) : Nat :=
  let y := x % 2 ^ 16
  ((y &&& 0xFF) <<< 8) ||| ((y >>> 8) &&& 0xFF)

/-- The libc function `ntohs`. -/
def ntohs (x : Nat) : Nat := htons x

/-- The definition of `htonll` taken on a little-endian host:
`((uint64_t)htonl((x) & 0xFFFFFFFF) << 32) | htonl((x) >> 32)`. -/
def htonll (x : Nat) : Nat :=
  ((htonl (x &&& 0xFFFFFFFF) <<< 32) % 2 ^ 64) ||| htonl (x >>> 32)

/-- The definition of `ntohll` taken on a little-endian host. -/
def ntohll (x : Nat) : Nat :=
  ((ntohl (x &&& 0xFFFFFFFF) <<< 32) % 2 ^ 64) ||| ntohl (x >>> 32)

/-- The bytes `memcpy` copies out of an `n`-byte unsigned object holding `v`
(least significant byte first). -/
def memcpy_out : Nat → Nat → List Nat
  | 0, _ => []
  | n + 1, v => (v % 256) :: memcpy_out n (v / 256)

/-- The value of the unsigned object `memcpy` fills from the given bytes
(least significant byte first). -/
def memcpy_in : List Nat → Nat
  | [] => 0
  | b :: bs => b + 256 * memcpy_in bs

/-- The function `create_simple_message`: the one-byte message. -/
def create_simple_message (message_type : Nat) : List Nat := [message_type]

/-- The function `create_sync_level_and_timestamp_message`: type, level, and the
eight bytes of `htonll(timestamp)` as `memcpy` lays them out. -/
def create_sync_level_and_timestamp_message (message_type sync_level timestamp : Nat) :
    List Nat :=
  message_type :: sync_level :: memcpy_out TIMESTAMP_SIZE (htonll timestamp)

def create_hello_message : List Nat := create_simple_message HELLO
def create_connect_message : List Nat := create_simple_message CONNECT
def create_ack_connect_message : List Nat := create_simple_message ACK_CONNECT
def create_delay_request_message : List Nat := create_simple_message DELAY_REQUEST

def create_sync_start_message (sync_level timestamp : Nat) : List Nat :=
  create_sync_level_and_timestamp_message SYNC_START sync_level timestamp

def create_delay_response_message (sync_level timestamp : Nat) : List Nat :=
  create_sync_level_and_timestamp_message DELAY_RESPONSE sync_level timestamp

def create_time_message (sync_level timestamp : Nat) : List Nat :=
  create_sync_level_and_timestamp_message TIME sync_level timestamp

/-- The level byte the handlers read: `msg_buf[MESSAGE_SIZE]`. -/
def msg_sync_level (msg : List Nat) : Nat := msg.getD MESSAGE_SIZE 0

/-- The timestamp the handlers read: `memcpy` of the eight bytes after the level
into a `uint64_t`, then `ntohll`. -/
def msg_timestamp (msg : List Nat) : Nat :=
  ntohll (memcpy_in ((msg.drop (MESSAGE_SIZE + SYNCHRONIZED_SIZE)).take TIMESTAMP_SIZE))

/-! ## `networking.c` -/

/-- The function `equal_addr`. -/
def equal_addr (a b : SockAddr) : Bool :=
  decide (a.s_addr = b.s_addr) && decide (a.sin_port = b.sin_port)

/-- The function `address_in_array`. -/
def address_in_array (address : SockAddr) : List SockAddr → Bool
  | [] => false
  | a :: arr => if equal_addr address a then true else address_in_array address arr

/-! ## `peers.cpp`: a peer list is a `std::set` ordered by `SockaddrInLess`,
modelled by the strictly increasing list of its elements -/

/-- The comparator `SockaddrInLess`. -/
def SockaddrInLess (a b : SockAddr) : Bool :=
  if a.s_addr ≠ b.s_addr then decide (a.s_addr < b.s_addr) else decide (a.sin_port < b.sin_port)

/-- The function `is_src_addr`. -/
def is_src_addr (addr : SockAddr) : List SockAddr → Bool
  | [] => false
  | a :: arr =>
    if addr.s_addr = a.s_addr ∧ addr.sin_port = a.sin_port then true else is_src_addr addr arr

/-- The lookup `std::set::find(p) != end()`: an element equivalent to `p` under
the comparator is present. -/
def peer_list_contains : List SockAddr → SockAddr → Bool
  | [], _ => false
  | q :: l, p =>
    if !SockaddrInLess p q && !SockaddrInLess q p then true else peer_list_contains l p

/-- The insertion `std::set::insert(p)`: `p` goes before the first element not
less than it, unless that element is equivalent to `p`. -/
def set_insert : List SockAddr → SockAddr → List SockAddr
  | [], p => [p]
  | q :: l, p =>
    if SockaddrInLess q p then q :: set_insert l p
    else if SockaddrInLess p q then p :: q :: l
    else q :: l

/-- The removal `std::set::erase(p)`. -/
def set_erase : List SockAddr → SockAddr → List SockAddr
  | [], _ => []
  | q :: l, p =>
    if !SockaddrInLess p q && !SockaddrInLess q p then l else q :: set_erase l p

/-- The function `peer_list_count`. -/
def peer_list_count (l : List SockAddr) : Nat := l.length % 2 ^ 16

/-- The function `peer_list_count_excl` with its `uint16_t` counter. -/
def peer_list_count_excl (l : List SockAddr) (src_addr_arr : List SockAddr)
    (dest_addr : SockAddr) : Nat :=
  l.foldl (fun count peer_addr =>
    if is_src_addr peer_addr src_addr_arr then count
    else if peer_addr.s_addr = dest_addr.s_addr ∧ peer_addr.sin_port = dest_addr.sin_port then count
    else (count + 1) % 2 ^ 16) 0

/-- The function `peer_list_add`: the return code and the list afterwards. -/
def peer_list_add (l : List SockAddr) (peer : SockAddr) : Int × List SockAddr :=
  if peer_list_contains l peer then (0, l)
  else if l.length < MAX_CAPACITY then (1, set_insert l peer)
  else (-1, l)

/-- The function `peer_list_remove`. -/
def peer_list_remove (l : List SockAddr) (peer : SockAddr) : List SockAddr := set_erase l peer

/-- The function `peer_list_full`. -/
def peer_list_full (l : List SockAddr) : Bool := decide (l.length ≥ MAX_CAPACITY)

/-- The loop of `peer_list_write_to_buf_excl`: the bytes written and the space
left, or `none` when a record does not fit. -/
def write_records : List SockAddr → Nat → List SockAddr → SockAddr → Option (List Nat × Nat)
  | [], size, _, _ => some ([], size)
  | peer_addr :: l, size, src_addr_arr, dest_addr =>
    if is_src_addr peer_addr src_addr_arr then write_records l size src_addr_arr dest_addr
    else if peer_addr.s_addr = dest_addr.s_addr ∧ peer_addr.sin_port = dest_addr.sin_port then
      write_records l size src_addr_arr dest_addr
    else if size < 7 then none
    else
      match write_records l (size - 7) src_addr_arr dest_addr with
      | none => none
      | some (bytes, left) =>
        some (4 :: (memcpy_out 4 peer_addr.s_addr ++ memcpy_out 2 peer_addr.sin_port) ++ bytes,
          left)

/-- The function `peer_list_write_to_buf_excl`: the bytes written when exactly
`size` bytes were written, `none` when it returns false. -/
def peer_list_write_to_buf_excl (l : List SockAddr) (size : Nat) (src_addr_arr : List SockAddr)
    (dest_addr : SockAddr) : Option (List Nat) :=
  match write_records l size src_addr_arr dest_addr with
  | none => none
  | some (bytes, left) => if left > 0 then none else some bytes

/-- The function `peer_list_cpy`: the destination list afterwards. -/
def peer_list_cpy (src_list : List SockAddr) : List SockAddr := src_list

/-! ## `messages.c`: the handlers -/

/-- The clock as a handler sees it: `start_time` of `clock.c` and the readings
`rd i` of its `clock_gettime` call sites. -/
structure Clock where
  start_time : Timespec
  rd : Nat → Timespec

/-- The natural clock value a handler obtains at call site `i`. -/
def Clock.natural (clk : Clock) (i : Nat) : Nat := get_natural_clock clk.start_time (clk.rd i)

/-- The function `create_hello_reply_message`: the message bytes, or `none`
where the C function returns 0. -/
def create_hello_reply_message (peer_list src_addr_arr : List SockAddr) (dest_addr : SockAddr) :
    Option (List Nat) :=
  let count := peer_list_count_excl peer_list src_addr_arr dest_addr
  let network_count := htons count
  let peers_list_size := count * (PEER_ADDRESS_LENGTH_SIZE + PEER_ADDRESS_SIZE + PEER_PORT_SIZE)
  if MESSAGE_SIZE + COUNT_SIZE + peers_list_size ≥ BUFFER_SIZE then none
  else
    match peer_list_write_to_buf_excl peer_list peers_list_size src_addr_arr dest_addr with
    | none => none
    | some recs => some (HELLO_REPLY :: (memcpy_out COUNT_SIZE network_count ++ recs))

/-- The function `handle_hello`. -/
def handle_hello (nd : NodeData) (msg : List Nat) (sender_addr : SockAddr) :
    NodeData × List Datagram :=
  if msg.length ≠ MESSAGE_SIZE then (nd, [])
  else if address_in_array sender_addr nd.my_addresses then (nd, [])
  else
    match create_hello_reply_message nd.peer_list nd.my_addresses sender_addr with
    | none => (nd, [])
    | some bytes =>
      let r := peer_list_add nd.peer_list sender_addr
      if r.1 ≥ 0 then ({ nd with peer_list := r.2 }, [⟨sender_addr, bytes⟩])
      else ({ nd with peer_list := r.2 }, [])

/-- The `count` field of a HELLO_REPLY: `memcpy` of two bytes, then `ntohs`. -/
def msg_count (msg : List Nat) : Nat :=
  ntohs (memcpy_in ((msg.drop MESSAGE_SIZE).take COUNT_SIZE))

/-- The records both loops over a HELLO_REPLY read: the address-length byte and
the address `memcpy` builds from the next six bytes, `count` times. -/
def read_records : Nat → List Nat → List (Nat × SockAddr)
  | 0, _ => []
  | n + 1, buf =>
    (buf.getD 0 0, ⟨memcpy_in ((buf.drop 1).take PEER_ADDRESS_SIZE),
        memcpy_in ((buf.drop (1 + PEER_ADDRESS_SIZE)).take PEER_PORT_SIZE)⟩) ::
      read_records n (buf.drop (1 + PEER_ADDRESS_SIZE + PEER_PORT_SIZE))

/-- The record loop of `check_hello_reply`. -/
def check_records (nd : NodeData) (sender_addr : SockAddr) : List (Nat × SockAddr) → Bool
  | [] => true
  | (address_length, peer_address) :: rest =>
    if address_length ≠ PEER_ADDRESS_SIZE then false
    else if peer_address.sin_port = 0 then false
    else if equal_addr peer_address sender_addr ||
        address_in_array peer_address nd.my_addresses then false
    else check_records nd sender_addr rest

/-- The function `check_hello_reply`. -/
def check_hello_reply (nd : NodeData) (msg : List Nat) (sender_addr : SockAddr) : Bool :=
  if !nd.waiting_for_hello_reply || !equal_addr sender_addr nd.known_peer then false
  else if address_in_array sender_addr nd.my_addresses then false
  else if msg.length < MESSAGE_SIZE + COUNT_SIZE then false
  else
    let count := msg_count msg
    if msg.length ≠ MESSAGE_SIZE + COUNT_SIZE +
        count * (PEER_ADDRESS_LENGTH_SIZE + PEER_ADDRESS_SIZE + PEER_PORT_SIZE) then false
    else check_records nd sender_addr (read_records count (msg.drop (MESSAGE_SIZE + COUNT_SIZE)))

/-- The record loop of `handle_hello_reply`: every listed peer is offered to
`waiting_for_ack_connect` and sent a CONNECT. -/
def connect_records : List SockAddr → List (Nat × SockAddr) → List SockAddr × List Datagram
  | waiting, [] => (waiting, [])
  | waiting, (_, peer_address) :: rest =>
    let r := connect_records (peer_list_add waiting peer_address).2 rest
    (r.1, ⟨peer_address, create_connect_message⟩ :: r.2)

/-- The function `handle_hello_reply`. -/
def handle_hello_reply (nd : NodeData) (msg : List Nat) (sender_addr : SockAddr) :
    NodeData × List Datagram :=
  if !check_hello_reply nd msg sender_addr then (nd, [])
  else
    let r := connect_records nd.waiting_for_ack_connect
      (read_records (msg_count msg) (msg.drop (MESSAGE_SIZE + COUNT_SIZE)))
    ({ nd with
        waiting_for_hello_reply := false
        waiting_for_ack_connect := r.1
        peer_list := (peer_list_add nd.peer_list sender_addr).2 }, r.2)

/-- The function `handle_connect`. -/
def handle_connect (nd : NodeData) (msg : List Nat) (sender_addr : SockAddr) :
    NodeData × List Datagram :=
  if msg.length ≠ MESSAGE_SIZE then (nd, [])
  else if peer_list_full nd.peer_list && !peer_list_contains nd.peer_list sender_addr then (nd, [])
  else if address_in_array sender_addr nd.my_addresses then (nd, [])
  else
    ({ nd with peer_list := (peer_list_add nd.peer_list sender_addr).2 },
      [⟨sender_addr, create_ack_connect_message⟩])

/-- The function `handle_ack_connect`. -/
def handle_ack_connect (nd : NodeData) (msg : List Nat) (sender_addr : SockAddr) :
    NodeData × List Datagram :=
  if msg.length ≠ MESSAGE_SIZE then (nd, [])
  else if !peer_list_contains nd.waiting_for_ack_connect sender_addr then (nd, [])
  else if peer_list_full nd.peer_list && !peer_list_contains nd.peer_list sender_addr then (nd, [])
  else if address_in_array sender_addr nd.my_addresses then (nd, [])
  else
    ({ nd with
        waiting_for_ack_connect := peer_list_remove nd.waiting_for_ack_connect sender_addr
        peer_list := (peer_list_add nd.peer_list sender_addr).2 }, [])

/-- The function `check_sync_start`. -/
def check_sync_start (nd : NodeData) (msg : List Nat) (sender_addr : SockAddr) : Bool :=
  if msg.length ≠ MESSAGE_SIZE + SYNCHRONIZED_SIZE + TIMESTAMP_SIZE then false
  else
    let sender_sync_level := msg_sync_level msg
    let sender_is_known := peer_list_contains nd.peer_list sender_addr
    if sender_sync_level ≥ CLOCK_UNSYNCHRONIZED - 1 || !sender_is_known then false
    else true

/-- The function `handle_sync_start`. Clock call sites: 0 the receive time,
1 the `next_sync_check` deadline, 2 the send time `T3`, 3 the
`waiting_for_delay_response` deadline. -/
def handle_sync_start (clk : Clock) (nd : NodeData) (msg : List Nat) (sender_addr : SockAddr) :
    NodeData × List Datagram :=
  let receive_time := clk.natural 0
  if !check_sync_start nd msg sender_addr then (nd, [])
  else if nd.synchronizing then (nd, [])
  else
    let sender_sync_level := msg_sync_level msg
    let sender_timestamp := msg_timestamp msg
    let synchronized_to_sender :=
      decide (nd.sync_level < CLOCK_UNSYNCHRONIZED) && equal_addr sender_addr nd.synchronized_peer
    let proceed (nd1 : NodeData) : NodeData × List Datagram :=
      ({ nd1 with
          synchronizing := true
          synchronizing_level := sender_sync_level
          T1 := sender_timestamp
          T2 := receive_time
          peer_to_sync := sender_addr
          T3 := clk.natural 2
          waiting_for_delay_response := set_event_in_x_seconds (clk.rd 3) DELAY_RESPONSE_TIME },
        [⟨sender_addr, create_delay_request_message⟩])
    if synchronized_to_sender then
      if sender_sync_level ≥ nd.sync_level then
        ({ nd with sync_level := CLOCK_UNSYNCHRONIZED, offset_ms := 0 }, [])
      else
        proceed { nd with
          next_sync_check := set_event_in_x_seconds (clk.rd 1) SYNCHRONIZATION_CHECK_DELAY }
    else if sender_sync_level + 1 ≥ nd.sync_level then (nd, [])
    else proceed nd

/-- The function `handle_delay_request`. Clock call sites: 0 the reading of
`get_clock`, 1 the receive time. -/
def handle_delay_request (clk : Clock) (nd : NodeData) (msg : List Nat) (sender_addr : SockAddr) :
    NodeData × List Datagram :=
  let synchronized_receive_time := get_clock nd (clk.natural 0)
  let receive_time := clk.natural 1
  if msg.length ≠ MESSAGE_SIZE then (nd, [])
  else if !peer_list_contains nd.asked_to_synchronize sender_addr ||
      decide (receive_time > (nd.last_sync_start + DELAY_RESPONSE_TIME) % 2 ^ 64) then (nd, [])
  else
    (nd, [⟨sender_addr, create_delay_response_message nd.sync_level synchronized_receive_time⟩])

/-- The function `handle_delay_response`. Clock call sites: 0 the
`next_sync_start` deadline, 1 the `next_sync_check` deadline. -/
def handle_delay_response (clk : Clock) (nd : NodeData) (msg : List Nat)
    (sender_addr : SockAddr) : NodeData × List Datagram :=
  if msg.length ≠ MESSAGE_SIZE + SYNCHRONIZED_SIZE + TIMESTAMP_SIZE then (nd, [])
  else if !nd.synchronizing || !equal_addr sender_addr nd.peer_to_sync then (nd, [])
  else
    let sender_sync_level := msg_sync_level msg
    let sender_timestamp := msg_timestamp msg
    if sender_sync_level ≠ nd.synchronizing_level ∨ sender_timestamp < nd.T1 then (nd, [])
    else
      let nd1 := { nd with T4 := sender_timestamp }
      let nd2 :=
        if nd1.sync_level ≥ CLOCK_UNSYNCHRONIZED - 1 ∧
            sender_sync_level + 1 < CLOCK_UNSYNCHRONIZED - 1 then
          { nd1 with next_sync_start := set_event_in_x_seconds (clk.rd 0) 0 }
        else nd1
      let nd3 := update_offset { nd2 with sync_level := (sender_sync_level + 1) % 2 ^ 8 }
      ({ nd3 with
          synchronized_peer := sender_addr
          next_sync_check := set_event_in_x_seconds (clk.rd 1) SYNCHRONIZATION_CHECK_DELAY
          synchronizing := false }, [])

/-- The function `handle_leader`. Clock call site 0: the `next_sync_start`
deadline. -/
def handle_leader (clk : Clock) (nd : NodeData) (msg : List Nat) (_sender_addr : SockAddr) :
    NodeData × List Datagram :=
  if msg.length ≠ MESSAGE_SIZE + SYNCHRONIZED_SIZE then (nd, [])
  else
    let msg_sync := msg_sync_level msg
    if msg_sync = CLOCK_LEADER then
      ({ nd with
          sync_level := CLOCK_LEADER
          next_sync_start := set_event_in_x_seconds (clk.rd 0) LEADER_SYNCHRONIZATION_DELAY }, [])
    else if msg_sync = CLOCK_UNSYNCHRONIZED then
      if nd.sync_level ≠ CLOCK_LEADER then (nd, [])
      else ({ nd with sync_level := CLOCK_UNSYNCHRONIZED }, [])
    else (nd, [])

/-- The function `handle_get_time`. Clock call site 0: the reading of
`get_clock`. -/
def handle_get_time (clk : Clock) (nd : NodeData) (msg : List Nat) (sender_addr : SockAddr) :
    NodeData × List Datagram :=
  if msg.length ≠ MESSAGE_SIZE then (nd, [])
  else (nd, [⟨sender_addr, create_time_message nd.sync_level (get_clock nd (clk.natural 0))⟩])

/-- The function `handle_message`: dispatch on `msg_buf[0]` (the main loop calls
it for datagrams of at least one byte). -/
def handle_message (clk : Clock) (nd : NodeData) (msg : List Nat) (sender_addr : SockAddr) :
    NodeData × List Datagram :=
  let message_type := msg.getD 0 0
  if message_type = HELLO then handle_hello nd msg sender_addr
  else if message_type = HELLO_REPLY then handle_hello_reply nd msg sender_addr
  else if message_type = CONNECT then handle_connect nd msg sender_addr
  else if message_type = ACK_CONNECT then handle_ack_connect nd msg sender_addr
  else if message_type = SYNC_START then handle_sync_start clk nd msg sender_addr
  else if message_type = DELAY_REQUEST then handle_delay_request clk nd msg sender_addr
  else if message_type = DELAY_RESPONSE then handle_delay_response clk nd msg sender_addr
  else if message_type = LEADER then handle_leader clk nd msg sender_addr
  else if message_type = GET_TIME then handle_get_time clk nd msg sender_addr
  else (nd, [])

/-- The send loop of `check_and_handle_timers`: one SYNC_START per peer, each
with its own reading of `get_clock` (call sites 4, 5, ...). -/
def send_sync_starts (clk : Clock) (nd : NodeData) : Nat → List SockAddr → List Datagram
  | _, [] => []
  | i, peer_addr :: rest =>
    ⟨peer_addr, create_sync_start_message nd.sync_level (get_clock nd (clk.natural (4 + i)))⟩ ::
      send_sync_starts clk nd (i + 1) rest

/-- The function `check_and_handle_timers`. Clock call sites: 0 the
`next_sync_check` test, 1 the `next_sync_start` test, 2 the `last_sync_start`
stamp, 3 the new `next_sync_start` deadline, 4 and up the send loop. -/
def check_and_handle_timers (clk : Clock) (nd : NodeData) : NodeData × List Datagram :=
  let nd1 :=
    if CLOCK_LEADER < nd.sync_level ∧ nd.sync_level < CLOCK_UNSYNCHRONIZED then
      if now_is_after nd.next_sync_check (clk.rd 0) then
        { nd with sync_level := CLOCK_UNSYNCHRONIZED, offset_ms := 0 }
      else nd
    else nd
  if nd1.sync_level < CLOCK_UNSYNCHRONIZED - 1 then
    if now_is_after nd1.next_sync_start (clk.rd 1) then
      let out := send_sync_starts clk nd1 0 nd1.peer_list
      let nd2 :=
        if nd1.peer_list ≠ [] then { nd1 with asked_to_synchronize := peer_list_cpy nd1.peer_list }
        else nd1
      ({ nd2 with
          last_sync_start := clk.natural 2
          next_sync_start := set_event_in_x_seconds (clk.rd 3) SYNC_START_DELAY }, out)
    else (nd1, [])
  else (nd1, [])

/-! ## Predicates of the statements and concrete inputs -/

/-- The conditions under which `handle_delay_response` accepts a message. -/
def delay_response_accepted (nd : NodeData) (msg : List Nat) (sender_addr : SockAddr) : Prop :=
  msg.length = 10 ∧ nd.synchronizing = true ∧ equal_addr sender_addr nd.peer_to_sync = true ∧
    msg_sync_level msg = nd.synchronizing_level ∧ nd.T1 ≤ msg_timestamp msg

instance (nd : NodeData) (msg : List Nat) (sender_addr : SockAddr) :
    Decidable (delay_response_accepted nd msg sender_addr) := by
  unfold delay_response_accepted; infer_instance

/-- The eight bytes of a 64-bit value, most significant first. -/
def be64 (ts : Nat) : List Nat :=
  [ts / 72057594037927936 % 256, ts / 281474976710656 % 256, ts / 1099511627776 % 256,
    ts / 4294967296 % 256, ts / 16777216 % 256, ts / 65536 % 256, ts / 256 % 256, ts % 256]

/-- A node waiting for the DELAY_RESPONSE of boundary scenario 2. -/
def c1_node : NodeData :=
  { my_addresses := [], known_peer := ⟨0, 0⟩, peer_list := [⟨16777343, 20480⟩],
    waiting_for_hello_reply := false, waiting_for_ack_connect := [], sync_level := 255,
    offset_ms := 0, synchronized_peer := ⟨0, 0⟩, next_sync_start := ⟨0, 0⟩,
    next_sync_check := ⟨0, 0⟩, last_sync_start := 0, asked_to_synchronize := [],
    synchronizing := true, synchronizing_level := 0, peer_to_sync := ⟨16777343, 20480⟩,
    waiting_for_delay_response := ⟨6, 0⟩, T1 := 1000, T2 := 1005, T3 := 1006, T4 := 0 }

/-- A clock started at 0 whose every reading is 2 s. -/
def c1_clock : Clock := ⟨⟨0, 0⟩, fun _ => ⟨2, 0⟩⟩

/-- The state and output with which `handle_sync_start` begins a handshake from
the state `nd1`. -/
def handshake_begun (clk : Clock) (nd1 : NodeData) (msg : List Nat) (sender_addr : SockAddr) :
    NodeData × List Datagram :=
  ({ nd1 with
      synchronizing := true
      synchronizing_level := msg_sync_level msg
      T1 := msg_timestamp msg
      T2 := clk.natural 0
      peer_to_sync := sender_addr
      T3 := clk.natural 2
      waiting_for_delay_response := set_event_in_x_seconds (clk.rd 3) DELAY_RESPONSE_TIME },
    [⟨sender_addr, [DELAY_REQUEST]⟩])

/-- A SYNC_START that passes `check_sync_start`: 10 bytes, from a member of
`peer_list`, advertising a level below 254. -/
def sync_start_well_formed (nd : NodeData) (msg : List Nat) (sender_addr : SockAddr) : Prop :=
  msg.length = 10 ∧ peer_list_contains nd.peer_list sender_addr = true ∧ msg_sync_level msg < 254

/-- The test `synchronized_to_sender` of `handle_sync_start`. -/
def synchronized_to (nd : NodeData) (sender_addr : SockAddr) : Prop :=
  nd.sync_level < 255 ∧ equal_addr sender_addr nd.synchronized_peer = true

instance (nd : NodeData) (msg : List Nat) (sender_addr : SockAddr) :
    Decidable (sync_start_well_formed nd msg sender_addr) := by
  unfold sync_start_well_formed; infer_instance

instance (nd : NodeData) (sender_addr : SockAddr) : Decidable (synchronized_to nd sender_addr) := by
  unfold synchronized_to; infer_instance

/-- An unsynchronized node that knows the peer `⟨16777343, 20480⟩`. -/
def c9_node : NodeData :=
  { my_addresses := [⟨16777343, 36895⟩], known_peer := ⟨16777343, 20480⟩,
    peer_list := [⟨16777343, 20480⟩],
    waiting_for_hello_reply := false, waiting_for_ack_connect := [], sync_level := 255,
    offset_ms := 0, synchronized_peer := ⟨0, 0⟩, next_sync_start := ⟨0, 0⟩,
    next_sync_check := ⟨0, 0⟩, last_sync_start := 0, asked_to_synchronize := [],
    synchronizing := false, synchronizing_level := 0, peer_to_sync := ⟨0, 0⟩,
    waiting_for_delay_response := ⟨0, 0⟩, T1 := 0, T2 := 0, T3 := 0, T4 := 0 }

/-- A clock started at 0 whose every reading is 1.005 s. -/
def c9_clock : Clock := ⟨⟨0, 0⟩, fun _ => ⟨1, 5000000⟩⟩

/-- A node at level 253, synchronized to `⟨16777343, 20736⟩`, that also knows
the peer `⟨16777343, 20480⟩`. -/
def c10_node : NodeData :=
  { my_addresses := [⟨16777343, 36895⟩], known_peer := ⟨16777343, 20480⟩,
    peer_list := [⟨16777343, 20480⟩, ⟨16777343, 20736⟩],
    waiting_for_hello_reply := false, waiting_for_ack_connect := [], sync_level := 253,
    offset_ms := 7, synchronized_peer := ⟨16777343, 20736⟩, next_sync_start := ⟨5, 0⟩,
    next_sync_check := ⟨20, 0⟩, last_sync_start := 0, asked_to_synchronize := [],
    synchronizing := false, synchronizing_level := 0, peer_to_sync := ⟨0, 0⟩,
    waiting_for_delay_response := ⟨0, 0⟩, T1 := 0, T2 := 0, T3 := 0, T4 := 0 }

/-- A node that sent SYNC_START to `⟨16777343, 20480⟩` at natural time 1000. -/
def c6_node : NodeData :=
  { my_addresses := [⟨16777343, 36895⟩], known_peer := ⟨16777343, 20480⟩,
    peer_list := [⟨16777343, 20480⟩],
    waiting_for_hello_reply := false, waiting_for_ack_connect := [], sync_level := 0,
    offset_ms := 0, synchronized_peer := ⟨0, 0⟩, next_sync_start := ⟨6, 0⟩,
    next_sync_check := ⟨0, 0⟩, last_sync_start := 1000,
    asked_to_synchronize := [⟨16777343, 20480⟩],
    synchronizing := false, synchronizing_level := 0, peer_to_sync := ⟨0, 0⟩,
    waiting_for_delay_response := ⟨0, 0⟩, T1 := 0, T2 := 0, T3 := 0, T4 := 0 }

/-- A clock started at 0 whose every reading is 1.006 s. -/
def c6_clock : Clock := ⟨⟨0, 0⟩, fun _ => ⟨1, 6000000⟩⟩

/-! ## The event loop of `main.c` -/

/-- The state `initialize_node_data` produces (fields it does not assign are
unconstrained). -/
def initial (nd : NodeData) : Prop :=
  nd.sync_level = CLOCK_UNSYNCHRONIZED ∧ nd.offset_ms = 0 ∧ nd.last_sync_start = 0 ∧
    nd.synchronizing = false ∧ nd.peer_list = [] ∧ nd.waiting_for_ack_connect = [] ∧
    nd.asked_to_synchronize = []

instance (nd : NodeData) : Decidable (initial nd) := by
  unfold initial; infer_instance

/-- What one iteration of the main loop can do to the node: run the timers, or
hand a received datagram to `handle_message`. -/
inductive Event where
  | timers (clk : Clock)
  | message (clk : Clock) (msg : List Nat) (sender_addr : SockAddr)

/-- A datagram `recvfrom` can deliver: 1 to 65536 bytes, from an IPv4 address and
port. -/
def Event.well_formed : Event → Prop
  | .timers _ => True
  | .message _ msg sender_addr =>
    0 < msg.length ∧ msg.length ≤ BUFFER_SIZE ∧ (∀ b ∈ msg, b < 256) ∧
      sender_addr.s_addr < 2 ^ 32 ∧ sender_addr.sin_port < 2 ^ 16

/-- The effect of one event on the node. -/
def step (nd : NodeData) : Event → NodeData × List Datagram
  | .timers clk => check_and_handle_timers clk nd
  | .message clk msg sender_addr => handle_message clk nd msg sender_addr

/-- The node state after a list of events. -/
def run (nd : NodeData) : List Event → NodeData
  | [] => nd
  | e :: es => run (step nd e).1 es

/-- The states the node can be in: an initial state followed by any number of
timer steps and received datagrams. -/
inductive Reachable : NodeData → Prop where
  | init (nd : NodeData) : initial nd → Reachable nd
  | step (nd : NodeData) (e : Event) : Reachable nd → e.well_formed → Reachable (step nd e).1

/-- A freshly initialized node. -/
def c3_node : NodeData :=
  { my_addresses := [⟨16777343, 36895⟩], known_peer := ⟨0, 0⟩, peer_list := [],
    waiting_for_hello_reply := false, waiting_for_ack_connect := [], sync_level := 255,
    offset_ms := 0, synchronized_peer := ⟨0, 0⟩, next_sync_start := ⟨0, 0⟩,
    next_sync_check := ⟨0, 0⟩, last_sync_start := 0, asked_to_synchronize := [],
    synchronizing := false, synchronizing_level := 0, peer_to_sync := ⟨0, 0⟩,
    waiting_for_delay_response := ⟨0, 0⟩, T1 := 0, T2 := 0, T3 := 0, T4 := 0 }

/-- Three loop iterations: the peer `⟨16777343, 20480⟩` connects, sends a
SYNC_START advertising level 253, and answers the DELAY_REQUEST. -/
def c3_events : List Event :=
  [.timers c9_clock,
    .message c9_clock [CONNECT] ⟨16777343, 20480⟩,
    .timers c9_clock,
    .message c9_clock (create_sync_start_message 253 1000) ⟨16777343, 20480⟩,
    .timers c6_clock,
    .message c6_clock (create_delay_response_message 253 1011) ⟨16777343, 20480⟩]

/-- The fields of the synchronization state machine that the peer-discovery
handlers never write. -/
def sync_fields (nd : NodeData) : Nat × Bool × Nat :=
  (nd.sync_level, nd.synchronizing, nd.synchronizing_level)

/-- The invariant of the synchronization levels: the level fits a byte, and a
pending handshake is with a peer that advertised a level of at most 253. -/
def level_inv (nd : NodeData) : Prop :=
  nd.sync_level ≤ 255 ∧ (nd.synchronizing = true → nd.synchronizing_level ≤ 253)

/-- A node at level 1, synchronized to its only peer `⟨16777343, 20480⟩`, whose
`next_sync_check` and `next_sync_start` deadlines are both at 1 s. -/
def c13_node : NodeData :=
  { my_addresses := [⟨16777343, 36895⟩], known_peer := ⟨16777343, 20480⟩,
    peer_list := [⟨16777343, 20480⟩],
    waiting_for_hello_reply := false, waiting_for_ack_connect := [], sync_level := 1,
    offset_ms := 7, synchronized_peer := ⟨16777343, 20480⟩, next_sync_start := ⟨1, 0⟩,
    next_sync_check := ⟨1, 0⟩, last_sync_start := 0, asked_to_synchronize := [],
    synchronizing := false, synchronizing_level := 0, peer_to_sync := ⟨0, 0⟩,
    waiting_for_delay_response := ⟨0, 0⟩, T1 := 0, T2 := 0, T3 := 0, T4 := 0 }

/-- A clock started at 0 whose every reading is 7 s. -/
def c13_clock : Clock := ⟨⟨0, 0⟩, fun _ => ⟨7, 0⟩⟩

/-- A hand-over of leadership: the peer `⟨16777343, 20480⟩` connects and
synchronizes the node to itself (SYNC_START advertising level 0, DELAY_RESPONSE),
then the node is made leader by a LEADER directive with payload 0. -/
def c14_events : List Event :=
  [.timers c9_clock,
    .message c9_clock [CONNECT] ⟨16777343, 20480⟩,
    .message c9_clock (create_sync_start_message 0 1000) ⟨16777343, 20480⟩,
    .message c6_clock (create_delay_response_message 0 1011) ⟨16777343, 20480⟩,
    .timers c6_clock,
    .message c6_clock [LEADER, 0] ⟨16777343, 256⟩]

/-- The former upstream peer, now a follower at level 1, sends its periodic
SYNC_START to the new leader. -/
def c14_sync_start : Event :=
  .message c13_clock (create_sync_start_message 1 7000) ⟨16777343, 20480⟩

/-- The LEADER directive with payload 0 arrives while a handshake with the peer
`⟨16777343, 20480⟩` is pending. -/
def c14_events_pending : List Event :=
  [.timers c9_clock,
    .message c9_clock [CONNECT] ⟨16777343, 20480⟩,
    .message c9_clock (create_sync_start_message 0 1000) ⟨16777343, 20480⟩,
    .message c9_clock [LEADER, 0] ⟨16777343, 256⟩]

/-- The DELAY_RESPONSE that completes the pending handshake. -/
def c14_delay_response : Event :=
  .message c6_clock (create_delay_response_message 0 1011) ⟨16777343, 20480⟩

/-- The elements of a `std::set` of addresses as the iteration yields them:
strictly increasing under `SockaddrInLess`. -/
def set_sorted (l : List SockAddr) : Prop := l.Pairwise (fun a b => SockaddrInLess a b = true)

/-- The peer lists that `peer_list_create`, `peer_list_add`, `peer_list_remove`
and `peer_list_cpy` produce. -/
inductive PeerList : List SockAddr → Prop where
  | create : PeerList []
  | add (l : List SockAddr) (peer : SockAddr) : PeerList l → PeerList (peer_list_add l peer).2
  | remove (l : List SockAddr) (peer : SockAddr) : PeerList l → PeerList (peer_list_remove l peer)
  | cpy (l : List SockAddr) : PeerList l → PeerList (peer_list_cpy l)

/-- The invariant of the peer sets of a node: `peer_list` and
`waiting_for_ack_connect` are sets of at most 65535 addresses, none of them an
own address of the node, and `waiting_for_ack_connect` is empty while the node
waits for its HELLO_REPLY. -/
def peers_inv (nd : NodeData) : Prop :=
  set_sorted nd.peer_list ∧ nd.peer_list.length ≤ MAX_CAPACITY ∧
    set_sorted nd.waiting_for_ack_connect ∧ nd.waiting_for_ack_connect.length ≤ MAX_CAPACITY ∧
    (∀ p ∈ nd.peer_list, address_in_array p nd.my_addresses = false) ∧
    (∀ p ∈ nd.waiting_for_ack_connect, address_in_array p nd.my_addresses = false) ∧
    (nd.waiting_for_hello_reply = true → nd.waiting_for_ack_connect = [])

instance (l : List SockAddr) : Decidable (set_sorted l) := by
  unfold set_sorted; infer_instance

instance (nd : NodeData) : Decidable (peers_inv nd) := by
  unfold peers_inv; infer_instance

/-- A node that sent CONNECT to `⟨16777343, 20480⟩` and waits for its
ACK_CONNECT. -/
def c26_node : NodeData := { c3_node with waiting_for_ack_connect := [⟨16777343, 20480⟩] }

/-- The members of a peer list that a HELLO_REPLY to `dest_addr` lists: those
that are neither an own address nor the destination, in the order of the set. -/
def listed_peers (l src_addr_arr : List SockAddr) (dest_addr : SockAddr) : List SockAddr :=
  l.filter (fun p => !is_src_addr p src_addr_arr &&
    !decide (p.s_addr = dest_addr.s_addr ∧ p.sin_port = dest_addr.sin_port))

/-- The records of a HELLO_REPLY for a list of peers: for each the byte 4, the
four bytes of `sin_addr.s_addr` and the two bytes of `sin_port` as they lie in
memory (network byte order). -/
def peer_records : List SockAddr → List Nat
  | [] => []
  | p :: l => 4 :: (memcpy_out 4 p.s_addr ++ memcpy_out 2 p.sin_port) ++ peer_records l

/-- A node that knows the peers `⟨16777343, 20480⟩` and `⟨16777343, 20736⟩`. -/
def c23_node : NodeData :=
  { c3_node with peer_list := [⟨16777343, 20480⟩, ⟨16777343, 20736⟩] }

/-- The conditions under which `check_hello_reply` accepts a message, with the
count field read as a big-endian 16-bit number. -/
def hello_reply_ok (nd : NodeData) (msg : List Nat) (sender_addr : SockAddr) : Prop :=
  nd.waiting_for_hello_reply = true ∧ equal_addr sender_addr nd.known_peer = true ∧
    address_in_array sender_addr nd.my_addresses = false ∧
    msg.length = 3 + 7 * (msg.getD 1 0 * 256 + msg.getD 2 0) ∧
    ∀ r ∈ read_records (msg.getD 1 0 * 256 + msg.getD 2 0) (msg.drop 3),
      r.1 = 4 ∧ r.2.sin_port ≠ 0 ∧ r.2 ≠ sender_addr ∧
        address_in_array r.2 nd.my_addresses = false

instance (nd : NodeData) (msg : List Nat) (sender_addr : SockAddr) :
    Decidable (hello_reply_ok nd msg sender_addr) := by
  unfold hello_reply_ok; infer_instance

/-- A node that sent HELLO to `⟨16777343, 20480⟩` and waits for the reply. -/
def c22_start : NodeData :=
  { c3_node with waiting_for_hello_reply := true, known_peer := ⟨16777343, 20480⟩ }

/-- A HELLO_REPLY listing the one peer `⟨16777343, 20736⟩`. -/
def c22_reply : List Nat := [2, 0, 1, 4, 127, 0, 0, 1, 0, 81]

/-- The fields of the peer bookkeeping that the synchronization handlers and
the timer step never write. -/
def peer_fields (nd : NodeData) : List SockAddr × List SockAddr × List SockAddr × Bool :=
  (nd.my_addresses, nd.peer_list, nd.waiting_for_ack_connect, nd.waiting_for_hello_reply)

/-- The address of the `i`-th of many peers. -/
def c22_peer (i : Nat) : SockAddr := ⟨i + 1, 256⟩

/-- The first `n` of these peers send CONNECT. -/
def c22_events (n : Nat) : List Event :=
  (List.range n).map (fun i => .message c9_clock [CONNECT] (c22_peer i))

/-- The addresses of 65535 peers, in increasing order. -/
@[irreducible]
def c22_peers : List SockAddr := (List.range 65535).map c22_peer

/-- The node `c22_start` after these 65535 peers have connected while it waits
for the HELLO_REPLY. -/
def c22_node : NodeData := { c22_start with peer_list := c22_peers }

/-- The layout `handle_message` expects of a datagram, by its type byte: 1 byte
for HELLO, CONNECT, ACK_CONNECT, DELAY_REQUEST and GET_TIME; 10 bytes for
SYNC_START and DELAY_RESPONSE; 2 bytes for LEADER; `3 + 7 * count` bytes, with
the big-endian count of bytes 1 and 2, for HELLO_REPLY. -/
def declared_layout (msg : List Nat) : Prop :=
  ((msg.getD 0 0 = HELLO ∨ msg.getD 0 0 = CONNECT ∨ msg.getD 0 0 = ACK_CONNECT ∨
      msg.getD 0 0 = DELAY_REQUEST ∨ msg.getD 0 0 = GET_TIME) ∧ msg.length = 1) ∨
    ((msg.getD 0 0 = SYNC_START ∨ msg.getD 0 0 = DELAY_RESPONSE) ∧ msg.length = 10) ∨
    (msg.getD 0 0 = LEADER ∧ msg.length = 2) ∨
    (msg.getD 0 0 = HELLO_REPLY ∧
      msg.length = 3 + 7 * (msg.getD 1 0 * 256 + msg.getD 2 0))

instance (msg : List Nat) : Decidable (declared_layout msg) := by
  unfold declared_layout; infer_instance

/-- The peer `⟨16777343, 20480⟩` connects and sends a SYNC_START advertising
level 0; the node answers with DELAY_REQUEST and waits for the DELAY_RESPONSE
until 6.005 s. -/
def c29_events : List Event :=
  [.timers c9_clock,
    .message c9_clock [CONNECT] ⟨16777343, 20480⟩,
    .message c9_clock (create_sync_start_message 0 1000) ⟨16777343, 20480⟩]

/-- A clock started at 0 whose every reading is 60 s. -/
def c29_clock : Clock := ⟨⟨0, 0⟩, fun _ => ⟨60, 0⟩⟩

/-- The fields the own-address checks compare against and the set of peers
asked to synchronize. -/
def own_fields (nd : NodeData) : List SockAddr × List SockAddr :=
  (nd.my_addresses, nd.asked_to_synchronize)

/-- No own address is a member of any of the three peer sets. -/
def no_own_address (nd : NodeData) : Prop :=
  ∀ p, address_in_array p nd.my_addresses = true →
    p ∉ nd.peer_list ∧ p ∉ nd.waiting_for_ack_connect ∧ p ∉ nd.asked_to_synchronize

/-- A node started with its own address `⟨16777343, 36895⟩` as the known peer:
it has sent HELLO to itself and waits for the reply. -/
def c38_node : NodeData :=
  { c3_node with known_peer := ⟨16777343, 36895⟩, waiting_for_hello_reply := true }

/-- A node whose `peer_list` holds the peers `⟨16777343, 20480⟩` and
`⟨16777343, 20736⟩` and the node's own address `⟨16777343, 36895⟩`. -/
def c23_own_node : NodeData :=
  { c3_node with
    peer_list := [⟨16777343, 20480⟩, ⟨16777343, 20736⟩, ⟨16777343, 36895⟩] }

end PTS

namespace APX

/-!
## The great approximator: conventions

* A `std::string` is a `List Char` (`Str`), one `Char` per byte.
* A `double` is modelled by the rational number it denotes and arithmetic on
  doubles is exact; IEEE rounding of sums and of `stod` is outside the model.
* An `int` is an `Int`; overflow of `int` arithmetic is outside the model.
-/

abbrev Str := List Char

/-! ## `constants.h` -/

def max_k : Nat := 10000
def max_n : Nat := 8
def max_m : Nat := 12341234
def min_coeff : ℚ := -100
def max_coeff : ℚ := 100
/-- The constant `eps = 3e-8`. -/
def eps : ℚ := 3 / 100000000
def min_put_value : ℚ := -5
def max_put_value : ℚ := 5
def max_fractional_digits : Nat := 7
def early_put_penalty : ℚ := 20
def bad_put_penalty : ℚ := 10
def bad_put_delay : Int := 1
def crlf : Str := ['\r', '\n']

/-- The limits `std::numeric_limits<int>::min()` and `max()`. -/
def INT_MIN : Int := -2147483648
def INT_MAX : Int := 2147483647

/-- The limits of `long long`. -/
def LLONG_MIN : Int := -9223372036854775808
def LLONG_MAX : Int := 9223372036854775807

/-- The least magnitude `strtod` reports as out of range: `DBL_MAX` plus half
a unit in the last place, `2 ^ 1024 - 2 ^ 970`. -/
def DBL_OVERFLOW : ℚ := 2 ^ 1024 - 2 ^ 970

/-- The largest finite `double`, `2 ^ 1024 - 2 ^ 971`. -/
def DBL_MAX : ℚ := 2 ^ 1024 - 2 ^ 971

/-! ## `msg_parser.cpp`: scalars -/

/-- The function `Message::isAlphanumeric`. -/
def isAlphanumeric (str : Str) : Bool := str.all Char.isAlphanum

/-- The function `Message::isValidIntegerStringFormat`. -/
def isValidIntegerStringFormat (str : Str) : Bool :=
  match str with
  | [] => false
  | c :: rest =>
    if c = '-' then
      if rest = [] then false else rest.all Char.isDigit
    else (c :: rest).all Char.isDigit

/-- The value of a run of decimal digits. -/
def decimal (s : Str) : Nat := s.foldl (fun acc c => 10 * acc + (c.toNat - 48)) 0

/-- The function `std::stoll` on a string that passed
`isValidIntegerStringFormat`: the value, or `none` where it throws
`std::out_of_range`. On such a string it consumes every character. -/
def stoll (str : Str) : Option Int :=
  let v : Int :=
    match str with
    | '-' :: rest => -(decimal rest : Int)
    | _ => (decimal str : Int)
  if v < LLONG_MIN ∨ v > LLONG_MAX then none else some v

/-- The function `Message::parseInteger`: the value stored in `out_val`, or
`none` where it returns false. -/
def parseInteger (str : Str) : Option Int :=
  if !isValidIntegerStringFormat str then none
  else
    match stoll str with
    | none => none
    | some temp_val => if temp_val < INT_MIN ∨ temp_val > INT_MAX then none else some temp_val

/-- The text after the optional point of a decimal: `'.' :: r` gives `r`. -/
def skip_point (s2 : Str) : Str :=
  match s2 with
  | '.' :: r => r
  | _ => s2

/-- The part of `Message::isValidDoubleStringFormat` after the sign: the two
digit loops are the longest digit prefixes, and the second loop fails at its
eighth digit. -/
def double_format_digits (s1 : Str) : Bool :=
  let has_leading_digits := !(s1.takeWhile Char.isDigit).isEmpty
  let s3 := skip_point (s1.dropWhile Char.isDigit)
  let frac := s3.takeWhile Char.isDigit
  let s4 := s3.dropWhile Char.isDigit
  if frac.length > max_fractional_digits then false
  else if !has_leading_digits && frac.isEmpty then false
  else if !s4.isEmpty then false
  else true

/-- The function `Message::isValidDoubleStringFormat`. -/
def isValidDoubleStringFormat (str : Str) : Bool :=
  match str with
  | [] => false
  | c :: rest =>
    if c = '-' then
      if rest = [] then false else double_format_digits rest
    else double_format_digits (c :: rest)

/-- The magnitude `std::stod` reads after the sign: integer digits plus
fraction digits scaled by their count. -/
def stod_magnitude (s1 : Str) : ℚ :=
  let lead := s1.takeWhile Char.isDigit
  let frac := (skip_point (s1.dropWhile Char.isDigit)).takeWhile Char.isDigit
  (decimal lead : ℚ) + (decimal frac : ℚ) / 10 ^ frac.length

/-- The function `std::stod` on a string that passed
`isValidDoubleStringFormat`: the value of the decimal, or `none` where it throws
`std::out_of_range`. On such a string it consumes every character. -/
def stod (str : Str) : Option ℚ :=
  match str with
  | '-' :: rest =>
    if stod_magnitude rest ≥ DBL_OVERFLOW then none else some (-stod_magnitude rest)
  | _ => if stod_magnitude str ≥ DBL_OVERFLOW then none else some (stod_magnitude str)

/-- The function `Message::parseDouble`: the value stored in `out_val`, or
`none` where it returns false. -/
def parseDouble (str : Str) : Option ℚ :=
  if !isValidDoubleStringFormat str then none else stod str

/-- Rounding of a non-negative rational to the nearest integer, ties to even
(the rounding of the stream insertion). -/
def round_half_even (q : ℚ) : Nat :=
  let f := ⌊q⌋.toNat
  let r := q - f
  if r < 1 / 2 then f
  else if r > 1 / 2 then f + 1
  else if f % 2 = 0 then f else f + 1

/-- Seven decimal digits of a number below `10 ^ 7`, with leading zeros. -/
def seven_digits (m : Nat) : Str :=
  [Nat.digitChar (m / 1000000 % 10), Nat.digitChar (m / 100000 % 10),
    Nat.digitChar (m / 10000 % 10), Nat.digitChar (m / 1000 % 10), Nat.digitChar (m / 100 % 10),
    Nat.digitChar (m / 10 % 10), Nat.digitChar (m % 10)]

/-- The function `Message::doubleToString`: fixed notation with
`max_fractional_digits` digits after the point. -/
def doubleToString (val : ℚ) : Str :=
  let n := round_half_even (|val| * 10 ^ max_fractional_digits)
  (if val < 0 then ['-'] else []) ++ Nat.toDigits 10 (n / 10 ^ max_fractional_digits) ++
    '.' :: seven_digits (n % 10 ^ max_fractional_digits)

/-- The function `std::to_string(int)`. -/
def to_string (n : Int) : Str :=
  if n < 0 then '-' :: Nat.toDigits 10 n.natAbs else Nat.toDigits 10 n.natAbs

/-- The value a `double` has after `doubleToString`: rounded to seven digits
after the point. -/
def round7 (val : ℚ) : ℚ :=
  let m : ℚ := (round_half_even (|val| * 10 ^ max_fractional_digits) : ℚ) /
    10 ^ max_fractional_digits
  if val < 0 then -m else m

/-! ## `msg_parser.cpp`: lines -/

/-- The function `Message::extractCommandAndParams`: command and parameters, or
`none` where it returns false. -/
def extractCommandAndParams (line : Str) : Option (Str × Str) :=
  if line.isEmpty then none
  else
    match line.span (fun c => c ≠ ' ') with
    | (_, []) => some (line, [])
    | ([], _ :: _) => none
    | (_ :: _, [_]) => none
    | (command, _ :: params) => some (command, params)

/-- A character of the class `[a-zA-Z0-9\-\.]`. -/
def param_char (c : Char) : Bool := c.isAlphanum || c = '-' || c = '.'

/-- The value of the match of `([a-zA-Z0-9\-\.]+ )*[a-zA-Z0-9\-\.]+` against
the whole string: non-empty runs of class characters separated by single
spaces. It is what `std::regex_match` returns where it returns; the stack its
execution takes is the subject of `regex_match` and of the definitions of
`OnStack`. -/
def params_regex_match (params : Str) : Bool :=
  (params.splitOn ' ').all (fun t => !t.isEmpty && t.all param_char)

/-- The function `Message::splitParams`: the vector of parameters, or `none`
where it returns false. On a string that matched, the extraction loop
`iss >> param` yields the runs between the spaces. -/
def splitParams (params : Str) : Option (List Str) :=
  if params.isEmpty then some []
  else if !params_regex_match params then none
  else some ((params.splitOn ' ').filter (fun t => !t.isEmpty))

inductive MessageType where
  | HELLO | COEFF | PUT | BAD_PUT | STATE | PENALTY | SCORING
deriving DecidableEq, Repr

/-- The typed fields of the seven `Message` subclasses. -/
inductive Fields where
  | hello (player_id : Str)
  | coeff (coeffs : List ℚ)
  | put (point : Int) (value : ℚ)
  | bad_put (point : Int) (value : ℚ)
  | state (approx_values : List ℚ)
  | penalty (point : Int) (value : ℚ)
  | scoring (player_ids : List Str) (scores : List ℚ)
deriving DecidableEq, Repr

/-- A `Message` object: the raw line (with CR LF), the parameters, and the
fields of its subclass. -/
structure Message where
  raw_message : Str
  params : List Str
  fields : Fields
deriving DecidableEq, Repr

/-- The getter `Message::getType`. -/
def Message.getType (m : Message) : MessageType :=
  match m.fields with
  | .hello _ => .HELLO
  | .coeff _ => .COEFF
  | .put _ _ => .PUT
  | .bad_put _ _ => .BAD_PUT
  | .state _ => .STATE
  | .penalty _ _ => .PENALTY
  | .scoring _ _ => .SCORING

/-- The function `Message::validateIntDoublePair`. -/
def validateIntDoublePair (vec : List Str) : Option (Int × ℚ) :=
  match vec with
  | [a, b] =>
    match parseInteger a with
    | none => none
    | some point =>
      match parseDouble b with
      | none => none
      | some value => some (point, value)
  | _ => none

/-- The loop of `CoeffMessage::parseMessage`: every parameter parses and lies
within `[min_coeff, max_coeff]` up to `eps`. -/
def parse_coeffs : List Str → Option (List ℚ)
  | [] => some []
  | param :: rest =>
    match parseDouble param with
    | none => none
    | some v =>
      if v + eps < min_coeff ∨ v - eps > max_coeff then none
      else
        match parse_coeffs rest with
        | none => none
        | some vs => some (v :: vs)

/-- The loop of `StateMessage::parseMessage`. -/
def parse_doubles : List Str → Option (List ℚ)
  | [] => some []
  | param :: rest =>
    match parseDouble param with
    | none => none
    | some v =>
      match parse_doubles rest with
      | none => none
      | some vs => some (v :: vs)

/-- The loop of `ScoringMessage::parseMessage` over an even number of
parameters. -/
def parse_scoring : List Str → Option (List Str × List ℚ)
  | id :: score :: rest =>
    if !isAlphanumeric id then none
    else
      match parseDouble score with
      | none => none
      | some v =>
        match parse_scoring rest with
        | none => none
        | some (ids, vs) => some (id :: ids, v :: vs)
  | _ => some ([], [])

/-- The function `HelloMessage::parseMessage`. -/
def HelloMessage.parseMessage (params : List Str) : Option Fields :=
  match params with
  | [p] => if !isAlphanumeric p then none else some (.hello p)
  | _ => none

/-- The function `CoeffMessage::parseMessage`. -/
def CoeffMessage.parseMessage (params : List Str) : Option Fields :=
  if params.length < 1 ∨ params.length > max_n + 1 then none
  else (parse_coeffs params).map .coeff

/-- The function `PutMessage::parseMessage`. -/
def PutMessage.parseMessage (params : List Str) : Option Fields :=
  (validateIntDoublePair params).map (fun pv => .put pv.1 pv.2)

/-- The function `BadPutMessage::parseMessage`. -/
def BadPutMessage.parseMessage (params : List Str) : Option Fields :=
  (validateIntDoublePair params).map (fun pv => .bad_put pv.1 pv.2)

/-- The function `StateMessage::parseMessage`. -/
def StateMessage.parseMessage (params : List Str) : Option Fields :=
  if params.length < 1 ∨ params.length > max_k + 1 then none
  else (parse_doubles params).map .state

/-- The function `PenaltyMessage::parseMessage`. -/
def PenaltyMessage.parseMessage (params : List Str) : Option Fields :=
  (validateIntDoublePair params).map (fun pv => .penalty pv.1 pv.2)

/-- The function `ScoringMessage::parseMessage`. -/
def ScoringMessage.parseMessage (params : List Str) : Option Fields :=
  if params.length / 2 * 2 ≠ params.length then none
  else (parse_scoring params).map (fun r => .scoring r.1 r.2)

/-- The subclass `Message::createMessage(line)` instantiates for a command
word, and the result of its `parseMessage`; `none` for an unknown command or a
failed parse. -/
def parse_fields (command_str : Str) (params : List Str) : Option Fields :=
  if command_str = "HELLO".toList then HelloMessage.parseMessage params
  else if command_str = "COEFF".toList then CoeffMessage.parseMessage params
  else if command_str = "PUT".toList then PutMessage.parseMessage params
  else if command_str = "BAD_PUT".toList then BadPutMessage.parseMessage params
  else if command_str = "STATE".toList then StateMessage.parseMessage params
  else if command_str = "PENALTY".toList then PenaltyMessage.parseMessage params
  else if command_str = "SCORING".toList then ScoringMessage.parseMessage params
  else none

/-- The function `Message::createMessage(line)`: the parsed message, or `none`
where it returns `nullptr`. -/
def Message.createMessage (line : Str) : Option Message :=
  if line.length < 2 ∨ line.drop (line.length - 2) ≠ crlf then none
  else
    let cmd_params_str := line.take (line.length - 2)
    match extractCommandAndParams cmd_params_str with
    | none => none
    | some (command_str, params_str) =>
      match splitParams params_str with
      | none => none
      | some params => (parse_fields command_str params).map (fun f => ⟨line, params, f⟩)

/-- The function `Message::createMessageWithCRLF`. -/
def Message.createMessageWithCRLF (line : Str) : Option Message :=
  Message.createMessage (line ++ crlf)

/-- The getter `Message::toRawString`: the raw line without CR LF. -/
def Message.toRawString (m : Message) : Str := m.raw_message.take (m.raw_message.length - 2)

/-! ## `msg_parser.cpp`: the factory functions of the subclasses -/

/-- The string the factories build from values: each `doubleToString` followed
by a space, then `pop_back`. -/
def doubles_str (vals : List ℚ) : Str :=
  (vals.foldl (fun acc v => acc ++ (doubleToString v ++ [' '])) []).dropLast

/-- The function `HelloMessage::createMessage`. -/
def HelloMessage.createMessage (player_id : Str) : Option Message :=
  Message.createMessageWithCRLF ("HELLO ".toList ++ player_id)

/-- The function `CoeffMessage::createMessage`. -/
def CoeffMessage.createMessage (coeffs : List ℚ) : Option Message :=
  if coeffs.isEmpty then none
  else Message.createMessageWithCRLF ("COEFF ".toList ++ doubles_str coeffs)

/-- The function `PutMessage::createMessage`. -/
def PutMessage.createMessage (point : Int) (value : ℚ) : Option Message :=
  Message.createMessageWithCRLF ("PUT ".toList ++ to_string point ++ [' '] ++ doubleToString value)

/-- The function `BadPutMessage::createMessage`. -/
def BadPutMessage.createMessage (point : Int) (value : ℚ) : Option Message :=
  Message.createMessageWithCRLF
    ("BAD_PUT ".toList ++ to_string point ++ [' '] ++ doubleToString value)

/-- The function `StateMessage::createMessage`. -/
def StateMessage.createMessage (approx_values : List ℚ) : Option Message :=
  if approx_values.isEmpty then none
  else Message.createMessageWithCRLF ("STATE ".toList ++ doubles_str approx_values)

/-- The function `PenaltyMessage::createMessage`. -/
def PenaltyMessage.createMessage (point : Int) (value : ℚ) : Option Message :=
  Message.createMessageWithCRLF
    ("PENALTY ".toList ++ to_string point ++ [' '] ++ doubleToString value)

/-- The comparison `operator<` of `std::string`. -/
def str_lt : Str → Str → Bool
  | [], [] => false
  | [], _ :: _ => true
  | _ :: _, [] => false
  | a :: as, b :: bs => decide (a.toNat < b.toNat) || (decide (a = b) && str_lt as bs)

/-- The comparison `operator<` of `std::pair<std::string, double>`. -/
def pair_lt (a b : Str × ℚ) : Bool :=
  str_lt a.1 b.1 || (!str_lt b.1 a.1 && decide (a.2 < b.2))

/-- The order `std::sort` establishes: `b` is not less than `a`. -/
def pair_le (a b : Str × ℚ) : Prop := pair_lt b a = false

instance : DecidableRel pair_le := fun a b => by unfold pair_le; infer_instance

/-- The call `std::sort(player_scores.begin(), player_scores.end())`. -/
def sort_player_scores (player_scores : List (Str × ℚ)) : List (Str × ℚ) :=
  player_scores.insertionSort pair_le

/-- The function `ScoringMessage::createMessage`. -/
def ScoringMessage.createMessage (player_ids : List Str) (scores : List ℚ) : Option Message :=
  if player_ids.length ≠ scores.length then none
  else
    let player_scores := sort_player_scores (player_ids.zip scores)
    let msg_str := player_scores.foldl
      (fun acc ps => acc ++ (ps.1 ++ [' '] ++ doubleToString ps.2 ++ [' '])) "SCORING ".toList
    Message.createMessageWithCRLF msg_str.dropLast

/-! ## Predicates and auxiliary functions of the codec statements -/

/-- A parameter as the grammar allows it: non-empty, of class characters. -/
def is_token (t : Str) : Prop := t ≠ [] ∧ ∀ c ∈ t, param_char c = true

/-- Every parameter followed by a space, as the factory loops append them. -/
def join_sp : List Str → Str
  | [] => []
  | t :: ts => t ++ ' ' :: join_sp ts

/-- The parameters of a SCORING line: id, score, id, score, ... -/
def scoring_tokens : List (Str × ℚ) → List Str
  | [] => []
  | ps :: rest => ps.1 :: doubleToString ps.2 :: scoring_tokens rest

/-- A factory result that is a message with the given typed fields and whose
raw line parses to that same message. -/
def parses_back (r : Option Message) (f : Fields) : Prop :=
  ∃ m, r = some m ∧ m.fields = f ∧ Message.createMessage m.raw_message = some m

/-! ## `server_logic.h`, `server_events.h`: the state of the server -/

/-- The record `PlayerInfo`. -/
structure PlayerInfo where
  id : Str
  ip : Str
  port : Int
  messages : List Str
  approximations : List ℚ
  coefficients : List ℚ
  penalty : ℚ
  is_known : Bool
  correct_puts : Int
  can_put : Bool
  delay : Int
deriving DecidableEq, Repr

/-- What a scheduled callback captured by value when it was created: the
BAD_PUT reply of `respond_with_bad_put`, the STATE reply of
`respond_with_state`, and the hello-wait check of `approx-server.cpp`. -/
inductive Callback where
  | bad_put (client_fd : Int) (point : Int) (value : ℚ) (client_ip : Str) (client_port : Int)
      (client_id : Str)
  | state (client_fd : Int) (state_msg : Str) (client_ip : Str) (client_port : Int)
      (client_id : Str)
  | hello_wait (client_fd : Int) (ip_str : Str) (port : Int)
deriving DecidableEq, Repr

/-- An entry of the `EventManager` multimap: deadline (a `steady_clock` time
point, in nanoseconds) and callback. -/
structure ScheduledEvent where
  deadline : Int
  callback : Callback
deriving DecidableEq, Repr

/-- The class `ServerLogic` with the `EventManager` it refers to. The map
`players` is the list of its entries in increasing `client_fd` order; the open
coefficient file is the list of the lines not yet read. -/
structure ServerLogic where
  K : Int
  N : Int
  M : Int
  total_correct_puts : Int
  coeff_file : List Str
  players : List (Int × PlayerInfo)
  events : List ScheduledEvent
  stopping : Bool
deriving DecidableEq, Repr

/-! ## `std::map` and `EventManager` -/

/-- The lookup `players.find(client_fd)`. -/
def find_player : List (Int × PlayerInfo) → Int → Option PlayerInfo
  | [], _ => none
  | (fd, p) :: rest, client_fd => if fd = client_fd then some p else find_player rest client_fd

/-- The assignment `players[client_fd] = p`: replace the entry, or insert it in
key order. -/
def set_player : List (Int × PlayerInfo) → Int → PlayerInfo → List (Int × PlayerInfo)
  | [], client_fd, p => [(client_fd, p)]
  | (fd, q) :: rest, client_fd, p =>
    if fd = client_fd then (fd, p) :: rest
    else if client_fd < fd then (client_fd, p) :: (fd, q) :: rest
    else (fd, q) :: set_player rest client_fd p

/-- The removal `players.erase(client_fd)`. -/
def erase_player : List (Int × PlayerInfo) → Int → List (Int × PlayerInfo)
  | [], _ => []
  | (fd, q) :: rest, client_fd =>
    if fd = client_fd then rest else (fd, q) :: erase_player rest client_fd

/-- A write through the reference `players[client_fd]` to an existing entry. -/
def modify_player (s : ServerLogic) (client_fd : Int) (f : PlayerInfo → PlayerInfo) :
    ServerLogic :=
  match find_player s.players client_fd with
  | none => s
  | some p => { s with players := set_player s.players client_fd (f p) }

/-- The multimap insertion of `EventManager::add_event`: after every entry
whose deadline is not later. -/
def insert_event : List ScheduledEvent → ScheduledEvent → List ScheduledEvent
  | [], e => [e]
  | e1 :: rest, e => if e1.deadline ≤ e.deadline then e1 :: insert_event rest e else e :: e1 :: rest

/-- The function `EventManager::add_event`. -/
def add_event (s : ServerLogic) (callback : Callback) (deadline : Int) : ServerLogic :=
  { s with events := insert_event s.events ⟨deadline, callback⟩ }

/-- The time point `now + std::chrono::seconds(n)`. -/
def after_seconds (now : Int) (n : Int) : Int := now + n * 1000000000

/-! ## `server_logic.cpp` -/

/-- The function `ServerLogic::register_new_client`. -/
def register_new_client (s : ServerLogic) (client_fd : Int) (ip : Str) (port : Int) :
    ServerLogic :=
  let new_player : PlayerInfo :=
    { id := "UNKNOWN".toList, ip := ip, port := port, messages := [],
      approximations := List.replicate (s.K + 1).toNat 0,
      coefficients := List.replicate (s.N + 1).toNat 0,
      penalty := 0, is_known := false, correct_puts := 0, can_put := false, delay := 0 }
  { s with players := set_player s.players client_fd new_player }

/-- The function `ServerLogic::is_client_connected`. -/
def is_client_connected (s : ServerLogic) (client_fd : Int) : Bool :=
  (find_player s.players client_fd).isSome

/-- The function `ServerLogic::validate_client`. -/
def validate_client (s : ServerLogic) (client_fd : Int) (ip : Str) (port : Int) : Bool :=
  match find_player s.players client_fd with
  | none => false
  | some player => decide (player.ip = ip) && decide (player.port = port)

/-- The function `ServerLogic::append_message_back` on a connected client. -/
def append_message_back (s : ServerLogic) (client_fd : Int) (msg : Str) : ServerLogic :=
  modify_player s client_fd (fun p => { p with messages := p.messages ++ [msg] })

/-- The function `ServerLogic::append_message_front` on a connected client. -/
def append_message_front (s : ServerLogic) (client_fd : Int) (msg : Str) : ServerLogic :=
  modify_player s client_fd (fun p => { p with messages := msg :: p.messages })

/-- The function `ServerLogic::handle_client_disconnect` on a connected client. -/
def handle_client_disconnect (s : ServerLogic) (client_fd : Int) : ServerLogic :=
  match find_player s.players client_fd with
  | none => s
  | some p =>
    { s with
      total_correct_puts := s.total_correct_puts - p.correct_puts
      players := erase_player s.players client_fd }

/-- The loop of `ServerLogic::player_poly_at`: `result` and `x_pow` after the
iterations for the listed indices. -/
def poly_loop (coefficients : List ℚ) (x : ℚ) : List Nat → ℚ × ℚ → ℚ × ℚ
  | [], acc => acc
  | i :: is, (result, x_pow) =>
    poly_loop coefficients x is (result + coefficients.getD i 0 * x_pow, x_pow * x)

/-- The function `ServerLogic::player_poly_at`. -/
def player_poly_at (s : ServerLogic) (player : PlayerInfo) (x : Int) : ℚ :=
  (poly_loop player.coefficients x (List.range (s.N + 1).toNat) (0, 1)).1

/-- The loop of `ServerLogic::calculate_score`: `score` after the iterations for
the listed points. -/
def score_loop (s : ServerLogic) (player : PlayerInfo) : List Nat → ℚ → ℚ
  | [], score => score
  | x :: xs, score =>
    let real_value := player_poly_at s player x
    let approx_value := player.approximations.getD x 0
    score_loop s player xs (score + (real_value - approx_value) * (real_value - approx_value))

/-- The function `ServerLogic::calculate_score`. -/
def calculate_score (s : ServerLogic) (player : PlayerInfo) : ℚ :=
  score_loop s player (List.range (s.K + 1).toNat) 0 + player.penalty

/-- The function `ServerLogic::send_scoring_messages`; `none` where it
dereferences a null message. -/
def send_scoring_messages (s : ServerLogic) : Option ServerLogic :=
  let known := s.players.filter (fun e => e.2.is_known)
  let ids := known.map (fun e => e.2.id)
  let scores := known.map (fun e => calculate_score s e.2)
  match ScoringMessage.createMessage ids scores with
  | none => none
  | some scoring_msg =>
    some (known.foldl (fun acc e => append_message_back acc e.1 scoring_msg.raw_message) s)

/-- The function `ServerLogic::game_over`. -/
def game_over (s : ServerLogic) : Option ServerLogic :=
  (send_scoring_messages s).map (fun s1 => { s1 with stopping := true })

/-- The function `ServerLogic::respond_with_penalty`; `none` where it
dereferences a null message. -/
def respond_with_penalty (s : ServerLogic) (client_fd : Int) (point : Int) (value : ℚ) :
    Option ServerLogic :=
  let s1 := modify_player s client_fd (fun p =>
    { p with penalty := p.penalty + early_put_penalty, can_put := true })
  match PenaltyMessage.createMessage point value with
  | none => none
  | some penalty_msg => some (append_message_back s1 client_fd penalty_msg.raw_message)

/-- The function `ServerLogic::respond_with_bad_put` for a connected client, at
time `now`. -/
def respond_with_bad_put (s : ServerLogic) (now : Int) (client_fd : Int) (point : Int)
    (value : ℚ) : ServerLogic :=
  let s1 := modify_player s client_fd (fun p => { p with penalty := p.penalty + bad_put_penalty })
  match find_player s1.players client_fd with
  | none => s1
  | some p =>
    add_event s1 (.bad_put client_fd point value p.ip p.port p.id) (after_seconds now bad_put_delay)

/-- The function `ServerLogic::respond_with_state` for a connected client, at
time `now`. -/
def respond_with_state (s : ServerLogic) (now : Int) (client_fd : Int) (state_msg : Str) :
    ServerLogic :=
  match find_player s.players client_fd with
  | none => s
  | some p =>
    add_event s (.state client_fd state_msg p.ip p.port p.id) (after_seconds now p.delay)

/-- The update `approximations[point] += value`. -/
def add_at (approximations : List ℚ) (point : Nat) (value : ℚ) : List ℚ :=
  approximations.modify (fun a => a + value) point

/-- The function `ServerLogic::handle_put` for a connected client, at time
`now`: the state afterwards and the return value; `none` where it dereferences a
null message. -/
def handle_put (s : ServerLogic) (now : Int) (client_fd : Int) (point : Int) (value : ℚ) :
    Option (ServerLogic × Bool) :=
  match find_player s.players client_fd with
  | none => none
  | some player =>
    if !player.is_known then some (s, false)
    else
      let after_penalty : Option ServerLogic :=
        if !player.can_put then respond_with_penalty s client_fd point value else some s
      match after_penalty with
      | none => none
      | some s1 =>
        let s2 := modify_player s1 client_fd (fun p => { p with can_put := false })
        let out_of_range : Bool := decide (point < 0 ∨ point > s.K ∨
          value + eps < min_put_value ∨ value - eps > max_put_value)
        let s3 := if out_of_range then respond_with_bad_put s2 now client_fd point value else s2
        let successful_put := player.can_put && !out_of_range
        if !successful_put then some (s3, false)
        else
          let s4 := modify_player s3 client_fd (fun p =>
            { p with
              correct_puts := p.correct_puts + 1
              approximations := add_at p.approximations point.toNat value })
          let s5 := { s4 with total_correct_puts := s4.total_correct_puts + 1 }
          match find_player s5.players client_fd with
          | none => none
          | some p5 =>
            match StateMessage.createMessage p5.approximations with
            | none => none
            | some state_msg =>
              let s6 := respond_with_state s5 now client_fd state_msg.raw_message
              if s6.total_correct_puts ≥ s6.M then
                (game_over s6).map (fun s7 => (s7, true))
              else some (s6, true)

/-- The function `ServerLogic::handle_hello` for a connected client; `none`
where the process exits (`fatal`) or dereferences a null pointer. -/
def handle_hello (s : ServerLogic) (client_fd : Int) (player_id : Str) :
    Option (ServerLogic × Bool) :=
  match find_player s.players client_fd with
  | none => none
  | some player =>
    if player.is_known then some (s, false)
    else
      let s1 := modify_player s client_fd (fun p =>
        { p with
          id := player_id
          delay := (player_id.filter Char.isLower).length
          is_known := true
          can_put := true })
      let coeffs_str : Str := (s1.coeff_file.headD []) ++ ['\n']
      let s2 := { s1 with coeff_file := s1.coeff_file.tail }
      match Message.createMessage coeffs_str with
      | none => none
      | some coeff_msg =>
        match coeff_msg.fields with
        | .coeff coeffs =>
          let s3 := modify_player s2 client_fd (fun p => { p with coefficients := coeffs })
          some (append_message_back s3 client_fd coeff_msg.raw_message, true)
        | _ => none

/-- The function `ServerLogic::handle_client_message`; `none` where the
assertion `is_client_connected` fails or the handler ends the process. -/
def handle_client_message (s : ServerLogic) (now : Int) (client_fd : Int) (msg : Message) :
    Option (ServerLogic × Bool) :=
  if !is_client_connected s client_fd then none
  else
    match msg.fields with
    | .hello player_id => handle_hello s client_fd player_id
    | .put point value => handle_put s now client_fd point value
    | _ => some (s, false)

/-- The body of a scheduled callback; `none` where it dereferences a null
message. -/
def run_callback (s : ServerLogic) : Callback → Option ServerLogic
  | .bad_put client_fd point value client_ip client_port client_id =>
    if !validate_client s client_fd client_ip client_port ||
        decide ((find_player s.players client_fd).map (fun p => p.id) ≠ some client_id) then some s
    else
      let s1 := modify_player s client_fd (fun p => { p with can_put := true })
      match BadPutMessage.createMessage point value with
      | none => none
      | some bad_put_msg => some (append_message_back s1 client_fd bad_put_msg.raw_message)
  | .state client_fd state_msg client_ip client_port client_id =>
    if !validate_client s client_fd client_ip client_port ||
        decide ((find_player s.players client_fd).map (fun p => p.id) ≠ some client_id) then some s
    else
      let s1 := append_message_back s client_fd state_msg
      some (modify_player s1 client_fd (fun p => { p with can_put := true }))
  | .hello_wait client_fd ip_str port =>
    if !validate_client s client_fd ip_str port then some s
    else
      match find_player s.players client_fd with
      | none => some s
      | some p => if !p.is_known then some (handle_client_disconnect s client_fd) else some s

/-- The loop of `EventManager::check_timers` at time `now`, bounded by the
number of entries present when it starts (no callback adds an entry). -/
def check_timers_loop (now : Int) : Nat → ServerLogic → Option ServerLogic
  | 0, s => some s
  | fuel + 1, s =>
    match s.events with
    | [] => some s
    | e :: rest =>
      if e.deadline ≤ now then
        match run_callback s e.callback with
        | none => none
        | some s1 => check_timers_loop now fuel { s1 with events := rest }
      else some s

/-- The function `EventManager::check_timers`. -/
def check_timers (s : ServerLogic) (now : Int) : Option ServerLogic :=
  check_timers_loop now s.events.length s

/-- The function `ServerLogic::reset`. -/
def reset (s : ServerLogic) : ServerLogic :=
  { s with events := [], total_correct_puts := 0, players := [], stopping := false }

/-- The line of a PENALTY, BAD_PUT or PUT message for a point and a value. -/
def point_value_line (cmd : Str) (point : Int) (value : ℚ) : Str :=
  cmd ++ [' '] ++ to_string point ++ [' '] ++ doubleToString value ++ crlf

/-- The test of `handle_put` for a put that is out of range. -/
def put_out_of_range (s : ServerLogic) (point : Int) (value : ℚ) : Prop :=
  point < 0 ∨ point > s.K ∨ value + eps < min_put_value ∨ value - eps > max_put_value

instance (s : ServerLogic) (point : Int) (value : ℚ) :
    Decidable (put_out_of_range s point value) := by
  unfold put_out_of_range; infer_instance

/-- The polynomial of a player at `x`: the sum of `coefficients[i] * x ^ i` for
`i = 0..N`. -/
def poly_sum (s : ServerLogic) (player : PlayerInfo) (x : ℚ) : ℚ :=
  ∑ i in Finset.range (s.N + 1).toNat, player.coefficients.getD i 0 * x ^ i

/-- A known player who has put and may not put again yet. -/
def c4_player : PlayerInfo :=
  { id := "abc".toList, ip := "127.0.0.1".toList, port := 40000, messages := [],
    approximations := [1, 0, 0], coefficients := [1, 2], penalty := 0, is_known := true,
    correct_puts := 1, can_put := false, delay := 3 }

/-- A server with `K = 2`, `N = 1`, `M = 5` and the player `c4_player`, whose
STATE reply is still scheduled. -/
def c4_server : ServerLogic :=
  { K := 2, N := 1, M := 5, total_correct_puts := 1, coeff_file := [],
    players := [(5, c4_player)],
    events := [⟨3000000000, .state 5 "STATE 1.0000000 0.0000000 0.0000000\r\n".toList
      "127.0.0.1".toList 40000 "abc".toList⟩],
    stopping := false }

/-! ## Concrete inputs -/

/-- The player of boundary scenario 6 after HELLO: coefficients `(1, 2)`. -/
def c2_player : PlayerInfo :=
  { id := "abc".toList, ip := "127.0.0.1".toList, port := 40000, messages := [],
    approximations := [0, 0, 0], coefficients := [1, 2], penalty := 0, is_known := true,
    correct_puts := 0, can_put := true, delay := 3 }

/-- The server of boundary scenario 6: `K = 2`, `N = 1`, `M = 1`. -/
def c2_server : ServerLogic :=
  { K := 2, N := 1, M := 1, total_correct_puts := 0, coeff_file := [],
    players := [(5, c2_player)], events := [], stopping := false }

/-- A known player of a game with `K = 10` who may put. -/
def c17_player : PlayerInfo :=
  { id := "abc".toList, ip := "127.0.0.1".toList, port := 40000, messages := [],
    approximations := [0, 0, 0, 0, 0, 0, 0, 0, 0, 0, 0], coefficients := [1, 2], penalty := 0,
    is_known := true, correct_puts := 0, can_put := true, delay := 3 }

/-- A server with `K = 10`, `N = 1`, `M = 5` and the player `c17_player`. -/
def c17_server : ServerLogic :=
  { K := 10, N := 1, M := 5, total_correct_puts := 0, coeff_file := [],
    players := [(5, c17_player)], events := [], stopping := false }

/-- The line of a STATE message for a vector of values. -/
def state_line (vals : List ℚ) : Str := "STATE ".toList ++ doubles_str vals ++ crlf

/-- A player record with the message queue left out. -/
def PlayerInfo.without_messages (p : PlayerInfo) : PlayerInfo := { p with messages := [] }

/-- The record of a player whose put has been counted. -/
def counted_player (player : PlayerInfo) (point : Int) (value : ℚ) : PlayerInfo :=
  { player with
    can_put := false
    correct_puts := player.correct_puts + 1
    approximations := add_at player.approximations point.toNat value }

/-- The state `handle_put` has built once a put is counted and its STATE reply
scheduled, before the test for the end of the game. -/
def put_counted (s : ServerLogic) (now : Int) (client_fd : Int) (player : PlayerInfo)
    (point : Int) (value : ℚ) (state_msg : Str) : ServerLogic :=
  { s with
    total_correct_puts := s.total_correct_puts + 1
    players := set_player s.players client_fd (counted_player player point value)
    events := insert_event s.events
      ⟨after_seconds now player.delay,
        .state client_fd state_msg player.ip player.port player.id⟩ }

/-- The data `ScoringMessage::createMessage` needs from `send_scoring_messages`:
every known player has a non-empty alphanumeric id and a finite score. -/
def scoring_ready (s : ServerLogic) : Prop :=
  ∀ e ∈ s.players, e.2.is_known = true →
    (e.2.id ≠ [] ∧ isAlphanumeric e.2.id = true) ∧ |calculate_score s e.2| ≤ DBL_MAX

/-- The keys of the map `players` are in increasing order, as `std::map` keeps
them. -/
def keys_sorted (s : ServerLogic) : Prop := (s.players.map Prod.fst).Pairwise (fun a b => a < b)

/-- The pairs (descriptor, `correct_puts`) of the registered players. -/
def counts (s : ServerLogic) : List (Int × Int) :=
  s.players.map (fun e => (e.1, e.2.correct_puts))

/-- Two states with the same parameters, the same `stopping` flag, the same
`total_correct_puts` and the same `correct_puts` of every registered player. -/
def same_game (s s1 : ServerLogic) : Prop :=
  s1.K = s.K ∧ s1.N = s.N ∧ s1.M = s.M ∧ s1.stopping = s.stopping ∧
    s1.total_correct_puts = s.total_correct_puts ∧ counts s1 = counts s

/-- Two states that differ at most in the message queues of the players. -/
def same_but_messages (s s1 : ServerLogic) : Prop :=
  s1.K = s.K ∧ s1.N = s.N ∧ s1.M = s.M ∧ s1.stopping = s.stopping ∧
    s1.total_correct_puts = s.total_correct_puts ∧ s1.events = s.events ∧
    s1.coeff_file = s.coeff_file ∧
    ∀ fd, (find_player s1.players fd).map PlayerInfo.without_messages =
      (find_player s.players fd).map PlayerInfo.without_messages

instance (s : ServerLogic) : Decidable (keys_sorted s) := by
  unfold keys_sorted; infer_instance

/-- The sum of `correct_puts` over the registered players. -/
def sum_correct_puts (s : ServerLogic) : Int := (s.players.map (fun e => e.2.correct_puts)).sum

/-- No registered player has a negative `correct_puts`. -/
def puts_nonneg (s : ServerLogic) : Prop := ∀ e ∈ s.players, 0 ≤ e.2.correct_puts

/-! ## The server loop of `approx-server.cpp` -/

def hello_wait_time : Int := 3

/-- The function `ServerLogic::take_next_message_str` on a connected client: the
state after the front of the queue is popped. -/
def take_next_message_str (s : ServerLogic) (client_fd : Int) : ServerLogic :=
  modify_player s client_fd (fun p => { p with messages := p.messages.tail })

/-- The state the constructor of `ServerLogic` builds, from parameters that
`ServerArgParser` accepts. -/
def initial_server (s : ServerLogic) : Prop :=
  s.total_correct_puts = 0 ∧ s.players = [] ∧ s.events = [] ∧ s.stopping = false ∧
    1 ≤ s.K ∧ s.K ≤ max_k ∧ 1 ≤ s.N ∧ s.N ≤ max_n ∧ 1 ≤ s.M ∧ s.M ≤ max_m

/-- The calls `approx-server.cpp` makes on `ServerLogic` and `EventManager`:
`register_new_client` and the scheduling of the hello-wait check (both in
`handle_new_connection`), `handle_client_message`, `handle_client_disconnect`,
`check_timers` (which runs the scheduled callbacks that are due),
`take_next_message_str`, `append_message_front` and `reset`. -/
inductive ServerOp where
  | register (client_fd : Int) (ip : Str) (port : Int)
  | schedule (now : Int) (client_fd : Int) (ip : Str) (port : Int)
  | message (now : Int) (client_fd : Int) (msg : Message)
  | disconnect (client_fd : Int)
  | timers (now : Int)
  | take (client_fd : Int)
  | put_back (client_fd : Int) (msg : Str)
  | restart

/-- The state after a call; `none` where an assertion fails or the process
ends. -/
def ServerOp.apply (s : ServerLogic) : ServerOp → Option ServerLogic
  | .register client_fd ip port => some (register_new_client s client_fd ip port)
  | .schedule now client_fd ip port =>
    some (add_event s (.hello_wait client_fd ip port) (after_seconds now hello_wait_time))
  | .message now client_fd msg => (handle_client_message s now client_fd msg).map Prod.fst
  | .disconnect client_fd =>
    if is_client_connected s client_fd then some (handle_client_disconnect s client_fd) else none
  | .timers now => check_timers s now
  | .take client_fd =>
    if is_client_connected s client_fd then some (take_next_message_str s client_fd) else none
  | .put_back client_fd msg =>
    if is_client_connected s client_fd then some (append_message_front s client_fd msg) else none
  | .restart => some (reset s)

/-- What the caller of `register_new_client` guarantees: the descriptor that
`accept` returned is not the descriptor of a registered client (the server
closes a descriptor only when it removes the client). -/
def ServerOp.enabled (s : ServerLogic) : ServerOp → Prop
  | .register client_fd _ _ => is_client_connected s client_fd = false
  | _ => True

/-- The order of the calls in the main loop: once `stopping` is set the loop
only drains message queues (`reset_server`) and calls `reset`; `reset` is
called only then. -/
def ServerOp.in_loop (s : ServerLogic) : ServerOp → Prop
  | .restart => s.stopping = true
  | .take _ => True
  | _ => s.stopping = false

/-- The states reachable through the calls of `ServerOp`. -/
inductive ServerReachable : ServerLogic → Prop where
  | init (s : ServerLogic) : initial_server s → ServerReachable s
  | step (s : ServerLogic) (op : ServerOp) (s1 : ServerLogic) :
    ServerReachable s → op.enabled s → op.apply s = some s1 → ServerReachable s1

/-- The states reachable through the server loop. -/
inductive LoopReachable : ServerLogic → Prop where
  | init (s : ServerLogic) : initial_server s → LoopReachable s
  | step (s : ServerLogic) (op : ServerOp) (s1 : ServerLogic) :
    LoopReachable s → op.enabled s → op.in_loop s → op.apply s = some s1 → LoopReachable s1

/-- The invariant of the put counters: the keys of `players` increase,
`total_correct_puts` is the sum of `correct_puts` over the registered players,
and no `correct_puts` is negative. -/
def puts_inv (s : ServerLogic) : Prop :=
  keys_sorted s ∧ s.total_correct_puts = sum_correct_puts s ∧ puts_nonneg s

/-- How a call may change `total_correct_puts` and `stopping`: a client message
leaves both alone or counts one put (and then sets `stopping` if the total has
reached `M`); a disconnection and the timers never raise the total; `reset`
clears both; the other calls change neither. -/
def ServerOp.effect (s s1 : ServerLogic) : ServerOp → Prop
  | .message _ _ _ =>
    (s1.total_correct_puts = s.total_correct_puts ∧ s1.stopping = s.stopping) ∨
      (s1.total_correct_puts = s.total_correct_puts + 1 ∧
        (s1.stopping = true ↔ s.stopping = true ∨ s.M ≤ s.total_correct_puts + 1))
  | .disconnect _ => s1.total_correct_puts ≤ s.total_correct_puts ∧ s1.stopping = s.stopping
  | .timers _ => s1.total_correct_puts ≤ s.total_correct_puts ∧ s1.stopping = s.stopping
  | .restart => s1.total_correct_puts = 0 ∧ s1.stopping = false
  | _ => s1.total_correct_puts = s.total_correct_puts ∧ s1.stopping = s.stopping

instance (s : ServerLogic) (op : ServerOp) : Decidable (op.enabled s) := by
  cases op <;> unfold ServerOp.enabled <;> infer_instance

instance (s : ServerLogic) (op : ServerOp) : Decidable (op.in_loop s) := by
  cases op <;> unfold ServerOp.in_loop <;> infer_instance

instance (s : ServerLogic) : Decidable (initial_server s) := by
  unfold initial_server; infer_instance

/-- The state after a list of calls; `none` if one of them fails. -/
def run_ops : ServerLogic → List ServerOp → Option ServerLogic
  | s, [] => some s
  | s, op :: ops =>
    match op.apply s with
    | none => none
    | some s1 => run_ops s1 ops

/-- Every call of the list is made as the server loop makes it. -/
def ops_in_loop : ServerLogic → List ServerOp → Bool
  | _, [] => true
  | s, op :: ops =>
    decide (op.enabled s) && decide (op.in_loop s) &&
      match op.apply s with
      | none => false
      | some s1 => ops_in_loop s1 ops

/-- A freshly constructed server with `K = 2`, `N = 1`, `M = 2` and a
coefficient file whose first line is `COEFF 1 2`. -/
def c19_init : ServerLogic :=
  { K := 2, N := 1, M := 2, total_correct_puts := 0, coeff_file := ["COEFF 1 2\r".toList],
    players := [], events := [], stopping := false }

/-- A client connects on descriptor 5, sends `HELLO abc` and then `PUT 0 3`. -/
def c19_ops : List ServerOp :=
  [.register 5 "127.0.0.1".toList 40000,
    .schedule 0 5 "127.0.0.1".toList 40000,
    .message 1000000000 5 ⟨"HELLO abc\r\n".toList, ["abc".toList], .hello "abc".toList⟩,
    .message 2000000000 5 ⟨"PUT 0 3\r\n".toList, ["0".toList, "3".toList], .put 0 3⟩]

/-- The state of the server `c19_init` after the calls `c19_ops`. -/
def c19_state : ServerLogic := (run_ops c19_init c19_ops).getD c19_init

/-- The server `c19_init` with `M = 1`. -/
def c20_init : ServerLogic := { c19_init with M := 1 }

/-- The state of the server `c20_init` after the calls `c19_ops`. -/
def c20_state : ServerLogic := (run_ops c20_init c19_ops).getD c20_init

/-- A freshly constructed server with `K = 2`, `N = 3`, `M = 2` and a
coefficient file whose first line is `COEFF 1 2`: two coefficients where
`N + 1 = 4` are expected. -/
def c21_init : ServerLogic := { c19_init with N := 3 }

/-- A client connects on descriptor 5 and sends `HELLO abc`. -/
def c21_ops : List ServerOp :=
  [.register 5 "127.0.0.1".toList 40000,
    .schedule 0 5 "127.0.0.1".toList 40000,
    .message 1000000000 5 ⟨"HELLO abc\r\n".toList, ["abc".toList], .hello "abc".toList⟩]

/-- The state of the server `c21_init` after the calls `c21_ops`. -/
def c21_state : ServerLogic := (run_ops c21_init c21_ops).getD c21_init

/-- The text after the integer digits of a decimal token: nothing, or a point
followed by the fraction digits. -/
def fraction_text : Option Str → Str
  | none => []
  | some f => '.' :: f

/-- The value of the fraction digits of a decimal token. -/
def fraction_value : Option Str → ℚ
  | none => 0
  | some f => (decimal f : ℚ) / 10 ^ f.length

/-- The shape of a decimal token after its sign: a run of digits, then
optionally a point and at most 7 further digits, with at least one digit
overall. -/
def decimal_shape (lead : Str) : Option Str → Prop
  | none => (∀ c ∈ lead, c.isDigit = true) ∧ lead ≠ []
  | some f =>
    (∀ c ∈ lead, c.isDigit = true) ∧ (∀ c ∈ f, c.isDigit = true) ∧ f.length ≤ 7 ∧
      (lead ≠ [] ∨ f ≠ [])

/-- The text of a decimal token: an optional `-`, the integer digits, the
fraction text. -/
def decimal_text (neg : Bool) (lead : Str) (frac : Option Str) : Str :=
  (if neg then ['-'] else []) ++ (lead ++ fraction_text frac)

/-- The decimal value of a token. -/
def decimal_value (neg : Bool) (lead : Str) (frac : Option Str) : ℚ :=
  if neg then -((decimal lead : ℚ) + fraction_value frac)
  else (decimal lead : ℚ) + fraction_value frac

/-- The token of 310 digits `1000...0`, the decimal text of `10 ^ 309`. -/
def c31_token : Str := '1' :: List.replicate 309 '0'

/-- The seven command names `Message::createMessage` knows. -/
def command_names : List Str :=
  ["HELLO".toList, "COEFF".toList, "PUT".toList, "BAD_PUT".toList, "STATE".toList,
    "PENALTY".toList, "SCORING".toList]

/-- The text of a line: the command alone, or the command, one space and the
parameters separated by single spaces; then CR LF. -/
def line_text (cmd : Str) : List Str → Str
  | [] => cmd ++ crlf
  | t :: ts => cmd ++ ' ' :: [' '].intercalate (t :: ts) ++ crlf

/-- The client handle is registered with the given ip, port and player id. -/
def same_client (s : ServerLogic) (client_fd : Int) (ip : Str) (port : Int) (id : Str) : Prop :=
  match find_player s.players client_fd with
  | none => False
  | some p => p.ip = ip ∧ p.port = port ∧ p.id = id

instance (s : ServerLogic) (client_fd : Int) (ip : Str) (port : Int) (id : Str) :
    Decidable (same_client s client_fd ip port id) := by
  unfold same_client
  cases find_player s.players client_fd <;> infer_instance

/-- The server `c17_server` after its player reconnected under the id `xyz`. -/
def c39_server : ServerLogic :=
  { c17_server with players := [(5, { c17_player with id := "xyz".toList })] }

/-! ## `client_logic.cpp`: the automatic strategy -/

/-- The fields of `ClientLogic` that the automatic strategy reads and writes. -/
structure ClientLogic where
  is_auto_strategy : Bool
  coeffs : List ℚ
  N : Int
  K : Int
  K_set : Bool
  current_approximation : List ℚ
  real_values : List ℚ
deriving DecidableEq, Repr

/-- The value an `int` holds after an arithmetic result `v`: two's-complement
wrap to 32 bits. -/
def wrap32 (v : Int) : Int := (v + 2147483648) % 4294967296 - 2147483648

/-- The loop of `ClientLogic::poly_at`: `result` (a `double`) and `x_pow` (an
`int`) after the iterations for the listed indices. -/
def client_poly_loop (coeffs : List ℚ) (x : Int) : List Nat → ℚ × Int → ℚ × Int
  | [], acc => acc
  | i :: is, (result, x_pow) =>
    client_poly_loop coeffs x is (result + coeffs.getD i 0 * (x_pow : ℚ), wrap32 (x_pow * x))

/-- The function `ClientLogic::poly_at`. -/
def ClientLogic.poly_at (c : ClientLogic) (x : Int) : ℚ :=
  (client_poly_loop c.coeffs x (List.range (c.N + 1).toNat) (0, 1)).1

/-- The call `v.resize(n, 0)` of a vector of doubles. -/
def resize (v : List ℚ) (n : Nat) : List ℚ := v.take n ++ List.replicate (n - v.length) 0

/-- The function `ClientLogic::processCoeffMessage` on the coefficients of the
message. -/
def ClientLogic.processCoeffMessage (c : ClientLogic) (coeffs : List ℚ) : ClientLogic :=
  let c1 := { c with coeffs := coeffs, N := (coeffs.length : Int) - 1 }
  { c1 with current_approximation := [0, 0], real_values := [c1.poly_at 0, c1.poly_at 1] }

/-- The function `ClientLogic::processStateMessage` on the values of the
message. -/
def ClientLogic.processStateMessage (c : ClientLogic) (approx_values : List ℚ) : ClientLogic :=
  if c.is_auto_strategy && !c.K_set then
    let K_from_server : Int := (approx_values.length : Int) - 1
    { c with
      K := K_from_server
      K_set := true
      current_approximation := resize c.current_approximation (K_from_server + 1).toNat
      real_values :=
        (List.range (K_from_server + 1).toNat).map (fun (i : Nat) => c.poly_at (i : Int)) }
  else c

/-- The loop of `std::max_element`: `largest` is the index of the first greatest
element so far, `largest_val` its value, `i` the index of the head of the rest. -/
def max_element_loop (largest : Nat) (largest_val : ℚ) : Nat → List ℚ → Nat
  | _, [] => largest
  | i, v :: rest =>
    if largest_val < v then max_element_loop i v (i + 1) rest
    else max_element_loop largest largest_val (i + 1) rest

/-- The call `std::max_element(v.begin(), v.end())` as an index. -/
def max_element (v : List ℚ) : Nat :=
  match v with
  | [] => 0
  | x :: rest => max_element_loop 0 x 1 rest

/-- The function `std::clamp(v, lo, hi)`. -/
def clamp (v lo hi : ℚ) : ℚ := if v < lo then lo else if hi < v then hi else v

/-- The bound `max_point` of `get_best_put`. -/
def ClientLogic.max_point (c : ClientLogic) : Int := if c.K_set then c.K else 1

/-- The function `ClientLogic::get_best_put`: the pair it returns and the state
afterwards. -/
def ClientLogic.get_best_put (c : ClientLogic) : (Int × ℚ) × ClientLogic :=
  let max_point : Int := if c.K_set then c.K else 1
  let squared_differences : List ℚ :=
    (List.range (max_point + 1).toNat).map (fun i =>
      (c.current_approximation.getD i 0 - c.real_values.getD i 0) *
        (c.current_approximation.getD i 0 - c.real_values.getD i 0))
  let max_idx := max_element squared_differences
  let diff := c.real_values.getD max_idx 0 - c.current_approximation.getD max_idx 0
  let value_to_put := clamp diff min_put_value max_put_value
  (((max_idx : Int), value_to_put),
    { c with current_approximation := add_at c.current_approximation max_idx value_to_put })

/-- The squared difference of the real value and the approximation at `i`. -/
def sq_diff (c : ClientLogic) (i : Nat) : ℚ :=
  (c.real_values.getD i 0 - c.current_approximation.getD i 0) ^ 2

/-- The vectors of the client hold the points `0..max_point`. -/
def client_ready (c : ClientLogic) : Prop :=
  0 ≤ c.max_point ∧ c.max_point < c.current_approximation.length ∧
    c.max_point < c.real_values.length

instance (c : ClientLogic) : Decidable (client_ready c) := by
  unfold client_ready; infer_instance

/-- A client that received the coefficients `0 0 0 1` (the polynomial `x ^ 3`,
`N = 3`) and has not seen a STATE yet. -/
def c40_client : ClientLogic :=
  { is_auto_strategy := true, coeffs := [0, 0, 0, 1], N := 3, K := 0, K_set := false,
    current_approximation := [0, 0], real_values := [0, 1] }

/-- The server's record of that player. -/
def c40_player : PlayerInfo := { c17_player with coefficients := [0, 0, 0, 1] }

/-- A server with `K = 10000` and `N = 3`. -/
def c40_server : ServerLogic := { c17_server with K := 10000, N := 3, players := [(5, c40_player)] }

/-- A client with `K = 2` and the real values `1, 3, 9`, whose approximation is
`1, 0, 3`: the differences are `0, 3, 6`. -/
def c37_client : ClientLogic :=
  { is_auto_strategy := true, coeffs := [1, 2], N := 1, K := 2, K_set := true,
    current_approximation := [1, 0, 3], real_values := [1, 3, 9] }

/-- The call is a HELLO that `handle_hello` accepts (it returns true). -/
def accepted_hello (s : ServerLogic) : ServerOp → Bool
  | .message _ client_fd msg =>
    match msg.fields with
    | .hello player_id =>
      is_client_connected s client_fd &&
        (match handle_hello s client_fd player_id with
          | some (_, true) => true
          | _ => false)
    | _ => false
  | _ => false

/-- The number of HELLOs accepted in a list of calls. -/
def hellos_accepted : ServerLogic → List ServerOp → Nat
  | _, [] => 0
  | s, op :: ops =>
    match op.apply s with
    | none => 0
    | some s1 => (if accepted_hello s op then 1 else 0) + hellos_accepted s1 ops

/-- A freshly constructed server whose coefficient file begins with an empty
line, followed by the line `COEFF 1 2`. -/
def c36_init : ServerLogic := { c19_init with coeff_file := [[], "COEFF 1 2\r".toList] }

/-- A client connects on descriptor 5. -/
def c36_ops : List ServerOp :=
  [.register 5 "127.0.0.1".toList 40000, .schedule 0 5 "127.0.0.1".toList 40000]

/-- The state of the server `c36_init` after the calls `c36_ops`. -/
def c36_state : ServerLogic := (run_ops c36_init c36_ops).getD c36_init

/-- A server with `M = 1` whose coefficient file holds three lines, after a
client connected on descriptor 5. -/
def c36_server : ServerLogic :=
  register_new_client
    { c20_init with
      coeff_file := ["COEFF 1 2\r".toList, "COEFF 3 4\r".toList, "COEFF 5 6\r".toList] }
    5 "127.0.0.1".toList 40000

/-- Descriptor 5 says HELLO, the game ends with its put, the server is reset,
and descriptor 6 connects and says HELLO in the next game. -/
def c36_two_games : List ServerOp :=
  [.message 1000000000 5 ⟨"HELLO abc\r\n".toList, ["abc".toList], .hello "abc".toList⟩,
    .message 2000000000 5 ⟨"PUT 0 3\r\n".toList, ["0".toList, "3".toList], .put 0 3⟩,
    .restart,
    .register 6 "127.0.0.1".toList 40001,
    .message 9000000000 6 ⟨"HELLO def\r\n".toList, ["def".toList], .hello "def".toList⟩]

/-! ## `std::regex_match` on the stack of the process -/

/-- The number of characters of `params` the library's matcher consumes on its
deepest path through `([a-zA-Z0-9\-\.]+ )*[a-zA-Z0-9\-\.]+`: class characters,
and a space that follows a class character, up to the first character that
admits no step; `after_char` says that the last character consumed was a class
character. -/
def regex_walk : Bool → Str → Nat
  | _, [] => 0
  | after_char, c :: rest =>
    if param_char c then regex_walk true rest + 1
    else if c = ' ' ∧ after_char = true then regex_walk false rest + 1
    else 0

/-- The call `std::regex_match(params, params_regex)` as the library executes
it: depth first, with one nested call for every character consumed.
`stack_chars` is the number of characters whose nested calls the stack of the
process holds (it depends on the stack limit the process is started with);
`none` where the stack overflows and the process is killed, otherwise the value
`params_regex_match` of the match. -/
def regex_match (stack_chars : Nat) (params : Str) : Option Bool :=
  if stack_chars < regex_walk false params then none else some (params_regex_match params)

namespace OnStack

/-- The function `Message::splitParams` on a stack of `stack_chars`: `none`
where `std::regex_match` kills the process, `some none` where the function
returns false, the vector of parameters otherwise. -/
def splitParams (stack_chars : Nat) (params : Str) : Option (Option (List Str)) :=
  if params.isEmpty then some (some [])
  else
    match regex_match stack_chars params with
    | none => none
    | some matched =>
      if !matched then some none
      else some (some ((params.splitOn ' ').filter (fun t => !t.isEmpty)))

/-- The function `Message::createMessage(line)` on a stack of `stack_chars`:
`none` where the process is killed, `some none` where it returns `nullptr`. -/
def Message.createMessage (stack_chars : Nat) (line : Str) : Option (Option Message) :=
  if line.length < 2 ∨ line.drop (line.length - 2) ≠ crlf then some none
  else
    let cmd_params_str := line.take (line.length - 2)
    match extractCommandAndParams cmd_params_str with
    | none => some none
    | some (command_str, params_str) =>
      match OnStack.splitParams stack_chars params_str with
      | none => none
      | some none => some none
      | some (some params) =>
        some ((parse_fields command_str params).map (fun f => ⟨line, params, f⟩))

/-- The function `Message::createMessageWithCRLF` on a stack of `stack_chars`. -/
def Message.createMessageWithCRLF (stack_chars : Nat) (line : Str) : Option (Option Message) :=
  OnStack.Message.createMessage stack_chars (line ++ crlf)

/-- The function `HelloMessage::createMessage` on a stack of `stack_chars`. -/
def HelloMessage.createMessage (stack_chars : Nat) (player_id : Str) :
    Option (Option Message) :=
  OnStack.Message.createMessageWithCRLF stack_chars ("HELLO ".toList ++ player_id)

/-- The function `CoeffMessage::createMessage` on a stack of `stack_chars`. -/
def CoeffMessage.createMessage (stack_chars : Nat) (coeffs : List ℚ) :
    Option (Option Message) :=
  if coeffs.isEmpty then some none
  else OnStack.Message.createMessageWithCRLF stack_chars ("COEFF ".toList ++ doubles_str coeffs)

/-- The function `PutMessage::createMessage` on a stack of `stack_chars`. -/
def PutMessage.createMessage (stack_chars : Nat) (point : Int) (value : ℚ) :
    Option (Option Message) :=
  OnStack.Message.createMessageWithCRLF stack_chars
    ("PUT ".toList ++ to_string point ++ [' '] ++ doubleToString value)

/-- The function `BadPutMessage::createMessage` on a stack of `stack_chars`. -/
def BadPutMessage.createMessage (stack_chars : Nat) (point : Int) (value : ℚ) :
    Option (Option Message) :=
  OnStack.Message.createMessageWithCRLF stack_chars
    ("BAD_PUT ".toList ++ to_string point ++ [' '] ++ doubleToString value)

/-- The function `StateMessage::createMessage` on a stack of `stack_chars`. -/
def StateMessage.createMessage (stack_chars : Nat) (approx_values : List ℚ) :
    Option (Option Message) :=
  if approx_values.isEmpty then some none
  else
    OnStack.Message.createMessageWithCRLF stack_chars
      ("STATE ".toList ++ doubles_str approx_values)

/-- The function `PenaltyMessage::createMessage` on a stack of `stack_chars`. -/
def PenaltyMessage.createMessage (stack_chars : Nat) (point : Int) (value : ℚ) :
    Option (Option Message) :=
  OnStack.Message.createMessageWithCRLF stack_chars
    ("PENALTY ".toList ++ to_string point ++ [' '] ++ doubleToString value)

/-- The function `ScoringMessage::createMessage` on a stack of `stack_chars`. -/
def ScoringMessage.createMessage (stack_chars : Nat) (player_ids : List Str)
    (scores : List ℚ) : Option (Option Message) :=
  if player_ids.length ≠ scores.length then some none
  else
    let player_scores := sort_player_scores (player_ids.zip scores)
    let msg_str := player_scores.foldl
      (fun acc ps => acc ++ (ps.1 ++ [' '] ++ doubleToString ps.2 ++ [' '])) "SCORING ".toList
    OnStack.Message.createMessageWithCRLF stack_chars msg_str.dropLast

/-- The function `ServerLogic::send_scoring_messages` on a stack of
`stack_chars`; `none` where the process is killed or dereferences a null
message. -/
def send_scoring_messages (stack_chars : Nat) (s : ServerLogic) : Option ServerLogic :=
  let known := s.players.filter (fun e => e.2.is_known)
  let ids := known.map (fun e => e.2.id)
  let scores := known.map (fun e => calculate_score s e.2)
  match OnStack.ScoringMessage.createMessage stack_chars ids scores with
  | none => none
  | some none => none
  | some (some scoring_msg) =>
    some (known.foldl (fun acc e => append_message_back acc e.1 scoring_msg.raw_message) s)

/-- The function `ServerLogic::game_over` on a stack of `stack_chars`. -/
def game_over (stack_chars : Nat) (s : ServerLogic) : Option ServerLogic :=
  (OnStack.send_scoring_messages stack_chars s).map (fun s1 => { s1 with stopping := true })

/-- The function `ServerLogic::respond_with_penalty` on a stack of
`stack_chars`; `none` where the process is killed or dereferences a null
message. -/
def respond_with_penalty (stack_chars : Nat) (s : ServerLogic) (client_fd : Int) (point : Int)
    (value : ℚ) : Option ServerLogic :=
  let s1 := modify_player s client_fd (fun p =>
    { p with penalty := p.penalty + early_put_penalty, can_put := true })
  match OnStack.PenaltyMessage.createMessage stack_chars point value with
  | none => none
  | some none => none
  | some (some penalty_msg) => some (append_message_back s1 client_fd penalty_msg.raw_message)

/-- The function `ServerLogic::handle_put` for a connected client, at time
`now`, on a stack of `stack_chars`: the state afterwards and the return value;
`none` where the process is killed or dereferences a null message. -/
def handle_put (stack_chars : Nat) (s : ServerLogic) (now : Int) (client_fd : Int)
    (point : Int) (value : ℚ) : Option (ServerLogic × Bool) :=
  match find_player s.players client_fd with
  | none => none
  | some player =>
    if !player.is_known then some (s, false)
    else
      let after_penalty : Option ServerLogic :=
        if !player.can_put then OnStack.respond_with_penalty stack_chars s client_fd point value
        else some s
      match after_penalty with
      | none => none
      | some s1 =>
        let s2 := modify_player s1 client_fd (fun p => { p with can_put := false })
        let out_of_range : Bool := decide (point < 0 ∨ point > s.K ∨
          value + eps < min_put_value ∨ value - eps > max_put_value)
        let s3 := if out_of_range then respond_with_bad_put s2 now client_fd point value else s2
        let successful_put := player.can_put && !out_of_range
        if !successful_put then some (s3, false)
        else
          let s4 := modify_player s3 client_fd (fun p =>
            { p with
              correct_puts := p.correct_puts + 1
              approximations := add_at p.approximations point.toNat value })
          let s5 := { s4 with total_correct_puts := s4.total_correct_puts + 1 }
          match find_player s5.players client_fd with
          | none => none
          | some p5 =>
            match OnStack.StateMessage.createMessage stack_chars p5.approximations with
            | none => none
            | some none => none
            | some (some state_msg) =>
              let s6 := respond_with_state s5 now client_fd state_msg.raw_message
              if s6.total_correct_puts ≥ s6.M then
                (OnStack.game_over stack_chars s6).map (fun s7 => (s7, true))
              else some (s6, true)

end OnStack

/-- The approximations of a game with `K = max_k`: 10001 zeros. -/
@[irreducible] def c18_approximations : List ℚ := List.replicate 10001 0

/-- A known player of a game with `K = max_k` who may put. -/
def c18_player : PlayerInfo :=
  { id := "abc".toList, ip := "127.0.0.1".toList, port := 40000, messages := [],
    approximations := c18_approximations, coefficients := [1, 2], penalty := 0,
    is_known := true, correct_puts := 0, can_put := true, delay := 3 }

/-- A server with `K = max_k = 10000`, `N = 1`, `M = 5` and the player
`c18_player`. -/
def c18_server : ServerLogic :=
  { K := 10000, N := 1, M := 5, total_correct_puts := 0, coeff_file := [],
    players := [(5, c18_player)], events := [], stopping := false }

end APX

/-! # Theorems -/

namespace PTS

/-! ## Signed 64-bit arithmetic -/

theorem wrap64_of_range (x : Int) (h1 : -(2 ^ 63) ≤ x) (h2 : x < 2 ^ 63) : wrap64 x = x := by
  unfold wrap64; omega

theorem toInt64_of_lt (u : Nat) (h : u < 2 ^ 63) : toInt64 u = (u : Int) := by
  unfold toInt64; apply wrap64_of_range <;> omega

theorem wrap64_regroup (a b c d : Int) :
    wrap64 (wrap64 (wrap64 (a - b) + c) - d) = wrap64 (wrap64 (a - b) + wrap64 (c - d)) := by
  unfold wrap64; omega

/-- The state after an accepted DELAY_RESPONSE, field by field. -/
theorem handle_delay_response_accepted (clk : Clock) (nd : NodeData) (msg : List Nat)
    (sender_addr : SockAddr) (h : delay_response_accepted nd msg sender_addr) :
    (handle_delay_response clk nd msg sender_addr).1 =
      { nd with
        T4 := msg_timestamp msg
        next_sync_start :=
          if nd.sync_level ≥ 254 ∧ msg_sync_level msg + 1 < 254 then
            set_event_in_x_seconds (clk.rd 0) 0
          else nd.next_sync_start
        sync_level := (msg_sync_level msg + 1) % 256
        offset_ms := Int.tdiv (wrap64 (wrap64 (wrap64 (toInt64 nd.T2 - toInt64 nd.T1) +
          toInt64 nd.T3) - toInt64 (msg_timestamp msg))) 2
        synchronized_peer := sender_addr
        next_sync_check := set_event_in_x_seconds (clk.rd 1) SYNCHRONIZATION_CHECK_DELAY
        synchronizing := false } := by
  obtain ⟨h1, h2, h3, h4, h5⟩ := h
  have h5' : ¬ msg_timestamp msg < nd.T1 := by omega
  have e8 : (2 : Nat) ^ 8 = 256 := by norm_num
  unfold handle_delay_response
  rw [if_neg (by simp [h1, MESSAGE_SIZE, SYNCHRONIZED_SIZE, TIMESTAMP_SIZE]),
    if_neg (by simp [h2, h3]), if_neg (by simp [h4, h5'])]
  simp only [CLOCK_UNSYNCHRONIZED, update_offset, e8]
  by_cases hc : nd.sync_level ≥ 255 - 1 ∧ msg_sync_level msg + 1 < 255 - 1
  · rw [if_pos hc, if_pos (by omega)]
  · rw [if_neg hc, if_neg (by omega)]

theorem handle_delay_response_offset (clk : Clock) (nd : NodeData) (msg : List Nat)
    (sender_addr : SockAddr) (h : delay_response_accepted nd msg sender_addr) :
    (handle_delay_response clk nd msg sender_addr).1.offset_ms =
      Int.tdiv (wrap64 (wrap64 (wrap64 (toInt64 nd.T2 - toInt64 nd.T1) + toInt64 nd.T3) -
        toInt64 (msg_timestamp msg))) 2 := by
  rw [handle_delay_response_accepted clk nd msg sender_addr h]

theorem handle_delay_response_level (clk : Clock) (nd : NodeData) (msg : List Nat)
    (sender_addr : SockAddr) (h : delay_response_accepted nd msg sender_addr) :
    (handle_delay_response clk nd msg sender_addr).1.sync_level =
      (msg_sync_level msg + 1) % 256 := by
  rw [handle_delay_response_accepted clk nd msg sender_addr h]

/-- Claim C1. Whenever `handle_delay_response` accepts a DELAY_RESPONSE (10
bytes, node synchronizing, sender equal to `peer_to_sync`, advertised level equal
to `synchronizing_level`, timestamp `T4 ≥ T1`), the offset afterwards is
`((T2 - T1) + (T3 - T4)) / 2` evaluated on signed 64-bit values with C division,
which is the exact integer formula when the four timestamps are below `2 ^ 61`;
and with `T1 = 1000`, `T2 = 1005`, `T3 = 1006`, `T4 = 1011` and sender level 0
the result is `offset_ms = 0` and `sync_level = 1`. -/
theorem C1_delay_response_offset (clk : Clock) (nd : NodeData) (msg : List Nat)
    (sender_addr : SockAddr) (h : delay_response_accepted nd msg sender_addr) :
    (handle_delay_response clk nd msg sender_addr).1.offset_ms =
        Int.tdiv (wrap64 (wrap64 (toInt64 nd.T2 - toInt64 nd.T1) +
          wrap64 (toInt64 nd.T3 - toInt64 (msg_timestamp msg)))) 2 ∧
      (nd.T1 < 2 ^ 61 → nd.T2 < 2 ^ 61 → nd.T3 < 2 ^ 61 → msg_timestamp msg < 2 ^ 61 →
        (handle_delay_response clk nd msg sender_addr).1.offset_ms =
          Int.tdiv (((nd.T2 : Int) - nd.T1) + ((nd.T3 : Int) - msg_timestamp msg)) 2) ∧
      (nd.T1 = 1000 → nd.T2 = 1005 → nd.T3 = 1006 → msg_timestamp msg = 1011 →
        msg_sync_level msg = 0 →
        (handle_delay_response clk nd msg sender_addr).1.offset_ms = 0 ∧
          (handle_delay_response clk nd msg sender_addr).1.sync_level = 1) := by
  rw [handle_delay_response_offset clk nd msg sender_addr h,
    handle_delay_response_level clk nd msg sender_addr h]
  refine ⟨by rw [wrap64_regroup], ?_, ?_⟩
  · intro a b c d
    rw [toInt64_of_lt _ (by omega), toInt64_of_lt _ (by omega), toInt64_of_lt _ (by omega),
      toInt64_of_lt _ (by omega)]
    rw [wrap64_of_range ((nd.T2 : Int) - nd.T1) (by omega) (by omega)]
    rw [wrap64_of_range ((nd.T2 : Int) - nd.T1 + nd.T3) (by omega) (by omega)]
    rw [wrap64_of_range ((nd.T2 : Int) - nd.T1 + nd.T3 - msg_timestamp msg) (by omega) (by omega)]
    congr 1; ring
  · intro a b c d e
    rw [a, b, c, d, e]
    decide

theorem C1_delay_response_offset_witness :
    delay_response_accepted c1_node (create_delay_response_message 0 1011) ⟨16777343, 20480⟩ ∧
      (handle_delay_response c1_clock c1_node (create_delay_response_message 0 1011)
        ⟨16777343, 20480⟩).1.offset_ms = 0 ∧
      (handle_delay_response c1_clock c1_node (create_delay_response_message 0 1011)
        ⟨16777343, 20480⟩).1.sync_level = 1 :=
  ⟨by decide,
    (C1_delay_response_offset c1_clock c1_node (create_delay_response_message 0 1011)
      ⟨16777343, 20480⟩ (by decide)).2.2 rfl rfl rfl (by decide) (by decide)⟩

/-! ## Byte order -/

theorem and_255 (x : Nat) : x &&& 255 = x % 256 := Nat.and_pow_two_sub_one_eq_mod x 8

theorem lor_eq_add_of_lt (i a b : Nat) (hb : b < 2 ^ i) : 2 ^ i * a ||| b = 2 ^ i * a + b :=
  (Nat.mul_add_lt_is_or hb a).symm

theorem htonl_eq (x : Nat) :
    htonl x = (x % 256) * 16777216 + (x / 256 % 256) * 65536 + (x / 65536 % 256) * 256 +
      x / 16777216 % 256 := by
  unfold htonl
  simp only [Nat.shiftLeft_eq, Nat.shiftRight_eq_div_pow]
  have h255 : (0xFF : Nat) = 255 := rfl
  rw [h255, and_255, and_255, and_255, and_255]
  have e1 : x % 2 ^ 32 % 256 * 2 ^ 24 = 2 ^ 24 * (x % 256) := by omega
  have e2 : 2 ^ 24 * (x % 256) + x % 2 ^ 32 / 2 ^ 8 % 256 * 2 ^ 16 =
      2 ^ 16 * ((x % 256) * 256 + x / 256 % 256) := by omega
  have e3 : 2 ^ 16 * ((x % 256) * 256 + x / 256 % 256) + x % 2 ^ 32 / 2 ^ 16 % 256 * 2 ^ 8 =
      2 ^ 8 * (((x % 256) * 256 + x / 256 % 256) * 256 + x / 65536 % 256) := by omega
  rw [e1, lor_eq_add_of_lt 24 _ _ (by omega), e2, lor_eq_add_of_lt 16 _ _ (by omega), e3,
    lor_eq_add_of_lt 8 _ _ (by omega)]
  omega

theorem htonl_lt (x : Nat) : htonl x < 2 ^ 32 := by
  rw [htonl_eq]; omega

theorem htonll_eq (x : Nat) :
    htonll x = htonl (x % 4294967296) * 4294967296 + htonl (x / 4294967296) := by
  unfold htonll
  have hm : (0xFFFFFFFF : Nat) = 2 ^ 32 - 1 := rfl
  rw [hm, Nat.and_pow_two_sub_one_eq_mod, Nat.shiftLeft_eq, Nat.shiftRight_eq_div_pow]
  have p32 : (2 : Nat) ^ 32 = 4294967296 := by norm_num
  have p64 : (2 : Nat) ^ 64 = 18446744073709551616 := by norm_num
  have h1 := htonl_lt (x % 4294967296)
  have h2 := htonl_lt (x / 4294967296)
  rw [p32] at h1 h2 ⊢
  rw [p64]
  have e : htonl (x % 4294967296) * 4294967296 % 18446744073709551616 =
      2 ^ 32 * htonl (x % 4294967296) := by omega
  rw [e, lor_eq_add_of_lt 32 _ _ (by rw [p32]; exact h2)]
  omega

theorem ntohll_eq_htonll (x : Nat) : ntohll x = htonll x := rfl

theorem be_bytes (b0 b1 b2 b3 b4 b5 b6 b7 : Nat) (h0 : b0 < 256) (h1 : b1 < 256) (h2 : b2 < 256)
    (h3 : b3 < 256) (h4 : b4 < 256) (h5 : b5 < 256) (h6 : b6 < 256) (h7 : b7 < 256) (y : Nat)
    (hy : y = b0 + 256 * b1 + 65536 * b2 + 16777216 * b3 + 4294967296 * b4 + 1099511627776 * b5 +
      281474976710656 * b6 + 72057594037927936 * b7) :
    y % 256 = b0 ∧ y / 256 % 256 = b1 ∧ y / 65536 % 256 = b2 ∧ y / 16777216 % 256 = b3 ∧
      y / 4294967296 % 256 = b4 ∧ y / 1099511627776 % 256 = b5 ∧
      y / 281474976710656 % 256 = b6 ∧ y / 72057594037927936 % 256 = b7 := by
  refine ⟨by omega, by omega, by omega, by omega, by omega, by omega, by omega, by omega⟩

theorem byte_decomp (x : Nat) (hx : x < 18446744073709551616) :
    x = x % 256 + 256 * (x / 256 % 256) + 65536 * (x / 65536 % 256) +
      16777216 * (x / 16777216 % 256) + 4294967296 * (x / 4294967296 % 256) +
      1099511627776 * (x / 1099511627776 % 256) + 281474976710656 * (x / 281474976710656 % 256) +
      72057594037927936 * (x / 72057594037927936 % 256) := by
  omega

theorem htonll_bytes (x : Nat) (hx : x < 18446744073709551616) :
    htonll x = (x % 256) * 72057594037927936 + (x / 256 % 256) * 281474976710656 +
      (x / 65536 % 256) * 1099511627776 + (x / 16777216 % 256) * 4294967296 +
      (x / 4294967296 % 256) * 16777216 + (x / 1099511627776 % 256) * 65536 +
      (x / 281474976710656 % 256) * 256 + x / 72057594037927936 % 256 := by
  rw [htonll_eq x, htonl_eq, htonl_eq]
  have hd := byte_decomp x hx
  have g0 : x % 256 < 256 := Nat.mod_lt _ (by norm_num)
  have g1 : x / 256 % 256 < 256 := Nat.mod_lt _ (by norm_num)
  have g2 : x / 65536 % 256 < 256 := Nat.mod_lt _ (by norm_num)
  have g3 : x / 16777216 % 256 < 256 := Nat.mod_lt _ (by norm_num)
  have g4 : x / 4294967296 % 256 < 256 := Nat.mod_lt _ (by norm_num)
  have g5 : x / 1099511627776 % 256 < 256 := Nat.mod_lt _ (by norm_num)
  have g6 : x / 281474976710656 % 256 < 256 := Nat.mod_lt _ (by norm_num)
  have g7 : x / 72057594037927936 % 256 < 256 := Nat.mod_lt _ (by norm_num)
  generalize x % 256 = b0 at hd g0 ⊢
  generalize x / 256 % 256 = b1 at hd g1 ⊢
  generalize x / 65536 % 256 = b2 at hd g2 ⊢
  generalize x / 16777216 % 256 = b3 at hd g3 ⊢
  generalize x / 4294967296 % 256 = b4 at hd g4 ⊢
  generalize x / 1099511627776 % 256 = b5 at hd g5 ⊢
  generalize x / 281474976710656 % 256 = b6 at hd g6 ⊢
  generalize x / 72057594037927936 % 256 = b7 at hd g7 ⊢
  have lo : x % 4294967296 = b0 + 256 * b1 + 65536 * b2 + 16777216 * b3 := by omega
  have hi : x / 4294967296 = b4 + 256 * b5 + 65536 * b6 + 16777216 * b7 := by omega
  rw [lo, hi]
  have l0 : (b0 + 256 * b1 + 65536 * b2 + 16777216 * b3) % 256 = b0 := by omega
  have l1 : (b0 + 256 * b1 + 65536 * b2 + 16777216 * b3) / 256 % 256 = b1 := by omega
  have l2 : (b0 + 256 * b1 + 65536 * b2 + 16777216 * b3) / 65536 % 256 = b2 := by omega
  have l3 : (b0 + 256 * b1 + 65536 * b2 + 16777216 * b3) / 16777216 % 256 = b3 := by omega
  have m0 : (b4 + 256 * b5 + 65536 * b6 + 16777216 * b7) % 256 = b4 := by omega
  have m1 : (b4 + 256 * b5 + 65536 * b6 + 16777216 * b7) / 256 % 256 = b5 := by omega
  have m2 : (b4 + 256 * b5 + 65536 * b6 + 16777216 * b7) / 65536 % 256 = b6 := by omega
  have m3 : (b4 + 256 * b5 + 65536 * b6 + 16777216 * b7) / 16777216 % 256 = b7 := by omega
  simp only [l0, l1, l2, l3, m0, m1, m2, m3]
  ring

theorem htonll_lt (x : Nat) (hx : x < 18446744073709551616) :
    htonll x < 18446744073709551616 := by
  rw [htonll_bytes x hx]; omega

theorem ntohll_htonll (x : Nat) (hx : x < 18446744073709551616) : ntohll (htonll x) = x := by
  have hy := htonll_bytes x hx
  have hyl := htonll_lt x hx
  rw [ntohll_eq_htonll, htonll_bytes _ hyl]
  have hd := byte_decomp x hx
  have g0 : x % 256 < 256 := Nat.mod_lt _ (by norm_num)
  have g1 : x / 256 % 256 < 256 := Nat.mod_lt _ (by norm_num)
  have g2 : x / 65536 % 256 < 256 := Nat.mod_lt _ (by norm_num)
  have g3 : x / 16777216 % 256 < 256 := Nat.mod_lt _ (by norm_num)
  have g4 : x / 4294967296 % 256 < 256 := Nat.mod_lt _ (by norm_num)
  have g5 : x / 1099511627776 % 256 < 256 := Nat.mod_lt _ (by norm_num)
  have g6 : x / 281474976710656 % 256 < 256 := Nat.mod_lt _ (by norm_num)
  have g7 : x / 72057594037927936 % 256 < 256 := Nat.mod_lt _ (by norm_num)
  generalize x % 256 = b0 at hd g0 hy
  generalize x / 256 % 256 = b1 at hd g1 hy
  generalize x / 65536 % 256 = b2 at hd g2 hy
  generalize x / 16777216 % 256 = b3 at hd g3 hy
  generalize x / 4294967296 % 256 = b4 at hd g4 hy
  generalize x / 1099511627776 % 256 = b5 at hd g5 hy
  generalize x / 281474976710656 % 256 = b6 at hd g6 hy
  generalize x / 72057594037927936 % 256 = b7 at hd g7 hy
  obtain ⟨e0, e1, e2, e3, e4, e5, e6, e7⟩ :=
    be_bytes b7 b6 b5 b4 b3 b2 b1 b0 g7 g6 g5 g4 g3 g2 g1 g0 (htonll x) (by rw [hy]; ring)
  rw [e0, e1, e2, e3, e4, e5, e6, e7, hd]
  ring

theorem memcpy_out_htonll (ts : Nat) (hts : ts < 18446744073709551616) :
    memcpy_out TIMESTAMP_SIZE (htonll ts) = be64 ts := by
  have hy := htonll_bytes ts hts
  have g0 : ts % 256 < 256 := Nat.mod_lt _ (by norm_num)
  have g1 : ts / 256 % 256 < 256 := Nat.mod_lt _ (by norm_num)
  have g2 : ts / 65536 % 256 < 256 := Nat.mod_lt _ (by norm_num)
  have g3 : ts / 16777216 % 256 < 256 := Nat.mod_lt _ (by norm_num)
  have g4 : ts / 4294967296 % 256 < 256 := Nat.mod_lt _ (by norm_num)
  have g5 : ts / 1099511627776 % 256 < 256 := Nat.mod_lt _ (by norm_num)
  have g6 : ts / 281474976710656 % 256 < 256 := Nat.mod_lt _ (by norm_num)
  have g7 : ts / 72057594037927936 % 256 < 256 := Nat.mod_lt _ (by norm_num)
  obtain ⟨e0, e1, e2, e3, e4, e5, e6, e7⟩ :=
    be_bytes _ _ _ _ _ _ _ _ g7 g6 g5 g4 g3 g2 g1 g0 (htonll ts) (by rw [hy]; ring)
  simp only [TIMESTAMP_SIZE, memcpy_out, be64, Nat.div_div_eq_div_mul]
  norm_num only
  rw [e0, e1, e2, e3, e4, e5, e6, e7]

theorem memcpy_in_be64 (ts : Nat) (hts : ts < 18446744073709551616) :
    memcpy_in (be64 ts) = htonll ts := by
  rw [htonll_bytes ts hts]
  simp only [be64, memcpy_in]
  ring

theorem be64_length (ts : Nat) : (be64 ts).length = 8 := rfl

theorem msg_timestamp_encoded (t l ts : Nat) (hts : ts < 18446744073709551616) :
    msg_timestamp (t :: l :: be64 ts) = ts := by
  have h : ((t :: l :: be64 ts).drop (MESSAGE_SIZE + SYNCHRONIZED_SIZE)).take TIMESTAMP_SIZE =
      be64 ts := by
    simp [MESSAGE_SIZE, SYNCHRONIZED_SIZE, TIMESTAMP_SIZE, be64]
  unfold msg_timestamp
  rw [h, memcpy_in_be64 ts hts, ntohll_htonll ts hts]

/-- Claim C8. For SYNC_START (11), DELAY_RESPONSE (13) and TIME (32), every
level `l` and every 64-bit timestamp `ts`, the encoder writes exactly 10 bytes:
the type, `l`, then the eight bytes of `ts` most significant first; the decoding
of the handlers (byte 1, then `ntohll` of bytes 2..9) returns `(l, ts)`; and
`ntohll (htonll x) = x` for every 64-bit `x`. -/
theorem C8_level_timestamp_codec (l ts : Nat) (hts : ts < 2 ^ 64) :
    create_sync_start_message l ts = 11 :: l :: be64 ts ∧
      create_delay_response_message l ts = 13 :: l :: be64 ts ∧
      create_time_message l ts = 32 :: l :: be64 ts ∧
      (∀ t, (create_sync_level_and_timestamp_message t l ts).length = 10 ∧
        msg_sync_level (create_sync_level_and_timestamp_message t l ts) = l ∧
        msg_timestamp (create_sync_level_and_timestamp_message t l ts) = ts) ∧
      (∀ x, x < 2 ^ 64 → ntohll (htonll x) = x) := by
  have hts' : ts < 18446744073709551616 := by norm_num at hts; exact hts
  have hm := memcpy_out_htonll ts hts'
  refine ⟨?_, ?_, ?_, ?_, ?_⟩
  · simp only [create_sync_start_message, create_sync_level_and_timestamp_message, hm, SYNC_START]
  · simp only [create_delay_response_message, create_sync_level_and_timestamp_message, hm,
      DELAY_RESPONSE]
  · simp only [create_time_message, create_sync_level_and_timestamp_message, hm, TIME]
  · intro t
    simp only [create_sync_level_and_timestamp_message, hm]
    exact ⟨rfl, rfl, msg_timestamp_encoded t l ts hts'⟩
  · intro x hx
    exact ntohll_htonll x (by norm_num at hx; exact hx)

theorem C8_level_timestamp_codec_witness :
    create_sync_start_message 3 0x0102030405060708 = [11, 3, 1, 2, 3, 4, 5, 6, 7, 8] ∧
      msg_timestamp [11, 3, 1, 2, 3, 4, 5, 6, 7, 8] = 0x0102030405060708 :=
  ⟨(C8_level_timestamp_codec 3 0x0102030405060708 (by norm_num)).1,
    by decide⟩

/-! ## SYNC_START -/

theorem check_sync_start_of_well_formed (nd : NodeData) (msg : List Nat) (sender_addr : SockAddr)
    (h : sync_start_well_formed nd msg sender_addr) : check_sync_start nd msg sender_addr = true := by
  obtain ⟨h1, h2, h3⟩ := h
  unfold check_sync_start
  rw [if_neg (by simp [h1, MESSAGE_SIZE, SYNCHRONIZED_SIZE, TIMESTAMP_SIZE])]
  simp only [h2, CLOCK_UNSYNCHRONIZED]
  rw [if_neg]
  simp; omega

/-- The result of `handle_sync_start` on a well-formed SYNC_START at a node that is not
synchronizing and not synchronized to the sender. -/
theorem handle_sync_start_other (clk : Clock) (nd : NodeData) (msg : List Nat)
    (sender_addr : SockAddr) (hwf : sync_start_well_formed nd msg sender_addr)
    (hs : nd.synchronizing = false) (hn : ¬ synchronized_to nd sender_addr) :
    handle_sync_start clk nd msg sender_addr =
      if msg_sync_level msg + 1 ≥ nd.sync_level then (nd, [])
      else handshake_begun clk nd msg sender_addr := by
  have hc := check_sync_start_of_well_formed nd msg sender_addr hwf
  have hn' : (decide (nd.sync_level < CLOCK_UNSYNCHRONIZED) &&
      equal_addr sender_addr nd.synchronized_peer) = false := by
    unfold synchronized_to at hn
    simp only [CLOCK_UNSYNCHRONIZED]
    cases he : equal_addr sender_addr nd.synchronized_peer <;> simp_all
  unfold handle_sync_start
  simp only [hc, hs, hn']
  rfl

/-- The result of `handle_sync_start` on a well-formed SYNC_START at a node that is not
synchronizing and is synchronized to the sender. -/
theorem handle_sync_start_same (clk : Clock) (nd : NodeData) (msg : List Nat)
    (sender_addr : SockAddr) (hwf : sync_start_well_formed nd msg sender_addr)
    (hs : nd.synchronizing = false) (hn : synchronized_to nd sender_addr) :
    handle_sync_start clk nd msg sender_addr =
      if msg_sync_level msg ≥ nd.sync_level then
        ({ nd with sync_level := CLOCK_UNSYNCHRONIZED, offset_ms := 0 }, [])
      else handshake_begun clk { nd with
        next_sync_check := set_event_in_x_seconds (clk.rd 1) SYNCHRONIZATION_CHECK_DELAY }
        msg sender_addr := by
  have hc := check_sync_start_of_well_formed nd msg sender_addr hwf
  have hn' : (decide (nd.sync_level < CLOCK_UNSYNCHRONIZED) &&
      equal_addr sender_addr nd.synchronized_peer) = true := by
    unfold synchronized_to at hn
    simp only [CLOCK_UNSYNCHRONIZED]
    simp [hn.1, hn.2]
  unfold handle_sync_start
  simp only [hc, hs, hn']
  rfl

/-- Claim C9. At a node that is not synchronizing and not synchronized to the
sender, a well-formed SYNC_START from a member of `peer_list` advertising a
level below 254 begins the handshake (DELAY_REQUEST sent to the sender,
`synchronizing`, `synchronizing_level`, `peer_to_sync`, `T1`, `T2` set) if and
only if the sender's level plus one is below the node's `sync_level`; otherwise
the state is unchanged and nothing is sent. -/
theorem C9_sync_start_strict_improvement (clk : Clock) (nd : NodeData) (msg : List Nat)
    (sender_addr : SockAddr) (hwf : sync_start_well_formed nd msg sender_addr)
    (hs : nd.synchronizing = false) (hn : ¬ synchronized_to nd sender_addr) :
    (handle_sync_start clk nd msg sender_addr = handshake_begun clk nd msg sender_addr ↔
        msg_sync_level msg + 1 < nd.sync_level) ∧
      (¬ msg_sync_level msg + 1 < nd.sync_level →
        handle_sync_start clk nd msg sender_addr = (nd, [])) ∧
      (handshake_begun clk nd msg sender_addr).2 = [⟨sender_addr, [DELAY_REQUEST]⟩] ∧
      (handshake_begun clk nd msg sender_addr).1.synchronizing = true ∧
      (handshake_begun clk nd msg sender_addr).1.synchronizing_level = msg_sync_level msg ∧
      (handshake_begun clk nd msg sender_addr).1.peer_to_sync = sender_addr ∧
      (handshake_begun clk nd msg sender_addr).1.T1 = msg_timestamp msg ∧
      (handshake_begun clk nd msg sender_addr).1.T2 = clk.natural 0 := by
  rw [handle_sync_start_other clk nd msg sender_addr hwf hs hn]
  refine ⟨⟨?_, ?_⟩, ?_, rfl, rfl, rfl, rfl, rfl, rfl⟩
  · intro h
    by_contra hlt
    rw [if_pos (by omega)] at h
    have := congrArg (fun r => r.2.length) h
    simp [handshake_begun] at this
  · intro h
    rw [if_neg (by omega)]
  · intro h
    rw [if_pos (by omega)]

theorem C9_sync_start_strict_improvement_witness :
    handle_sync_start c9_clock c9_node (create_sync_start_message 0 1000) ⟨16777343, 20480⟩ =
      handshake_begun c9_clock c9_node (create_sync_start_message 0 1000) ⟨16777343, 20480⟩ :=
  (C9_sync_start_strict_improvement c9_clock c9_node (create_sync_start_message 0 1000)
    ⟨16777343, 20480⟩ (by decide) (by decide) (by decide)).1.2 (by decide)

/-- Claim C10, refuted as stated: a node at level 253 that is not synchronizing
and is synchronized to another peer drops a well-formed SYNC_START of a known
peer advertising level 252 (252 + 1 is not below 253). -/
theorem C10_level_252_from_other_peer_dropped :
    c10_node.sync_level = 253 ∧ c10_node.synchronizing = false ∧
      sync_start_well_formed c10_node (create_sync_start_message 252 1000) ⟨16777343, 20480⟩ ∧
      msg_sync_level (create_sync_start_message 252 1000) = 252 ∧
      handle_sync_start c9_clock c10_node (create_sync_start_message 252 1000)
        ⟨16777343, 20480⟩ = (c10_node, []) := by
  decide

/-- Claim C10, amended. At a node at level 253 that is not synchronizing, a
well-formed SYNC_START from a known peer advertising level 253 starts no
handshake (nothing is sent, `synchronizing` stays false; the state is unchanged
unless the sender is the synchronized peer, in which case the node becomes
unsynchronized); one advertising level 252 starts the handshake exactly when the
sender is the node's synchronized peer, is dropped with no state change
otherwise, and when it is accepted the matching DELAY_RESPONSE leaves the node
at level 253. -/
theorem C10_level_253_boundary (clk clk2 : Clock) (nd : NodeData) (msg : List Nat)
    (sender_addr : SockAddr) (hl : nd.sync_level = 253) (hs : nd.synchronizing = false)
    (hwf : sync_start_well_formed nd msg sender_addr) :
    (msg_sync_level msg = 253 →
      (handle_sync_start clk nd msg sender_addr).2 = [] ∧
        (handle_sync_start clk nd msg sender_addr).1.synchronizing = false ∧
        (¬ synchronized_to nd sender_addr → handle_sync_start clk nd msg sender_addr = (nd, [])) ∧
        (synchronized_to nd sender_addr →
          (handle_sync_start clk nd msg sender_addr).1.sync_level = 255)) ∧
      (msg_sync_level msg = 252 →
        (¬ synchronized_to nd sender_addr → handle_sync_start clk nd msg sender_addr = (nd, [])) ∧
        (synchronized_to nd sender_addr →
          handle_sync_start clk nd msg sender_addr =
              handshake_begun clk { nd with
                next_sync_check := set_event_in_x_seconds (clk.rd 1) SYNCHRONIZATION_CHECK_DELAY }
                msg sender_addr ∧
            ∀ msg2 : List Nat, msg2.length = 10 → msg_sync_level msg2 = 252 →
              msg_timestamp msg ≤ msg_timestamp msg2 →
              (handle_delay_response clk2 (handle_sync_start clk nd msg sender_addr).1 msg2
                sender_addr).1.sync_level = 253)) := by
  constructor
  · intro h253
    by_cases hsy : synchronized_to nd sender_addr
    · rw [handle_sync_start_same clk nd msg sender_addr hwf hs hsy, if_pos (by omega)]
      exact ⟨rfl, hs, fun hn => absurd hsy hn, fun _ => rfl⟩
    · rw [handle_sync_start_other clk nd msg sender_addr hwf hs hsy, if_pos (by omega)]
      exact ⟨rfl, hs, fun _ => rfl, fun hn => absurd hn hsy⟩
  · intro h252
    constructor
    · intro hsy
      rw [handle_sync_start_other clk nd msg sender_addr hwf hs hsy, if_pos (by omega)]
    · intro hsy
      rw [handle_sync_start_same clk nd msg sender_addr hwf hs hsy, if_neg (by omega)]
      refine ⟨rfl, ?_⟩
      intro msg2 hlen hlvl hts
      have hse : equal_addr sender_addr sender_addr = true := by simp [equal_addr]
      rw [handle_delay_response_level clk2 _ msg2 sender_addr
        ⟨hlen, rfl, hse, by rw [hlvl]; exact h252.symm, hts⟩, hlvl]

theorem C10_level_253_boundary_witness :
    (handle_delay_response c6_clock
      (handle_sync_start c9_clock c10_node (create_sync_start_message 252 1000)
        ⟨16777343, 20736⟩).1 (create_delay_response_message 252 1011)
        ⟨16777343, 20736⟩).1.sync_level = 253 :=
  ((C10_level_253_boundary c9_clock c6_clock c10_node (create_sync_start_message 252 1000)
    ⟨16777343, 20736⟩ (by decide) (by decide) (by decide)).2 (by decide)).2 (by decide)
    |>.2 (create_delay_response_message 252 1011) (by decide) (by decide) (by decide)

/-! ## DELAY_REQUEST -/

/-- Claim C6, the code at the failing input: a DELAY_REQUEST from a member of
`asked_to_synchronize` received 6 ms after `last_sync_start` (well within 5 s)
gets no reply, because the handler compares the millisecond clock with
`last_sync_start + DELAY_RESPONSE_TIME`, that is with 5 ms. -/
theorem C6_delay_request_dropped_after_5ms :
    peer_list_contains c6_node.asked_to_synchronize ⟨16777343, 20480⟩ = true ∧
      c6_node.last_sync_start = 1000 ∧ c6_clock.natural 1 = 1006 ∧
      c6_clock.natural 1 ≤ c6_node.last_sync_start + 5000 ∧
      handle_delay_request c6_clock c6_node [DELAY_REQUEST] ⟨16777343, 20480⟩ =
        (c6_node, []) := by
  decide

/-- What `handle_delay_request` does on a one-byte DELAY_REQUEST: it replies
exactly when the sender is in `asked_to_synchronize` and the receive time is at
most `last_sync_start + 5` on the millisecond clock; it never changes the state. -/
theorem handle_delay_request_spec (clk : Clock) (nd : NodeData) (sender_addr : SockAddr)
    (hl : nd.last_sync_start + 5 < 2 ^ 64) :
    (handle_delay_request clk nd [DELAY_REQUEST] sender_addr).1 = nd ∧
      (handle_delay_request clk nd [DELAY_REQUEST] sender_addr).2 =
        if peer_list_contains nd.asked_to_synchronize sender_addr = true ∧
            clk.natural 1 ≤ nd.last_sync_start + 5 then
          [⟨sender_addr, create_delay_response_message nd.sync_level
            (get_clock nd (clk.natural 0))⟩]
        else [] := by
  unfold handle_delay_request
  simp only [List.length_singleton, MESSAGE_SIZE, DELAY_RESPONSE_TIME, ne_eq, not_true_eq_false,
    if_false, Nat.mod_eq_of_lt hl]
  by_cases h1 : peer_list_contains nd.asked_to_synchronize sender_addr = true
  · by_cases h2 : clk.natural 1 ≤ nd.last_sync_start + 5
    · have h2' : ¬ clk.natural 1 > nd.last_sync_start + 5 := by omega
      simp [h1, h2, h2']
    · have h2' : clk.natural 1 > nd.last_sync_start + 5 := by omega
      simp [h1, h2, h2']
  · simp [h1]

/-! ## Reachable states -/

theorem reachable_run (nd : NodeData) (es : List Event) (h : Reachable nd)
    (hes : ∀ e ∈ es, e.well_formed) : Reachable (run nd es) := by
  induction es generalizing nd with
  | nil => exact h
  | cons e es ih =>
    apply ih
    · exact Reachable.step nd e h (hes e (List.mem_cons_self e es))
    · intro e' he'
      exact hes e' (List.mem_cons_of_mem e he')

theorem handle_hello_sync_fields (nd : NodeData) (msg : List Nat) (a : SockAddr) :
    sync_fields (handle_hello nd msg a).1 = sync_fields nd := by
  unfold handle_hello
  split
  · rfl
  · split
    · rfl
    · split
      · rfl
      · dsimp only
        split <;> rfl

theorem handle_hello_reply_sync_fields (nd : NodeData) (msg : List Nat) (a : SockAddr) :
    sync_fields (handle_hello_reply nd msg a).1 = sync_fields nd := by
  unfold handle_hello_reply
  split <;> rfl

theorem handle_connect_sync_fields (nd : NodeData) (msg : List Nat) (a : SockAddr) :
    sync_fields (handle_connect nd msg a).1 = sync_fields nd := by
  unfold handle_connect
  split_ifs <;> rfl

theorem handle_ack_connect_sync_fields (nd : NodeData) (msg : List Nat) (a : SockAddr) :
    sync_fields (handle_ack_connect nd msg a).1 = sync_fields nd := by
  unfold handle_ack_connect
  split_ifs <;> rfl

theorem handle_delay_request_sync_fields (clk : Clock) (nd : NodeData) (msg : List Nat)
    (a : SockAddr) : sync_fields (handle_delay_request clk nd msg a).1 = sync_fields nd := by
  unfold handle_delay_request
  simp only
  split_ifs <;> rfl

theorem handle_get_time_sync_fields (clk : Clock) (nd : NodeData) (msg : List Nat)
    (a : SockAddr) : sync_fields (handle_get_time clk nd msg a).1 = sync_fields nd := by
  unfold handle_get_time
  split_ifs <;> rfl

theorem level_inv_of_sync_fields (nd nd1 : NodeData) (h : sync_fields nd1 = sync_fields nd)
    (hi : level_inv nd) : level_inv nd1 := by
  unfold sync_fields at h
  simp only [Prod.mk.injEq] at h
  unfold level_inv at *
  rw [h.1, h.2.1, h.2.2]
  exact hi

theorem handle_sync_start_level_inv (clk : Clock) (nd : NodeData) (msg : List Nat) (a : SockAddr)
    (hi : level_inv nd) : level_inv (handle_sync_start clk nd msg a).1 := by
  unfold handle_sync_start
  simp only
  split
  · exact hi
  · rename_i hc
    have hlv : msg_sync_level msg ≤ 253 := by
      unfold check_sync_start at hc
      simp only [CLOCK_UNSYNCHRONIZED] at hc
      split at hc
      · simp at hc
      · split at hc
        · simp at hc
        · rename_i h2
          simp at h2
          omega
    split
    · exact hi
    · split
      · split
        · exact ⟨by simp [CLOCK_UNSYNCHRONIZED], by intro h; exact hi.2 h⟩
        · exact ⟨hi.1, fun _ => hlv⟩
      · split
        · exact hi
        · exact ⟨hi.1, fun _ => hlv⟩

/-- A DELAY_RESPONSE that is not accepted changes nothing and sends nothing. -/
theorem handle_delay_response_rejected (clk : Clock) (nd : NodeData) (msg : List Nat)
    (a : SockAddr) (h : ¬ delay_response_accepted nd msg a) :
    handle_delay_response clk nd msg a = (nd, []) := by
  unfold handle_delay_response
  split
  · rfl
  · split
    · rfl
    · dsimp only
      split
      · rfl
      · exfalso
        apply h
        rename_i h1 h2 h3
        simp only [MESSAGE_SIZE, SYNCHRONIZED_SIZE, TIMESTAMP_SIZE, ne_eq, not_not] at h1
        simp only [Bool.or_eq_true, Bool.not_eq_true', not_or, Bool.not_eq_false] at h2
        exact ⟨h1, h2.1, h2.2, by omega, by omega⟩

theorem handle_delay_response_level_inv (clk : Clock) (nd : NodeData) (msg : List Nat)
    (a : SockAddr) (hi : level_inv nd) : level_inv (handle_delay_response clk nd msg a).1 := by
  by_cases h : delay_response_accepted nd msg a
  · rw [handle_delay_response_accepted clk nd msg a h]
    exact ⟨by show (msg_sync_level msg + 1) % 256 ≤ 255; omega, by intro h; simp at h⟩
  · rw [handle_delay_response_rejected clk nd msg a h]
    exact hi
theorem handle_leader_level_inv (clk : Clock) (nd : NodeData) (msg : List Nat) (a : SockAddr)
    (hi : level_inv nd) : level_inv (handle_leader clk nd msg a).1 := by
  unfold handle_leader
  simp only
  split_ifs
  · exact hi
  · exact ⟨by simp [CLOCK_LEADER], hi.2⟩
  · exact hi
  · exact ⟨by simp [CLOCK_UNSYNCHRONIZED], hi.2⟩
  · exact hi

theorem check_and_handle_timers_level_inv (clk : Clock) (nd : NodeData) (hi : level_inv nd) :
    level_inv (check_and_handle_timers clk nd).1 := by
  unfold check_and_handle_timers
  simp only
  split_ifs <;> first | exact hi | exact ⟨by simp [CLOCK_UNSYNCHRONIZED], hi.2⟩

theorem handle_message_level_inv (clk : Clock) (nd : NodeData) (msg : List Nat) (a : SockAddr)
    (hi : level_inv nd) : level_inv (handle_message clk nd msg a).1 := by
  unfold handle_message
  simp only
  split_ifs
  · exact level_inv_of_sync_fields _ _ (handle_hello_sync_fields nd msg a) hi
  · exact level_inv_of_sync_fields _ _ (handle_hello_reply_sync_fields nd msg a) hi
  · exact level_inv_of_sync_fields _ _ (handle_connect_sync_fields nd msg a) hi
  · exact level_inv_of_sync_fields _ _ (handle_ack_connect_sync_fields nd msg a) hi
  · exact handle_sync_start_level_inv clk nd msg a hi
  · exact level_inv_of_sync_fields _ _ (handle_delay_request_sync_fields clk nd msg a) hi
  · exact handle_delay_response_level_inv clk nd msg a hi
  · exact handle_leader_level_inv clk nd msg a hi
  · exact level_inv_of_sync_fields _ _ (handle_get_time_sync_fields clk nd msg a) hi
  · exact hi

theorem step_level_inv (nd : NodeData) (e : Event) (hi : level_inv nd) :
    level_inv (step nd e).1 := by
  cases e with
  | timers clk => exact check_and_handle_timers_level_inv clk nd hi
  | message clk msg a => exact handle_message_level_inv clk nd msg a hi

theorem reachable_level_inv (nd : NodeData) (h : Reachable nd) : level_inv nd := by
  induction h with
  | init nd hi =>
    obtain ⟨h1, -, -, h4, -⟩ := hi
    exact ⟨by rw [h1]; simp [CLOCK_UNSYNCHRONIZED], by intro h; rw [h4] at h; simp at h⟩
  | step nd e _ _ ih => exact step_level_inv nd e ih

theorem handle_sync_start_sync_level (clk : Clock) (nd : NodeData) (msg : List Nat)
    (a : SockAddr) :
    (handle_sync_start clk nd msg a).1.sync_level = nd.sync_level ∨
      (handle_sync_start clk nd msg a).1.sync_level = 255 := by
  unfold handle_sync_start
  dsimp only
  split_ifs <;> first | exact Or.inl rfl | exact Or.inr rfl

theorem handle_leader_sync_level (clk : Clock) (nd : NodeData) (msg : List Nat) (a : SockAddr) :
    (handle_leader clk nd msg a).1.sync_level = nd.sync_level ∨
      (handle_leader clk nd msg a).1.sync_level = 0 ∨
      (handle_leader clk nd msg a).1.sync_level = 255 := by
  unfold handle_leader
  dsimp only
  split_ifs <;>
    first | exact Or.inl rfl | exact Or.inr (Or.inl rfl) | exact Or.inr (Or.inr rfl)

theorem check_and_handle_timers_sync_level (clk : Clock) (nd : NodeData) :
    (check_and_handle_timers clk nd).1.sync_level = nd.sync_level ∨
      (check_and_handle_timers clk nd).1.sync_level = 255 := by
  unfold check_and_handle_timers
  dsimp only
  split_ifs <;> first | exact Or.inl rfl | exact Or.inr rfl

theorem sync_level_of_sync_fields (nd nd1 : NodeData) (h : sync_fields nd1 = sync_fields nd) :
    nd1.sync_level = nd.sync_level := by
  unfold sync_fields at h
  simp only [Prod.mk.injEq] at h
  exact h.1

/-- A step that takes the level to 254 from another level is an accepted
DELAY_RESPONSE advertising level 253. -/
theorem step_to_254 (nd : NodeData) (e : Event) (hi : level_inv nd)
    (h : (step nd e).1.sync_level = 254) :
    nd.sync_level = 254 ∨ ∃ clk msg a, e = .message clk msg a ∧ msg.getD 0 0 = DELAY_RESPONSE ∧
      msg_sync_level msg = 253 ∧ delay_response_accepted nd msg a := by
  cases e with
  | timers clk =>
    left
    rcases check_and_handle_timers_sync_level clk nd with h1 | h1 <;>
      simp only [step] at h <;> omega
  | message clk msg a =>
    simp only [step] at h
    unfold handle_message at h
    dsimp only at h
    split_ifs at h with t1 t2 t3 t4 t5 t6 t7 t8 t9
    · left; rw [sync_level_of_sync_fields _ _ (handle_hello_sync_fields nd msg a)] at h; exact h
    · left
      rw [sync_level_of_sync_fields _ _ (handle_hello_reply_sync_fields nd msg a)] at h; exact h
    · left; rw [sync_level_of_sync_fields _ _ (handle_connect_sync_fields nd msg a)] at h; exact h
    · left
      rw [sync_level_of_sync_fields _ _ (handle_ack_connect_sync_fields nd msg a)] at h; exact h
    · left
      rcases handle_sync_start_sync_level clk nd msg a with h1 | h1 <;> omega
    · left
      rw [sync_level_of_sync_fields _ _ (handle_delay_request_sync_fields clk nd msg a)] at h
      exact h
    · by_cases hacc : delay_response_accepted nd msg a
      · right
        rw [handle_delay_response_level clk nd msg a hacc] at h
        have hb : msg_sync_level msg ≤ 253 := by
          rw [hacc.2.2.2.1]; exact hi.2 hacc.2.1
        exact ⟨clk, msg, a, rfl, t7, by omega, hacc⟩
      · left
        rw [handle_delay_response_rejected clk nd msg a hacc] at h; exact h
    · left
      rcases handle_leader_sync_level clk nd msg a with h1 | h1 | h1 <;> omega
    · left
      rw [sync_level_of_sync_fields _ _ (handle_get_time_sync_fields clk nd msg a)] at h; exact h
    · left; exact h

theorem c3_events_well_formed : ∀ e ∈ c3_events, e.well_formed := by
  intro e he
  simp only [c3_events, List.mem_cons, List.mem_singleton, List.mem_nil_iff, or_false] at he
  rcases he with h | h | h | h | h | h <;> subst h <;>
    simp only [Event.well_formed] <;> decide

/-- Claim C3, refuted as stated: from a freshly initialized node (level 255) the
events `c3_events` (a peer connects, advertises level 253 in a SYNC_START and
answers the DELAY_REQUEST) lead to a reachable state with `sync_level = 254`. -/
theorem C3_level_254_reachable :
    initial c3_node ∧ (∀ e ∈ c3_events, e.well_formed) ∧ Reachable (run c3_node c3_events) ∧
      (run c3_node c3_events).sync_level = 254 :=
  ⟨by decide, c3_events_well_formed,
    reachable_run c3_node c3_events (Reachable.init _ (by decide)) c3_events_well_formed,
    by decide⟩

/-- Claim C3, amended. In every state reachable from an initial state (level
255) by received datagrams and timer steps, `sync_level` is in
`{0, 1..254, 255}`; while a handshake is pending the advertised level it will
adopt is at most 253, so a DELAY_RESPONSE never sets a level above 254; and a
step takes the node to level 254 only by accepting a DELAY_RESPONSE that
advertises level 253. -/
theorem C3_sync_level_range (nd : NodeData) (h : Reachable nd) :
    nd.sync_level ≤ 255 ∧ (nd.synchronizing = true → nd.synchronizing_level ≤ 253) ∧
      ∀ e : Event, (step nd e).1.sync_level = 254 →
        nd.sync_level = 254 ∨ ∃ clk msg a, e = .message clk msg a ∧
          msg.getD 0 0 = DELAY_RESPONSE ∧ msg_sync_level msg = 253 ∧
          delay_response_accepted nd msg a :=
  ⟨(reachable_level_inv nd h).1, (reachable_level_inv nd h).2,
    fun e he => step_to_254 nd e (reachable_level_inv nd h) he⟩

theorem C3_sync_level_range_witness : (run c3_node c3_events).sync_level ≤ 255 :=
  (C3_sync_level_range (run c3_node c3_events)
    (reachable_run c3_node c3_events (Reachable.init _ (by decide)) c3_events_well_formed)).1

/-- Claim C11. At a node that is not synchronizing, has `sync_level < 255` and
is synchronized to the sender, a well-formed SYNC_START whose advertised level
is at least the node's `sync_level` makes the node unsynchronized (`sync_level`
255, `offset_ms` 0), sends nothing and leaves `synchronizing` false; one whose
advertised level is below the node's `sync_level` sets `next_sync_check` to the
current reading plus 20 s and begins the handshake (DELAY_REQUEST to the sender,
`synchronizing` set). -/
theorem C11_sync_start_from_synchronized_peer (clk : Clock) (nd : NodeData) (msg : List Nat)
    (sender_addr : SockAddr) (hwf : sync_start_well_formed nd msg sender_addr)
    (hs : nd.synchronizing = false) (hn : synchronized_to nd sender_addr) :
    (msg_sync_level msg ≥ nd.sync_level →
        handle_sync_start clk nd msg sender_addr =
            ({ nd with sync_level := 255, offset_ms := 0 }, []) ∧
          (handle_sync_start clk nd msg sender_addr).1.synchronizing = false) ∧
      (msg_sync_level msg < nd.sync_level →
        handle_sync_start clk nd msg sender_addr =
            handshake_begun clk
              { nd with next_sync_check := ⟨(clk.rd 1).tv_sec + 20, (clk.rd 1).tv_nsec⟩ }
              msg sender_addr ∧
          (handle_sync_start clk nd msg sender_addr).2 = [⟨sender_addr, [DELAY_REQUEST]⟩] ∧
          (handle_sync_start clk nd msg sender_addr).1.synchronizing = true ∧
          (handle_sync_start clk nd msg sender_addr).1.next_sync_check =
            ⟨(clk.rd 1).tv_sec + 20, (clk.rd 1).tv_nsec⟩ ∧
          (handle_sync_start clk nd msg sender_addr).1.sync_level = nd.sync_level ∧
          (handle_sync_start clk nd msg sender_addr).1.offset_ms = nd.offset_ms) := by
  rw [handle_sync_start_same clk nd msg sender_addr hwf hs hn]
  refine ⟨fun h => ?_, fun h => ?_⟩
  · rw [if_pos h]
    exact ⟨rfl, hs⟩
  · rw [if_neg (by omega)]
    exact ⟨rfl, rfl, rfl, rfl, rfl, rfl⟩

theorem C11_sync_start_from_synchronized_peer_witness :
    (handle_sync_start c9_clock c10_node (create_sync_start_message 253 1000)
        ⟨16777343, 20736⟩).1.sync_level = 255 ∧
      (handle_sync_start c9_clock c10_node (create_sync_start_message 5 1000)
        ⟨16777343, 20736⟩).2 = [⟨⟨16777343, 20736⟩, [DELAY_REQUEST]⟩] :=
  ⟨by
    rw [((C11_sync_start_from_synchronized_peer c9_clock c10_node
      (create_sync_start_message 253 1000) ⟨16777343, 20736⟩ (by decide) (by decide)
      (by decide)).1 (by decide)).1],
   ((C11_sync_start_from_synchronized_peer c9_clock c10_node (create_sync_start_message 5 1000)
      ⟨16777343, 20736⟩ (by decide) (by decide) (by decide)).2 (by decide)).2.1⟩

/-- Claim C12. The function `handle_delay_response` changes the node state only
when the message has exactly 10 bytes, the node is synchronizing, the sender
equals `peer_to_sync`, the advertised level equals `synchronizing_level` and
the timestamp is at least `T1`: then `sync_level` is the sender's level plus one
(as a byte; exactly plus one in every reachable state, where the level of a
pending handshake is at most 253), `synchronized_peer` is the sender,
`next_sync_check` is the current reading plus 20 s and `synchronizing` is
false. In every other case the state is returned unchanged, and nothing is sent
in either case. -/
theorem C12_delay_response_guard (clk : Clock) (nd : NodeData) (msg : List Nat)
    (sender_addr : SockAddr) :
    (delay_response_accepted nd msg sender_addr →
        (handle_delay_response clk nd msg sender_addr).1.sync_level =
            (msg_sync_level msg + 1) % 256 ∧
          (Reachable nd →
            (handle_delay_response clk nd msg sender_addr).1.sync_level =
              msg_sync_level msg + 1) ∧
          (handle_delay_response clk nd msg sender_addr).1.synchronized_peer = sender_addr ∧
          (handle_delay_response clk nd msg sender_addr).1.next_sync_check =
            ⟨(clk.rd 1).tv_sec + 20, (clk.rd 1).tv_nsec⟩ ∧
          (handle_delay_response clk nd msg sender_addr).1.synchronizing = false) ∧
      (¬ delay_response_accepted nd msg sender_addr →
        handle_delay_response clk nd msg sender_addr = (nd, [])) ∧
      (handle_delay_response clk nd msg sender_addr).2 = [] := by
  refine ⟨fun h => ?_, fun h => handle_delay_response_rejected clk nd msg sender_addr h, ?_⟩
  · rw [handle_delay_response_accepted clk nd msg sender_addr h]
    refine ⟨rfl, fun hr => ?_, rfl, rfl, rfl⟩
    have hi := (reachable_level_inv nd hr).2 h.2.1
    have hl := h.2.2.2.1
    show (msg_sync_level msg + 1) % 256 = msg_sync_level msg + 1
    omega
  · by_cases h : delay_response_accepted nd msg sender_addr
    · obtain ⟨h1, h2, h3, h4, h5⟩ := h
      unfold handle_delay_response
      rw [if_neg (by simp [h1, MESSAGE_SIZE, SYNCHRONIZED_SIZE, TIMESTAMP_SIZE]),
        if_neg (by simp [h2, h3]), if_neg (by simp [h4]; omega)]
    · rw [handle_delay_response_rejected clk nd msg sender_addr h]

theorem C12_delay_response_guard_witness :
    (handle_delay_response c1_clock c1_node (create_delay_response_message 0 1011)
        ⟨16777343, 20480⟩).1.synchronizing = false ∧
      handle_delay_response c1_clock c1_node (create_delay_response_message 1 1011)
        ⟨16777343, 20480⟩ = (c1_node, []) :=
  ⟨((C12_delay_response_guard c1_clock c1_node (create_delay_response_message 0 1011)
      ⟨16777343, 20480⟩).1 (by decide)).2.2.2.2,
   (C12_delay_response_guard c1_clock c1_node (create_delay_response_message 1 1011)
      ⟨16777343, 20480⟩).2.1 (by decide)⟩

/-- Claim C15. For every node state and every 2-byte LEADER message: payload 0
sets `sync_level` to 0 and `next_sync_start` to the current reading plus 2 s;
payload 255 sets `sync_level` to 255 if the node is at level 0 and changes
nothing otherwise; any other payload changes nothing. No field other than
those named changes and nothing is sent. -/
theorem C15_leader_directive (clk : Clock) (nd : NodeData) (msg : List Nat)
    (sender_addr : SockAddr) (hlen : msg.length = 2) :
    (msg_sync_level msg = 0 →
        handle_leader clk nd msg sender_addr =
          ({ nd with
              sync_level := 0
              next_sync_start := ⟨(clk.rd 0).tv_sec + 2, (clk.rd 0).tv_nsec⟩ }, [])) ∧
      (msg_sync_level msg = 255 → nd.sync_level = 0 →
        handle_leader clk nd msg sender_addr = ({ nd with sync_level := 255 }, [])) ∧
      (msg_sync_level msg = 255 → nd.sync_level ≠ 0 →
        handle_leader clk nd msg sender_addr = (nd, [])) ∧
      (msg_sync_level msg ≠ 0 → msg_sync_level msg ≠ 255 →
        handle_leader clk nd msg sender_addr = (nd, [])) := by
  unfold handle_leader
  rw [if_neg (by simp [hlen, MESSAGE_SIZE, SYNCHRONIZED_SIZE])]
  simp only [CLOCK_LEADER, CLOCK_UNSYNCHRONIZED]
  refine ⟨fun h => ?_, fun h h0 => ?_, fun h h0 => ?_, fun h h0 => ?_⟩
  · rw [if_pos h]; rfl
  · rw [if_neg (by omega), if_pos h, if_neg (by simp [h0])]
  · rw [if_neg (by omega), if_pos h, if_pos h0]
  · rw [if_neg h, if_neg h0]

theorem C15_leader_directive_witness :
    (handle_leader c9_clock c9_node [LEADER, 0] ⟨16777343, 20480⟩).1.sync_level = 0 ∧
      (handle_leader c9_clock c9_node [LEADER, 0] ⟨16777343, 20480⟩).1.next_sync_start =
        ⟨3, 5000000⟩ ∧
      handle_leader c9_clock c6_node [LEADER, 255] ⟨16777343, 20480⟩ =
        ({ c6_node with sync_level := 255 }, []) ∧
      handle_leader c9_clock c10_node [LEADER, 255] ⟨16777343, 20480⟩ = (c10_node, []) ∧
      handle_leader c9_clock c10_node [LEADER, 7] ⟨16777343, 20480⟩ = (c10_node, []) :=
  ⟨by rw [(C15_leader_directive c9_clock c9_node [LEADER, 0] ⟨16777343, 20480⟩ rfl).1 rfl],
   by rw [(C15_leader_directive c9_clock c9_node [LEADER, 0] ⟨16777343, 20480⟩ rfl).1 rfl]; rfl,
   (C15_leader_directive c9_clock c6_node [LEADER, 255] ⟨16777343, 20480⟩ rfl).2.1 rfl rfl,
   (C15_leader_directive c9_clock c10_node [LEADER, 255] ⟨16777343, 20480⟩ rfl).2.2.1 rfl
     (by decide),
   (C15_leader_directive c9_clock c10_node [LEADER, 7] ⟨16777343, 20480⟩ rfl).2.2.2
     (by decide) (by decide)⟩

/-! ## The synchronized clock and GET_TIME -/

theorem get_clock_lt (nd : NodeData) (t : Nat) : get_clock nd t < 18446744073709551616 := by
  unfold get_clock toUInt64
  dsimp only
  split
  · omega
  · split
    · omega
    · omega

theorem create_time_message_eq (l ts : Nat) (hts : ts < 18446744073709551616) :
    create_time_message l ts = TIME :: l :: be64 ts := by
  unfold create_time_message create_sync_level_and_timestamp_message
  rw [memcpy_out_htonll ts hts]

/-- Claim C16. For every node state and natural time `t` in the range where the
cast to `int64_t` keeps the value (`t < 2 ^ 63`, `offset_ms` an `int64_t`):
`get_clock` returns `max 0 (t - offset_ms)` when `sync_level < 255` and `t`
itself when `sync_level = 255`. A 1-byte GET_TIME leaves the state unchanged
and is answered with one 10-byte TIME message to the sender: the type byte 32,
the node's `sync_level`, and the value of `get_clock` in big-endian order. -/
theorem C16_get_clock_and_time (nd : NodeData) (t : Nat) (ht : t < 2 ^ 63)
    (ho1 : -(2 ^ 63) ≤ nd.offset_ms) (ho2 : nd.offset_ms < 2 ^ 63) :
    (nd.sync_level < 255 → ((get_clock nd t : Nat) : Int) = max 0 ((t : Int) - nd.offset_ms)) ∧
      (nd.sync_level = 255 → get_clock nd t = t) ∧
      (∀ (clk : Clock) (msg : List Nat) (sender_addr : SockAddr), msg.length = 1 →
        handle_get_time clk nd msg sender_addr =
            (nd, [⟨sender_addr, 32 :: nd.sync_level :: be64 (get_clock nd (clk.natural 0))⟩]) ∧
          (32 :: nd.sync_level :: be64 (get_clock nd (clk.natural 0))).length = 10) := by
  refine ⟨fun h => ?_, fun h => ?_, fun clk msg sender_addr hlen => ⟨?_, rfl⟩⟩
  · unfold get_clock
    dsimp only
    rw [if_neg (by simp only [CLOCK_UNSYNCHRONIZED]; omega), toInt64_of_lt t ht]
    unfold toUInt64 wrap64
    split <;> omega
  · unfold get_clock
    dsimp only
    rw [if_pos (by simp only [CLOCK_UNSYNCHRONIZED]; omega), toInt64_of_lt t ht]
    unfold toUInt64
    omega
  · unfold handle_get_time
    rw [if_neg (by simp [hlen, MESSAGE_SIZE]),
      create_time_message_eq _ _ (get_clock_lt nd _)]
    rfl

theorem C16_get_clock_and_time_witness :
    ((get_clock c10_node 1000 : Nat) : Int) = max 0 ((1000 : Int) - 7) ∧
      get_clock c10_node 3 = 0 ∧ get_clock c9_node 1000 = 1000 ∧
      handle_get_time c9_clock c10_node [GET_TIME] ⟨16777343, 20480⟩ =
        (c10_node, [⟨⟨16777343, 20480⟩, [32, 253, 0, 0, 0, 0, 0, 0, 3, 230]⟩]) :=
  ⟨(C16_get_clock_and_time c10_node 1000 (by norm_num) (by decide) (by decide)).1 (by decide),
   by decide,
   (C16_get_clock_and_time c9_node 1000 (by norm_num) (by decide) (by decide)).2.1 rfl,
   by decide⟩

/-! ## The SYNC_START broadcast of the timer step -/

theorem send_sync_starts_dest (clk : Clock) (nd : NodeData) :
    ∀ (l : List SockAddr) (i : Nat), (send_sync_starts clk nd i l).map (fun d => d.dest) = l := by
  intro l
  induction l with
  | nil => intro i; rfl
  | cons a l ih => intro i; simp only [send_sync_starts, List.map_cons, ih]

theorem send_sync_starts_get (clk : Clock) (nd : NodeData) :
    ∀ (l : List SockAddr) (i j : Nat) (hj : j < l.length),
      (send_sync_starts clk nd i l)[j]? =
        some ⟨l[j], create_sync_start_message nd.sync_level
          (get_clock nd (clk.natural (4 + (i + j))))⟩ := by
  intro l
  induction l with
  | nil => intro i j hj; simp at hj
  | cons a l ih =>
    intro i j hj
    cases j with
    | zero => simp [send_sync_starts]
    | succ j =>
      simp only [send_sync_starts, List.getElem?_cons_succ, List.getElem_cons_succ]
      rw [ih (i + 1) j (by simpa using hj)]
      have e : i + 1 + j = i + (j + 1) := by omega
      rw [e]

theorem create_sync_start_message_eq (l ts : Nat) (hts : ts < 18446744073709551616) :
    create_sync_start_message l ts = SYNC_START :: l :: be64 ts := by
  unfold create_sync_start_message create_sync_level_and_timestamp_message
  rw [memcpy_out_htonll ts hts]

theorem connect_records_bytes :
    ∀ (recs : List (Nat × SockAddr)) (waiting : List SockAddr),
      ∀ d ∈ (connect_records waiting recs).2, d.bytes = [CONNECT] := by
  intro recs
  induction recs with
  | nil => intro waiting d hd; simp [connect_records] at hd
  | cons r recs ih =>
    intro waiting d hd
    obtain ⟨n, a⟩ := r
    simp only [connect_records, List.mem_cons] at hd
    rcases hd with hd | hd
    · rw [hd]; rfl
    · exact ih _ d hd

/-- No handler of a received datagram sends a SYNC_START. -/
theorem handle_message_no_sync_start (clk : Clock) (nd : NodeData) (msg : List Nat)
    (sender_addr : SockAddr) :
    ∀ d ∈ (handle_message clk nd msg sender_addr).2, d.bytes.head? ≠ some SYNC_START := by
  intro d hd
  unfold handle_message at hd
  dsimp only at hd
  split_ifs at hd
  · unfold handle_hello at hd
    split_ifs at hd
    · simp at hd
    · simp at hd
    · split at hd
      · simp at hd
      · rename_i bytes hb
        have hbytes : bytes.head? = some HELLO_REPLY := by
          unfold create_hello_reply_message at hb
          dsimp only at hb
          split_ifs at hb
          split at hb
          · simp at hb
          · simp only [Option.some.injEq] at hb
            rw [← hb]; rfl
        dsimp only at hd
        split_ifs at hd
        · simp only [List.mem_singleton] at hd
          rw [hd]; dsimp only; rw [hbytes]; decide
        · simp at hd
  · unfold handle_hello_reply at hd
    split_ifs at hd
    · simp at hd
    · rw [connect_records_bytes _ _ d hd]; decide
  · unfold handle_connect at hd
    split_ifs at hd
    · simp at hd
    · simp at hd
    · simp at hd
    · simp only [List.mem_singleton] at hd
      rw [hd]
      simp [create_ack_connect_message, create_delay_request_message,
        create_delay_response_message, create_time_message,
        create_sync_level_and_timestamp_message, create_simple_message, SYNC_START, ACK_CONNECT,
        DELAY_REQUEST, DELAY_RESPONSE, TIME]
  · unfold handle_ack_connect at hd
    split_ifs at hd <;> simp at hd
  · unfold handle_sync_start at hd
    dsimp only at hd
    split_ifs at hd
    all_goals first
      | (simp at hd; done)
      | (simp only [List.mem_singleton] at hd; rw [hd]
         simp [create_ack_connect_message, create_delay_request_message,
           create_delay_response_message, create_time_message,
           create_sync_level_and_timestamp_message, create_simple_message, SYNC_START, ACK_CONNECT,
           DELAY_REQUEST, DELAY_RESPONSE, TIME])
  · unfold handle_delay_request at hd
    dsimp only at hd
    split_ifs at hd
    · simp at hd
    · simp at hd
    · simp only [List.mem_singleton] at hd
      rw [hd]
      simp [create_ack_connect_message, create_delay_request_message,
        create_delay_response_message, create_time_message,
        create_sync_level_and_timestamp_message, create_simple_message, SYNC_START, ACK_CONNECT,
        DELAY_REQUEST, DELAY_RESPONSE, TIME]
  · unfold handle_delay_response at hd
    dsimp only at hd
    split_ifs at hd <;> simp at hd
  · unfold handle_leader at hd
    dsimp only at hd
    split_ifs at hd <;> simp at hd
  · unfold handle_get_time at hd
    split_ifs at hd
    · simp at hd
    · simp only [List.mem_singleton] at hd
      rw [hd]
      simp [create_ack_connect_message, create_delay_request_message,
        create_delay_response_message, create_time_message,
        create_sync_level_and_timestamp_message, create_simple_message, SYNC_START, ACK_CONNECT,
        DELAY_REQUEST, DELAY_RESPONSE, TIME]
  · simp at hd

/-- Claim C13, refuted as stated: a node at level 1 with a peer, whose
`next_sync_start` has elapsed but whose `next_sync_check` has elapsed too, is
made unsynchronized by the liveness check of the same call and sends no
SYNC_START. -/
theorem C13_elapsed_sync_check_sends_nothing :
    c13_node.sync_level < 254 ∧ c13_node.peer_list ≠ [] ∧
      now_is_after c13_node.next_sync_start (c9_clock.rd 1) = true ∧
      check_and_handle_timers c9_clock c13_node =
        ({ c13_node with sync_level := 255, offset_ms := 0 }, []) := by
  decide

/-- The liveness check of `check_and_handle_timers` leaves a node alone that is
the leader or whose `next_sync_check` has not elapsed. -/
theorem liveness_check_idle (clk : Clock) (nd : NodeData)
    (hc : nd.sync_level = 0 ∨ now_is_after nd.next_sync_check (clk.rd 0) = false) :
    (if CLOCK_LEADER < nd.sync_level ∧ nd.sync_level < CLOCK_UNSYNCHRONIZED then
      if now_is_after nd.next_sync_check (clk.rd 0) = true then
        { nd with sync_level := CLOCK_UNSYNCHRONIZED, offset_ms := 0 }
      else nd
    else nd) = nd := by
  rcases hc with hc | hc
  · rw [if_neg (by simp [CLOCK_LEADER, hc])]
  · rw [hc]; simp

/-- The liveness check of `check_and_handle_timers` makes a node at level 1 to
254 unsynchronized once `next_sync_check` has elapsed. -/
theorem liveness_check_fires (clk : Clock) (nd : NodeData) (h0 : 0 < nd.sync_level)
    (h255 : nd.sync_level < 255) (hn : now_is_after nd.next_sync_check (clk.rd 0) = true) :
    (if CLOCK_LEADER < nd.sync_level ∧ nd.sync_level < CLOCK_UNSYNCHRONIZED then
      if now_is_after nd.next_sync_check (clk.rd 0) = true then
        { nd with sync_level := CLOCK_UNSYNCHRONIZED, offset_ms := 0 }
      else nd
    else nd) = { nd with sync_level := 255, offset_ms := 0 } := by
  rw [if_pos (by simp only [CLOCK_LEADER, CLOCK_UNSYNCHRONIZED]; omega), if_pos hn]
  rfl

/-- The timer step of a node at level 254 or 255 sends nothing. -/
theorem check_and_handle_timers_silent (clk : Clock) (nd : NodeData) (h : 254 ≤ nd.sync_level) :
    (check_and_handle_timers clk nd).2 = [] := by
  unfold check_and_handle_timers
  dsimp only
  simp only [CLOCK_LEADER, CLOCK_UNSYNCHRONIZED]
  split_ifs <;> first | rfl | (exfalso; simp at * <;> omega)

/-- Claim C13, amended. When `check_and_handle_timers` runs at a node with
`sync_level < 254` that the liveness check of the same call leaves alone (it is
the leader, or `next_sync_check` has not elapsed), with `next_sync_start`
elapsed and a non-empty `peer_list`: one SYNC_START carrying the node's
`sync_level` and a reading of its synchronized clock is sent to every member of
`peer_list`, in order; `asked_to_synchronize` becomes `peer_list`,
`last_sync_start` the natural clock and `next_sync_start` the current reading
plus 5 s. A node with `sync_level ≥ 254` sends no SYNC_START in any step, and a
node at level 1 to 254 whose `next_sync_check` has elapsed becomes
unsynchronized in that call and sends nothing. -/
theorem C13_sync_start_broadcast (clk : Clock) (nd : NodeData) (hl : nd.sync_level < 254)
    (hc : nd.sync_level = 0 ∨ now_is_after nd.next_sync_check (clk.rd 0) = false)
    (hs : now_is_after nd.next_sync_start (clk.rd 1) = true) (hp : nd.peer_list ≠ []) :
    check_and_handle_timers clk nd =
        ({ nd with
            asked_to_synchronize := nd.peer_list
            last_sync_start := clk.natural 2
            next_sync_start := ⟨(clk.rd 3).tv_sec + 5, (clk.rd 3).tv_nsec⟩ },
          send_sync_starts clk nd 0 nd.peer_list) ∧
      (send_sync_starts clk nd 0 nd.peer_list).map (fun d => d.dest) = nd.peer_list ∧
      (∀ (j : Nat) (hj : j < nd.peer_list.length),
        (send_sync_starts clk nd 0 nd.peer_list)[j]? =
          some ⟨nd.peer_list[j],
            11 :: nd.sync_level :: be64 (get_clock nd (clk.natural (4 + j)))⟩) ∧
      (∀ (nd2 : NodeData) (e : Event), 254 ≤ nd2.sync_level →
        ∀ d ∈ (step nd2 e).2, d.bytes.head? ≠ some SYNC_START) ∧
      (∀ (nd2 : NodeData) (clk2 : Clock), 0 < nd2.sync_level → nd2.sync_level < 255 →
        now_is_after nd2.next_sync_check (clk2.rd 0) = true →
        check_and_handle_timers clk2 nd2 =
          ({ nd2 with sync_level := 255, offset_ms := 0 }, [])) := by
  refine ⟨?_, send_sync_starts_dest clk nd _ 0, fun j hj => ?_, fun nd2 e h2 d hd => ?_,
    fun nd2 clk2 h0 h255 hn => ?_⟩
  · unfold check_and_handle_timers
    dsimp only
    rw [liveness_check_idle clk nd hc, if_pos (by simp only [CLOCK_UNSYNCHRONIZED]; omega),
      if_pos hs, if_pos hp]
    rfl
  · rw [send_sync_starts_get clk nd _ 0 j hj, create_sync_start_message_eq _ _ (get_clock_lt nd _),
      Nat.zero_add]
    rfl
  · cases e with
    | timers clk2 =>
      have := check_and_handle_timers_silent clk2 nd2 h2
      simp only [step] at hd
      rw [this] at hd
      simp at hd
    | message clk2 msg sender_addr => exact handle_message_no_sync_start clk2 nd2 msg sender_addr d hd
  · unfold check_and_handle_timers
    dsimp only
    rw [liveness_check_fires clk2 nd2 h0 h255 hn]
    rfl

theorem C13_sync_start_broadcast_witness :
    (check_and_handle_timers c13_clock c10_node).2 =
        [⟨⟨16777343, 20480⟩, create_sync_start_message 253 6993⟩,
          ⟨⟨16777343, 20736⟩, create_sync_start_message 253 6993⟩] ∧
      (check_and_handle_timers c13_clock c10_node).1.asked_to_synchronize =
        [⟨16777343, 20480⟩, ⟨16777343, 20736⟩] ∧
      (check_and_handle_timers c13_clock c10_node).1.last_sync_start = 7000 ∧
      (check_and_handle_timers c13_clock c10_node).1.next_sync_start = ⟨12, 0⟩ := by
  rw [(C13_sync_start_broadcast c13_clock c10_node (by decide) (by decide) (by decide)
    (by decide)).1]
  decide

/-! ## The leader level -/

/-- A step that takes the level to 0 from another level is a 2-byte LEADER
message with payload 0. -/
theorem step_to_leader (nd : NodeData) (e : Event) (hi : level_inv nd)
    (h : (step nd e).1.sync_level = 0) :
    nd.sync_level = 0 ∨ ∃ clk msg a, e = .message clk msg a ∧ msg.getD 0 0 = LEADER ∧
      msg.length = 2 ∧ msg_sync_level msg = 0 := by
  cases e with
  | timers clk =>
    left
    rcases check_and_handle_timers_sync_level clk nd with h1 | h1 <;>
      simp only [step] at h <;> omega
  | message clk msg a =>
    simp only [step] at h
    unfold handle_message at h
    dsimp only at h
    split_ifs at h with t1 t2 t3 t4 t5 t6 t7 t8 t9
    · left; rw [sync_level_of_sync_fields _ _ (handle_hello_sync_fields nd msg a)] at h; exact h
    · left
      rw [sync_level_of_sync_fields _ _ (handle_hello_reply_sync_fields nd msg a)] at h; exact h
    · left; rw [sync_level_of_sync_fields _ _ (handle_connect_sync_fields nd msg a)] at h; exact h
    · left
      rw [sync_level_of_sync_fields _ _ (handle_ack_connect_sync_fields nd msg a)] at h; exact h
    · left
      rcases handle_sync_start_sync_level clk nd msg a with h1 | h1 <;> omega
    · left
      rw [sync_level_of_sync_fields _ _ (handle_delay_request_sync_fields clk nd msg a)] at h
      exact h
    · left
      by_cases hacc : delay_response_accepted nd msg a
      · rw [handle_delay_response_level clk nd msg a hacc] at h
        have hb : msg_sync_level msg ≤ 253 := by
          rw [hacc.2.2.2.1]; exact hi.2 hacc.2.1
        omega
      · rw [handle_delay_response_rejected clk nd msg a hacc] at h; exact h
    · by_cases hz : nd.sync_level = 0
      · left; exact hz
      · right
        refine ⟨clk, msg, a, rfl, t8, ?_⟩
        unfold handle_leader at h
        dsimp only at h
        simp only [CLOCK_LEADER, CLOCK_UNSYNCHRONIZED, MESSAGE_SIZE, SYNCHRONIZED_SIZE] at h
        split_ifs at h with u1 u2
        all_goals first
          | exact absurd h hz
          | exact ⟨by omega, u2⟩
    · left
      rw [sync_level_of_sync_fields _ _ (handle_get_time_sync_fields clk nd msg a)] at h; exact h
    · left; exact h

/-- The timer step never changes the level of a leader. -/
theorem check_and_handle_timers_leader (clk : Clock) (nd : NodeData) (h : nd.sync_level = 0) :
    (check_and_handle_timers clk nd).1.sync_level = 0 := by
  unfold check_and_handle_timers
  dsimp only
  rw [liveness_check_idle clk nd (Or.inl h)]
  split_ifs <;> exact h

theorem c14_events_well_formed : ∀ e ∈ c14_events, e.well_formed := by
  intro e he
  simp only [c14_events, List.mem_cons, List.mem_singleton, List.mem_nil_iff, or_false] at he
  rcases he with h | h | h | h | h | h <;> subst h <;>
    simp only [Event.well_formed] <;> decide

theorem c14_events_pending_well_formed : ∀ e ∈ c14_events_pending, e.well_formed := by
  intro e he
  simp only [c14_events_pending, List.mem_cons, List.mem_singleton, List.mem_nil_iff,
    or_false] at he
  rcases he with h | h | h | h <;> subst h <;>
    simp only [Event.well_formed] <;> decide

/-- Claim C14, contradicted by the code. A reachable leader (made leader by
LEADER with payload 0 after it had synchronized to the peer
`⟨16777343, 20480⟩`) is taken from level 0 to level 255 by a well-formed
SYNC_START of that peer advertising level 1: `handle_sync_start` counts a
leader as synchronized to the sender. And a reachable leader with a handshake
pending from before the LEADER directive is taken from level 0 to level 1 by
the DELAY_RESPONSE. -/
theorem C14_leader_demoted_by_sync_start :
    Reachable (run c3_node c14_events) ∧ (run c3_node c14_events).sync_level = 0 ∧
      c14_sync_start.well_formed ∧
      (step (run c3_node c14_events) c14_sync_start).1.sync_level = 255 ∧
      Reachable (run c3_node c14_events_pending) ∧
      (run c3_node c14_events_pending).sync_level = 0 ∧
      c14_delay_response.well_formed ∧
      (step (run c3_node c14_events_pending) c14_delay_response).1.sync_level = 1 :=
  ⟨reachable_run c3_node c14_events (Reachable.init _ (by decide)) c14_events_well_formed,
    by decide, by simp only [c14_sync_start, Event.well_formed]; decide, by decide,
    reachable_run c3_node c14_events_pending (Reachable.init _ (by decide))
      c14_events_pending_well_formed,
    by decide, by simp only [c14_delay_response, Event.well_formed]; decide, by decide⟩

/-! ## Peer lists -/

theorem less_iff (a b : SockAddr) :
    SockaddrInLess a b = true ↔
      a.s_addr < b.s_addr ∨ (a.s_addr = b.s_addr ∧ a.sin_port < b.sin_port) := by
  unfold SockaddrInLess
  split_ifs with h
  · simp only [decide_eq_true_eq]
    constructor
    · intro h1; exact Or.inl h1
    · intro h1
      rcases h1 with h1 | h1
      · exact h1
      · exact absurd h1.1 h
  · simp only [decide_eq_true_eq]
    have h' : a.s_addr = b.s_addr := by
      by_contra hne; exact h hne
    constructor
    · intro h1; exact Or.inr ⟨h', h1⟩
    · intro h1
      rcases h1 with h1 | h1
      · omega
      · exact h1.2

theorem less_irrefl (a : SockAddr) : SockaddrInLess a a = false := by
  cases h : SockaddrInLess a a with
  | false => rfl
  | true => rw [less_iff] at h; omega

theorem less_trans (a b c : SockAddr) (h1 : SockaddrInLess a b = true)
    (h2 : SockaddrInLess b c = true) : SockaddrInLess a c = true := by
  rw [less_iff] at *
  omega

/-- Two addresses are equivalent under the comparator exactly when they have
the same IPv4 address and port. -/
theorem equivalent_iff (p q : SockAddr) :
    (!SockaddrInLess p q && !SockaddrInLess q p) = true ↔
      q.s_addr = p.s_addr ∧ q.sin_port = p.sin_port := by
  have h1 := less_iff p q
  have h2 := less_iff q p
  cases hp : SockaddrInLess p q <;> cases hq : SockaddrInLess q p <;>
    simp only [hp, hq, Bool.not_true, Bool.not_false, Bool.and_self, Bool.and_false,
      Bool.false_and, Bool.false_eq_true, false_iff, true_iff] <;>
    rw [hp] at h1 <;> rw [hq] at h2 <;> simp only [Bool.false_eq_true, false_iff, true_iff] at h1 h2 <;>
    omega

theorem fields_eq (p q : SockAddr) (h : q.s_addr = p.s_addr ∧ q.sin_port = p.sin_port) :
    q = p := by
  cases p; cases q
  simp only [SockAddr.mk.injEq]
  exact h

theorem peer_list_contains_iff (l : List SockAddr) (p : SockAddr) :
    peer_list_contains l p = true ↔ p ∈ l := by
  induction l with
  | nil => simp [peer_list_contains]
  | cons q l ih =>
    unfold peer_list_contains
    split_ifs with h
    · rw [equivalent_iff] at h
      simp [fields_eq p q h]
    · rw [equivalent_iff] at h
      rw [ih, List.mem_cons]
      constructor
      · intro hm; exact Or.inr hm
      · intro hm
        rcases hm with hm | hm
        · exfalso; apply h; rw [hm]; exact ⟨rfl, rfl⟩
        · exact hm

theorem peer_list_contains_false_iff (l : List SockAddr) (p : SockAddr) :
    peer_list_contains l p = false ↔ p ∉ l := by
  rw [← peer_list_contains_iff]
  cases peer_list_contains l p <;> simp

theorem mem_set_insert (l : List SockAddr) (p x : SockAddr) :
    x ∈ set_insert l p ↔ x = p ∨ x ∈ l := by
  induction l with
  | nil => simp [set_insert]
  | cons q l ih =>
    unfold set_insert
    split_ifs with h1 h2
    · rw [List.mem_cons, ih, List.mem_cons]
      tauto
    · rw [List.mem_cons]
    · have he : q = p := by
        apply fields_eq
        rw [← equivalent_iff]
        simp [h1, h2]
      rw [he, List.mem_cons]
      tauto

theorem length_set_insert (l : List SockAddr) (p : SockAddr) (h : p ∉ l) :
    (set_insert l p).length = l.length + 1 := by
  induction l with
  | nil => simp [set_insert]
  | cons q l ih =>
    unfold set_insert
    split_ifs with h1 h2
    · rw [List.length_cons, ih (fun hm => h (List.mem_cons_of_mem _ hm)), List.length_cons]
    · simp
    · exfalso
      apply h
      have he : q = p := by
        apply fields_eq
        rw [← equivalent_iff]
        simp [h1, h2]
      rw [he]; exact List.mem_cons_self _ _

theorem set_sorted_insert (l : List SockAddr) (p : SockAddr) (hs : set_sorted l) :
    set_sorted (set_insert l p) := by
  unfold set_sorted at *
  induction l with
  | nil => simp [set_insert]
  | cons q l ih =>
    rw [List.pairwise_cons] at hs
    unfold set_insert
    split_ifs with h1 h2
    · rw [List.pairwise_cons]
      refine ⟨fun x hx => ?_, ih hs.2⟩
      rcases (mem_set_insert l p x).mp hx with hx | hx
      · rw [hx]; exact h1
      · exact hs.1 x hx
    · rw [List.pairwise_cons]
      refine ⟨fun x hx => ?_, List.pairwise_cons.mpr hs⟩
      rcases List.mem_cons.mp hx with hx | hx
      · rw [hx]; exact h2
      · exact less_trans p q x h2 (hs.1 x hx)
    · exact List.pairwise_cons.mpr hs

theorem mem_set_erase_subset (l : List SockAddr) (p x : SockAddr) (h : x ∈ set_erase l p) :
    x ∈ l := by
  induction l with
  | nil => simp [set_erase] at h
  | cons q l ih =>
    unfold set_erase at h
    split_ifs at h with h1
    · exact List.mem_cons_of_mem _ h
    · rcases List.mem_cons.mp h with h | h
      · rw [h]; exact List.mem_cons_self _ _
      · exact List.mem_cons_of_mem _ (ih h)

theorem length_set_erase (l : List SockAddr) (p : SockAddr) :
    (set_erase l p).length ≤ l.length := by
  induction l with
  | nil => simp [set_erase]
  | cons q l ih =>
    unfold set_erase
    split_ifs with h1
    · simp
    · simp only [List.length_cons]; omega

theorem set_sorted_erase (l : List SockAddr) (p : SockAddr) (hs : set_sorted l) :
    set_sorted (set_erase l p) := by
  unfold set_sorted at *
  induction l with
  | nil => simp [set_erase]
  | cons q l ih =>
    rw [List.pairwise_cons] at hs
    unfold set_erase
    split_ifs with h1
    · exact hs.2
    · rw [List.pairwise_cons]
      exact ⟨fun x hx => hs.1 x (mem_set_erase_subset l p x hx), ih hs.2⟩

/-- In a sorted list the erased address is gone and every other member
stays. -/
theorem mem_set_erase (l : List SockAddr) (p x : SockAddr) (hs : set_sorted l) :
    x ∈ set_erase l p ↔ x ∈ l ∧ x ≠ p := by
  unfold set_sorted at hs
  induction l with
  | nil => simp [set_erase]
  | cons q l ih =>
    rw [List.pairwise_cons] at hs
    unfold set_erase
    split_ifs with h1
    · have he : q = p := fields_eq p q ((equivalent_iff p q).mp h1)
      rw [List.mem_cons]
      constructor
      · intro hx
        refine ⟨Or.inr hx, fun hxp => ?_⟩
        have := hs.1 x hx
        rw [hxp, he, less_irrefl] at this
        exact Bool.noConfusion this
      · intro hx
        rcases hx.1 with h | h
        · exact absurd (h.trans he) hx.2
        · exact h
    · have hne : q ≠ p := by
        intro he
        apply h1
        rw [equivalent_iff, he]
        exact ⟨rfl, rfl⟩
      rw [List.mem_cons, ih hs.2, List.mem_cons]
      constructor
      · intro hx
        rcases hx with hx | hx
        · exact ⟨Or.inl hx, by rw [hx]; exact hne⟩
        · exact ⟨Or.inr hx.1, hx.2⟩
      · intro hx
        rcases hx.1 with h | h
        · exact Or.inl h
        · exact Or.inr ⟨h, hx.2⟩

theorem peer_list_sorted (l : List SockAddr) (h : PeerList l) :
    set_sorted l ∧ l.length ≤ 65535 := by
  induction h with
  | create => exact ⟨List.Pairwise.nil, by simp⟩
  | add l p _ ih =>
    unfold peer_list_add
    split_ifs with h1 h2
    · exact ih
    · refine ⟨set_sorted_insert l p ih.1, ?_⟩
      have hp : p ∉ l := by
        rw [← peer_list_contains_false_iff]
        cases hc : peer_list_contains l p with
        | true => exact absurd hc h1
        | false => rfl
      show (set_insert l p).length ≤ 65535
      rw [length_set_insert l p hp]
      simp only [MAX_CAPACITY] at h2
      omega
    · exact ih
  | remove l p _ ih =>
    exact ⟨set_sorted_erase l p ih.1, le_trans (length_set_erase l p) ih.2⟩
  | cpy l _ ih => exact ih

/-- Claim C27. For every peer list and address: `peer_list_add` returns 1 and
inserts the address (the members afterwards are the address and the old
members, one more than before) when it is absent and the list holds fewer than
65535 addresses; returns 0 and changes nothing when an address with the same
IPv4 address and port is present; returns -1 and changes nothing when it is
absent and the list holds 65535 (or more). Hence a list built from
`peer_list_create` by add, remove and copy operations never holds more than
65535 addresses nor two entries with the same address and port. -/
theorem C27_peer_list_add (l : List SockAddr) (peer : SockAddr) :
    (peer_list_contains l peer = true ↔
        ∃ q ∈ l, q.s_addr = peer.s_addr ∧ q.sin_port = peer.sin_port) ∧
      (peer_list_contains l peer = false → l.length < 65535 →
        peer_list_add l peer = (1, set_insert l peer) ∧
          (∀ x, x ∈ set_insert l peer ↔ x = peer ∨ x ∈ l) ∧
          (set_insert l peer).length = l.length + 1) ∧
      (peer_list_contains l peer = true → peer_list_add l peer = (0, l)) ∧
      (peer_list_contains l peer = false → 65535 ≤ l.length →
        peer_list_add l peer = (-1, l)) ∧
      (PeerList l → l.length ≤ 65535 ∧
        l.Pairwise (fun a b => ¬ (a.s_addr = b.s_addr ∧ a.sin_port = b.sin_port))) := by
  refine ⟨?_, fun hc hlen => ⟨?_, fun x => mem_set_insert l peer x, ?_⟩, fun hc => ?_,
    fun hc hlen => ?_, fun hl => ?_⟩
  · rw [peer_list_contains_iff]
    constructor
    · intro h; exact ⟨peer, h, rfl, rfl⟩
    · intro ⟨q, hq, hf⟩
      rw [← fields_eq peer q hf]; exact hq
  · unfold peer_list_add
    rw [if_neg (by simp [hc]), if_pos (by simp only [MAX_CAPACITY]; exact hlen)]
  · exact length_set_insert l peer ((peer_list_contains_false_iff l peer).mp hc)
  · unfold peer_list_add
    rw [if_pos hc]
  · unfold peer_list_add
    rw [if_neg (by simp [hc]), if_neg (by simp only [MAX_CAPACITY]; omega)]
  · obtain ⟨h1, h2⟩ := peer_list_sorted l hl
    refine ⟨h2, ?_⟩
    unfold set_sorted at h1
    refine h1.imp ?_
    intro a b hab hf
    rw [less_iff] at hab
    omega

theorem C27_peer_list_add_witness :
    peer_list_add [⟨16777343, 20480⟩] ⟨16777343, 20736⟩ =
        (1, [⟨16777343, 20480⟩, ⟨16777343, 20736⟩]) ∧
      peer_list_add [⟨16777343, 20480⟩] ⟨16777343, 20480⟩ = (0, [⟨16777343, 20480⟩]) ∧
      (peer_list_add [⟨16777343, 20480⟩] ⟨16777343, 20736⟩).2.length ≤ 65535 :=
  ⟨((C27_peer_list_add [⟨16777343, 20480⟩] ⟨16777343, 20736⟩).2.1 (by decide) (by decide)).1,
    (C27_peer_list_add [⟨16777343, 20480⟩] ⟨16777343, 20480⟩).2.2.1 (by decide),
    ((C27_peer_list_add (peer_list_add [⟨16777343, 20480⟩] ⟨16777343, 20736⟩).2
      ⟨16777343, 20736⟩).2.2.2.2
      (PeerList.add _ _ (PeerList.add _ _ PeerList.create))).1⟩

/-! ## CONNECT and ACK_CONNECT -/

theorem mem_peer_list_add (l : List SockAddr) (p x : SockAddr)
    (h : l.length < 65535 ∨ p ∈ l) : x ∈ (peer_list_add l p).2 ↔ x = p ∨ x ∈ l := by
  unfold peer_list_add
  split_ifs with h1 h2
  · rw [peer_list_contains_iff] at h1
    constructor
    · intro hx; exact Or.inr hx
    · intro hx
      rcases hx with hx | hx
      · rw [hx]; exact h1
      · exact hx
  · exact mem_set_insert l p x
  · exfalso
    simp only [MAX_CAPACITY] at h2
    rcases h with h | h
    · omega
    · exact h1 ((peer_list_contains_iff l p).mpr h)

theorem peer_list_add_of_mem (l : List SockAddr) (p : SockAddr) (h : p ∈ l) :
    (peer_list_add l p).2 = l := by
  unfold peer_list_add
  rw [if_pos ((peer_list_contains_iff l p).mpr h)]

/-- Claim C25. For every 1-byte CONNECT from a sender that is not an own
address: if `peer_list` holds 65535 addresses (or more) and the sender is not
among them, nothing is sent and the state is unchanged; otherwise one
ACK_CONNECT is sent to the sender and `peer_list` afterwards consists of the
sender and the old members (it is unchanged if the sender was a member), no
other field changing. -/
theorem C25_connect (nd : NodeData) (msg : List Nat) (sender_addr : SockAddr)
    (hlen : msg.length = 1) (hown : address_in_array sender_addr nd.my_addresses = false) :
    (65535 ≤ nd.peer_list.length → sender_addr ∉ nd.peer_list →
        handle_connect nd msg sender_addr = (nd, [])) ∧
      (nd.peer_list.length < 65535 ∨ sender_addr ∈ nd.peer_list →
        handle_connect nd msg sender_addr =
            ({ nd with peer_list := (peer_list_add nd.peer_list sender_addr).2 },
              [⟨sender_addr, [ACK_CONNECT]⟩]) ∧
          (∀ x, x ∈ (peer_list_add nd.peer_list sender_addr).2 ↔
            x = sender_addr ∨ x ∈ nd.peer_list) ∧
          (sender_addr ∈ nd.peer_list →
            (peer_list_add nd.peer_list sender_addr).2 = nd.peer_list)) := by
  refine ⟨fun hfull habs => ?_, fun hroom => ⟨?_, fun x => mem_peer_list_add _ _ x hroom,
    fun hm => peer_list_add_of_mem _ _ hm⟩⟩
  · unfold handle_connect
    rw [if_neg (by simp [hlen, MESSAGE_SIZE]), if_pos]
    simp only [peer_list_full, MAX_CAPACITY, Bool.and_eq_true, decide_eq_true_eq,
      Bool.not_eq_true', peer_list_contains_false_iff]
    exact ⟨hfull, habs⟩
  · unfold handle_connect
    rw [if_neg (by simp [hlen, MESSAGE_SIZE]), if_neg, if_neg (by simp [hown])]
    · rfl
    · simp only [peer_list_full, MAX_CAPACITY, Bool.and_eq_true, decide_eq_true_eq,
        Bool.not_eq_true', peer_list_contains_false_iff, not_and, not_not]
      intro hfull
      rcases hroom with h | h
      · omega
      · exact h

theorem C25_connect_witness :
    handle_connect c3_node [CONNECT] ⟨16777343, 20480⟩ =
      ({ c3_node with peer_list := [⟨16777343, 20480⟩] }, [⟨⟨16777343, 20480⟩, [ACK_CONNECT]⟩]) :=
  ((C25_connect c3_node [CONNECT] ⟨16777343, 20480⟩ rfl (by decide)).2
    (Or.inl (by decide))).1

/-- Claim C26. For every 1-byte ACK_CONNECT at a node whose peer sets satisfy
their invariant: if the sender is in `waiting_for_ack_connect` and `peer_list`
has room or already holds it, then afterwards the sender is not in
`waiting_for_ack_connect` and is in `peer_list`, every other member of both
sets staying; if the sender is not in `waiting_for_ack_connect`, or `peer_list`
is full without it, the state is unchanged. Nothing is sent. -/
theorem C26_ack_connect (nd : NodeData) (msg : List Nat) (sender_addr : SockAddr)
    (hlen : msg.length = 1) (hinv : peers_inv nd) :
    (sender_addr ∈ nd.waiting_for_ack_connect →
        nd.peer_list.length < 65535 ∨ sender_addr ∈ nd.peer_list →
        handle_ack_connect nd msg sender_addr =
            ({ nd with
                waiting_for_ack_connect :=
                  peer_list_remove nd.waiting_for_ack_connect sender_addr
                peer_list := (peer_list_add nd.peer_list sender_addr).2 }, []) ∧
          (∀ x, x ∈ peer_list_remove nd.waiting_for_ack_connect sender_addr ↔
            x ∈ nd.waiting_for_ack_connect ∧ x ≠ sender_addr) ∧
          (∀ x, x ∈ (peer_list_add nd.peer_list sender_addr).2 ↔
            x = sender_addr ∨ x ∈ nd.peer_list)) ∧
      (sender_addr ∉ nd.waiting_for_ack_connect →
        handle_ack_connect nd msg sender_addr = (nd, [])) ∧
      (65535 ≤ nd.peer_list.length → sender_addr ∉ nd.peer_list →
        handle_ack_connect nd msg sender_addr = (nd, [])) ∧
      (handle_ack_connect nd msg sender_addr).2 = [] := by
  obtain ⟨-, -, hws, -, -, hwown, -⟩ := hinv
  refine ⟨fun hw hroom => ⟨?_, fun x => mem_set_erase _ _ x hws,
    fun x => mem_peer_list_add _ _ x hroom⟩, fun hw => ?_, fun hfull habs => ?_, ?_⟩
  · unfold handle_ack_connect
    rw [if_neg (by simp [hlen, MESSAGE_SIZE]),
      if_neg (by simp [(peer_list_contains_iff _ _).mpr hw]), if_neg,
      if_neg (by simp [hwown sender_addr hw])]
    simp only [peer_list_full, MAX_CAPACITY, Bool.and_eq_true, decide_eq_true_eq,
      Bool.not_eq_true', peer_list_contains_false_iff, not_and, not_not]
    intro hfull
    rcases hroom with h | h
    · omega
    · exact h
  · unfold handle_ack_connect
    rw [if_neg (by simp [hlen, MESSAGE_SIZE]),
      if_pos (by simp [(peer_list_contains_false_iff _ _).mpr hw])]
  · unfold handle_ack_connect
    split_ifs
    · rfl
    · rfl
    · rfl
    · rfl
    · rename_i h3 _
      exfalso
      apply h3
      simp only [peer_list_full, MAX_CAPACITY, Bool.and_eq_true, decide_eq_true_eq,
        Bool.not_eq_true', peer_list_contains_false_iff]
      exact ⟨hfull, habs⟩
  · unfold handle_ack_connect
    split_ifs <;> rfl

theorem C26_ack_connect_witness :
    handle_ack_connect c26_node [ACK_CONNECT] ⟨16777343, 20480⟩ =
        ({ c26_node with waiting_for_ack_connect := [], peer_list := [⟨16777343, 20480⟩] }, []) ∧
      handle_ack_connect c26_node [ACK_CONNECT] ⟨16777343, 20736⟩ = (c26_node, []) :=
  ⟨((C26_ack_connect c26_node [ACK_CONNECT] ⟨16777343, 20480⟩ rfl (by decide)).1 (by decide)
      (Or.inl (by decide))).1,
    (C26_ack_connect c26_node [ACK_CONNECT] ⟨16777343, 20736⟩ rfl (by decide)).2.1 (by decide)⟩

/-! ## HELLO and HELLO_REPLY -/

theorem is_src_addr_eq (p : SockAddr) (arr : List SockAddr) :
    is_src_addr p arr = address_in_array p arr := by
  induction arr with
  | nil => rfl
  | cons a arr ih =>
    unfold is_src_addr address_in_array equal_addr
    rw [ih]
    by_cases h1 : p.s_addr = a.s_addr <;> by_cases h2 : p.sin_port = a.sin_port <;>
      simp [h1, h2]

theorem memcpy_out_length (n v : Nat) : (memcpy_out n v).length = n := by
  induction n generalizing v with
  | zero => rfl
  | succ n ih => simp [memcpy_out, ih]

theorem peer_records_length (l : List SockAddr) : (peer_records l).length = 7 * l.length := by
  induction l with
  | nil => rfl
  | cons p l ih =>
    simp only [peer_records, List.length_cons, List.length_append, memcpy_out_length, ih]
    omega

theorem htons_eq (x : Nat) (h : x < 65536) : htons x = (x % 256) * 256 + x / 256 := by
  unfold htons
  simp only [Nat.shiftLeft_eq, Nat.shiftRight_eq_div_pow]
  have h255 : (0xFF : Nat) = 255 := rfl
  rw [h255, and_255, and_255]
  have e1 : x % 2 ^ 16 % 256 * 2 ^ 8 = 2 ^ 8 * (x % 256) := by omega
  rw [e1, lor_eq_add_of_lt 8 _ _ (by omega)]
  omega

/-- The count field of a HELLO_REPLY is the count in big-endian order. -/
theorem count_bytes (c : Nat) (h : c < 65536) :
    memcpy_out COUNT_SIZE (htons c) = [c / 256, c % 256] := by
  rw [htons_eq c h]
  simp only [COUNT_SIZE, memcpy_out]
  have e1 : (c % 256 * 256 + c / 256) % 256 = c / 256 := by omega
  have e2 : (c % 256 * 256 + c / 256) / 256 % 256 = c % 256 := by omega
  rw [e1, e2]

theorem count_excl_fold (src_addr_arr : List SockAddr) (dest_addr : SockAddr) :
    ∀ (l : List SockAddr) (init : Nat), init + l.length < 65536 →
      l.foldl (fun count peer_addr =>
        if is_src_addr peer_addr src_addr_arr then count
        else if peer_addr.s_addr = dest_addr.s_addr ∧ peer_addr.sin_port = dest_addr.sin_port
          then count
        else (count + 1) % 2 ^ 16) init =
      init + (listed_peers l src_addr_arr dest_addr).length := by
  intro l
  induction l with
  | nil => intro init _; simp [listed_peers]
  | cons p l ih =>
    intro init h
    simp only [List.length_cons] at h
    rw [List.foldl_cons]
    unfold listed_peers
    rw [List.filter_cons]
    by_cases h1 : is_src_addr p src_addr_arr = true
    · simp only [h1, if_true, Bool.not_true, Bool.false_and, Bool.false_eq_true, if_false]
      exact ih init (by omega)
    · by_cases h2 : p.s_addr = dest_addr.s_addr ∧ p.sin_port = dest_addr.sin_port
      · simp only [h1, if_false, h2, and_self, if_true, decide_True, Bool.not_true,
          Bool.and_false, Bool.false_eq_true]
        exact ih init (by omega)
      · have h1' : is_src_addr p src_addr_arr = false := by
          cases hh : is_src_addr p src_addr_arr with
          | true => exact absurd hh h1
          | false => rfl
        simp only [h1', Bool.false_eq_true, if_false, h2, decide_False, Bool.not_false,
          Bool.and_self, if_true, List.length_cons]
        have e : (init + 1) % 2 ^ 16 = init + 1 := Nat.mod_eq_of_lt (by omega)
        rw [e]
        have := ih (init + 1) (by omega)
        unfold listed_peers at this
        rw [this]
        omega

theorem peer_list_count_excl_eq (l src_addr_arr : List SockAddr) (dest_addr : SockAddr)
    (h : l.length < 65536) :
    peer_list_count_excl l src_addr_arr dest_addr =
      (listed_peers l src_addr_arr dest_addr).length := by
  unfold peer_list_count_excl
  rw [count_excl_fold src_addr_arr dest_addr l 0 (by omega), Nat.zero_add]

theorem listed_peers_length_le (l src_addr_arr : List SockAddr) (dest_addr : SockAddr) :
    (listed_peers l src_addr_arr dest_addr).length ≤ l.length :=
  List.length_filter_le _ _

theorem write_records_eq (src_addr_arr : List SockAddr) (dest_addr : SockAddr) :
    ∀ (l : List SockAddr) (extra : Nat),
      write_records l (7 * (listed_peers l src_addr_arr dest_addr).length + extra)
          src_addr_arr dest_addr =
        some (peer_records (listed_peers l src_addr_arr dest_addr), extra) := by
  intro l
  induction l with
  | nil => intro extra; simp [write_records, listed_peers, peer_records]
  | cons p l ih =>
    intro extra
    unfold listed_peers
    rw [List.filter_cons]
    unfold write_records
    by_cases h1 : is_src_addr p src_addr_arr = true
    · simp only [h1, if_true, Bool.not_true, Bool.false_and, Bool.false_eq_true, if_false]
      exact ih extra
    · by_cases h2 : p.s_addr = dest_addr.s_addr ∧ p.sin_port = dest_addr.sin_port
      · simp only [h1, if_false, h2, and_self, if_true, decide_True, Bool.not_true,
          Bool.and_false, Bool.false_eq_true]
        exact ih extra
      · have h1' : is_src_addr p src_addr_arr = false := by
          cases hh : is_src_addr p src_addr_arr with
          | true => exact absurd hh h1
          | false => rfl
        simp only [h1', Bool.false_eq_true, if_false, h2, decide_False, Bool.not_false,
          Bool.and_self, if_true, List.length_cons]
        rw [if_neg (by omega)]
        have e : 7 * ((List.filter (fun p => !is_src_addr p src_addr_arr &&
            !decide (p.s_addr = dest_addr.s_addr ∧ p.sin_port = dest_addr.sin_port)) l).length
              + 1) + extra - 7 =
            7 * (listed_peers l src_addr_arr dest_addr).length + extra := by
          unfold listed_peers; omega
        rw [e, ih extra]
        rfl

/-- The function `create_hello_reply_message` on a list of at most 65535
peers. -/
theorem create_hello_reply_message_eq (l src_addr_arr : List SockAddr) (dest_addr : SockAddr)
    (h : l.length ≤ 65535) :
    create_hello_reply_message l src_addr_arr dest_addr =
      if 65536 ≤ 3 + 7 * (listed_peers l src_addr_arr dest_addr).length then none
      else some (2 :: (listed_peers l src_addr_arr dest_addr).length / 256 ::
        (listed_peers l src_addr_arr dest_addr).length % 256 ::
        peer_records (listed_peers l src_addr_arr dest_addr)) := by
  have hc := listed_peers_length_le l src_addr_arr dest_addr
  unfold create_hello_reply_message
  simp only [peer_list_count_excl_eq l src_addr_arr dest_addr (by omega), MESSAGE_SIZE,
    COUNT_SIZE, PEER_ADDRESS_LENGTH_SIZE, PEER_ADDRESS_SIZE, PEER_PORT_SIZE, BUFFER_SIZE,
    HELLO_REPLY]
  by_cases hb : 65536 ≤ 3 + 7 * (listed_peers l src_addr_arr dest_addr).length
  · rw [if_pos (by omega), if_pos hb]
  · rw [if_neg (by omega), if_neg hb]
    unfold peer_list_write_to_buf_excl
    have e : (listed_peers l src_addr_arr dest_addr).length * (1 + 4 + 2) =
        7 * (listed_peers l src_addr_arr dest_addr).length + 0 := by omega
    rw [e, write_records_eq]
    have hcb := count_bytes (listed_peers l src_addr_arr dest_addr).length (by omega)
    simp only [COUNT_SIZE] at hcb
    simp only [hcb, gt_iff_lt, lt_self_iff_false, if_false, List.cons_append, List.nil_append]

theorem mem_listed_peers (l src_addr_arr : List SockAddr) (dest_addr p : SockAddr) :
    p ∈ listed_peers l src_addr_arr dest_addr ↔
      p ∈ l ∧ address_in_array p src_addr_arr = false ∧ p ≠ dest_addr := by
  unfold listed_peers
  rw [List.mem_filter, is_src_addr_eq]
  have hf : (p.s_addr = dest_addr.s_addr ∧ p.sin_port = dest_addr.sin_port) ↔ p = dest_addr :=
    ⟨fun h => fields_eq dest_addr p h, fun h => by rw [h]; exact ⟨rfl, rfl⟩⟩
  cases address_in_array p src_addr_arr <;> simp [hf]

theorem not_mem_of_sorted_head (p : SockAddr) (l : List SockAddr)
    (hs : set_sorted (p :: l)) : p ∉ l := by
  unfold set_sorted at hs
  rw [List.pairwise_cons] at hs
  intro hm
  have := hs.1 p hm
  rw [less_irrefl] at this
  exact Bool.noConfusion this

/-- A set without own addresses has at most one member that a HELLO_REPLY to
`dest_addr` does not list. -/
theorem length_le_listed (src_addr_arr : List SockAddr) (dest_addr : SockAddr) :
    ∀ l : List SockAddr, set_sorted l → (∀ p ∈ l, address_in_array p src_addr_arr = false) →
      l.length = (listed_peers l src_addr_arr dest_addr).length +
        (if dest_addr ∈ l then 1 else 0) := by
  intro l
  induction l with
  | nil => intro _ _; simp [listed_peers]
  | cons p l ih =>
    intro hs hown
    have hs' : set_sorted l := by
      unfold set_sorted at *
      exact (List.pairwise_cons.mp hs).2
    have ih' := ih hs' (fun q hq => hown q (List.mem_cons_of_mem _ hq))
    have hp := hown p (List.mem_cons_self _ _)
    unfold listed_peers at *
    rw [List.filter_cons, is_src_addr_eq, hp]
    by_cases he : p = dest_addr
    · have hnot : dest_addr ∉ l := by rw [← he]; exact not_mem_of_sorted_head p l hs
      rw [if_neg hnot] at ih'
      have hd : (p.s_addr = dest_addr.s_addr ∧ p.sin_port = dest_addr.sin_port) := by
        rw [he]; exact ⟨rfl, rfl⟩
      simp only [hd, and_self, decide_True, Bool.not_true, Bool.and_false, Bool.false_eq_true,
        if_false, List.length_cons]
      rw [if_pos (by rw [he]; exact List.mem_cons_self _ _)]
      omega
    · have hd : ¬ (p.s_addr = dest_addr.s_addr ∧ p.sin_port = dest_addr.sin_port) :=
        fun h => he (fields_eq dest_addr p h)
      simp only [hd, decide_False, Bool.not_false, Bool.and_self, if_true, List.length_cons]
      have hiff : dest_addr ∈ p :: l ↔ dest_addr ∈ l := by
        rw [List.mem_cons]
        constructor
        · intro h
          rcases h with h | h
          · exact absurd h.symm he
          · exact h
        · intro h; exact Or.inr h
      by_cases hm : dest_addr ∈ l
      · rw [if_pos hm] at ih'
        rw [if_pos (hiff.mpr hm)]
        omega
      · rw [if_neg hm] at ih'
        rw [if_neg (fun h => hm (hiff.mp h))]
        omega

theorem peer_list_add_code (l : List SockAddr) (p : SockAddr)
    (h : l.length < 65535 ∨ p ∈ l) : (peer_list_add l p).1 ≥ 0 := by
  unfold peer_list_add
  split_ifs with h1 h2
  · exact le_refl _
  · show (0 : Int) ≤ 1
    decide
  · exfalso
    simp only [MAX_CAPACITY] at h2
    rcases h with h | h
    · omega
    · exact h1 ((peer_list_contains_iff l p).mpr h)

/-- The function `handle_hello` on a 1-byte HELLO from a sender that is not an
own address, at a node whose peer sets satisfy their invariant. -/
theorem handle_hello_eq (nd : NodeData) (msg : List Nat) (sender_addr : SockAddr)
    (hinv : peers_inv nd) (hlen : msg.length = 1)
    (hown : address_in_array sender_addr nd.my_addresses = false) :
    handle_hello nd msg sender_addr =
      if 9362 ≤ (listed_peers nd.peer_list nd.my_addresses sender_addr).length then (nd, [])
      else
        ({ nd with peer_list := (peer_list_add nd.peer_list sender_addr).2 },
          [⟨sender_addr, 2 ::
            (listed_peers nd.peer_list nd.my_addresses sender_addr).length / 256 ::
            (listed_peers nd.peer_list nd.my_addresses sender_addr).length % 256 ::
            peer_records (listed_peers nd.peer_list nd.my_addresses sender_addr)⟩]) := by
  obtain ⟨hs, hl, -, -, hno, -, -⟩ := hinv
  simp only [MAX_CAPACITY] at hl
  unfold handle_hello
  rw [if_neg (by simp [hlen, MESSAGE_SIZE]), if_neg (by simp [hown]),
    create_hello_reply_message_eq _ _ _ hl]
  by_cases hc : 9362 ≤ (listed_peers nd.peer_list nd.my_addresses sender_addr).length
  · rw [if_pos (by omega), if_pos hc]
  · rw [if_neg (by omega), if_neg hc]
    dsimp only
    have hlen2 := length_le_listed nd.my_addresses sender_addr nd.peer_list hs hno
    have hroom : nd.peer_list.length < 65535 ∨ sender_addr ∈ nd.peer_list := by
      left
      split_ifs at hlen2 <;> omega
    rw [if_pos (peer_list_add_code _ _ hroom)]

theorem count_excl_fold_listed (src_addr_arr : List SockAddr) (dest_addr : SockAddr) :
    ∀ (l : List SockAddr) (init : Nat),
      init + (listed_peers l src_addr_arr dest_addr).length < 65536 →
      l.foldl (fun count peer_addr =>
        if is_src_addr peer_addr src_addr_arr then count
        else if peer_addr.s_addr = dest_addr.s_addr ∧ peer_addr.sin_port = dest_addr.sin_port
          then count
        else (count + 1) % 2 ^ 16) init =
      init + (listed_peers l src_addr_arr dest_addr).length := by
  intro l
  induction l with
  | nil => intro init _; simp [listed_peers]
  | cons p l ih =>
    intro init h
    rw [List.foldl_cons]
    unfold listed_peers at h ⊢
    rw [List.filter_cons] at h ⊢
    by_cases h1 : is_src_addr p src_addr_arr = true
    · simp only [h1, if_true, Bool.not_true, Bool.false_and, Bool.false_eq_true, if_false] at h ⊢
      exact ih init h
    · by_cases h2 : p.s_addr = dest_addr.s_addr ∧ p.sin_port = dest_addr.sin_port
      · simp only [h1, if_false, h2, and_self, if_true, decide_True, Bool.not_true,
          Bool.and_false, Bool.false_eq_true] at h ⊢
        exact ih init h
      · have h1' : is_src_addr p src_addr_arr = false := by
          cases hh : is_src_addr p src_addr_arr with
          | true => exact absurd hh h1
          | false => rfl
        simp only [h1', Bool.false_eq_true, if_false, h2, decide_False, Bool.not_false,
          Bool.and_self, if_true, List.length_cons] at h ⊢
        have e : (init + 1) % 2 ^ 16 = init + 1 := Nat.mod_eq_of_lt (by omega)
        rw [e]
        have := ih (init + 1) (by unfold listed_peers; omega)
        unfold listed_peers at this
        rw [this]
        omega

/-- The function `create_hello_reply_message` when the reply fits the buffer:
own addresses and the destination are left out of the count and the records,
whatever the set holds. -/
theorem create_hello_reply_message_listed (l src_addr_arr : List SockAddr)
    (dest_addr : SockAddr)
    (hc : 3 + 7 * (listed_peers l src_addr_arr dest_addr).length < 65536) :
    create_hello_reply_message l src_addr_arr dest_addr =
      some (2 :: (listed_peers l src_addr_arr dest_addr).length / 256 ::
        (listed_peers l src_addr_arr dest_addr).length % 256 ::
        peer_records (listed_peers l src_addr_arr dest_addr)) := by
  have hcount : peer_list_count_excl l src_addr_arr dest_addr =
      (listed_peers l src_addr_arr dest_addr).length := by
    unfold peer_list_count_excl
    rw [count_excl_fold_listed src_addr_arr dest_addr l 0 (by omega), Nat.zero_add]
  unfold create_hello_reply_message
  simp only [hcount, MESSAGE_SIZE, COUNT_SIZE, PEER_ADDRESS_LENGTH_SIZE, PEER_ADDRESS_SIZE,
    PEER_PORT_SIZE, BUFFER_SIZE, HELLO_REPLY]
  rw [if_neg (by omega)]
  unfold peer_list_write_to_buf_excl
  have e : (listed_peers l src_addr_arr dest_addr).length * (1 + 4 + 2) =
      7 * (listed_peers l src_addr_arr dest_addr).length + 0 := by omega
  rw [e, write_records_eq]
  have hcb := count_bytes (listed_peers l src_addr_arr dest_addr).length (by omega)
  simp only [COUNT_SIZE] at hcb
  simp only [hcb, gt_iff_lt, lt_self_iff_false, if_false, List.cons_append, List.nil_append]

/-- A `peer_list` without own addresses has room for the sender of a HELLO
whose reply fits the buffer. -/
theorem hello_room (nd : NodeData) (sender_addr : SockAddr)
    (hs : set_sorted nd.peer_list)
    (hno : ∀ p ∈ nd.peer_list, address_in_array p nd.my_addresses = false)
    (hc : 3 + 7 * (listed_peers nd.peer_list nd.my_addresses sender_addr).length < 65536) :
    nd.peer_list.length < 65535 := by
  have hlen2 := length_le_listed nd.my_addresses sender_addr nd.peer_list hs hno
  split_ifs at hlen2 <;> omega

/-- Claim C23. At a node whose `peer_list` is a set that either holds no own
address (as in every reachable state), or holds fewer than 65535 addresses, or
holds the sender: for every 1-byte HELLO from a sender that is not an own
address, with `c` the number of members of `peer_list` that are neither own
addresses nor the sender and `3 + 7 * c < 65536`: the node sends one HELLO_REPLY
to the sender, of exactly `3 + 7 * c` bytes: the byte 2, `c` as a big-endian
16-bit number, and one record (the byte 4, the four address bytes, the two port
bytes) for exactly those `c` peers, each once, in the order of the set; own
addresses and the sender that the set holds are not listed; afterwards the
sender is a member of `peer_list`, which otherwise keeps its members. -/
theorem C23_hello_reply (nd : NodeData) (msg : List Nat) (sender_addr : SockAddr)
    (hs : set_sorted nd.peer_list)
    (hroom : (∀ p ∈ nd.peer_list, address_in_array p nd.my_addresses = false) ∨
      nd.peer_list.length < 65535 ∨ sender_addr ∈ nd.peer_list)
    (hlen : msg.length = 1)
    (hown : address_in_array sender_addr nd.my_addresses = false)
    (hc : 3 + 7 * (listed_peers nd.peer_list nd.my_addresses sender_addr).length < 65536) :
    handle_hello nd msg sender_addr =
        ({ nd with peer_list := (peer_list_add nd.peer_list sender_addr).2 },
          [⟨sender_addr, 2 ::
            (listed_peers nd.peer_list nd.my_addresses sender_addr).length / 256 ::
            (listed_peers nd.peer_list nd.my_addresses sender_addr).length % 256 ::
            peer_records (listed_peers nd.peer_list nd.my_addresses sender_addr)⟩]) ∧
      (2 :: (listed_peers nd.peer_list nd.my_addresses sender_addr).length / 256 ::
          (listed_peers nd.peer_list nd.my_addresses sender_addr).length % 256 ::
          peer_records (listed_peers nd.peer_list nd.my_addresses sender_addr)).length =
        3 + 7 * (listed_peers nd.peer_list nd.my_addresses sender_addr).length ∧
      (∀ p, p ∈ listed_peers nd.peer_list nd.my_addresses sender_addr ↔
        p ∈ nd.peer_list ∧ address_in_array p nd.my_addresses = false ∧ p ≠ sender_addr) ∧
      (listed_peers nd.peer_list nd.my_addresses sender_addr).Sublist nd.peer_list ∧
      (listed_peers nd.peer_list nd.my_addresses sender_addr).Nodup ∧
      (∀ x, x ∈ (peer_list_add nd.peer_list sender_addr).2 ↔
        x = sender_addr ∨ x ∈ nd.peer_list) := by
  have hroom2 : nd.peer_list.length < 65535 ∨ sender_addr ∈ nd.peer_list := by
    rcases hroom with hno | h
    · exact Or.inl (hello_room nd sender_addr hs hno hc)
    · exact h
  have hsub : (listed_peers nd.peer_list nd.my_addresses sender_addr).Sublist nd.peer_list :=
    List.filter_sublist _
  have hnd : nd.peer_list.Nodup := by
    unfold set_sorted at hs
    refine hs.imp ?_
    intro a b hab he
    rw [he, less_irrefl] at hab
    exact Bool.noConfusion hab
  refine ⟨?_, ?_, fun p => mem_listed_peers _ _ _ p, hsub, hnd.sublist hsub,
    fun x => mem_peer_list_add _ _ x hroom2⟩
  · unfold handle_hello
    rw [if_neg (by simp [hlen, MESSAGE_SIZE]), if_neg (by simp [hown]),
      create_hello_reply_message_listed _ _ _ hc]
    dsimp only
    rw [if_pos (peer_list_add_code _ _ hroom2)]
  · simp only [List.length_cons, peer_records_length]
    omega

theorem C23_hello_reply_witness :
    handle_hello c23_own_node [HELLO] ⟨16777343, 20480⟩ =
        (c23_own_node, [⟨⟨16777343, 20480⟩, [2, 0, 1, 4, 127, 0, 0, 1, 0, 81]⟩]) ∧
      listed_peers c23_own_node.peer_list c23_own_node.my_addresses ⟨16777343, 20480⟩ =
        [⟨16777343, 20736⟩] := by
  refine ⟨?_, by decide⟩
  rw [(C23_hello_reply c23_own_node [HELLO] ⟨16777343, 20480⟩ (by decide)
    (Or.inr (Or.inl (by decide))) rfl (by decide) (by decide)).1]
  decide

/-- Claim C24. At a node whose peer sets satisfy their invariant, a 1-byte HELLO
from a sender that is not an own address is dropped (nothing is sent, the state
and `peer_list` are unchanged) if and only if the reply for the `c` peers it
would list, `3 + 7 * c` bytes, would exceed 65535 bytes, that is if and only if
`c ≥ 9362`; for `c ≤ 9361` the reply is sent and the sender is a member of
`peer_list` afterwards. -/
theorem C24_hello_dropped (nd : NodeData) (msg : List Nat) (sender_addr : SockAddr)
    (hinv : peers_inv nd) (hlen : msg.length = 1)
    (hown : address_in_array sender_addr nd.my_addresses = false) :
    (handle_hello nd msg sender_addr = (nd, []) ↔
        65535 < 3 + 7 * (listed_peers nd.peer_list nd.my_addresses sender_addr).length) ∧
      (65535 < 3 + 7 * (listed_peers nd.peer_list nd.my_addresses sender_addr).length ↔
        9362 ≤ (listed_peers nd.peer_list nd.my_addresses sender_addr).length) ∧
      ((listed_peers nd.peer_list nd.my_addresses sender_addr).length ≤ 9361 →
        (handle_hello nd msg sender_addr).2.length = 1 ∧
          sender_addr ∈ (handle_hello nd msg sender_addr).1.peer_list) := by
  have hs := hinv.1
  have hl := hinv.2.1
  have hno := hinv.2.2.2.2.1
  simp only [MAX_CAPACITY] at hl
  have hlen2 := length_le_listed nd.my_addresses sender_addr nd.peer_list hs hno
  rw [handle_hello_eq nd msg sender_addr hinv hlen hown]
  refine ⟨⟨fun h => ?_, fun h => ?_⟩, by omega, fun h => ?_⟩
  · by_contra hlt
    rw [if_neg (by omega)] at h
    have := congrArg (fun r => r.2.length) h
    simp at this
  · rw [if_pos (by omega)]
  · rw [if_neg (by omega)]
    refine ⟨rfl, ?_⟩
    have hroom : nd.peer_list.length < 65535 ∨ sender_addr ∈ nd.peer_list := by
      left
      split_ifs at hlen2 <;> omega
    exact (mem_peer_list_add _ _ sender_addr hroom).mpr (Or.inl rfl)

theorem C24_hello_dropped_witness :
    (handle_hello c23_node [HELLO] ⟨16777343, 20992⟩).2.length = 1 ∧
      ⟨16777343, 20992⟩ ∈ (handle_hello c23_node [HELLO] ⟨16777343, 20992⟩).1.peer_list :=
  (C24_hello_dropped c23_node [HELLO] ⟨16777343, 20992⟩ (by decide) rfl (by decide)).2.2
    (by decide)

theorem equal_addr_iff (a b : SockAddr) : equal_addr a b = true ↔ a = b := by
  unfold equal_addr
  simp only [Bool.and_eq_true, decide_eq_true_eq]
  constructor
  · intro h; exact fields_eq b a h
  · intro h; rw [h]; exact ⟨rfl, rfl⟩

/-- The count field a handler reads is the big-endian number of bytes 1 and
2. -/
theorem msg_count_eq (msg : List Nat) (hb : ∀ b ∈ msg, b < 256) (hlen : 3 ≤ msg.length) :
    msg_count msg = msg.getD 1 0 * 256 + msg.getD 2 0 := by
  match msg, hlen, hb with
  | t :: b1 :: b2 :: rest, _, hb =>
    have h1 : b1 < 256 := hb b1 (by simp)
    have h2 : b2 < 256 := hb b2 (by simp)
    simp only [msg_count, MESSAGE_SIZE, COUNT_SIZE, List.drop_succ_cons, List.drop_zero,
      List.take_succ_cons, List.take_zero, memcpy_in, ntohs, List.getD_cons_succ,
      List.getD_cons_zero]
    rw [htons_eq _ (by omega)]
    omega

theorem check_records_iff (nd : NodeData) (sender_addr : SockAddr) :
    ∀ recs : List (Nat × SockAddr),
      check_records nd sender_addr recs = true ↔
        ∀ r ∈ recs, r.1 = 4 ∧ r.2.sin_port ≠ 0 ∧ r.2 ≠ sender_addr ∧
          address_in_array r.2 nd.my_addresses = false := by
  intro recs
  induction recs with
  | nil => simp [check_records]
  | cons r recs ih =>
    obtain ⟨n, a⟩ := r
    unfold check_records
    simp only [PEER_ADDRESS_SIZE, List.mem_cons, forall_eq_or_imp]
    split_ifs with h1 h2 h3
    · simp only [Bool.false_eq_true, false_iff, not_and]
      intro h; exact absurd h.1 h1
    · simp only [Bool.false_eq_true, false_iff, not_and]
      intro h; exact absurd h2 h.2.1
    · simp only [Bool.false_eq_true, false_iff, not_and]
      intro h
      simp only [Bool.or_eq_true, equal_addr_iff] at h3
      rcases h3 with h3 | h3
      · exact absurd h3 h.2.2.1
      · rw [h.2.2.2] at h3; exact absurd h3 (by simp)
    · simp only [Bool.or_eq_true, equal_addr_iff, not_or, Bool.not_eq_true] at h3
      rw [ih]
      constructor
      · intro h; exact ⟨⟨by omega, h2, h3.1, h3.2⟩, h⟩
      · intro h; exact h.2

/-- The test `check_hello_reply` in terms of its conditions. -/
theorem check_hello_reply_iff (nd : NodeData) (msg : List Nat) (sender_addr : SockAddr)
    (hb : ∀ b ∈ msg, b < 256) :
    check_hello_reply nd msg sender_addr = true ↔ hello_reply_ok nd msg sender_addr := by
  unfold check_hello_reply hello_reply_ok
  simp only [MESSAGE_SIZE, COUNT_SIZE, PEER_ADDRESS_LENGTH_SIZE, PEER_ADDRESS_SIZE,
    PEER_PORT_SIZE]
  split_ifs with h1 h2 h3 h4
  · simp only [Bool.false_eq_true, false_iff]
    simp only [Bool.or_eq_true, Bool.not_eq_true'] at h1
    intro h
    rcases h1 with h1 | h1
    · rw [h.1] at h1; exact Bool.noConfusion h1
    · rw [h.2.1] at h1; exact Bool.noConfusion h1
  · simp only [Bool.false_eq_true, false_iff]
    intro h
    rw [h.2.2.1] at h2; exact Bool.noConfusion h2
  · simp only [Bool.false_eq_true, false_iff]
    intro h
    have := h.2.2.2.1
    omega
  · simp only [Bool.false_eq_true, false_iff]
    intro h
    apply h4
    rw [msg_count_eq msg hb (by omega)]
    have := h.2.2.2.1
    omega
  · simp only [Bool.or_eq_true, Bool.not_eq_true', not_or, Bool.not_eq_false] at h1
    have h2' : address_in_array sender_addr nd.my_addresses = false := by
      cases hh : address_in_array sender_addr nd.my_addresses with
      | true => exact absurd hh h2
      | false => rfl
    have hc := msg_count_eq msg hb (by omega)
    have h4' : msg.length = 3 + 7 * (msg.getD 1 0 * 256 + msg.getD 2 0) := by
      rw [← hc]
      by_contra hne
      apply h4
      omega
    rw [check_records_iff, hc]
    constructor
    · intro h; exact ⟨h1.1, h1.2, h2', h4', h⟩
    · intro h; exact h.2.2.2.2

theorem read_records_length : ∀ (n : Nat) (buf : List Nat), (read_records n buf).length = n := by
  intro n
  induction n with
  | zero => intro buf; rfl
  | succ n ih => intro buf; simp [read_records, ih]

theorem connect_records_out :
    ∀ (recs : List (Nat × SockAddr)) (waiting : List SockAddr),
      (connect_records waiting recs).2 = recs.map (fun r => ⟨r.2, [CONNECT]⟩) := by
  intro recs
  induction recs with
  | nil => intro waiting; rfl
  | cons r recs ih =>
    intro waiting
    obtain ⟨n, a⟩ := r
    simp only [connect_records, List.map_cons, ih]
    rfl

theorem length_peer_list_add (l : List SockAddr) (p : SockAddr) :
    (peer_list_add l p).2.length ≤ l.length + 1 := by
  unfold peer_list_add
  split_ifs with h1 h2
  · simp
  · have hp : p ∉ l := by
      rw [← peer_list_contains_false_iff]
      cases hc : peer_list_contains l p with
      | true => exact absurd hc h1
      | false => rfl
    show (set_insert l p).length ≤ l.length + 1
    rw [length_set_insert l p hp]
  · simp

/-- The set `waiting_for_ack_connect` after the record loop, when it has room
for every record. -/
theorem connect_records_mem :
    ∀ (recs : List (Nat × SockAddr)) (waiting : List SockAddr),
      waiting.length + recs.length ≤ 65535 →
      ∀ x, x ∈ (connect_records waiting recs).1 ↔ x ∈ waiting ∨ ∃ r ∈ recs, r.2 = x := by
  intro recs
  induction recs with
  | nil => intro waiting _ x; simp [connect_records]
  | cons r recs ih =>
    intro waiting hlen x
    obtain ⟨n, a⟩ := r
    simp only [List.length_cons] at hlen
    simp only [connect_records]
    have hl := length_peer_list_add waiting a
    rw [ih (peer_list_add waiting a).2 (by omega) x,
      mem_peer_list_add waiting a x (Or.inl (by omega))]
    simp only [List.mem_cons, exists_eq_or_imp]
    constructor
    · intro h
      rcases h with (h | h) | h
      · exact Or.inr (Or.inl h.symm)
      · exact Or.inl h
      · exact Or.inr (Or.inr h)
    · intro h
      rcases h with h | h | h
      · exact Or.inl (Or.inr h)
      · exact Or.inl (Or.inl h.symm)
      · exact Or.inr h

/-- The function `handle_hello_reply` on a datagram of bytes: it accepts a
HELLO_REPLY if and only if the node is waiting for a hello reply, the sender
equals `known_peer` and is not an own address, the length is exactly
`3 + 7 * count` for the big-endian count field, and every record has address
length 4, a non-zero port, and an address that is neither the sender nor an own
address. On rejection nothing is sent and the state is unchanged. On acceptance
the waiting flag is cleared, one CONNECT is sent to every listed address in
order, every listed address is offered to `waiting_for_ack_connect` (and is in
it afterwards when the set has room for the records, as it has in every state
satisfying the invariant of the peer sets), and the sender is offered to
`peer_list`: it is a member afterwards unless `peer_list` already held 65535
addresses without it, in which case `peer_list` is unchanged. -/
theorem handle_hello_reply_effect (nd : NodeData) (msg : List Nat) (sender_addr : SockAddr)
    (hb : ∀ b ∈ msg, b < 256) :
    (check_hello_reply nd msg sender_addr = true ↔ hello_reply_ok nd msg sender_addr) ∧
      (¬ hello_reply_ok nd msg sender_addr → handle_hello_reply nd msg sender_addr = (nd, [])) ∧
      (hello_reply_ok nd msg sender_addr →
        handle_hello_reply nd msg sender_addr =
            ({ nd with
                waiting_for_hello_reply := false
                waiting_for_ack_connect := (connect_records nd.waiting_for_ack_connect
                  (read_records (msg.getD 1 0 * 256 + msg.getD 2 0) (msg.drop 3))).1
                peer_list := (peer_list_add nd.peer_list sender_addr).2 },
              (read_records (msg.getD 1 0 * 256 + msg.getD 2 0) (msg.drop 3)).map
                (fun r => ⟨r.2, [CONNECT]⟩)) ∧
          (nd.peer_list.length < 65535 ∨ sender_addr ∈ nd.peer_list →
            sender_addr ∈ (peer_list_add nd.peer_list sender_addr).2) ∧
          (65535 ≤ nd.peer_list.length → sender_addr ∉ nd.peer_list →
            (peer_list_add nd.peer_list sender_addr).2 = nd.peer_list) ∧
          (nd.waiting_for_ack_connect.length + (msg.getD 1 0 * 256 + msg.getD 2 0) ≤ 65535 →
            ∀ r ∈ read_records (msg.getD 1 0 * 256 + msg.getD 2 0) (msg.drop 3),
              r.2 ∈ (connect_records nd.waiting_for_ack_connect
                (read_records (msg.getD 1 0 * 256 + msg.getD 2 0) (msg.drop 3))).1) ∧
          (peers_inv nd →
            ∀ r ∈ read_records (msg.getD 1 0 * 256 + msg.getD 2 0) (msg.drop 3),
              r.2 ∈ (connect_records nd.waiting_for_ack_connect
                (read_records (msg.getD 1 0 * 256 + msg.getD 2 0) (msg.drop 3))).1)) := by
  have hiff := check_hello_reply_iff nd msg sender_addr hb
  refine ⟨hiff, fun hn => ?_, fun hok => ⟨?_, fun hroom => ?_, fun hfull habs => ?_,
    fun hw r hr => ?_, fun hinv r hr => ?_⟩⟩
  · unfold handle_hello_reply
    rw [if_pos]
    cases hc : check_hello_reply nd msg sender_addr with
    | true => exact absurd (hiff.mp hc) hn
    | false => rfl
  · have hc := hiff.mpr hok
    have hcount := msg_count_eq msg hb (by have := hok.2.2.2.1; omega)
    unfold handle_hello_reply
    rw [if_neg (by simp [hc])]
    simp only [hcount, MESSAGE_SIZE, COUNT_SIZE, connect_records_out]
  · exact (mem_peer_list_add _ _ sender_addr hroom).mpr (Or.inl rfl)
  · unfold peer_list_add
    rw [if_neg (by simp [(peer_list_contains_false_iff _ _).mpr habs]),
      if_neg (by simp only [MAX_CAPACITY]; omega)]
  · rw [connect_records_mem _ _ (by rw [read_records_length]; exact hw)]
    exact Or.inr ⟨r, hr, rfl⟩
  · have hempty := hinv.2.2.2.2.2.2 hok.1
    have hlen := hok.2.2.2.1
    by_cases hcnt : msg.getD 1 0 * 256 + msg.getD 2 0 ≤ 65535
    · rw [connect_records_mem _ _ (by rw [read_records_length, hempty]; simpa using hcnt)]
      exact Or.inr ⟨r, hr, rfl⟩
    · exfalso
      have h1 : msg.getD 1 0 < 256 := by
        rw [List.getD_eq_getElem?_getD]
        cases hg : msg[1]? with
        | none => simp
        | some b => exact hb b (List.getElem?_mem hg)
      have h2 : msg.getD 2 0 < 256 := by
        rw [List.getD_eq_getElem?_getD]
        cases hg : msg[2]? with
        | none => simp
        | some b => exact hb b (List.getElem?_mem hg)
      omega

theorem handle_hello_reply_effect_example :
    handle_hello_reply c22_start c22_reply ⟨16777343, 20480⟩ =
        ({ c22_start with
            waiting_for_hello_reply := false
            waiting_for_ack_connect := [⟨16777343, 20736⟩]
            peer_list := [⟨16777343, 20480⟩] },
          [⟨⟨16777343, 20736⟩, [CONNECT]⟩]) ∧
      handle_hello_reply c22_start c22_reply ⟨16777343, 20736⟩ = (c22_start, []) :=
  ⟨by
    rw [((handle_hello_reply_effect c22_start c22_reply ⟨16777343, 20480⟩ (by decide)).2.2
      (by decide)).1]
    decide,
   (handle_hello_reply_effect c22_start c22_reply ⟨16777343, 20736⟩ (by decide)).2.1
    (by decide)⟩

/-! ## The invariant of the peer sets -/

theorem handle_sync_start_peer_fields (clk : Clock) (nd : NodeData) (msg : List Nat)
    (a : SockAddr) : peer_fields (handle_sync_start clk nd msg a).1 = peer_fields nd := by
  unfold handle_sync_start
  dsimp only
  split_ifs <;> rfl

theorem handle_delay_request_peer_fields (clk : Clock) (nd : NodeData) (msg : List Nat)
    (a : SockAddr) : peer_fields (handle_delay_request clk nd msg a).1 = peer_fields nd := by
  unfold handle_delay_request
  dsimp only
  split_ifs <;> rfl

theorem handle_delay_response_peer_fields (clk : Clock) (nd : NodeData) (msg : List Nat)
    (a : SockAddr) : peer_fields (handle_delay_response clk nd msg a).1 = peer_fields nd := by
  unfold handle_delay_response
  dsimp only
  split_ifs <;> rfl

theorem handle_leader_peer_fields (clk : Clock) (nd : NodeData) (msg : List Nat)
    (a : SockAddr) : peer_fields (handle_leader clk nd msg a).1 = peer_fields nd := by
  unfold handle_leader
  dsimp only
  split_ifs <;> rfl

theorem handle_get_time_peer_fields (clk : Clock) (nd : NodeData) (msg : List Nat)
    (a : SockAddr) : peer_fields (handle_get_time clk nd msg a).1 = peer_fields nd := by
  unfold handle_get_time
  split_ifs <;> rfl

theorem check_and_handle_timers_peer_fields (clk : Clock) (nd : NodeData) :
    peer_fields (check_and_handle_timers clk nd).1 = peer_fields nd := by
  unfold check_and_handle_timers
  dsimp only
  split_ifs <;> rfl

theorem peers_inv_of_peer_fields (nd nd1 : NodeData) (h : peer_fields nd1 = peer_fields nd)
    (hi : peers_inv nd) : peers_inv nd1 := by
  unfold peer_fields at h
  simp only [Prod.mk.injEq] at h
  obtain ⟨h1, h2, h3, h4⟩ := h
  unfold peers_inv at *
  rw [h1, h2, h3, h4]
  exact hi

theorem mem_peer_list_add_sub (l : List SockAddr) (p x : SockAddr)
    (h : x ∈ (peer_list_add l p).2) : x = p ∨ x ∈ l := by
  unfold peer_list_add at h
  split_ifs at h with h1 h2
  · exact Or.inr h
  · exact (mem_set_insert l p x).mp h
  · exact Or.inr h

/-- Adding an address that is not an own address keeps a set a set of at most
65535 addresses without own addresses. -/
theorem peer_list_add_ok (mine l : List SockAddr) (p : SockAddr) (hs : set_sorted l)
    (hl : l.length ≤ MAX_CAPACITY) (hno : ∀ x ∈ l, address_in_array x mine = false)
    (hp : address_in_array p mine = false) :
    set_sorted (peer_list_add l p).2 ∧ (peer_list_add l p).2.length ≤ MAX_CAPACITY ∧
      ∀ x ∈ (peer_list_add l p).2, address_in_array x mine = false := by
  refine ⟨?_, ?_, fun x hx => ?_⟩
  · unfold peer_list_add
    split_ifs
    · exact hs
    · exact set_sorted_insert l p hs
    · exact hs
  · unfold peer_list_add
    split_ifs with h1 h2
    · exact hl
    · have hpn : p ∉ l := by
        rw [← peer_list_contains_false_iff]
        cases hc : peer_list_contains l p with
        | true => exact absurd hc h1
        | false => rfl
      show (set_insert l p).length ≤ MAX_CAPACITY
      rw [length_set_insert l p hpn]
      omega
    · exact hl
  · rcases mem_peer_list_add_sub l p x hx with h | h
    · rw [h]; exact hp
    · exact hno x h

theorem handle_hello_peers_inv (nd : NodeData) (msg : List Nat) (a : SockAddr)
    (hi : peers_inv nd) : peers_inv (handle_hello nd msg a).1 := by
  obtain ⟨h1, h2, h3, h4, h5, h6, h7⟩ := hi
  unfold handle_hello
  split_ifs with c1 c2
  · exact ⟨h1, h2, h3, h4, h5, h6, h7⟩
  · exact ⟨h1, h2, h3, h4, h5, h6, h7⟩
  · have hown : address_in_array a nd.my_addresses = false := by
      cases hh : address_in_array a nd.my_addresses with
      | true => exact absurd hh c2
      | false => rfl
    obtain ⟨k1, k2, k3⟩ := peer_list_add_ok nd.my_addresses nd.peer_list a h1 h2 h5 hown
    split
    · exact ⟨h1, h2, h3, h4, h5, h6, h7⟩
    · dsimp only
      split_ifs <;> exact ⟨k1, k2, h3, h4, k3, h6, h7⟩

theorem handle_connect_peers_inv (nd : NodeData) (msg : List Nat) (a : SockAddr)
    (hi : peers_inv nd) : peers_inv (handle_connect nd msg a).1 := by
  obtain ⟨h1, h2, h3, h4, h5, h6, h7⟩ := hi
  unfold handle_connect
  split_ifs with c1 c2 c3
  · exact ⟨h1, h2, h3, h4, h5, h6, h7⟩
  · exact ⟨h1, h2, h3, h4, h5, h6, h7⟩
  · exact ⟨h1, h2, h3, h4, h5, h6, h7⟩
  · have hown : address_in_array a nd.my_addresses = false := by
      cases hh : address_in_array a nd.my_addresses with
      | true => exact absurd hh c3
      | false => rfl
    obtain ⟨k1, k2, k3⟩ := peer_list_add_ok nd.my_addresses nd.peer_list a h1 h2 h5 hown
    exact ⟨k1, k2, h3, h4, k3, h6, h7⟩

theorem handle_ack_connect_peers_inv (nd : NodeData) (msg : List Nat) (a : SockAddr)
    (hi : peers_inv nd) : peers_inv (handle_ack_connect nd msg a).1 := by
  obtain ⟨h1, h2, h3, h4, h5, h6, h7⟩ := hi
  unfold handle_ack_connect
  split_ifs with c1 c2 c3 c4
  · exact ⟨h1, h2, h3, h4, h5, h6, h7⟩
  · exact ⟨h1, h2, h3, h4, h5, h6, h7⟩
  · exact ⟨h1, h2, h3, h4, h5, h6, h7⟩
  · exact ⟨h1, h2, h3, h4, h5, h6, h7⟩
  · have hown : address_in_array a nd.my_addresses = false := by
      cases hh : address_in_array a nd.my_addresses with
      | true => exact absurd hh c4
      | false => rfl
    obtain ⟨k1, k2, k3⟩ := peer_list_add_ok nd.my_addresses nd.peer_list a h1 h2 h5 hown
    refine ⟨k1, k2, set_sorted_erase _ _ h3, le_trans (length_set_erase _ _) h4, k3,
      fun p hp => h6 p (mem_set_erase_subset _ _ _ hp), fun hw => ?_⟩
    show peer_list_remove nd.waiting_for_ack_connect a = []
    rw [h7 hw]
    rfl

/-- The record loop of `handle_hello_reply` keeps `waiting_for_ack_connect` a
set of at most 65535 addresses without own addresses, when no record is an own
address. -/
theorem connect_records_ok (mine : List SockAddr) :
    ∀ (recs : List (Nat × SockAddr)) (waiting : List SockAddr),
      set_sorted waiting → waiting.length ≤ MAX_CAPACITY →
      (∀ x ∈ waiting, address_in_array x mine = false) →
      (∀ r ∈ recs, address_in_array r.2 mine = false) →
      set_sorted (connect_records waiting recs).1 ∧
        (connect_records waiting recs).1.length ≤ MAX_CAPACITY ∧
        ∀ x ∈ (connect_records waiting recs).1, address_in_array x mine = false := by
  intro recs
  induction recs with
  | nil => intro waiting hs hl hno _; exact ⟨hs, hl, hno⟩
  | cons r recs ih =>
    intro waiting hs hl hno hrecs
    obtain ⟨n, a⟩ := r
    obtain ⟨k1, k2, k3⟩ := peer_list_add_ok mine waiting a hs hl hno
      (hrecs (n, a) (List.mem_cons_self _ _))
    simp only [connect_records]
    exact ih _ k1 k2 k3 (fun r hr => hrecs r (List.mem_cons_of_mem _ hr))

theorem check_hello_reply_records (nd : NodeData) (msg : List Nat) (a : SockAddr)
    (h : check_hello_reply nd msg a = true) :
    address_in_array a nd.my_addresses = false ∧
      ∀ r ∈ read_records (msg_count msg) (msg.drop (MESSAGE_SIZE + COUNT_SIZE)),
        address_in_array r.2 nd.my_addresses = false := by
  unfold check_hello_reply at h
  split_ifs at h with c1 c2 c3
  dsimp only at h
  split_ifs at h
  refine ⟨?_, fun r hr => ?_⟩
  · cases hh : address_in_array a nd.my_addresses with
    | true => exact absurd hh c2
    | false => rfl
  · exact ((check_records_iff nd a _).mp h r hr).2.2.2

theorem handle_hello_reply_peers_inv (nd : NodeData) (msg : List Nat) (a : SockAddr)
    (hi : peers_inv nd) : peers_inv (handle_hello_reply nd msg a).1 := by
  obtain ⟨h1, h2, h3, h4, h5, h6, h7⟩ := hi
  unfold handle_hello_reply
  split_ifs with c1
  · exact ⟨h1, h2, h3, h4, h5, h6, h7⟩
  · have hc : check_hello_reply nd msg a = true := by
      cases hh : check_hello_reply nd msg a with
      | true => rfl
      | false => rw [hh] at c1; simp at c1
    obtain ⟨hown, hrecs⟩ := check_hello_reply_records nd msg a hc
    obtain ⟨k1, k2, k3⟩ := peer_list_add_ok nd.my_addresses nd.peer_list a h1 h2 h5 hown
    obtain ⟨w1, w2, w3⟩ := connect_records_ok nd.my_addresses _ nd.waiting_for_ack_connect
      h3 h4 h6 hrecs
    exact ⟨k1, k2, w1, w2, k3, w3, fun hw => Bool.noConfusion hw⟩

theorem step_peers_inv (nd : NodeData) (e : Event) (hi : peers_inv nd) :
    peers_inv (step nd e).1 := by
  cases e with
  | timers clk =>
    exact peers_inv_of_peer_fields nd _ (check_and_handle_timers_peer_fields clk nd) hi
  | message clk msg a =>
    simp only [step]
    unfold handle_message
    dsimp only
    split_ifs
    · exact handle_hello_peers_inv nd msg a hi
    · exact handle_hello_reply_peers_inv nd msg a hi
    · exact handle_connect_peers_inv nd msg a hi
    · exact handle_ack_connect_peers_inv nd msg a hi
    · exact peers_inv_of_peer_fields nd _ (handle_sync_start_peer_fields clk nd msg a) hi
    · exact peers_inv_of_peer_fields nd _ (handle_delay_request_peer_fields clk nd msg a) hi
    · exact peers_inv_of_peer_fields nd _ (handle_delay_response_peer_fields clk nd msg a) hi
    · exact peers_inv_of_peer_fields nd _ (handle_leader_peer_fields clk nd msg a) hi
    · exact peers_inv_of_peer_fields nd _ (handle_get_time_peer_fields clk nd msg a) hi
    · exact hi

/-- In every reachable state the peer sets satisfy their invariant. -/
theorem reachable_peers_inv (nd : NodeData) (h : Reachable nd) : peers_inv nd := by
  induction h with
  | init nd hinit =>
    obtain ⟨-, -, -, -, h5, h6, -⟩ := hinit
    unfold peers_inv set_sorted
    rw [h5, h6]
    simp
  | step nd e _ _ ih => exact step_peers_inv nd e ih

/-! ## A full peer list -/

theorem run_append (es : List Event) (e : Event) :
    ∀ nd : NodeData, run nd (es ++ [e]) = (step (run nd es) e).1 := by
  induction es with
  | nil => intro nd; rfl
  | cons e1 es ih => intro nd; exact ih (step nd e1).1

theorem set_insert_append (l : List SockAddr) (p : SockAddr)
    (h : ∀ q ∈ l, SockaddrInLess q p = true) : set_insert l p = l ++ [p] := by
  induction l with
  | nil => rfl
  | cons q l ih =>
    unfold set_insert
    rw [if_pos (h q (List.mem_cons_self _ _)), ih (fun x hx => h x (List.mem_cons_of_mem _ hx))]
    rfl

theorem c22_peer_not_mem (n : Nat) (a : SockAddr) (h : ∀ i < n, c22_peer i ≠ a) :
    a ∉ (List.range n).map c22_peer := by
  intro hm
  obtain ⟨i, hi, he⟩ := List.mem_map.mp hm
  exact h i (List.mem_range.mp hi) he

theorem c22_step (n : Nat) (hn : n < 65535) :
    (step { c22_start with peer_list := (List.range n).map c22_peer }
        (.message c9_clock [CONNECT] (c22_peer n))).1 =
      { c22_start with peer_list := (List.range (n + 1)).map c22_peer } := by
  have hdisp : handle_message c9_clock { c22_start with peer_list := (List.range n).map c22_peer }
      [CONNECT] (c22_peer n) =
      handle_connect { c22_start with peer_list := (List.range n).map c22_peer } [CONNECT]
        (c22_peer n) := by
    unfold handle_message
    simp [CONNECT, HELLO, HELLO_REPLY]
  have hnot : c22_peer n ∉ (List.range n).map c22_peer := by
    apply c22_peer_not_mem
    intro i hi he
    have := congrArg SockAddr.s_addr he
    simp only [c22_peer] at this
    omega
  have hadd : peer_list_add ((List.range n).map c22_peer) (c22_peer n) =
      (1, (List.range (n + 1)).map c22_peer) := by
    unfold peer_list_add
    rw [if_neg (by simp [(peer_list_contains_false_iff _ _).mpr hnot]),
      if_pos (by simp [MAX_CAPACITY]; omega), List.range_succ, List.map_append,
      set_insert_append]
    · rfl
    · intro q hq
      obtain ⟨i, hi, he⟩ := List.mem_map.mp hq
      rw [← he, less_iff]
      left
      have := List.mem_range.mp hi
      simp only [c22_peer]
      omega
  simp only [step]
  rw [hdisp]
  unfold handle_connect
  rw [if_neg (by simp [MESSAGE_SIZE]), if_neg, if_neg, hadd]
  · simp [address_in_array, equal_addr, c22_peer, c22_start, c3_node]
  · simp [peer_list_full, MAX_CAPACITY]
    intro h; omega

theorem c22_run (n : Nat) (hn : n ≤ 65535) :
    run c22_start (c22_events n) =
      { c22_start with peer_list := (List.range n).map c22_peer } := by
  induction n with
  | zero => rfl
  | succ n ih =>
    unfold c22_events
    rw [List.range_succ, List.map_append, List.map_singleton, run_append]
    have := ih (by omega)
    unfold c22_events at this
    rw [this, c22_step n (by omega)]
    rw [List.range_succ]

theorem c22_node_reachable : Reachable c22_node := by
  have h := reachable_run c22_start (c22_events 65535) (Reachable.init _ (by decide)) (by
    intro e he
    unfold c22_events at he
    obtain ⟨i, hi, hei⟩ := List.mem_map.mp he
    rw [← hei]
    have := List.mem_range.mp hi
    simp only [Event.well_formed, c22_peer, CONNECT, BUFFER_SIZE]
    refine ⟨by simp, by simp, by simp, ?_, by norm_num⟩
    have : (2 : Nat) ^ 32 = 4294967296 := by norm_num
    omega)
  rw [c22_run 65535 (le_refl _)] at h
  unfold c22_node c22_peers
  exact h

/-- The state after an accepted HELLO_REPLY: the flag and `peer_list`. -/
theorem handle_hello_reply_accept (nd : NodeData) (msg : List Nat) (a : SockAddr)
    (hc : check_hello_reply nd msg a = true) :
    (handle_hello_reply nd msg a).1.waiting_for_hello_reply = false ∧
      (handle_hello_reply nd msg a).1.peer_list = (peer_list_add nd.peer_list a).2 := by
  unfold handle_hello_reply
  rw [if_neg (by simp [hc])]
  exact ⟨rfl, rfl⟩

theorem peer_list_add_full (l : List SockAddr) (p : SockAddr) (hp : p ∉ l)
    (hfull : 65535 ≤ l.length) : (peer_list_add l p).2 = l := by
  unfold peer_list_add
  rw [if_neg (by
      simp only [Bool.not_eq_true]
      exact (peer_list_contains_false_iff _ _).mpr hp),
    if_neg (by simp only [MAX_CAPACITY]; omega)]

theorem peer_list_add_full_code (l : List SockAddr) (p : SockAddr) (hp : p ∉ l)
    (hfull : 65535 ≤ l.length) : (peer_list_add l p).1 = -1 := by
  unfold peer_list_add
  rw [if_neg (by
      simp only [Bool.not_eq_true]
      exact (peer_list_contains_false_iff _ _).mpr hp),
    if_neg (by simp only [MAX_CAPACITY]; omega)]

/-- The function `handle_connect` at a full `peer_list` without the sender: the
CONNECT is refused, nothing is sent and the state is unchanged. -/
theorem handle_connect_full (nd : NodeData) (msg : List Nat) (a : SockAddr)
    (hlen : msg.length = 1) (hp : a ∉ nd.peer_list) (hfull : 65535 ≤ nd.peer_list.length) :
    handle_connect nd msg a = (nd, []) := by
  unfold handle_connect
  rw [if_neg (by simp [hlen, MESSAGE_SIZE]), if_pos]
  simp only [peer_list_full, MAX_CAPACITY, Bool.and_eq_true, decide_eq_true_eq,
    Bool.not_eq_true', peer_list_contains_false_iff]
  exact ⟨hfull, hp⟩

/-- Claim C22, contradicted by the code: `handle_hello_reply` calls
`peer_list_add` under its comment `Add the sender to the peer list` and drops
the return code. At the reachable node `c22_node`, which waits for the
HELLO_REPLY of `⟨16777343, 20480⟩` and whose `peer_list` already holds 65535
other addresses, an acceptable HELLO_REPLY (no records) from that peer is
accepted (the waiting flag is cleared), `peer_list_add` returns -1, and the
sender is not in `peer_list` afterwards, which is unchanged. The sibling
`handle_connect` refuses a CONNECT of the same sender at the same node: it
tests for a full list before it acts. -/
theorem C22_full_peer_list_sender_not_added :
    Reachable c22_node ∧ c22_node.peer_list.length = 65535 ∧
      hello_reply_ok c22_node [HELLO_REPLY, 0, 0] ⟨16777343, 20480⟩ ∧
      (handle_hello_reply c22_node [HELLO_REPLY, 0, 0]
        ⟨16777343, 20480⟩).1.waiting_for_hello_reply = false ∧
      ⟨16777343, 20480⟩ ∉
        (handle_hello_reply c22_node [HELLO_REPLY, 0, 0] ⟨16777343, 20480⟩).1.peer_list ∧
      (handle_hello_reply c22_node [HELLO_REPLY, 0, 0] ⟨16777343, 20480⟩).1.peer_list =
        c22_node.peer_list ∧
      (peer_list_add c22_node.peer_list ⟨16777343, 20480⟩).1 = -1 ∧
      handle_connect c22_node [CONNECT] ⟨16777343, 20480⟩ = (c22_node, []) := by
  have hpl : c22_node.peer_list = c22_peers := rfl
  have hnot : (⟨16777343, 20480⟩ : SockAddr) ∉ c22_node.peer_list := by
    rw [hpl]
    unfold c22_peers
    apply c22_peer_not_mem
    intro i _ he
    have := congrArg SockAddr.sin_port he
    simp [c22_peer] at this
  have hok : hello_reply_ok c22_node [HELLO_REPLY, 0, 0] ⟨16777343, 20480⟩ := by
    unfold hello_reply_ok
    refine ⟨rfl, by decide, by decide, by decide, ?_⟩
    intro r hr
    simp [read_records] at hr
  have hlen : c22_node.peer_list.length = 65535 := by
    rw [hpl]
    unfold c22_peers
    rw [List.length_map, List.length_range]
  have hc : check_hello_reply c22_node [HELLO_REPLY, 0, 0] ⟨16777343, 20480⟩ = true :=
    (check_hello_reply_iff _ _ _ (by decide)).mpr hok
  obtain ⟨h1, h2⟩ := handle_hello_reply_accept c22_node [HELLO_REPLY, 0, 0] ⟨16777343, 20480⟩ hc
  have hkeep := peer_list_add_full _ _ hnot (by rw [hlen])
  refine ⟨c22_node_reachable, hlen, hok, h1, ?_, ?_,
    peer_list_add_full_code _ _ hnot (by rw [hlen]),
    handle_connect_full c22_node [CONNECT] _ rfl hnot (by rw [hlen])⟩
  · rw [h2, hkeep]
    exact hnot
  · rw [h2, hkeep]

/-! ## Datagrams of the wrong length -/

/-- Claim C28. For every received byte sequence whose length does not match
the layout of its type byte (1 byte for HELLO, CONNECT, ACK_CONNECT,
DELAY_REQUEST, GET_TIME; 10 bytes for SYNC_START and DELAY_RESPONSE; 2 bytes
for LEADER; `3 + 7 * count` for HELLO_REPLY) or whose type byte is not one of
the nine handled types, `handle_message` sends nothing and returns the node
state, peer sets included, unchanged. -/
theorem C28_wrong_length_dropped (clk : Clock) (nd : NodeData) (msg : List Nat)
    (sender_addr : SockAddr) (hb : ∀ b ∈ msg, b < 256) (h : ¬ declared_layout msg) :
    handle_message clk nd msg sender_addr = (nd, []) := by
  unfold declared_layout at h
  simp only [not_or, not_and] at h
  obtain ⟨h1, h10, h2, hr⟩ := h
  unfold handle_message
  dsimp only
  split_ifs with t1 t2 t3 t4 t5 t6 t7 t8 t9
  · have hl := h1 (Or.inl t1)
    unfold handle_hello
    rw [if_pos (by simp only [MESSAGE_SIZE]; exact hl)]
  · have hl := hr t2
    unfold handle_hello_reply
    rw [if_pos]
    cases hc : check_hello_reply nd msg sender_addr with
    | false => rfl
    | true => exact absurd ((check_hello_reply_iff nd msg sender_addr hb).mp hc).2.2.2.1 hl
  · have hl := h1 (Or.inr (Or.inl t3))
    unfold handle_connect
    rw [if_pos (by simp only [MESSAGE_SIZE]; exact hl)]
  · have hl := h1 (Or.inr (Or.inr (Or.inl t4)))
    unfold handle_ack_connect
    rw [if_pos (by simp only [MESSAGE_SIZE]; exact hl)]
  · have hl := h10 (Or.inl t5)
    have hc : check_sync_start nd msg sender_addr = false := by
      unfold check_sync_start
      rw [if_pos (by simp only [MESSAGE_SIZE, SYNCHRONIZED_SIZE, TIMESTAMP_SIZE]; exact hl)]
    unfold handle_sync_start
    dsimp only
    rw [hc]
    rfl
  · have hl := h1 (Or.inr (Or.inr (Or.inr (Or.inl t6))))
    unfold handle_delay_request
    dsimp only
    rw [if_pos (by simp only [MESSAGE_SIZE]; exact hl)]
  · have hl := h10 (Or.inr t7)
    unfold handle_delay_response
    rw [if_pos (by simp only [MESSAGE_SIZE, SYNCHRONIZED_SIZE, TIMESTAMP_SIZE]; exact hl)]
  · have hl := h2 t8
    unfold handle_leader
    rw [if_pos (by simp only [MESSAGE_SIZE, SYNCHRONIZED_SIZE]; exact hl)]
  · have hl := h1 (Or.inr (Or.inr (Or.inr (Or.inr t9))))
    unfold handle_get_time
    rw [if_pos (by simp only [MESSAGE_SIZE]; exact hl)]
  · rfl

theorem C28_wrong_length_dropped_witness :
    handle_message c9_clock c23_node [HELLO, 0] ⟨16777343, 20992⟩ = (c23_node, []) ∧
      handle_message c9_clock c23_node (create_time_message 0 1000) ⟨16777343, 20480⟩ =
        (c23_node, []) ∧
      handle_message c9_clock c22_start [HELLO_REPLY, 0, 1] ⟨16777343, 20480⟩ =
        (c22_start, []) :=
  ⟨C28_wrong_length_dropped c9_clock c23_node [HELLO, 0] ⟨16777343, 20992⟩ (by decide)
      (by decide),
    C28_wrong_length_dropped c9_clock c23_node (create_time_message 0 1000)
      ⟨16777343, 20480⟩ (by decide) (by decide),
    C28_wrong_length_dropped c9_clock c22_start [HELLO_REPLY, 0, 1] ⟨16777343, 20480⟩
      (by decide) (by decide)⟩

/-! ## The deadlines of the timer step -/

/-- The timer step writes neither `synchronizing` nor the delay-response
deadline. -/
theorem check_and_handle_timers_synchronizing (clk : Clock) (nd : NodeData) :
    (check_and_handle_timers clk nd).1.synchronizing = nd.synchronizing ∧
      (check_and_handle_timers clk nd).1.waiting_for_delay_response =
        nd.waiting_for_delay_response := by
  unfold check_and_handle_timers
  dsimp only
  split_ifs <;> exact ⟨rfl, rfl⟩

theorem synchronizing_of_sync_fields (nd nd1 : NodeData) (h : sync_fields nd1 = sync_fields nd) :
    nd1.synchronizing = nd.synchronizing := by
  unfold sync_fields at h
  simp only [Prod.mk.injEq] at h
  exact h.2.1

/-- A pending handshake ends only with an accepted DELAY_RESPONSE. -/
theorem step_clears_synchronizing (nd : NodeData) (e : Event) (hs : nd.synchronizing = true)
    (h : (step nd e).1.synchronizing = false) :
    ∃ clk msg a, e = .message clk msg a ∧ msg.getD 0 0 = DELAY_RESPONSE ∧
      delay_response_accepted nd msg a := by
  cases e with
  | timers clk =>
    simp only [step] at h
    rw [(check_and_handle_timers_synchronizing clk nd).1, hs] at h
    exact Bool.noConfusion h
  | message clk msg a =>
    simp only [step] at h
    unfold handle_message at h
    dsimp only at h
    split_ifs at h with t1 t2 t3 t4 t5 t6 t7 t8 t9
    · rw [synchronizing_of_sync_fields _ _ (handle_hello_sync_fields nd msg a), hs] at h
      exact Bool.noConfusion h
    · rw [synchronizing_of_sync_fields _ _ (handle_hello_reply_sync_fields nd msg a), hs] at h
      exact Bool.noConfusion h
    · rw [synchronizing_of_sync_fields _ _ (handle_connect_sync_fields nd msg a), hs] at h
      exact Bool.noConfusion h
    · rw [synchronizing_of_sync_fields _ _ (handle_ack_connect_sync_fields nd msg a), hs] at h
      exact Bool.noConfusion h
    · exfalso
      unfold handle_sync_start at h
      dsimp only at h
      rw [hs] at h
      split_ifs at h <;> simp [hs] at h
    · rw [synchronizing_of_sync_fields _ _ (handle_delay_request_sync_fields clk nd msg a),
        hs] at h
      exact Bool.noConfusion h
    · by_cases hacc : delay_response_accepted nd msg a
      · exact ⟨clk, msg, a, rfl, t7, hacc⟩
      · rw [handle_delay_response_rejected clk nd msg a hacc, hs] at h
        exact Bool.noConfusion h
    · exfalso
      unfold handle_leader at h
      dsimp only at h
      split_ifs at h <;> simp [hs] at h
    · rw [synchronizing_of_sync_fields _ _ (handle_get_time_sync_fields clk nd msg a), hs] at h
      exact Bool.noConfusion h
    · rw [hs] at h
      exact Bool.noConfusion h

theorem c29_events_well_formed : ∀ e ∈ c29_events, e.well_formed := by
  intro e he
  simp only [c29_events, List.mem_cons, List.mem_singleton, List.mem_nil_iff, or_false] at he
  rcases he with h | h | h <;> subst h <;>
    simp only [Event.well_formed] <;> decide

/-- Claim C29, contradicted by the code. The timer step never reads the
delay-response deadline: for every node it leaves `synchronizing` and
`waiting_for_delay_response` as they are. At the reachable node that began a
handshake at 1.005 s (deadline 6.005 s), the timer step at 60 s leaves
`synchronizing` set, and the next SYNC_START of the same known peer is
dropped. -/
theorem C29_timers_never_abandon_handshake :
    (∀ (clk : Clock) (nd : NodeData),
        (check_and_handle_timers clk nd).1.synchronizing = nd.synchronizing ∧
          (check_and_handle_timers clk nd).1.waiting_for_delay_response =
            nd.waiting_for_delay_response) ∧
      Reachable (run c3_node c29_events) ∧
      (run c3_node c29_events).synchronizing = true ∧
      (run c3_node c29_events).waiting_for_delay_response = ⟨6, 5000000⟩ ∧
      now_is_after (run c3_node c29_events).waiting_for_delay_response (c29_clock.rd 0) = true ∧
      (check_and_handle_timers c29_clock (run c3_node c29_events)).1.synchronizing = true ∧
      handle_sync_start c29_clock (check_and_handle_timers c29_clock (run c3_node c29_events)).1
          (create_sync_start_message 0 60000) ⟨16777343, 20480⟩ =
        ((check_and_handle_timers c29_clock (run c3_node c29_events)).1, []) :=
  ⟨check_and_handle_timers_synchronizing,
    reachable_run c3_node c29_events (Reachable.init _ (by decide)) c29_events_well_formed,
    by decide, by decide, by decide, by decide, by decide⟩

/-- Claim C30. For every node with `0 < sync_level < 255` whose
`next_sync_check` deadline has elapsed (the reading is later than the
deadline), `check_and_handle_timers` sets `sync_level` to 255 and `offset_ms`
to 0, changes nothing else and sends nothing; a node whose `next_sync_check`
has not elapsed keeps its level and offset. -/
theorem C30_sync_check_demotes (clk : Clock) (nd : NodeData) :
    (0 < nd.sync_level → nd.sync_level < 255 →
        now_is_after nd.next_sync_check (clk.rd 0) = true →
        check_and_handle_timers clk nd = ({ nd with sync_level := 255, offset_ms := 0 }, [])) ∧
      (now_is_after nd.next_sync_check (clk.rd 0) = false →
        (check_and_handle_timers clk nd).1.sync_level = nd.sync_level ∧
          (check_and_handle_timers clk nd).1.offset_ms = nd.offset_ms) ∧
      (now_is_after nd.next_sync_check (clk.rd 0) = true ↔
        nd.next_sync_check.tv_sec < (clk.rd 0).tv_sec ∨
          (nd.next_sync_check.tv_sec = (clk.rd 0).tv_sec ∧
            nd.next_sync_check.tv_nsec < (clk.rd 0).tv_nsec)) := by
  refine ⟨fun h0 h255 hn => ?_, fun hn => ?_, ?_⟩
  · unfold check_and_handle_timers
    dsimp only
    rw [liveness_check_fires clk nd h0 h255 hn]
    rfl
  · unfold check_and_handle_timers
    dsimp only
    rw [liveness_check_idle clk nd (Or.inr hn)]
    split_ifs <;> exact ⟨rfl, rfl⟩
  · unfold now_is_after check_order
    simp only [Bool.or_eq_true, Bool.and_eq_true, decide_eq_true_eq]

theorem C30_sync_check_demotes_witness :
    check_and_handle_timers c9_clock c13_node =
        ({ c13_node with sync_level := 255, offset_ms := 0 }, []) ∧
      (check_and_handle_timers c9_clock c10_node).1.sync_level = c10_node.sync_level ∧
      (check_and_handle_timers c9_clock c10_node).1.offset_ms = c10_node.offset_ms :=
  ⟨(C30_sync_check_demotes c9_clock c13_node).1 (by decide) (by decide) (by decide),
    (C30_sync_check_demotes c9_clock c10_node).2.1 (by decide)⟩

/-! ## Datagrams from own addresses -/

theorem handle_message_own_fields (clk : Clock) (nd : NodeData) (msg : List Nat)
    (a : SockAddr) : own_fields (handle_message clk nd msg a).1 = own_fields nd := by
  unfold handle_message
  dsimp only
  split_ifs
  · unfold handle_hello
    split
    · rfl
    · split
      · rfl
      · split
        · rfl
        · dsimp only
          split <;> rfl
  · unfold handle_hello_reply
    split <;> rfl
  · unfold handle_connect
    split_ifs <;> rfl
  · unfold handle_ack_connect
    split_ifs <;> rfl
  · unfold handle_sync_start
    dsimp only
    split_ifs <;> rfl
  · unfold handle_delay_request
    dsimp only
    split_ifs <;> rfl
  · unfold handle_delay_response
    dsimp only
    split_ifs <;> rfl
  · unfold handle_leader
    dsimp only
    split_ifs <;> rfl
  · unfold handle_get_time
    split_ifs <;> rfl
  · rfl

/-- The timer step leaves `asked_to_synchronize` as it is or replaces it by a
copy of `peer_list`. -/
theorem check_and_handle_timers_asked (clk : Clock) (nd : NodeData) :
    (check_and_handle_timers clk nd).1.my_addresses = nd.my_addresses ∧
      ((check_and_handle_timers clk nd).1.asked_to_synchronize = nd.asked_to_synchronize ∨
        (check_and_handle_timers clk nd).1.asked_to_synchronize = nd.peer_list) := by
  unfold check_and_handle_timers peer_list_cpy
  dsimp only
  split_ifs <;> first | exact ⟨rfl, Or.inl rfl⟩ | exact ⟨rfl, Or.inr rfl⟩

theorem step_asked_inv (nd : NodeData) (e : Event) (hp : peers_inv nd)
    (hi : ∀ p ∈ nd.asked_to_synchronize, address_in_array p nd.my_addresses = false) :
    ∀ p ∈ (step nd e).1.asked_to_synchronize,
      address_in_array p (step nd e).1.my_addresses = false := by
  cases e with
  | timers clk =>
    simp only [step]
    obtain ⟨hm, ha⟩ := check_and_handle_timers_asked clk nd
    rw [hm]
    rcases ha with ha | ha <;> rw [ha]
    · exact hi
    · exact hp.2.2.2.2.1
  | message clk msg a =>
    simp only [step]
    have h := handle_message_own_fields clk nd msg a
    unfold own_fields at h
    simp only [Prod.mk.injEq] at h
    rw [h.1, h.2]
    exact hi

theorem reachable_asked_inv (nd : NodeData) (h : Reachable nd) :
    ∀ p ∈ nd.asked_to_synchronize, address_in_array p nd.my_addresses = false := by
  induction h with
  | init nd hinit =>
    obtain ⟨-, -, -, -, -, -, h7⟩ := hinit
    rw [h7]
    intro p hp
    exact absurd hp (List.not_mem_nil p)
  | step nd e hr _ ih => exact step_asked_inv nd e (reachable_peers_inv nd hr) ih

theorem reachable_no_own_address (nd : NodeData) (h : Reachable nd) : no_own_address nd := by
  intro p hown
  have hp := reachable_peers_inv nd h
  have ha := reachable_asked_inv nd h
  refine ⟨fun hm => ?_, fun hm => ?_, fun hm => ?_⟩
  · rw [hp.2.2.2.2.1 p hm] at hown
    exact Bool.noConfusion hown
  · rw [hp.2.2.2.2.2.1 p hm] at hown
    exact Bool.noConfusion hown
  · rw [ha p hm] at hown
    exact Bool.noConfusion hown

/-- Claim C38. A HELLO, HELLO_REPLY, CONNECT or ACK_CONNECT (of any length)
whose sender is one of the node's own addresses produces no datagram and leaves
the node state unchanged; and in every reachable state no own address is a
member of `peer_list`, `waiting_for_ack_connect` or `asked_to_synchronize`. -/
theorem C38_own_address_ignored (nd : NodeData) :
    (∀ (clk : Clock) (msg : List Nat) (sender_addr : SockAddr),
        address_in_array sender_addr nd.my_addresses = true →
        msg.getD 0 0 = HELLO ∨ msg.getD 0 0 = HELLO_REPLY ∨ msg.getD 0 0 = CONNECT ∨
          msg.getD 0 0 = ACK_CONNECT →
        handle_message clk nd msg sender_addr = (nd, [])) ∧
      (Reachable nd → no_own_address nd) := by
  refine ⟨fun clk msg sender_addr hown ht => ?_, reachable_no_own_address nd⟩
  unfold handle_message
  dsimp only
  rcases ht with ht | ht | ht | ht
  · rw [if_pos ht]
    unfold handle_hello
    split_ifs
    · rfl
    · rfl
  · rw [if_neg (by rw [ht]; decide), if_pos ht]
    have hc : check_hello_reply nd msg sender_addr = false := by
      unfold check_hello_reply
      split_ifs <;> rfl
    unfold handle_hello_reply
    rw [hc]
    rfl
  · rw [if_neg (by rw [ht]; decide), if_neg (by rw [ht]; decide), if_pos ht]
    unfold handle_connect
    split_ifs <;> rfl
  · rw [if_neg (by rw [ht]; decide), if_neg (by rw [ht]; decide), if_neg (by rw [ht]; decide),
      if_pos ht]
    unfold handle_ack_connect
    split_ifs <;> rfl

theorem C38_own_address_ignored_witness :
    handle_message c9_clock c38_node [HELLO] ⟨16777343, 36895⟩ = (c38_node, []) ∧
      handle_message c9_clock c38_node [HELLO_REPLY, 0, 0] ⟨16777343, 36895⟩ =
        (c38_node, []) ∧
      no_own_address c38_node :=
  ⟨(C38_own_address_ignored c38_node).1 c9_clock [HELLO] ⟨16777343, 36895⟩ (by decide)
      (Or.inl (by decide)),
    (C38_own_address_ignored c38_node).1 c9_clock [HELLO_REPLY, 0, 0] ⟨16777343, 36895⟩
      (by decide) (Or.inr (Or.inl (by decide))),
    (C38_own_address_ignored c38_node).2 (Reachable.init _ (by decide))⟩

/-- Every reachable node has room in `peer_list` for the sender of a HELLO
whose reply fits the buffer, and holds no own address in it. -/
theorem reachable_hello_room (nd : NodeData) (sender_addr : SockAddr) (hr : Reachable nd)
    (hc : 3 + 7 * (listed_peers nd.peer_list nd.my_addresses sender_addr).length < 65536) :
    set_sorted nd.peer_list ∧
      (∀ p ∈ nd.peer_list, address_in_array p nd.my_addresses = false) ∧
      nd.peer_list.length < 65535 :=
  ⟨(reachable_peers_inv nd hr).1, (reachable_peers_inv nd hr).2.2.2.2.1,
    hello_room nd sender_addr (reachable_peers_inv nd hr).1
      (reachable_peers_inv nd hr).2.2.2.2.1 hc⟩

end PTS
namespace APX

/-! ## Decimal digits -/

theorem digitChar_isDigit (k : Nat) (h : k < 10) : (Nat.digitChar k).isDigit = true := by
  interval_cases k <;> rfl

theorem digitChar_value (k : Nat) (h : k < 10) : (Nat.digitChar k).toNat - 48 = k := by
  interval_cases k <;> rfl

theorem decimal_append_singleton (l : Str) (c : Char) :
    decimal (l ++ [c]) = 10 * decimal l + (c.toNat - 48) := by
  simp [decimal, List.foldl_append]

theorem toDigitsCore_spec (fuel : Nat) : ∀ (n : Nat) (ds : Str), n < fuel →
    ∃ l : Str, Nat.toDigitsCore 10 fuel n ds = l ++ ds ∧ l ≠ [] ∧
      (∀ c ∈ l, c.isDigit = true) ∧ decimal l = n := by
  induction fuel with
  | zero => intro n ds h; omega
  | succ fuel ih =>
    intro n ds h
    unfold Nat.toDigitsCore
    by_cases h0 : n / 10 = 0
    · refine ⟨[Nat.digitChar (n % 10)], by simp [h0], by simp, ?_, ?_⟩
      · intro c hc
        simp only [List.mem_singleton] at hc
        rw [hc]
        exact digitChar_isDigit _ (Nat.mod_lt _ (by norm_num))
      · have := digitChar_value (n % 10) (Nat.mod_lt _ (by norm_num))
        simp only [decimal, List.foldl_cons, List.foldl_nil, this]
        omega
    · obtain ⟨l, h1, h2, h3, h4⟩ := ih (n / 10) (Nat.digitChar (n % 10) :: ds) (by omega)
      refine ⟨l ++ [Nat.digitChar (n % 10)], by simp [h0, h1], by simp, ?_, ?_⟩
      · intro c hc
        rcases List.mem_append.mp hc with hc | hc
        · exact h3 c hc
        · simp only [List.mem_singleton] at hc
          rw [hc]
          exact digitChar_isDigit _ (Nat.mod_lt _ (by norm_num))
      · rw [decimal_append_singleton, h4, digitChar_value (n % 10) (Nat.mod_lt _ (by norm_num))]
        omega

theorem toDigits_spec (n : Nat) :
    Nat.toDigits 10 n ≠ [] ∧ (∀ c ∈ Nat.toDigits 10 n, c.isDigit = true) ∧
      decimal (Nat.toDigits 10 n) = n := by
  obtain ⟨l, h1, h2, h3, h4⟩ := toDigitsCore_spec (n + 1) n [] (by omega)
  have : Nat.toDigits 10 n = l := by
    unfold Nat.toDigits
    rw [h1, List.append_nil]
  rw [this]
  exact ⟨h2, h3, h4⟩

theorem seven_digits_spec (m : Nat) (h : m < 10000000) :
    (seven_digits m).length = 7 ∧ (∀ c ∈ seven_digits m, c.isDigit = true) ∧
      decimal (seven_digits m) = m := by
  refine ⟨rfl, ?_, ?_⟩
  · intro c hc
    simp only [seven_digits, List.mem_cons, List.mem_singleton, List.mem_nil_iff, or_false] at hc
    rcases hc with h | h | h | h | h | h | h <;> rw [h] <;>
      exact digitChar_isDigit _ (Nat.mod_lt _ (by norm_num))
  · simp only [seven_digits, decimal, List.foldl_cons, List.foldl_nil]
    rw [digitChar_value _ (Nat.mod_lt _ (by norm_num)),
      digitChar_value _ (Nat.mod_lt _ (by norm_num)),
      digitChar_value _ (Nat.mod_lt _ (by norm_num)),
      digitChar_value _ (Nat.mod_lt _ (by norm_num)),
      digitChar_value _ (Nat.mod_lt _ (by norm_num)),
      digitChar_value _ (Nat.mod_lt _ (by norm_num)),
      digitChar_value _ (Nat.mod_lt _ (by norm_num))]
    omega

/-! ## Integers and doubles through their text -/

theorem isDigit_ne_minus (c : Char) (h : c.isDigit = true) : c ≠ '-' := by
  intro e; rw [e] at h; exact absurd h (by decide)

theorem isDigit_ne_space (c : Char) (h : c.isDigit = true) : c ≠ ' ' := by
  intro e; rw [e] at h; exact absurd h (by decide)

theorem takeWhile_digits_append (a t : Str) (b : Char) (ha : ∀ c ∈ a, c.isDigit = true)
    (hb : b.isDigit = false) : (a ++ b :: t).takeWhile Char.isDigit = a := by
  induction a with
  | nil => simp [List.takeWhile, hb]
  | cons x a ih =>
    have hx := ha x (List.mem_cons_self x a)
    rw [List.cons_append, List.takeWhile_cons, if_pos hx,
      ih (fun c hc => ha c (List.mem_cons_of_mem x hc))]

theorem dropWhile_digits_append (a t : Str) (b : Char) (ha : ∀ c ∈ a, c.isDigit = true)
    (hb : b.isDigit = false) : (a ++ b :: t).dropWhile Char.isDigit = b :: t := by
  induction a with
  | nil => simp [List.dropWhile, hb]
  | cons x a ih =>
    have hx := ha x (List.mem_cons_self x a)
    rw [List.cons_append, List.dropWhile_cons, if_pos hx,
      ih (fun c hc => ha c (List.mem_cons_of_mem x hc))]

theorem takeWhile_digits_all (a : Str) (ha : ∀ c ∈ a, c.isDigit = true) :
    a.takeWhile Char.isDigit = a := by
  induction a with
  | nil => rfl
  | cons x a ih =>
    have hx := ha x (List.mem_cons_self x a)
    simp only [List.takeWhile, hx]
    rw [ih (fun c hc => ha c (List.mem_cons_of_mem x hc))]

theorem dropWhile_digits_all (a : Str) (ha : ∀ c ∈ a, c.isDigit = true) :
    a.dropWhile Char.isDigit = [] := by
  induction a with
  | nil => rfl
  | cons x a ih =>
    have hx := ha x (List.mem_cons_self x a)
    simp only [List.dropWhile, hx]
    rw [ih (fun c hc => ha c (List.mem_cons_of_mem x hc))]

theorem all_isDigit_of_forall (a : Str) (ha : ∀ c ∈ a, c.isDigit = true) :
    a.all Char.isDigit = true := by
  rw [List.all_eq_true]; exact ha

theorem stoll_digits (s : Str) (c : Char) (rest : Str) (hs : s = c :: rest) (hc : c ≠ '-') :
    stoll s = if (decimal s : Int) < LLONG_MIN ∨ (decimal s : Int) > LLONG_MAX then none
      else some (decimal s : Int) := by
  subst hs
  unfold stoll
  split
  · rename_i heq
    exact absurd (List.cons.inj heq).1 hc
  · rfl

/-- The text of an `int` parses back to it. -/
theorem parseInteger_to_string (p : Int) (h1 : INT_MIN ≤ p) (h2 : p ≤ INT_MAX) :
    parseInteger (to_string p) = some p := by
  obtain ⟨hne, hdig, hval⟩ := toDigits_spec p.natAbs
  unfold INT_MIN at h1
  unfold INT_MAX at h2
  by_cases hp : p < 0
  · have hs : to_string p = '-' :: Nat.toDigits 10 p.natAbs := by simp [to_string, hp]
    have hf : isValidIntegerStringFormat (to_string p) = true := by
      rw [hs]
      simp only [isValidIntegerStringFormat, if_pos, hne, if_false]
      exact all_isDigit_of_forall _ hdig
    have hv : stoll (to_string p) = some p := by
      rw [hs]
      simp only [stoll, hval, LLONG_MIN, LLONG_MAX]
      rw [if_neg (by omega)]
      congr 1; omega
    simp only [parseInteger, hf, hv, INT_MIN, INT_MAX]
    rw [if_neg (by simp), if_neg (by omega)]
  · have hs : to_string p = Nat.toDigits 10 p.natAbs := by simp [to_string, hp]
    obtain ⟨c, rest, hcr⟩ := List.exists_cons_of_ne_nil hne
    have hc : c ≠ '-' := isDigit_ne_minus c (hdig c (by rw [hcr]; exact List.mem_cons_self c rest))
    have hf : isValidIntegerStringFormat (to_string p) = true := by
      rw [hs, hcr]
      simp only [isValidIntegerStringFormat, if_neg hc]
      rw [← hcr]
      exact all_isDigit_of_forall _ hdig
    have hv : stoll (to_string p) = some p := by
      rw [hs, stoll_digits _ c rest hcr hc, hval]
      simp only [LLONG_MIN, LLONG_MAX]
      rw [if_neg (by omega)]
      congr 1; omega
    simp only [parseInteger, hf, hv, INT_MIN, INT_MAX]
    rw [if_neg (by simp), if_neg (by omega)]

theorem round_half_even_le (q : ℚ) (N : Nat) (hq : 0 ≤ q) (h : q ≤ N) :
    round_half_even q ≤ N := by
  have hf0 : (0 : Int) ≤ ⌊q⌋ := Int.floor_nonneg.mpr hq
  have hfq : ((⌊q⌋.toNat : Nat) : ℚ) = (⌊q⌋ : ℚ) := by
    have : ((⌊q⌋.toNat : Nat) : Int) = ⌊q⌋ := Int.toNat_of_nonneg hf0
    exact_mod_cast congrArg (fun z : Int => (z : ℚ)) this
  have hfle : (⌊q⌋ : ℚ) ≤ q := Int.floor_le q
  have hfN : ⌊q⌋.toNat ≤ N := by
    have : ((⌊q⌋.toNat : Nat) : ℚ) ≤ (N : ℚ) := by rw [hfq]; linarith
    exact_mod_cast this
  unfold round_half_even
  simp only
  split_ifs with h1 h2 h3
  · exact hfN
  · rcases Nat.lt_or_ge ⌊q⌋.toNat N with hlt | hge
    · omega
    · exfalso
      have he : ⌊q⌋.toNat = N := le_antisymm hfN hge
      rw [he] at h1
      apply h1
      linarith
  · exact hfN
  · rcases Nat.lt_or_ge ⌊q⌋.toNat N with hlt | hge
    · omega
    · exfalso
      have he : ⌊q⌋.toNat = N := le_antisymm hfN hge
      rw [he] at h1
      apply h1
      linarith

theorem digits_value (n : Nat) :
    ((n / 10000000 : Nat) : ℚ) + ((n % 10000000 : Nat) : ℚ) / 10 ^ 7 = (n : ℚ) / 10 ^ 7 := by
  have h := Nat.div_add_mod n 10000000
  have h' : (n : ℚ) = 10000000 * ((n / 10000000 : Nat) : ℚ) + ((n % 10000000 : Nat) : ℚ) := by
    exact_mod_cast h.symm
  rw [h']
  field_simp
  ring

theorem skip_point_dot (r : Str) : skip_point ('.' :: r) = r := rfl

theorem double_format_digits_ok (D S : Str) (hD : D ≠ [])
    (hDd : ∀ c ∈ D, c.isDigit = true) (hSd : ∀ c ∈ S, c.isDigit = true) (hS : S.length ≤ 7) :
    double_format_digits (D ++ '.' :: S) = true := by
  have hdot : ('.' : Char).isDigit = false := by decide
  have hDe : D.isEmpty = false := by
    cases D with
    | nil => exact absurd rfl hD
    | cons _ _ => rfl
  have hSe : ([] : Str).isEmpty = true := rfl
  unfold double_format_digits
  simp only [takeWhile_digits_append D S '.' hDd hdot, dropWhile_digits_append D S '.' hDd hdot,
    skip_point_dot, takeWhile_digits_all S hSd, dropWhile_digits_all S hSd, hDe, hSe,
    max_fractional_digits]
  rw [if_neg (by omega)]
  simp

theorem stod_magnitude_digits (D S : Str) (hDd : ∀ c ∈ D, c.isDigit = true)
    (hSd : ∀ c ∈ S, c.isDigit = true) :
    stod_magnitude (D ++ '.' :: S) = (decimal D : ℚ) + (decimal S : ℚ) / 10 ^ S.length := by
  have hdot : ('.' : Char).isDigit = false := by decide
  unfold stod_magnitude
  simp only [takeWhile_digits_append D S '.' hDd hdot, dropWhile_digits_append D S '.' hDd hdot,
    skip_point_dot, takeWhile_digits_all S hSd]

theorem stod_not_minus (c : Char) (rest : Str) (hc : c ≠ '-') :
    stod (c :: rest) = if stod_magnitude (c :: rest) ≥ DBL_OVERFLOW then none
      else some (stod_magnitude (c :: rest)) := by
  unfold stod
  split
  · rename_i heq
    exact absurd (List.cons.inj heq).1 hc
  · rfl

/-- The shape of what `doubleToString` prints, and how `parseDouble` reads
it: digits, a point, digits. -/
theorem parseDouble_digits (neg : Bool) (D S : Str) (hD : D ≠ [])
    (hDd : ∀ c ∈ D, c.isDigit = true) (hSd : ∀ c ∈ S, c.isDigit = true)
    (hS : S.length ≤ 7)
    (hm : (decimal D : ℚ) + (decimal S : ℚ) / 10 ^ S.length < DBL_OVERFLOW) :
    parseDouble ((if neg then ['-'] else []) ++ D ++ '.' :: S) =
      some (if neg then -((decimal D : ℚ) + (decimal S : ℚ) / 10 ^ S.length)
        else (decimal D : ℚ) + (decimal S : ℚ) / 10 ^ S.length) := by
  have hfd := double_format_digits_ok D S hD hDd hSd hS
  have hmag := stod_magnitude_digits D S hDd hSd
  obtain ⟨c, rest, hcr⟩ := List.exists_cons_of_ne_nil hD
  have hc : c ≠ '-' := isDigit_ne_minus c (hDd c (by rw [hcr]; exact List.mem_cons_self c rest))
  have hnm : ¬ ((decimal D : ℚ) + (decimal S : ℚ) / 10 ^ S.length ≥ DBL_OVERFLOW) := not_le.mpr hm
  have hne : D ++ '.' :: S ≠ [] := by simp
  cases neg with
  | true =>
    have hstr : (if true = true then ['-'] else []) ++ D ++ '.' :: S = '-' :: (D ++ '.' :: S) := rfl
    have hf : isValidDoubleStringFormat ('-' :: (D ++ '.' :: S)) = true := by
      unfold isValidDoubleStringFormat
      dsimp only
      rw [if_pos rfl, if_neg hne, hfd]
    have hv : stod ('-' :: (D ++ '.' :: S)) =
        some (-((decimal D : ℚ) + (decimal S : ℚ) / 10 ^ S.length)) := by
      unfold stod
      simp only [hmag]
      rw [if_neg hnm]
    rw [hstr]
    unfold parseDouble
    rw [hf, hv]
    rfl
  | false =>
    have hstr0 : (if false = true then ['-'] else []) ++ D ++ '.' :: S = D ++ '.' :: S := rfl
    have hstr : D ++ '.' :: S = c :: (rest ++ '.' :: S) := by rw [hcr]; rfl
    have hf : isValidDoubleStringFormat (D ++ '.' :: S) = true := by
      rw [hstr]
      unfold isValidDoubleStringFormat
      dsimp only
      rw [if_neg hc, ← hstr, hfd]
    have hv : stod (D ++ '.' :: S) =
        some ((decimal D : ℚ) + (decimal S : ℚ) / 10 ^ S.length) := by
      rw [hstr, stod_not_minus c _ hc, ← hstr, hmag, if_neg hnm]
    rw [hstr0]
    unfold parseDouble
    rw [hf, hv]
    rfl

theorem DBL_MAX_scaled : DBL_MAX * 10 ^ 7 = ((2 ^ 971 * (2 ^ 53 - 1) * 10 ^ 7 : Nat) : ℚ) := by
  unfold DBL_MAX
  norm_num

theorem DBL_MAX_lt_overflow : DBL_MAX < DBL_OVERFLOW := by
  unfold DBL_MAX DBL_OVERFLOW
  norm_num

/-- What `doubleToString` prints parses back to the value rounded to seven
digits after the point. -/
theorem parseDouble_doubleToString (v : ℚ) (hv : |v| ≤ DBL_MAX) :
    parseDouble (doubleToString v) = some (round7 v) := by
  have hx0 : (0 : ℚ) ≤ |v| * 10 ^ 7 := by positivity
  have hxN : |v| * 10 ^ 7 ≤ ((2 ^ 971 * (2 ^ 53 - 1) * 10 ^ 7 : Nat) : ℚ) := by
    rw [← DBL_MAX_scaled]
    exact mul_le_mul_of_nonneg_right hv (by positivity)
  have hn := round_half_even_le _ _ hx0 hxN
  generalize hng : round_half_even (|v| * 10 ^ 7) = n at hn
  obtain ⟨hne, hdig, hval⟩ := toDigits_spec (n / 10000000)
  obtain ⟨hl7, hd7, hv7⟩ := seven_digits_spec (n % 10000000) (Nat.mod_lt _ (by norm_num))
  have hm : (decimal (Nat.toDigits 10 (n / 10000000)) : ℚ) +
      (decimal (seven_digits (n % 10000000)) : ℚ) / 10 ^ (seven_digits (n % 10000000)).length =
      (n : ℚ) / 10 ^ 7 := by
    rw [hval, hv7, hl7]
    exact digits_value n
  have hlt : (n : ℚ) / 10 ^ 7 < DBL_OVERFLOW := by
    have h1 : (n : ℚ) ≤ DBL_MAX * 10 ^ 7 := by
      rw [DBL_MAX_scaled]; exact_mod_cast hn
    have h2 : (n : ℚ) / 10 ^ 7 ≤ DBL_MAX := by
      rw [div_le_iff₀ (by positivity)]; exact h1
    exact lt_of_le_of_lt h2 DBL_MAX_lt_overflow
  have key := parseDouble_digits (decide (v < 0)) (Nat.toDigits 10 (n / 10000000))
    (seven_digits (n % 10000000)) hne hdig hd7 (by rw [hl7]) (by rw [hm]; exact hlt)
  rw [hm] at key
  have hds : doubleToString v = (if decide (v < 0) = true then ['-'] else []) ++
      Nat.toDigits 10 (n / 10000000) ++ '.' :: seven_digits (n % 10000000) := by
    unfold doubleToString
    simp only [max_fractional_digits, hng]
    by_cases h : v < 0 <;> simp [h]
  have hr : round7 v = if decide (v < 0) = true then -((n : ℚ) / 10 ^ 7) else (n : ℚ) / 10 ^ 7 := by
    unfold round7
    simp only [max_fractional_digits, hng]
    by_cases h : v < 0 <;> simp [h]
  rw [hds, hr]
  exact key

/-! ## Lines -/

theorem takeWhile_append_stop (p : Char → Bool) (a t : Str) (b : Char)
    (ha : ∀ c ∈ a, p c = true) (hb : p b = false) : (a ++ b :: t).takeWhile p = a := by
  induction a with
  | nil => simp [List.takeWhile, hb]
  | cons x a ih =>
    have hx := ha x (List.mem_cons_self x a)
    rw [List.cons_append, List.takeWhile_cons, if_pos hx,
      ih (fun c hc => ha c (List.mem_cons_of_mem x hc))]

theorem dropWhile_append_stop (p : Char → Bool) (a t : Str) (b : Char)
    (ha : ∀ c ∈ a, p c = true) (hb : p b = false) : (a ++ b :: t).dropWhile p = b :: t := by
  induction a with
  | nil => simp [List.dropWhile, hb]
  | cons x a ih =>
    have hx := ha x (List.mem_cons_self x a)
    rw [List.cons_append, List.dropWhile_cons, if_pos hx,
      ih (fun c hc => ha c (List.mem_cons_of_mem x hc))]

theorem takeWhile_all (p : Char → Bool) (a : Str) (ha : ∀ c ∈ a, p c = true) :
    a.takeWhile p = a := by
  induction a with
  | nil => rfl
  | cons x a ih =>
    have hx := ha x (List.mem_cons_self x a)
    rw [List.takeWhile_cons, if_pos hx, ih (fun c hc => ha c (List.mem_cons_of_mem x hc))]

theorem dropWhile_all (p : Char → Bool) (a : Str) (ha : ∀ c ∈ a, p c = true) :
    a.dropWhile p = [] := by
  induction a with
  | nil => rfl
  | cons x a ih =>
    have hx := ha x (List.mem_cons_self x a)
    rw [List.dropWhile_cons, if_pos hx, ih (fun c hc => ha c (List.mem_cons_of_mem x hc))]

theorem is_token_no_space (t : Str) (h : is_token t) : ' ' ∉ t := by
  intro hs
  exact absurd (h.2 ' ' hs) (by decide)

theorem extract_no_params (cmd : Str) (hcmd : cmd ≠ []) (hsp : ' ' ∉ cmd) :
    extractCommandAndParams cmd = some (cmd, []) := by
  have hall : ∀ c ∈ cmd, (fun c => decide (c ≠ ' ')) c = true := by
    intro c hc
    simp only [ne_eq, decide_not, Bool.not_eq_true', decide_eq_false_iff_not]
    intro e; exact hsp (e ▸ hc)
  have hE : cmd.isEmpty = false := by
    cases cmd with
    | nil => exact absurd rfl hcmd
    | cons _ _ => rfl
  unfold extractCommandAndParams
  rw [hE]
  simp only [Bool.false_eq_true, if_false, List.span_eq_take_drop]
  rw [takeWhile_all _ cmd hall, dropWhile_all _ cmd hall]
  cases cmd with
  | nil => rfl
  | cons _ _ => rfl

theorem extract_with_params (cmd P : Str) (hcmd : cmd ≠ []) (hsp : ' ' ∉ cmd) (hP : P ≠ []) :
    extractCommandAndParams (cmd ++ ' ' :: P) = some (cmd, P) := by
  have hall : ∀ c ∈ cmd, (fun c => decide (c ≠ ' ')) c = true := by
    intro c hc
    simp only [ne_eq, decide_not, Bool.not_eq_true', decide_eq_false_iff_not]
    intro e; exact hsp (e ▸ hc)
  have hb : (fun c => decide (c ≠ ' ')) ' ' = false := by decide
  obtain ⟨c0, cr, hc0⟩ := List.exists_cons_of_ne_nil hcmd
  obtain ⟨p0, pr, hp0⟩ := List.exists_cons_of_ne_nil hP
  have hE : (cmd ++ ' ' :: P).isEmpty = false := by rw [hc0]; rfl
  unfold extractCommandAndParams
  rw [hE]
  simp only [Bool.false_eq_true, if_false, List.span_eq_take_drop]
  rw [takeWhile_append_stop _ cmd P ' ' hall hb, dropWhile_append_stop _ cmd P ' ' hall hb]
  rw [hc0, hp0]

theorem intercalate_ne_nil (tokens : List Str) (htok : tokens ≠ [])
    (h : ∀ t ∈ tokens, is_token t) : [' '].intercalate tokens ≠ [] := by
  obtain ⟨t, ts, hts⟩ := List.exists_cons_of_ne_nil htok
  obtain ⟨c, cs, hcs⟩ := List.exists_cons_of_ne_nil (h t (by rw [hts]; exact List.mem_cons_self t ts)).1
  rw [hts, hcs]
  cases ts with
  | nil => simp [List.intercalate]
  | cons u us => simp [List.intercalate, List.intersperse]

theorem splitParams_intercalate (tokens : List Str) (htok : tokens ≠ [])
    (h : ∀ t ∈ tokens, is_token t) : splitParams ([' '].intercalate tokens) = some tokens := by
  have hsplit : ([' '].intercalate tokens).splitOn ' ' = tokens :=
    List.splitOn_intercalate tokens ' ' (fun l hl => is_token_no_space l (h l hl)) htok
  have hne := intercalate_ne_nil tokens htok h
  have hE : ([' '].intercalate tokens).isEmpty = false := by
    cases hx : [' '].intercalate tokens with
    | nil => exact absurd hx hne
    | cons _ _ => rfl
  have hne' : ∀ t ∈ tokens, (!t.isEmpty) = true := by
    intro t ht
    have := (h t ht).1
    cases t with
    | nil => exact absurd rfl this
    | cons _ _ => rfl
  have hre : params_regex_match ([' '].intercalate tokens) = true := by
    unfold params_regex_match
    rw [hsplit, List.all_eq_true]
    intro t ht
    rw [Bool.and_eq_true, List.all_eq_true]
    exact ⟨hne' t ht, (h t ht).2⟩
  unfold splitParams
  rw [hE, hre, hsplit]
  simp only [Bool.false_eq_true, if_false, Bool.not_true]
  rw [List.filter_eq_self.mpr hne']

theorem strip_crlf (s : Str) :
    ¬ ((s ++ crlf).length < 2 ∨ (s ++ crlf).drop ((s ++ crlf).length - 2) ≠ crlf) ∧
      (s ++ crlf).take ((s ++ crlf).length - 2) = s := by
  have hl : (s ++ crlf).length - 2 = s.length := by simp [crlf]
  rw [hl, List.drop_left, List.take_left]
  simp [crlf]

/-- A command word followed by parameters and CR LF parses to the fields its
subclass reads from the parameters. -/
theorem createMessage_with_params (cmd : Str) (tokens : List Str) (hcmd : cmd ≠ [])
    (hsp : ' ' ∉ cmd) (htok : tokens ≠ []) (h : ∀ t ∈ tokens, is_token t) :
    Message.createMessage (cmd ++ ' ' :: [' '].intercalate tokens ++ crlf) =
      (parse_fields cmd tokens).map
        (fun f => ⟨cmd ++ ' ' :: [' '].intercalate tokens ++ crlf, tokens, f⟩) := by
  obtain ⟨h1, h2⟩ := strip_crlf (cmd ++ ' ' :: [' '].intercalate tokens)
  unfold Message.createMessage
  rw [if_neg h1]
  simp only [h2, extract_with_params cmd _ hcmd hsp (intercalate_ne_nil tokens htok h),
    splitParams_intercalate tokens htok h]

/-- A command word alone followed by CR LF parses with no parameters. -/
theorem createMessage_no_params (cmd : Str) (hcmd : cmd ≠ []) (hsp : ' ' ∉ cmd) :
    Message.createMessage (cmd ++ crlf) =
      (parse_fields cmd []).map (fun f => ⟨cmd ++ crlf, [], f⟩) := by
  obtain ⟨h1, h2⟩ := strip_crlf cmd
  unfold Message.createMessage
  rw [if_neg h1]
  simp only [h2, extract_no_params cmd hcmd hsp]
  rfl

/-! ## Tokens -/

theorem isDigit_param_char (c : Char) (h : c.isDigit = true) : param_char c = true := by
  simp [param_char, Char.isAlphanum, h]

theorem to_string_token (p : Int) : is_token (to_string p) := by
  obtain ⟨hne, hdig, -⟩ := toDigits_spec p.natAbs
  unfold to_string
  split
  · refine ⟨by simp, ?_⟩
    intro c hc
    rcases List.mem_cons.mp hc with h | h
    · rw [h]; decide
    · exact isDigit_param_char c (hdig c h)
  · exact ⟨hne, fun c hc => isDigit_param_char c (hdig c hc)⟩

theorem doubleToString_token (v : ℚ) : is_token (doubleToString v) := by
  unfold doubleToString
  simp only [max_fractional_digits]
  generalize round_half_even (|v| * 10 ^ 7) = n
  obtain ⟨-, hdig, -⟩ := toDigits_spec (n / 10 ^ 7)
  obtain ⟨-, hd7, -⟩ := seven_digits_spec (n % 10 ^ 7) (Nat.mod_lt _ (by norm_num))
  refine ⟨by simp, ?_⟩
  intro c hc
  simp only [List.mem_append, List.mem_cons] at hc
  rcases hc with (hc | hc) | hc | hc
  · split at hc
    · simp only [List.mem_singleton] at hc
      rw [hc]; decide
    · simp at hc
  · exact isDigit_param_char c (hdig c hc)
  · rw [hc]; decide
  · exact isDigit_param_char c (hd7 c hc)

theorem alnum_token (id : Str) (hne : id ≠ []) (h : isAlphanumeric id = true) : is_token id := by
  refine ⟨hne, ?_⟩
  intro c hc
  have := List.all_eq_true.mp h c hc
  simp [param_char, this]

/-! ## Assembling a line -/

theorem foldl_append_sp {α : Type} (f : α → Str) (xs : List α) (init : Str) :
    xs.foldl (fun acc x => acc ++ (f x ++ [' '])) init = init ++ join_sp (xs.map f) := by
  induction xs generalizing init with
  | nil => simp [join_sp]
  | cons x xs ih => simp [List.foldl_cons, ih, List.append_assoc, join_sp]

theorem join_sp_ne_nil (t : Str) (ts : List Str) : join_sp (t :: ts) ≠ [] := by
  simp [join_sp]

theorem join_sp_dropLast (ts : List Str) (h : ts ≠ []) :
    (join_sp ts).dropLast = [' '].intercalate ts := by
  induction ts with
  | nil => exact absurd rfl h
  | cons t ts ih =>
    cases ts with
    | nil => simp [join_sp, List.intercalate]
    | cons u us =>
      have ih' := ih (by simp)
      have e : join_sp (t :: u :: us) = (t ++ [' ']) ++ join_sp (u :: us) := by
        simp [join_sp]
      rw [e, List.dropLast_append_of_ne_nil _ (join_sp_ne_nil u us), ih']
      simp [List.intercalate, List.intersperse]

theorem doubles_str_eq (vals : List ℚ) (h : vals ≠ []) :
    doubles_str vals = [' '].intercalate (vals.map doubleToString) := by
  unfold doubles_str
  rw [foldl_append_sp doubleToString vals [], List.nil_append]
  exact join_sp_dropLast (vals.map doubleToString) (by simpa using h)

/-! ## The parse loops -/

theorem round7_abs_le (v : ℚ) (N : Nat) (h : |v| ≤ N) : |round7 v| ≤ N := by
  have hx0 : (0 : ℚ) ≤ |v| * 10 ^ 7 := by positivity
  have hxN : |v| * 10 ^ 7 ≤ ((N * 10 ^ 7 : Nat) : ℚ) := by
    push_cast
    exact mul_le_mul_of_nonneg_right h (by positivity)
  have hn := round_half_even_le _ _ hx0 hxN
  have hq : ((round_half_even (|v| * 10 ^ 7) : Nat) : ℚ) / 10 ^ 7 ≤ N := by
    rw [div_le_iff₀ (by positivity)]
    exact_mod_cast hn
  have hq0 : (0 : ℚ) ≤ ((round_half_even (|v| * 10 ^ 7) : Nat) : ℚ) / 10 ^ 7 := by positivity
  unfold round7
  simp only [max_fractional_digits]
  split
  · rw [abs_neg, abs_of_nonneg hq0]; exact hq
  · rw [abs_of_nonneg hq0]; exact hq

theorem parse_doubles_map (vals : List ℚ) (h : ∀ v ∈ vals, |v| ≤ DBL_MAX) :
    parse_doubles (vals.map doubleToString) = some (vals.map round7) := by
  induction vals with
  | nil => rfl
  | cons v vs ih =>
    have h1 := parseDouble_doubleToString v (h v (List.mem_cons_self v vs))
    have h2 := ih (fun w hw => h w (List.mem_cons_of_mem v hw))
    simp only [List.map_cons, parse_doubles, h1, h2]

theorem coeff_finite (v : ℚ) (h : -100 ≤ v ∧ v ≤ 100) : |v| ≤ DBL_MAX := by
  have h1 : |v| ≤ 100 := abs_le.mpr h
  have h2 : (100 : ℚ) ≤ DBL_MAX := by unfold DBL_MAX; norm_num
  linarith

theorem parse_coeffs_map (vals : List ℚ) (h : ∀ v ∈ vals, -100 ≤ v ∧ v ≤ 100) :
    parse_coeffs (vals.map doubleToString) = some (vals.map round7) := by
  induction vals with
  | nil => rfl
  | cons v vs ih =>
    have hv := h v (List.mem_cons_self v vs)
    have h1 := parseDouble_doubleToString v (coeff_finite v hv)
    have h2 := ih (fun w hw => h w (List.mem_cons_of_mem v hw))
    have hr : |round7 v| ≤ (100 : Nat) := round7_abs_le v 100 (by exact_mod_cast abs_le.mpr hv)
    have hr' := abs_le.mp hr
    have hrange : ¬ (round7 v + eps < min_coeff ∨ round7 v - eps > max_coeff) := by
      unfold eps min_coeff max_coeff
      push_cast at hr'
      intro hc
      rcases hc with hc | hc <;> linarith [hr'.1, hr'.2]
    simp only [List.map_cons, parse_coeffs, h1, h2]
    rw [if_neg hrange]

theorem parse_scoring_tokens (pairs : List (Str × ℚ))
    (h : ∀ ps ∈ pairs, isAlphanumeric ps.1 = true ∧ |ps.2| ≤ DBL_MAX) :
    parse_scoring (scoring_tokens pairs) =
      some (pairs.map Prod.fst, pairs.map (fun ps => round7 ps.2)) := by
  induction pairs with
  | nil => rfl
  | cons ps rest ih =>
    have hp := h ps (List.mem_cons_self ps rest)
    have h1 := parseDouble_doubleToString ps.2 hp.2
    have h2 := ih (fun w hw => h w (List.mem_cons_of_mem ps hw))
    simp only [scoring_tokens, parse_scoring, hp.1, h1, h2,
      List.map_cons, Bool.not_true, Bool.false_eq_true, if_false]

theorem scoring_tokens_length (pairs : List (Str × ℚ)) :
    (scoring_tokens pairs).length = 2 * pairs.length := by
  induction pairs with
  | nil => rfl
  | cons ps rest ih =>
    simp only [scoring_tokens, List.length_cons, ih]
    omega

theorem scoring_fold (pairs : List (Str × ℚ)) (init : Str) :
    pairs.foldl (fun acc ps => acc ++ (ps.1 ++ [' '] ++ doubleToString ps.2 ++ [' '])) init =
      init ++ join_sp (scoring_tokens pairs) := by
  induction pairs generalizing init with
  | nil => simp [scoring_tokens, join_sp]
  | cons ps rest ih =>
    rw [List.foldl_cons, ih]
    simp [scoring_tokens, join_sp, List.append_assoc]

/-! ## The factory functions -/

theorem parses_back_of_line (cmd : Str) (tokens : List Str) (f : Fields) (hcmd : cmd ≠ [])
    (hsp : ' ' ∉ cmd) (htok : tokens ≠ []) (h : ∀ t ∈ tokens, is_token t)
    (hf : parse_fields cmd tokens = some f) :
    parses_back (Message.createMessage (cmd ++ ' ' :: [' '].intercalate tokens ++ crlf)) f := by
  have := createMessage_with_params cmd tokens hcmd hsp htok h
  rw [hf] at this
  exact ⟨_, this, rfl, this⟩

theorem int_double_pair (p : Int) (v : ℚ) (h1 : INT_MIN ≤ p) (h2 : p ≤ INT_MAX)
    (hv : |v| ≤ DBL_MAX) :
    validateIntDoublePair [to_string p, doubleToString v] = some (p, round7 v) := by
  simp only [validateIntDoublePair, parseInteger_to_string p h1 h2,
    parseDouble_doubleToString v hv]

theorem int_double_tokens (p : Int) (v : ℚ) :
    ∀ t ∈ [to_string p, doubleToString v], is_token t := by
  intro t ht
  simp only [List.mem_cons, List.mem_singleton, List.mem_nil_iff, or_false] at ht
  rcases ht with h | h <;> rw [h]
  · exact to_string_token p
  · exact doubleToString_token v

theorem hello_roundtrip (id : Str) (hne : id ≠ []) (h : isAlphanumeric id = true) :
    parses_back (HelloMessage.createMessage id) (.hello id) := by
  have e : HelloMessage.createMessage id =
      Message.createMessage ("HELLO".toList ++ ' ' :: [' '].intercalate [id] ++ crlf) := by
    simp [HelloMessage.createMessage, Message.createMessageWithCRLF, List.intercalate]
  rw [e]
  apply parses_back_of_line _ _ _ (by decide) (by decide) (by simp)
  · intro t ht
    simp only [List.mem_singleton] at ht
    rw [ht]; exact alnum_token id hne h
  · unfold parse_fields
    rw [if_pos rfl]
    simp [HelloMessage.parseMessage, h]

theorem put_roundtrip (p : Int) (v : ℚ) (h1 : INT_MIN ≤ p) (h2 : p ≤ INT_MAX)
    (hv : |v| ≤ DBL_MAX) :
    parses_back (PutMessage.createMessage p v) (.put p (round7 v)) := by
  have e : PutMessage.createMessage p v = Message.createMessage
      ("PUT".toList ++ ' ' :: [' '].intercalate [to_string p, doubleToString v] ++ crlf) := by
    simp [PutMessage.createMessage, Message.createMessageWithCRLF, List.intercalate,
      List.intersperse]
  rw [e]
  apply parses_back_of_line _ _ _ (by decide) (by decide) (by simp) (int_double_tokens p v)
  unfold parse_fields
  rw [if_neg (by decide), if_neg (by decide), if_pos rfl]
  simp [PutMessage.parseMessage, int_double_pair p v h1 h2 hv]

theorem bad_put_roundtrip (p : Int) (v : ℚ) (h1 : INT_MIN ≤ p) (h2 : p ≤ INT_MAX)
    (hv : |v| ≤ DBL_MAX) :
    parses_back (BadPutMessage.createMessage p v) (.bad_put p (round7 v)) := by
  have e : BadPutMessage.createMessage p v = Message.createMessage
      ("BAD_PUT".toList ++ ' ' :: [' '].intercalate [to_string p, doubleToString v] ++ crlf) := by
    simp [BadPutMessage.createMessage, Message.createMessageWithCRLF, List.intercalate,
      List.intersperse]
  rw [e]
  apply parses_back_of_line _ _ _ (by decide) (by decide) (by simp) (int_double_tokens p v)
  unfold parse_fields
  rw [if_neg (by decide), if_neg (by decide), if_neg (by decide), if_pos rfl]
  simp [BadPutMessage.parseMessage, int_double_pair p v h1 h2 hv]

theorem penalty_roundtrip (p : Int) (v : ℚ) (h1 : INT_MIN ≤ p) (h2 : p ≤ INT_MAX)
    (hv : |v| ≤ DBL_MAX) :
    parses_back (PenaltyMessage.createMessage p v) (.penalty p (round7 v)) := by
  have e : PenaltyMessage.createMessage p v = Message.createMessage
      ("PENALTY".toList ++ ' ' :: [' '].intercalate [to_string p, doubleToString v] ++ crlf) := by
    simp [PenaltyMessage.createMessage, Message.createMessageWithCRLF, List.intercalate,
      List.intersperse]
  rw [e]
  apply parses_back_of_line _ _ _ (by decide) (by decide) (by simp) (int_double_tokens p v)
  unfold parse_fields
  rw [if_neg (by decide), if_neg (by decide), if_neg (by decide), if_neg (by decide),
    if_neg (by decide), if_pos rfl]
  simp [PenaltyMessage.parseMessage, int_double_pair p v h1 h2 hv]

theorem doubles_tokens (vals : List ℚ) : ∀ t ∈ vals.map doubleToString, is_token t := by
  intro t ht
  obtain ⟨v, -, hv⟩ := List.mem_map.mp ht
  rw [← hv]; exact doubleToString_token v

theorem coeff_roundtrip (coeffs : List ℚ) (h1 : 1 ≤ coeffs.length) (h2 : coeffs.length ≤ 9)
    (h : ∀ v ∈ coeffs, -100 ≤ v ∧ v ≤ 100) :
    parses_back (CoeffMessage.createMessage coeffs) (.coeff (coeffs.map round7)) := by
  have hne : coeffs ≠ [] := by intro e; rw [e] at h1; simp at h1
  have hE : coeffs.isEmpty = false := by
    cases coeffs with
    | nil => exact absurd rfl hne
    | cons _ _ => rfl
  have e : CoeffMessage.createMessage coeffs = Message.createMessage
      ("COEFF".toList ++ ' ' :: [' '].intercalate (coeffs.map doubleToString) ++ crlf) := by
    simp [CoeffMessage.createMessage, hE, Message.createMessageWithCRLF, doubles_str_eq coeffs hne]
  rw [e]
  apply parses_back_of_line _ _ _ (by decide) (by decide) (by simpa using hne)
    (doubles_tokens coeffs)
  unfold parse_fields
  rw [if_neg (by decide), if_pos rfl]
  unfold CoeffMessage.parseMessage
  rw [if_neg (by simp only [List.length_map, max_n]; omega), parse_coeffs_map coeffs h]
  rfl

theorem state_roundtrip (vals : List ℚ) (h1 : 1 ≤ vals.length) (h2 : vals.length ≤ 10001)
    (h : ∀ v ∈ vals, |v| ≤ DBL_MAX) :
    parses_back (StateMessage.createMessage vals) (.state (vals.map round7)) := by
  have hne : vals ≠ [] := by intro e; rw [e] at h1; simp at h1
  have hE : vals.isEmpty = false := by
    cases vals with
    | nil => exact absurd rfl hne
    | cons _ _ => rfl
  have e : StateMessage.createMessage vals = Message.createMessage
      ("STATE".toList ++ ' ' :: [' '].intercalate (vals.map doubleToString) ++ crlf) := by
    simp [StateMessage.createMessage, hE, Message.createMessageWithCRLF, doubles_str_eq vals hne]
  rw [e]
  apply parses_back_of_line _ _ _ (by decide) (by decide) (by simpa using hne)
    (doubles_tokens vals)
  unfold parse_fields
  rw [if_neg (by decide), if_neg (by decide), if_neg (by decide), if_neg (by decide), if_pos rfl]
  unfold StateMessage.parseMessage
  rw [if_neg (by simp only [List.length_map, max_k]; omega), parse_doubles_map vals h]
  rfl

theorem scoring_tokens_are_tokens (pairs : List (Str × ℚ))
    (h : ∀ ps ∈ pairs, ps.1 ≠ [] ∧ isAlphanumeric ps.1 = true) :
    ∀ t ∈ scoring_tokens pairs, is_token t := by
  induction pairs with
  | nil => intro t ht; simp [scoring_tokens] at ht
  | cons ps rest ih =>
    intro t ht
    simp only [scoring_tokens, List.mem_cons] at ht
    rcases ht with e | e | e
    · rw [e]
      exact alnum_token _ (h ps (List.mem_cons_self ps rest)).1
        (h ps (List.mem_cons_self ps rest)).2
    · rw [e]; exact doubleToString_token _
    · exact ih (fun w hw => h w (List.mem_cons_of_mem ps hw)) t e

theorem scoring_sorted_roundtrip (pairs : List (Str × ℚ))
    (h : ∀ ps ∈ pairs, (ps.1 ≠ [] ∧ isAlphanumeric ps.1 = true) ∧ |ps.2| ≤ DBL_MAX) :
    parses_back
      (Message.createMessageWithCRLF (pairs.foldl
        (fun acc ps => acc ++ (ps.1 ++ [' '] ++ doubleToString ps.2 ++ [' ']))
        "SCORING ".toList).dropLast)
      (.scoring (pairs.map Prod.fst) (pairs.map (fun ps => round7 ps.2))) := by
  have hparse := parse_scoring_tokens pairs (fun ps hps => ⟨(h ps hps).1.2, (h ps hps).2⟩)
  have hlen := scoring_tokens_length pairs
  have hpf : parse_fields "SCORING".toList (scoring_tokens pairs) =
      some (.scoring (pairs.map Prod.fst) (pairs.map (fun ps => round7 ps.2))) := by
    unfold parse_fields
    rw [if_neg (by decide), if_neg (by decide), if_neg (by decide), if_neg (by decide),
      if_neg (by decide), if_neg (by decide), if_pos rfl]
    unfold ScoringMessage.parseMessage
    rw [if_neg (by rw [hlen]; omega), hparse]
    rfl
  rw [scoring_fold]
  cases pairs with
  | nil =>
    have e : Message.createMessageWithCRLF ("SCORING ".toList ++ join_sp (scoring_tokens [])).dropLast =
        Message.createMessage ("SCORING".toList ++ crlf) := by
      simp [Message.createMessageWithCRLF, scoring_tokens, join_sp]
    rw [e]
    have := createMessage_no_params "SCORING".toList (by decide) (by decide)
    have hpf' : parse_fields "SCORING".toList [] = some (.scoring [] []) := hpf
    rw [hpf'] at this
    exact ⟨_, this, rfl, this⟩
  | cons ps rest =>
    have hne : scoring_tokens (ps :: rest) ≠ [] := by simp [scoring_tokens]
    have e : Message.createMessageWithCRLF
        ("SCORING ".toList ++ join_sp (scoring_tokens (ps :: rest))).dropLast =
        Message.createMessage ("SCORING".toList ++ ' ' ::
          [' '].intercalate (scoring_tokens (ps :: rest)) ++ crlf) := by
      have hj : join_sp (scoring_tokens (ps :: rest)) ≠ [] := by
        simp [scoring_tokens, join_sp]
      rw [List.dropLast_append_of_ne_nil _ hj, join_sp_dropLast _ hne]
      simp [Message.createMessageWithCRLF]
    rw [e]
    exact parses_back_of_line _ _ _ (by decide) (by decide) hne
      (scoring_tokens_are_tokens _ (fun w hw => (h w hw).1)) hpf

theorem scoring_roundtrip (ids : List Str) (scores : List ℚ) (hl : ids.length = scores.length)
    (hid : ∀ id ∈ ids, id ≠ [] ∧ isAlphanumeric id = true) (hs : ∀ v ∈ scores, |v| ≤ DBL_MAX) :
    parses_back (ScoringMessage.createMessage ids scores)
      (.scoring ((sort_player_scores (ids.zip scores)).map Prod.fst)
        ((sort_player_scores (ids.zip scores)).map (fun ps => round7 ps.2))) := by
  unfold ScoringMessage.createMessage
  rw [if_neg (by simp [hl])]
  apply scoring_sorted_roundtrip
  intro ps hps
  have hz : ps ∈ ids.zip scores := (List.perm_insertionSort pair_le _).mem_iff.mp hps
  have hz' : (ps.1, ps.2) ∈ ids.zip scores := hz
  obtain ⟨ha, hb⟩ := List.of_mem_zip hz'
  exact ⟨hid _ ha, hs _ hb⟩

/-! ## The order of `std::sort` on (id, score) pairs -/

theorem char_eq_of_toNat_eq (a b : Char) (h : a.toNat = b.toNat) : a = b := by
  apply Char.ext
  apply UInt32.ext
  exact h

theorem str_lt_irrefl (a : Str) : str_lt a a = false := by
  induction a with
  | nil => rfl
  | cons x xs ih => simp [str_lt, ih]

theorem str_lt_trans (a b c : Str) (h1 : str_lt a b = true) (h2 : str_lt b c = true) :
    str_lt a c = true := by
  induction a generalizing b c with
  | nil =>
    cases b with
    | nil => simp [str_lt] at h1
    | cons y ys =>
      cases c with
      | nil => simp [str_lt] at h2
      | cons z zs => rfl
  | cons x xs ih =>
    cases b with
    | nil => simp [str_lt] at h1
    | cons y ys =>
      cases c with
      | nil => simp [str_lt] at h2
      | cons z zs =>
        simp only [str_lt, Bool.or_eq_true, decide_eq_true_eq, Bool.and_eq_true] at h1 h2 ⊢
        rcases h1 with h1 | ⟨e1, h1⟩
        · rcases h2 with h2 | ⟨e2, h2⟩
          · left; omega
          · left; rw [← e2]; exact h1
        · rcases h2 with h2 | ⟨e2, h2⟩
          · left; rw [e1]; exact h2
          · right; exact ⟨e1.trans e2, ih ys zs h1 h2⟩

theorem str_lt_connex (a b : Str) (h1 : str_lt a b = false) (h2 : str_lt b a = false) : a = b := by
  induction a generalizing b with
  | nil =>
    cases b with
    | nil => rfl
    | cons y ys => simp [str_lt] at h1
  | cons x xs ih =>
    cases b with
    | nil => simp [str_lt] at h2
    | cons y ys =>
      simp only [str_lt, Bool.or_eq_false_iff, decide_eq_false_iff_not, Bool.and_eq_false_imp,
        decide_eq_true_eq] at h1 h2
      have e : x = y := char_eq_of_toNat_eq x y (by omega)
      rw [e, ih ys (h1.2 e) (h2.2 e.symm)]

theorem str_lt_asymm (a b : Str) (h1 : str_lt a b = true) : str_lt b a = false := by
  cases h : str_lt b a with
  | false => rfl
  | true =>
    have := str_lt_trans a b a h1 h
    rw [str_lt_irrefl] at this
    exact absurd this (by simp)

theorem pair_le_iff (a b : Str × ℚ) :
    pair_le a b ↔ str_lt b.1 a.1 = false ∧ (str_lt a.1 b.1 = true ∨ ¬ b.2 < a.2) := by
  unfold pair_le pair_lt
  cases h1 : str_lt b.1 a.1 <;> cases h2 : str_lt a.1 b.1 <;> simp

theorem pair_le_total (a b : Str × ℚ) : pair_le a b ∨ pair_le b a := by
  rw [pair_le_iff, pair_le_iff]
  cases h1 : str_lt b.1 a.1 with
  | true =>
    right
    exact ⟨str_lt_asymm _ _ h1, Or.inl rfl⟩
  | false =>
    cases h2 : str_lt a.1 b.1 with
    | true => left; exact ⟨rfl, Or.inl rfl⟩
    | false =>
      rcases le_total a.2 b.2 with h | h
      · left; exact ⟨rfl, Or.inr (not_lt.mpr h)⟩
      · right; exact ⟨rfl, Or.inr (not_lt.mpr h)⟩

theorem pair_le_trans (a b c : Str × ℚ) (hab : pair_le a b) (hbc : pair_le b c) :
    pair_le a c := by
  rw [pair_le_iff] at hab hbc ⊢
  obtain ⟨h1, h2⟩ := hab
  obtain ⟨h3, h4⟩ := hbc
  have hca : str_lt c.1 a.1 = false := by
    cases h : str_lt c.1 a.1 with
    | false => rfl
    | true =>
      exfalso
      cases hab' : str_lt a.1 b.1 with
      | true =>
        have := str_lt_trans _ _ _ h hab'
        rw [h3] at this
        exact absurd this (by simp)
      | false =>
        have e := str_lt_connex _ _ hab' h1
        rw [e, h3] at h
        exact absurd h (by simp)
  refine ⟨hca, ?_⟩
  cases hac : str_lt a.1 c.1 with
  | true => exact Or.inl rfl
  | false =>
    right
    have e1 : a.1 = c.1 := str_lt_connex _ _ hac hca
    have hab' : str_lt a.1 b.1 = false := by rw [e1]; exact h3
    have hbc' : str_lt b.1 c.1 = false := by rw [← e1]; exact h1
    rw [hab'] at h2
    rw [hbc'] at h4
    have h2' : ¬ b.2 < a.2 := by simpa using h2
    have h4' : ¬ c.2 < b.2 := by simpa using h4
    intro hlt
    exact absurd (lt_of_le_of_lt (le_trans (not_lt.mp h2') (not_lt.mp h4')) hlt) (lt_irrefl _)

/-- The result of `std::sort` is in non-decreasing order and a permutation of
the input. -/
theorem sort_player_scores_sorted (l : List (Str × ℚ)) :
    (sort_player_scores l).Sorted pair_le ∧ (sort_player_scores l).Perm l :=
  ⟨@List.sorted_insertionSort _ pair_le _ ⟨pair_le_total⟩ ⟨pair_le_trans⟩ l,
    List.perm_insertionSort pair_le l⟩

/-- Claim C7, a second difference, which is by design:
`ScoringMessage::createMessage` on the equal-length lists `["b", "a"]` and
`[1, 2]` returns a message whose typed fields are the pairs sorted by id,
`["a", "b"]` and `[2, 1]`, not the inputs; and on the id `"a-b"` it returns no
message. -/
theorem C7_scoring_fields_not_the_inputs :
    (ScoringMessage.createMessage ["b".toList, "a".toList] [1, 2]).map Message.fields =
        some (.scoring ["a".toList, "b".toList] [2, 1]) ∧
      Fields.scoring ["a".toList, "b".toList] [2, 1] ≠
        Fields.scoring ["b".toList, "a".toList] [round7 1, round7 2] ∧
      ScoringMessage.createMessage ["a-b".toList] [1] = none := by
  decide!

/-- The factories where the match of the parameters returns, that is on a stack
that holds the nested calls for the line (`createMessage_on_stack`):
`HelloMessage::createMessage(id)` for a non-empty alphanumeric id,
`Put/BadPut/PenaltyMessage::createMessage(point, value)` for every `int` point
and finite value, `CoeffMessage::createMessage` for 1..9 values within
`[-100, 100]`, `StateMessage::createMessage` for 1..10001 finite values, and
`ScoringMessage::createMessage` for equal-length lists of non-empty alphanumeric
ids and finite scores each return a message whose raw line re-parses to the same
message and whose typed fields are the inputs with every double rounded to 7
fractional digits; for SCORING the fields are those of the input (id, score)
pairs after `std::sort`: a permutation of the input pairs in non-decreasing
order of id, then score. -/
theorem factories_roundtrip :
    (∀ id : Str, id ≠ [] → isAlphanumeric id = true →
      parses_back (HelloMessage.createMessage id) (.hello id)) ∧
    (∀ (p : Int) (v : ℚ), INT_MIN ≤ p → p ≤ INT_MAX → |v| ≤ DBL_MAX →
      parses_back (PutMessage.createMessage p v) (.put p (round7 v)) ∧
      parses_back (BadPutMessage.createMessage p v) (.bad_put p (round7 v)) ∧
      parses_back (PenaltyMessage.createMessage p v) (.penalty p (round7 v))) ∧
    (∀ coeffs : List ℚ, 1 ≤ coeffs.length → coeffs.length ≤ 9 →
      (∀ v ∈ coeffs, -100 ≤ v ∧ v ≤ 100) →
      parses_back (CoeffMessage.createMessage coeffs) (.coeff (coeffs.map round7))) ∧
    (∀ vals : List ℚ, 1 ≤ vals.length → vals.length ≤ 10001 → (∀ v ∈ vals, |v| ≤ DBL_MAX) →
      parses_back (StateMessage.createMessage vals) (.state (vals.map round7))) ∧
    (∀ (ids : List Str) (scores : List ℚ), ids.length = scores.length →
      (∀ id ∈ ids, id ≠ [] ∧ isAlphanumeric id = true) → (∀ v ∈ scores, |v| ≤ DBL_MAX) →
      parses_back (ScoringMessage.createMessage ids scores)
        (.scoring ((sort_player_scores (ids.zip scores)).map Prod.fst)
          ((sort_player_scores (ids.zip scores)).map (fun ps => round7 ps.2))) ∧
      (sort_player_scores (ids.zip scores)).Sorted pair_le ∧
      (sort_player_scores (ids.zip scores)).Perm (ids.zip scores)) :=
  ⟨hello_roundtrip,
    fun p v h1 h2 hv => ⟨put_roundtrip p v h1 h2 hv, bad_put_roundtrip p v h1 h2 hv,
      penalty_roundtrip p v h1 h2 hv⟩,
    coeff_roundtrip, state_roundtrip,
    fun ids scores hl hid hs => ⟨scoring_roundtrip ids scores hl hid hs,
      sort_player_scores_sorted _⟩⟩

theorem factories_roundtrip_example :
    parses_back (PutMessage.createMessage 3 (7 / 2)) (.put 3 (round7 (7 / 2))) ∧
      parses_back (ScoringMessage.createMessage ["b".toList, "a".toList] [1, 2])
        (.scoring ((sort_player_scores (["b".toList, "a".toList].zip [1, 2])).map Prod.fst)
          ((sort_player_scores (["b".toList, "a".toList].zip [1, 2])).map
            (fun ps => round7 ps.2))) :=
  ⟨(factories_roundtrip.2.1 3 (7 / 2) (by decide) (by decide) (by decide!)).1,
    (factories_roundtrip.2.2.2.2 ["b".toList, "a".toList] [1, 2] rfl (by decide)
      (by decide!)).1⟩

/-! ## The server -/

/-! ## The player map -/

theorem find_set_player (l : List (Int × PlayerInfo)) (fd : Int) (p : PlayerInfo) :
    find_player (set_player l fd p) fd = some p := by
  induction l with
  | nil => simp [set_player, find_player]
  | cons e rest ih =>
    obtain ⟨k, q⟩ := e
    unfold set_player
    split_ifs with h1 h2
    · simp [find_player, h1]
    · simp [find_player]
    · simp [find_player, h1, ih]

theorem set_set_player (l : List (Int × PlayerInfo)) (fd : Int) (p q : PlayerInfo) :
    set_player (set_player l fd p) fd q = set_player l fd q := by
  induction l with
  | nil => simp [set_player]
  | cons e rest ih =>
    obtain ⟨k, r⟩ := e
    by_cases h1 : k = fd
    · simp [set_player, h1]
    · by_cases h2 : fd < k
      · simp [set_player, h1, h2]
      · simp [set_player, h1, h2, ih]

theorem modify_player_of_find (s : ServerLogic) (fd : Int) (f : PlayerInfo → PlayerInfo)
    (p : PlayerInfo) (h : find_player s.players fd = some p) :
    modify_player s fd f = { s with players := set_player s.players fd (f p) } := by
  unfold modify_player
  rw [h]

theorem penalty_message_exact (p : Int) (v : ℚ) (h1 : INT_MIN ≤ p) (h2 : p ≤ INT_MAX)
    (hv : |v| ≤ DBL_MAX) :
    PenaltyMessage.createMessage p v =
      some ⟨point_value_line "PENALTY".toList p v, [to_string p, doubleToString v],
        .penalty p (round7 v)⟩ := by
  have e : PenaltyMessage.createMessage p v = Message.createMessage
      ("PENALTY".toList ++ ' ' :: [' '].intercalate [to_string p, doubleToString v] ++ crlf) := by
    simp [PenaltyMessage.createMessage, Message.createMessageWithCRLF, List.intercalate,
      List.intersperse]
  have hl : point_value_line "PENALTY".toList p v =
      "PENALTY".toList ++ ' ' :: [' '].intercalate [to_string p, doubleToString v] ++ crlf := by
    simp [point_value_line, List.intercalate, List.intersperse]
  have hpf : parse_fields "PENALTY".toList [to_string p, doubleToString v] =
      some (.penalty p (round7 v)) := by
    unfold parse_fields
    rw [if_neg (by decide), if_neg (by decide), if_neg (by decide), if_neg (by decide),
      if_neg (by decide), if_pos rfl]
    simp [PenaltyMessage.parseMessage, int_double_pair p v h1 h2 hv]
  rw [e, hl, createMessage_with_params _ _ (by decide) (by decide) (by simp)
    (int_double_tokens p v), hpf]
  rfl

theorem respond_with_penalty_eq (s : ServerLogic) (fd : Int) (point : Int) (value : ℚ)
    (player : PlayerInfo) (hf : find_player s.players fd = some player)
    (h1 : INT_MIN ≤ point) (h2 : point ≤ INT_MAX) (hv : |value| ≤ DBL_MAX) :
    respond_with_penalty s fd point value =
      some { s with
        players := set_player s.players fd
          { player with
            penalty := player.penalty + early_put_penalty
            can_put := true
            messages := player.messages ++ [point_value_line "PENALTY".toList point value] } } := by
  unfold respond_with_penalty
  simp only [penalty_message_exact point value h1 h2 hv, append_message_back]
  rw [modify_player_of_find s fd _ player hf]
  rw [modify_player_of_find _ fd _ _ (find_set_player _ _ _)]
  simp only [set_set_player]

theorem respond_with_bad_put_eq (s : ServerLogic) (now : Int) (fd : Int) (point : Int)
    (value : ℚ) (player : PlayerInfo) (hf : find_player s.players fd = some player) :
    respond_with_bad_put s now fd point value =
      { s with
        players := set_player s.players fd
          { player with penalty := player.penalty + bad_put_penalty }
        events := insert_event s.events
          ⟨after_seconds now bad_put_delay,
            .bad_put fd point value player.ip player.port player.id⟩ } := by
  unfold respond_with_bad_put
  simp only [modify_player_of_find s fd _ player hf, find_set_player, add_event]

/-- What `handle_put` does with a PUT of a known player whose `can_put` is
false: the PENALTY line is queued and 20 added; `can_put` is cleared; if the put
is also out of range 10 more are added and the BAD_PUT reply is scheduled. -/
theorem handle_put_early (s : ServerLogic) (now : Int) (fd : Int) (point : Int) (value : ℚ)
    (player : PlayerInfo) (hf : find_player s.players fd = some player)
    (hk : player.is_known = true) (hc : player.can_put = false)
    (h1 : INT_MIN ≤ point) (h2 : point ≤ INT_MAX) (hv : |value| ≤ DBL_MAX) :
    handle_put s now fd point value =
      some (if put_out_of_range s point value then
          { s with
            players := set_player s.players fd
              { player with
                penalty := player.penalty + early_put_penalty + bad_put_penalty
                can_put := false
                messages := player.messages ++ [point_value_line "PENALTY".toList point value] }
            events := insert_event s.events
              ⟨after_seconds now bad_put_delay,
                .bad_put fd point value player.ip player.port player.id⟩ }
        else
          { s with
            players := set_player s.players fd
              { player with
                penalty := player.penalty + early_put_penalty
                can_put := false
                messages := player.messages ++ [point_value_line "PENALTY".toList point value] } },
        false) := by
  unfold handle_put
  simp only [hf, hk, hc, Bool.not_true, Bool.false_eq_true, if_false, Bool.not_false, if_true,
    respond_with_penalty_eq s fd point value player hf h1 h2 hv, Bool.false_and]
  rw [modify_player_of_find _ fd _ _ (find_set_player _ _ _)]
  simp only [set_set_player]
  by_cases hr : put_out_of_range s point value
  · have hr' : (point < 0 ∨ point > s.K ∨ value + eps < min_put_value ∨
        value - eps > max_put_value) := hr
    simp only [hr, hr', decide_True, if_true]
    rw [respond_with_bad_put_eq _ now fd point value _ (find_set_player _ _ _)]
    simp only [set_set_player]
  · have hr' : ¬ (point < 0 ∨ point > s.K ∨ value + eps < min_put_value ∨
        value - eps > max_put_value) := hr
    simp only [hr, hr', decide_False, if_false, Bool.false_eq_true]

/-! ## Early puts -/

/-- Claim C4, the code at the failing input: a known player with
`can_put = false` sends an in-range PUT (point 0, value 3, with `K = 2`); the
PENALTY line is queued and 20 added, but `can_put` is false afterwards: the
assignment `player.can_put = false` of `handle_put` follows the re-enabling
assignment of `respond_with_penalty`. -/
theorem C4_early_put_leaves_can_put_false :
    find_player c4_server.players 5 = some c4_player ∧ c4_player.is_known = true ∧
      c4_player.can_put = false ∧ ¬ put_out_of_range c4_server 0 3 ∧
      (handle_put c4_server 1000000000 5 0 3).map
          (fun r => (find_player r.1.players 5).map (fun p => (p.can_put, p.penalty, p.messages))) =
        some (some (false, 20, ["PENALTY 0 3.0000000\r\n".toList])) := by
  decide!

/-- Claim C5, refuted as stated: a known player with `can_put = false` sends a
PUT at point 7 with `K = 2`; after the PENALTY response the range check still
runs: the penalty grows by 30 and a BAD_PUT reply is scheduled. -/
theorem C5_early_out_of_range_put_also_bad_put :
    find_player c4_server.players 5 = some c4_player ∧ c4_player.is_known = true ∧
      c4_player.can_put = false ∧ put_out_of_range c4_server 7 3 ∧
      (handle_put c4_server 1000000000 5 7 3).map
          (fun r => ((find_player r.1.players 5).map (fun p => p.penalty), r.1.events)) =
        some (some 30,
          [⟨2000000000, .bad_put 5 7 3 "127.0.0.1".toList 40000 "abc".toList⟩,
            ⟨3000000000, .state 5 "STATE 1.0000000 0.0000000 0.0000000\r\n".toList
              "127.0.0.1".toList 40000 "abc".toList⟩]) := by
  decide!

/-- Claim C5, amended. For every known player with `can_put = false` and every
PUT (an `int` point, a finite value) whose point is outside `[0, K]` or whose
value is outside `[-5, 5]` beyond `eps`: the PENALTY response is queued at once
and processing of the PUT continues with the range check, so the penalty grows
by exactly 30 (20 and 10) and the BAD_PUT reply is scheduled 1 s later;
approximations, `correct_puts` and `total_correct_puts` are unchanged and the
put is reported as not successful. -/
theorem C5_early_out_of_range_put (s : ServerLogic) (now : Int) (fd : Int) (point : Int)
    (value : ℚ) (player : PlayerInfo) (hf : find_player s.players fd = some player)
    (hk : player.is_known = true) (hc : player.can_put = false)
    (h1 : INT_MIN ≤ point) (h2 : point ≤ INT_MAX) (hv : |value| ≤ DBL_MAX)
    (hr : put_out_of_range s point value) :
    ∃ s1 p1, handle_put s now fd point value = some (s1, false) ∧
      find_player s1.players fd = some p1 ∧
      p1.penalty = player.penalty + 30 ∧
      p1.messages = player.messages ++ [point_value_line "PENALTY".toList point value] ∧
      s1.events = insert_event s.events
        ⟨now + 1000000000, .bad_put fd point value player.ip player.port player.id⟩ ∧
      p1.approximations = player.approximations ∧ p1.correct_puts = player.correct_puts ∧
      s1.total_correct_puts = s.total_correct_puts := by
  rw [handle_put_early s now fd point value player hf hk hc h1 h2 hv, if_pos hr]
  refine ⟨_, _, rfl, find_set_player _ _ _, ?_, rfl, ?_, rfl, rfl, rfl⟩
  · show player.penalty + early_put_penalty + bad_put_penalty = player.penalty + 30
    unfold early_put_penalty bad_put_penalty
    ring
  · show insert_event s.events _ = insert_event s.events _
    simp [after_seconds, bad_put_delay]

theorem C5_early_out_of_range_put_witness :
    ∃ s1 p1, handle_put c4_server 1000000000 5 7 3 = some (s1, false) ∧
      find_player s1.players 5 = some p1 ∧
      p1.penalty = c4_player.penalty + 30 ∧
      p1.messages = c4_player.messages ++ [point_value_line "PENALTY".toList 7 3] ∧
      s1.events = insert_event c4_server.events
        ⟨1000000000 + 1000000000, .bad_put 5 7 3 c4_player.ip c4_player.port c4_player.id⟩ ∧
      p1.approximations = c4_player.approximations ∧
      p1.correct_puts = c4_player.correct_puts ∧
      s1.total_correct_puts = c4_server.total_correct_puts :=
  C5_early_out_of_range_put c4_server 1000000000 5 7 3 c4_player (by decide!) rfl rfl
    (by decide) (by decide) (by decide!) (by decide!)

/-! ## Scoring -/

theorem poly_loop_append (c : List ℚ) (x : ℚ) (l1 l2 : List Nat) (acc : ℚ × ℚ) :
    poly_loop c x (l1 ++ l2) acc = poly_loop c x l2 (poly_loop c x l1 acc) := by
  induction l1 generalizing acc with
  | nil => rfl
  | cons i is ih =>
    obtain ⟨r, xp⟩ := acc
    rw [List.cons_append]
    simp only [poly_loop]
    exact ih _

theorem poly_loop_range (c : List ℚ) (x : ℚ) (n : Nat) :
    poly_loop c x (List.range n) (0, 1) =
      (∑ i in Finset.range n, c.getD i 0 * x ^ i, x ^ n) := by
  induction n with
  | zero => simp [poly_loop]
  | succ n ih =>
    rw [List.range_succ, poly_loop_append, ih]
    simp only [poly_loop, Finset.sum_range_succ, pow_succ]

theorem player_poly_at_eq (s : ServerLogic) (player : PlayerInfo) (x : Int) :
    player_poly_at s player x = poly_sum s player x := by
  unfold player_poly_at poly_sum
  rw [poly_loop_range]

theorem score_loop_append (s : ServerLogic) (player : PlayerInfo) (l1 l2 : List Nat) (acc : ℚ) :
    score_loop s player (l1 ++ l2) acc = score_loop s player l2 (score_loop s player l1 acc) := by
  induction l1 generalizing acc with
  | nil => rfl
  | cons x xs ih =>
    rw [List.cons_append]
    simp only [score_loop]
    exact ih _

theorem score_loop_range (s : ServerLogic) (player : PlayerInfo) (n : Nat) :
    score_loop s player (List.range n) 0 =
      ∑ x in Finset.range n, (poly_sum s player x - player.approximations.getD x 0) ^ 2 := by
  induction n with
  | zero => simp [score_loop]
  | succ n ih =>
    rw [List.range_succ, score_loop_append, ih]
    simp only [score_loop, Finset.sum_range_succ, player_poly_at_eq, Int.cast_natCast, sq]

/-- Claim C2. For every player, `calculate_score` returns the penalty plus the
sum over `x = 0..K` of `(P(x) - approximations[x])^2`, where
`P(x) = sum over i = 0..N of coefficients[i] * x^i` is the player's own
polynomial; and with `K = 2`, `N = 1`, `M = 1`, coefficients `(1, 2)`, one
successful put of 3 at point 0 and penalty 0, the score is 38 and the SCORING
line queued for the player is `SCORING abc 38.0000000`. -/
theorem C2_calculate_score :
    (∀ (s : ServerLogic) (player : PlayerInfo),
      calculate_score s player = player.penalty +
        ∑ x in Finset.range (s.K + 1).toNat,
          (poly_sum s player x - player.approximations.getD x 0) ^ 2) ∧
      (∀ (s : ServerLogic) (player : PlayerInfo) (x : ℚ),
        poly_sum s player x =
          ∑ i in Finset.range (s.N + 1).toNat, player.coefficients.getD i 0 * x ^ i) ∧
      (handle_put c2_server 0 5 0 3).map (fun r => (r.2, r.1.stopping)) = some (true, true) ∧
      (handle_put c2_server 0 5 0 3).map (fun r => (find_player r.1.players 5).map
          (fun p => (p.approximations, p.penalty, calculate_score r.1 p))) =
        some (some ([3, 0, 0], 0, 38)) ∧
      (handle_put c2_server 0 5 0 3).map (fun r => (find_player r.1.players 5).map
          (fun p => p.messages)) = some (some ["SCORING abc 38.0000000\r\n".toList]) := by
  refine ⟨?_, fun _ _ _ => rfl, by decide!, by decide!, by decide!⟩
  intro s player
  unfold calculate_score
  rw [score_loop_range, add_comm]

/-! ## Out-of-range puts -/

theorem bad_put_message_exact (p : Int) (v : ℚ) (h1 : INT_MIN ≤ p) (h2 : p ≤ INT_MAX)
    (hv : |v| ≤ DBL_MAX) :
    BadPutMessage.createMessage p v =
      some ⟨point_value_line "BAD_PUT".toList p v, [to_string p, doubleToString v],
        .bad_put p (round7 v)⟩ := by
  have e : BadPutMessage.createMessage p v = Message.createMessage
      ("BAD_PUT".toList ++ ' ' :: [' '].intercalate [to_string p, doubleToString v] ++ crlf) := by
    simp [BadPutMessage.createMessage, Message.createMessageWithCRLF, List.intercalate,
      List.intersperse]
  have hl : point_value_line "BAD_PUT".toList p v =
      "BAD_PUT".toList ++ ' ' :: [' '].intercalate [to_string p, doubleToString v] ++ crlf := by
    simp [point_value_line, List.intercalate, List.intersperse]
  have hpf : parse_fields "BAD_PUT".toList [to_string p, doubleToString v] =
      some (.bad_put p (round7 v)) := by
    unfold parse_fields
    rw [if_neg (by decide), if_neg (by decide), if_neg (by decide), if_pos rfl]
    simp [BadPutMessage.parseMessage, int_double_pair p v h1 h2 hv]
  rw [e, hl, createMessage_with_params _ _ (by decide) (by decide) (by simp)
    (int_double_tokens p v), hpf]
  rfl

/-- What `handle_put` does with an out-of-range PUT of a known player whose
`can_put` is true: `can_put` is cleared, 10 added to the penalty and the
BAD_PUT reply scheduled. -/
theorem handle_put_bad (s : ServerLogic) (now : Int) (fd : Int) (point : Int) (value : ℚ)
    (player : PlayerInfo) (hf : find_player s.players fd = some player)
    (hk : player.is_known = true) (hc : player.can_put = true)
    (hr : put_out_of_range s point value) :
    handle_put s now fd point value =
      some ({ s with
          players := set_player s.players fd
            { player with penalty := player.penalty + bad_put_penalty, can_put := false }
          events := insert_event s.events
            ⟨after_seconds now bad_put_delay,
              .bad_put fd point value player.ip player.port player.id⟩ }, false) := by
  have hr' : (point < 0 ∨ point > s.K ∨ value + eps < min_put_value ∨
      value - eps > max_put_value) := hr
  unfold handle_put
  simp only [hf, hk, hc, Bool.not_true, Bool.false_eq_true, if_false, hr', decide_True, if_true,
    Bool.and_false, Bool.not_false]
  rw [modify_player_of_find s fd _ player hf]
  rw [respond_with_bad_put_eq _ now fd point value _ (find_set_player _ _ _)]
  simp only [set_set_player, hk]

/-- The BAD_PUT callback at a state where the client is still the one that
sent the put: the BAD_PUT line is queued and `can_put` set. -/
theorem run_callback_bad_put (s : ServerLogic) (fd : Int) (point : Int) (value : ℚ)
    (p : PlayerInfo) (hf : find_player s.players fd = some p)
    (h1 : INT_MIN ≤ point) (h2 : point ≤ INT_MAX) (hv : |value| ≤ DBL_MAX) :
    run_callback s (.bad_put fd point value p.ip p.port p.id) =
      some { s with
        players := set_player s.players fd
          { p with
            can_put := true
            messages := p.messages ++ [point_value_line "BAD_PUT".toList point value] } } := by
  unfold run_callback
  simp only [validate_client, hf, decide_True, Bool.and_self, Bool.not_true, Option.map_some',
    ne_eq, not_true_eq_false, decide_False, Bool.or_self, Bool.false_eq_true, if_false,
    bad_put_message_exact point value h1 h2 hv, append_message_back]
  rw [modify_player_of_find s fd _ p hf]
  rw [modify_player_of_find _ fd _ _ (find_set_player _ _ _)]
  simp only [set_set_player]

theorem find_set_player_ne (l : List (Int × PlayerInfo)) (fd fd1 : Int) (q : PlayerInfo)
    (h : fd1 ≠ fd) : find_player (set_player l fd1 q) fd = find_player l fd := by
  induction l with
  | nil => simp [set_player, find_player, h]
  | cons e rest ih =>
    obtain ⟨k, r⟩ := e
    unfold set_player
    split_ifs with h1 h2
    · have hk : ¬ k = fd := by rw [h1]; exact h
      simp [find_player, hk]
    · simp [find_player, h]
    · by_cases hk : k = fd
      · simp [find_player, hk]
      · simp [find_player, hk, ih]

theorem find_player_mem (l : List (Int × PlayerInfo)) (fd : Int) (p : PlayerInfo)
    (h : find_player l fd = some p) : (fd, p) ∈ l := by
  induction l with
  | nil => simp [find_player] at h
  | cons e rest ih =>
    obtain ⟨k, r⟩ := e
    unfold find_player at h
    split_ifs at h with h1
    · simp only [Option.some.injEq] at h
      rw [h1, h]; exact List.mem_cons_self _ _
    · exact List.mem_cons_of_mem _ (ih h)

theorem find_player_none (l : List (Int × PlayerInfo)) (fd : Int)
    (h : ∀ e ∈ l, e.1 ≠ fd) : find_player l fd = none := by
  induction l with
  | nil => rfl
  | cons e rest ih =>
    obtain ⟨k, r⟩ := e
    unfold find_player
    rw [if_neg (h (k, r) (List.mem_cons_self _ _))]
    exact ih (fun e he => h e (List.mem_cons_of_mem _ he))

theorem set_player_mem (l : List (Int × PlayerInfo)) (fd : Int) (q : PlayerInfo)
    (e : Int × PlayerInfo) (h : e ∈ set_player l fd q) : e = (fd, q) ∨ e ∈ l := by
  induction l with
  | nil => left; simpa [set_player] using h
  | cons e1 rest ih =>
    obtain ⟨k, r⟩ := e1
    unfold set_player at h
    split_ifs at h with h1 h2
    · rcases List.mem_cons.mp h with h | h
      · left; rw [h, h1]
      · right; exact List.mem_cons_of_mem _ h
    · rcases List.mem_cons.mp h with h | h
      · left; exact h
      · right; exact h
    · rcases List.mem_cons.mp h with h | h
      · right; rw [h]; exact List.mem_cons_self _ _
      · rcases ih h with h | h
        · left; exact h
        · right; exact List.mem_cons_of_mem _ h

theorem erase_player_mem (l : List (Int × PlayerInfo)) (fd : Int) (e : Int × PlayerInfo)
    (h : e ∈ erase_player l fd) : e ∈ l := by
  induction l with
  | nil => simp [erase_player] at h
  | cons e1 rest ih =>
    obtain ⟨k, r⟩ := e1
    unfold erase_player at h
    split_ifs at h with h1
    · exact List.mem_cons_of_mem _ h
    · rcases List.mem_cons.mp h with h | h
      · rw [h]; exact List.mem_cons_self _ _
      · exact List.mem_cons_of_mem _ (ih h)

/-- In a map with increasing keys, a key below the first key is absent from the
rest. -/
theorem not_mem_of_lt_head (k : Int) (r : PlayerInfo) (rest : List (Int × PlayerInfo))
    (hs : (((k, r) :: rest).map Prod.fst).Pairwise (fun a b => a < b)) (fd : Int)
    (h : fd ≤ k) : ∀ e ∈ rest, e.1 ≠ fd := by
  intro e he
  rw [List.map_cons, List.pairwise_cons] at hs
  have := hs.1 e.1 (List.mem_map_of_mem Prod.fst he)
  have hk : (k, r).1 = k := rfl
  omega

theorem sorted_tail (e : Int × PlayerInfo) (rest : List (Int × PlayerInfo))
    (hs : ((e :: rest).map Prod.fst).Pairwise (fun a b => a < b)) :
    (rest.map Prod.fst).Pairwise (fun a b => a < b) := by
  rw [List.map_cons, List.pairwise_cons] at hs
  exact hs.2

/-- Replacing the record of a registered descriptor keeps the keys and changes
its entry only. -/
theorem set_player_map {β : Type} (g : PlayerInfo → β) (l : List (Int × PlayerInfo)) (fd : Int)
    (p q : PlayerInfo) (hs : (l.map Prod.fst).Pairwise (fun a b => a < b))
    (h : find_player l fd = some p) (hg : g q = g p) :
    (set_player l fd q).map (fun e => (e.1, g e.2)) = l.map (fun e => (e.1, g e.2)) := by
  induction l with
  | nil => simp [find_player] at h
  | cons e rest ih =>
    obtain ⟨k, r⟩ := e
    unfold find_player at h
    by_cases h1 : k = fd
    · rw [if_pos h1] at h
      simp only [Option.some.injEq] at h
      simp only [set_player, if_pos h1, List.map_cons, hg, h]
    · rw [if_neg h1] at h
      by_cases h2 : fd < k
      · exfalso
        have := find_player_none rest fd (not_mem_of_lt_head k r rest hs fd (by omega))
        rw [this] at h
        simp at h
      · simp only [set_player, if_neg h1, if_neg h2, List.map_cons, ih (sorted_tail _ _ hs) h]

theorem sum_set_player (l : List (Int × PlayerInfo)) (fd : Int) (p q : PlayerInfo)
    (hs : (l.map Prod.fst).Pairwise (fun a b => a < b)) (h : find_player l fd = some p) :
    ((set_player l fd q).map (fun e => e.2.correct_puts)).sum =
      (l.map (fun e => e.2.correct_puts)).sum - p.correct_puts + q.correct_puts := by
  induction l with
  | nil => simp [find_player] at h
  | cons e rest ih =>
    obtain ⟨k, r⟩ := e
    unfold find_player at h
    by_cases h1 : k = fd
    · rw [if_pos h1] at h
      simp only [Option.some.injEq] at h
      simp only [set_player, if_pos h1, List.map_cons, List.sum_cons, h]
      omega
    · rw [if_neg h1] at h
      by_cases h2 : fd < k
      · exfalso
        have := find_player_none rest fd (not_mem_of_lt_head k r rest hs fd (by omega))
        rw [this] at h
        simp at h
      · simp only [set_player, if_neg h1, if_neg h2, List.map_cons, List.sum_cons,
          ih (sorted_tail _ _ hs) h]
        omega

theorem sum_set_player_fresh (l : List (Int × PlayerInfo)) (fd : Int) (q : PlayerInfo)
    (h : find_player l fd = none) :
    ((set_player l fd q).map (fun e => e.2.correct_puts)).sum =
      (l.map (fun e => e.2.correct_puts)).sum + q.correct_puts := by
  induction l with
  | nil => simp [set_player]
  | cons e rest ih =>
    obtain ⟨k, r⟩ := e
    unfold find_player at h
    by_cases h1 : k = fd
    · rw [if_pos h1] at h; simp at h
    · rw [if_neg h1] at h
      by_cases h2 : fd < k
      · simp only [set_player, if_neg h1, if_pos h2, List.map_cons, List.sum_cons]
        omega
      · simp only [set_player, if_neg h1, if_neg h2, List.map_cons, List.sum_cons, ih h]
        omega

theorem sum_erase_player (l : List (Int × PlayerInfo)) (fd : Int) (p : PlayerInfo)
    (h : find_player l fd = some p) :
    ((erase_player l fd).map (fun e => e.2.correct_puts)).sum =
      (l.map (fun e => e.2.correct_puts)).sum - p.correct_puts := by
  induction l with
  | nil => simp [find_player] at h
  | cons e rest ih =>
    obtain ⟨k, r⟩ := e
    unfold find_player at h
    by_cases h1 : k = fd
    · rw [if_pos h1] at h
      simp only [Option.some.injEq] at h
      simp only [erase_player, if_pos h1, List.map_cons, List.sum_cons, h]
      omega
    · rw [if_neg h1] at h
      simp only [erase_player, if_neg h1, List.map_cons, List.sum_cons, ih h]
      omega

theorem set_player_sorted (l : List (Int × PlayerInfo)) (fd : Int) (q : PlayerInfo)
    (hs : (l.map Prod.fst).Pairwise (fun a b => a < b)) :
    ((set_player l fd q).map Prod.fst).Pairwise (fun a b => a < b) := by
  induction l with
  | nil => simp [set_player]
  | cons e rest ih =>
    obtain ⟨k, r⟩ := e
    have hs' := hs
    rw [List.map_cons, List.pairwise_cons] at hs'
    unfold set_player
    split_ifs with h1 h2
    · exact hs
    · rw [List.map_cons, List.pairwise_cons]
      refine ⟨?_, hs⟩
      intro a ha
      rw [List.map_cons, List.mem_cons] at ha
      rcases ha with ha | ha
      · rw [ha]; exact h2
      · have := hs'.1 a ha
        have hk : (k, r).1 = k := rfl
        omega
    · rw [List.map_cons, List.pairwise_cons]
      refine ⟨?_, ih hs'.2⟩
      intro a ha
      obtain ⟨e, he, hea⟩ := List.mem_map.mp ha
      rcases set_player_mem rest fd q e he with h | h
      · rw [← hea, h]
        show k < fd
        omega
      · rw [← hea]
        exact hs'.1 e.1 (List.mem_map_of_mem Prod.fst h)

theorem erase_player_sorted (l : List (Int × PlayerInfo)) (fd : Int)
    (hs : (l.map Prod.fst).Pairwise (fun a b => a < b)) :
    ((erase_player l fd).map Prod.fst).Pairwise (fun a b => a < b) := by
  induction l with
  | nil => simp [erase_player]
  | cons e rest ih =>
    obtain ⟨k, r⟩ := e
    have hs' := hs
    rw [List.map_cons, List.pairwise_cons] at hs'
    unfold erase_player
    split_ifs with h1
    · exact hs'.2
    · rw [List.map_cons, List.pairwise_cons]
      refine ⟨?_, ih hs'.2⟩
      intro a ha
      obtain ⟨e, he, hea⟩ := List.mem_map.mp ha
      rw [← hea]
      exact hs'.1 e.1 (List.mem_map_of_mem Prod.fst (erase_player_mem rest fd e he))

/-! ## States of the same game -/

theorem same_game_refl (s : ServerLogic) : same_game s s := ⟨rfl, rfl, rfl, rfl, rfl, rfl⟩

theorem same_game_trans (s s1 s2 : ServerLogic) (h1 : same_game s s1) (h2 : same_game s1 s2) :
    same_game s s2 := by
  rcases h1 with ⟨hK, hN, hM, hst, htot, hcnt⟩
  rcases h2 with ⟨kK, kN, kM, kst, ktot, kcnt⟩
  exact ⟨kK.trans hK, kN.trans hN, kM.trans hM, kst.trans hst, ktot.trans htot,
    kcnt.trans hcnt⟩

theorem keys_of_counts (s : ServerLogic) : (counts s).map Prod.fst = s.players.map Prod.fst := by
  unfold counts
  rw [List.map_map]
  rfl

theorem puts_of_counts (s : ServerLogic) :
    (counts s).map Prod.snd = s.players.map (fun e => e.2.correct_puts) := by
  unfold counts
  rw [List.map_map]
  rfl

theorem same_game_sorted (s s1 : ServerLogic) (h : same_game s s1) (hs : keys_sorted s) :
    keys_sorted s1 := by
  unfold keys_sorted at *
  rw [← keys_of_counts, h.2.2.2.2.2, keys_of_counts]
  exact hs

theorem same_game_sum (s s1 : ServerLogic) (h : same_game s s1) :
    sum_correct_puts s1 = sum_correct_puts s := by
  unfold sum_correct_puts
  rw [← puts_of_counts, h.2.2.2.2.2, puts_of_counts]

theorem puts_nonneg_iff (s : ServerLogic) : puts_nonneg s ↔ ∀ x ∈ counts s, 0 ≤ x.2 := by
  unfold puts_nonneg counts
  constructor
  · intro h x hx
    obtain ⟨e, he, hex⟩ := List.mem_map.mp hx
    rw [← hex]
    exact h e he
  · intro h e he
    exact h (e.1, e.2.correct_puts)
      (List.mem_map_of_mem (fun e : Int × PlayerInfo => (e.1, e.2.correct_puts)) he)

theorem same_game_nonneg (s s1 : ServerLogic) (h : same_game s s1) (hn : puts_nonneg s) :
    puts_nonneg s1 := by
  rw [puts_nonneg_iff] at *
  rw [h.2.2.2.2.2]
  exact hn

theorem modify_player_same (s : ServerLogic) (fd : Int) (f : PlayerInfo → PlayerInfo)
    (hs : keys_sorted s) (hf : ∀ p, (f p).correct_puts = p.correct_puts) :
    same_game s (modify_player s fd f) := by
  unfold modify_player
  split
  · exact same_game_refl s
  · rename_i p hp
    refine ⟨rfl, rfl, rfl, rfl, rfl, ?_⟩
    exact set_player_map (fun p => p.correct_puts) s.players fd p (f p) hs hp (hf p)

theorem modify_player_events (s : ServerLogic) (fd : Int) (f : PlayerInfo → PlayerInfo) :
    (modify_player s fd f).events = s.events ∧
      (modify_player s fd f).coeff_file = s.coeff_file := by
  unfold modify_player
  split <;> exact ⟨rfl, rfl⟩

theorem find_modify_player (s : ServerLogic) (fd fd1 : Int) (f : PlayerInfo → PlayerInfo) :
    find_player (modify_player s fd1 f).players fd =
      (find_player s.players fd).map (fun p => if fd1 = fd then f p else p) := by
  unfold modify_player
  split
  · rename_i hn
    by_cases h : fd1 = fd
    · rw [← h, hn]; rfl
    · simp [h]
  · rename_i p hp
    by_cases h : fd1 = fd
    · rw [← h]
      show find_player (set_player s.players fd1 (f p)) fd1 = _
      rw [find_set_player, hp]
      simp
    · show find_player (set_player s.players fd1 (f p)) fd = _
      rw [find_set_player_ne _ _ _ _ h]
      simp [h]

theorem modify_player_frame (s : ServerLogic) (fd : Int) (f : PlayerInfo → PlayerInfo) :
    (modify_player s fd f).K = s.K ∧ (modify_player s fd f).N = s.N ∧
      (modify_player s fd f).M = s.M ∧ (modify_player s fd f).stopping = s.stopping ∧
      (modify_player s fd f).total_correct_puts = s.total_correct_puts := by
  unfold modify_player
  split <;> exact ⟨rfl, rfl, rfl, rfl, rfl⟩

theorem same_but_messages_refl (s : ServerLogic) : same_but_messages s s :=
  ⟨rfl, rfl, rfl, rfl, rfl, rfl, rfl, fun _ => rfl⟩

theorem same_but_messages_trans (s s1 s2 : ServerLogic) (h1 : same_but_messages s s1)
    (h2 : same_but_messages s1 s2) : same_but_messages s s2 := by
  rcases h1 with ⟨hK, hN, hM, hst, htot, hev, hcf, hfind⟩
  rcases h2 with ⟨kK, kN, kM, kst, ktot, kev, kcf, kfind⟩
  exact ⟨kK.trans hK, kN.trans hN, kM.trans hM, kst.trans hst, ktot.trans htot,
    kev.trans hev, kcf.trans hcf, fun fd => (kfind fd).trans (hfind fd)⟩

/-- A write to the message queue of one player. -/
theorem modify_messages_same (s : ServerLogic) (fd : Int) (g : List Str → List Str) :
    same_but_messages s (modify_player s fd (fun p => { p with messages := g p.messages })) := by
  obtain ⟨a1, a2, a3, a4, a5⟩ := modify_player_frame s fd
    (fun p => { p with messages := g p.messages })
  refine ⟨a1, a2, a3, a4, a5, (modify_player_events s fd _).1,
    (modify_player_events s fd _).2, fun fd1 => ?_⟩
  rw [find_modify_player]
  cases find_player s.players fd1 with
  | none => rfl
  | some p =>
    simp only [Option.map_some', Option.some.injEq]
    split_ifs <;> rfl

theorem scoring_fold_messages (msg : Str) (known : List (Int × PlayerInfo)) :
    ∀ s : ServerLogic,
      same_but_messages s (known.foldl (fun acc e => append_message_back acc e.1 msg) s) := by
  induction known with
  | nil => intro s; exact same_but_messages_refl s
  | cons e rest ih =>
    intro s
    rw [List.foldl_cons]
    exact same_but_messages_trans _ _ _ (modify_messages_same s e.1 (fun m => m ++ [msg]))
      (ih _)

theorem scoring_fold_same (msg : Str) (known : List (Int × PlayerInfo)) :
    ∀ s : ServerLogic, keys_sorted s →
      same_game s (known.foldl (fun acc e => append_message_back acc e.1 msg) s) := by
  induction known with
  | nil => intro s _; exact same_game_refl s
  | cons e rest ih =>
    intro s hs
    rw [List.foldl_cons]
    have h1 : same_game s (append_message_back s e.1 msg) :=
      modify_player_same s e.1 _ hs (fun _ => rfl)
    exact same_game_trans _ _ _ h1 (ih _ (same_game_sorted _ _ h1 hs))

/-- The function `game_over`, when it returns, has set `stopping` and written to
message queues only. -/
theorem game_over_messages (s s1 : ServerLogic) (h : game_over s = some s1) :
    s1.stopping = true ∧ same_but_messages s { s1 with stopping := s.stopping } := by
  unfold game_over send_scoring_messages at h
  dsimp only at h
  split at h
  · simp at h
  · rename_i m hm
    simp only [Option.map_some', Option.some.injEq] at h
    rw [← h]
    refine ⟨rfl, ?_⟩
    obtain ⟨a1, a2, a3, -, a5, a6, a7, a8⟩ := scoring_fold_messages m.raw_message
      (s.players.filter (fun e => e.2.is_known)) s
    exact ⟨a1, a2, a3, rfl, a5, a6, a7, a8⟩

/-- The function `game_over`, when it returns, has changed no `correct_puts`. -/
theorem game_over_same (s s1 : ServerLogic) (hs : keys_sorted s) (h : game_over s = some s1) :
    same_game s { s1 with stopping := s.stopping } := by
  unfold game_over send_scoring_messages at h
  dsimp only at h
  split at h
  · simp at h
  · rename_i m hm
    simp only [Option.map_some', Option.some.injEq] at h
    rw [← h]
    obtain ⟨a1, a2, a3, -, a5, a6⟩ := scoring_fold_same m.raw_message
      (s.players.filter (fun e => e.2.is_known)) s hs
    exact ⟨a1, a2, a3, rfl, a5, a6⟩

/-- With a non-empty alphanumeric id and a finite score for every known player,
`game_over` returns. -/
theorem game_over_some (s : ServerLogic) (h : scoring_ready s) : ∃ s1, game_over s = some s1 := by
  have hp := scoring_roundtrip
    ((s.players.filter (fun e => e.2.is_known)).map (fun e => e.2.id))
    ((s.players.filter (fun e => e.2.is_known)).map (fun e => calculate_score s e.2))
    (by simp)
    (by
      intro id hid
      obtain ⟨e, he, hei⟩ := List.mem_map.mp hid
      rw [List.mem_filter] at he
      rw [← hei]
      exact (h e he.1 he.2).1)
    (by
      intro v hv
      obtain ⟨e, he, hei⟩ := List.mem_map.mp hv
      rw [List.mem_filter] at he
      rw [← hei]
      exact (h e he.1 he.2).2)
  obtain ⟨m, hm, -, -⟩ := hp
  unfold game_over send_scoring_messages
  dsimp only
  rw [hm]
  exact ⟨_, rfl⟩

/-! ## Successful puts -/

theorem state_message_exact (vals : List ℚ) (h1 : 1 ≤ vals.length) (h2 : vals.length ≤ 10001)
    (h : ∀ v ∈ vals, |v| ≤ DBL_MAX) :
    StateMessage.createMessage vals =
      some ⟨state_line vals, vals.map doubleToString, .state (vals.map round7)⟩ := by
  have hne : vals ≠ [] := by intro e; rw [e] at h1; simp at h1
  have hE : vals.isEmpty = false := by
    cases vals with
    | nil => exact absurd rfl hne
    | cons _ _ => rfl
  have e : StateMessage.createMessage vals = Message.createMessage
      ("STATE".toList ++ ' ' :: [' '].intercalate (vals.map doubleToString) ++ crlf) := by
    simp [StateMessage.createMessage, hE, Message.createMessageWithCRLF, doubles_str_eq vals hne]
  have hl : state_line vals =
      "STATE".toList ++ ' ' :: [' '].intercalate (vals.map doubleToString) ++ crlf := by
    simp [state_line, doubles_str_eq vals hne]
  have hpf : parse_fields "STATE".toList (vals.map doubleToString) =
      some (.state (vals.map round7)) := by
    unfold parse_fields
    rw [if_neg (by decide), if_neg (by decide), if_neg (by decide), if_neg (by decide),
      if_pos rfl]
    unfold StateMessage.parseMessage
    rw [if_neg (by simp only [List.length_map, max_k]; omega), parse_doubles_map vals h]
    rfl
  rw [e, hl, createMessage_with_params _ _ (by decide) (by decide) (by simpa using hne)
    (doubles_tokens vals), hpf]
  rfl

/-- What `handle_put` does with an in-range PUT of a known player whose
`can_put` is true. -/
theorem handle_put_counted (s : ServerLogic) (now : Int) (fd : Int) (point : Int) (value : ℚ)
    (player : PlayerInfo) (hf : find_player s.players fd = some player)
    (hk : player.is_known = true) (hc : player.can_put = true)
    (hr : ¬ put_out_of_range s point value) :
    handle_put s now fd point value =
      match StateMessage.createMessage (add_at player.approximations point.toNat value) with
      | none => none
      | some state_msg =>
        if s.total_correct_puts + 1 ≥ s.M then
          (game_over (put_counted s now fd player point value state_msg.raw_message)).map
            (fun s7 => (s7, true))
        else some (put_counted s now fd player point value state_msg.raw_message, true) := by
  have hr' : ¬ (point < 0 ∨ point > s.K ∨ value + eps < min_put_value ∨
      value - eps > max_put_value) := hr
  unfold handle_put
  simp only [hf, hk, hc, Bool.not_true, Bool.false_eq_true, if_false, hr', decide_False,
    Bool.not_false, Bool.and_true, if_true]
  rw [modify_player_of_find s fd _ player hf]
  rw [modify_player_of_find _ fd _ _ (find_set_player _ _ _)]
  simp only [set_set_player, find_set_player]
  cases hm : StateMessage.createMessage (add_at player.approximations point.toNat value) with
  | none => rfl
  | some m =>
    simp only [respond_with_state, find_set_player, add_event, put_counted, counted_player, hk]

theorem add_at_length (a : List ℚ) (p : Nat) (v : ℚ) : (add_at a p v).length = a.length := by
  unfold add_at
  exact List.length_modify _ _ _

theorem add_at_getD_eq (a : List ℚ) (p : Nat) (v : ℚ) (h : p < a.length) :
    (add_at a p v).getD p 0 = a.getD p 0 + v := by
  unfold add_at
  rw [List.getD_eq_getElem?_getD, List.getD_eq_getElem?_getD, List.getElem?_modify_eq,
    List.getElem?_eq_getElem h]
  rfl

theorem add_at_getD_ne (a : List ℚ) (p j : Nat) (v : ℚ) (h : j ≠ p) :
    (add_at a p v).getD j 0 = a.getD j 0 := by
  unfold add_at
  rw [List.getD_eq_getElem?_getD, List.getD_eq_getElem?_getD,
    List.getElem?_modify_ne _ _ (Ne.symm h)]

/-- The STATE callback at a state where the client is still the one that sent
the put: the STATE line is queued and `can_put` set. -/
theorem run_callback_state (s : ServerLogic) (fd : Int) (line : Str) (p : PlayerInfo)
    (hf : find_player s.players fd = some p) :
    run_callback s (.state fd line p.ip p.port p.id) =
      some { s with
        players := set_player s.players fd
          { p with messages := p.messages ++ [line], can_put := true } } := by
  unfold run_callback
  simp only [validate_client, hf, decide_True, Bool.and_self, Bool.not_true, Option.map_some',
    ne_eq, not_true_eq_false, decide_False, Bool.or_self, Bool.false_eq_true, if_false,
    append_message_back]
  rw [modify_player_of_find s fd _ p hf]
  rw [modify_player_of_find _ fd _ _ (find_set_player _ _ _)]
  simp only [set_set_player]

/-- The result of a counted put: the state of `put_counted`, up to the SCORING
lines queued and `stopping` set when the game is over. -/
theorem handle_put_counted_result (s : ServerLogic) (now : Int) (fd : Int) (point : Int)
    (value : ℚ) (player : PlayerInfo) (hf : find_player s.players fd = some player)
    (hk : player.is_known = true) (hc : player.can_put = true)
    (hr : ¬ put_out_of_range s point value)
    (h1 : 1 ≤ player.approximations.length) (h2 : player.approximations.length ≤ 10001)
    (hfin : ∀ a ∈ add_at player.approximations point.toNat value, |a| ≤ DBL_MAX)
    (hsc : s.M ≤ s.total_correct_puts + 1 → scoring_ready (put_counted s now fd player point
      value (state_line (add_at player.approximations point.toNat value)))) :
    ∃ s1 p1, handle_put s now fd point value = some (s1, true) ∧
      find_player s1.players fd = some p1 ∧
      p1.without_messages = (counted_player player point value).without_messages ∧
      s1.total_correct_puts = s.total_correct_puts + 1 ∧
      s1.events = insert_event s.events
        ⟨after_seconds now player.delay,
          .state fd (state_line (add_at player.approximations point.toNat value))
            player.ip player.port player.id⟩ ∧
      (s1.stopping = true ↔ s.stopping = true ∨ s.M ≤ s.total_correct_puts + 1) ∧
      (s.total_correct_puts + 1 < s.M → p1.messages = player.messages) := by
  rw [handle_put_counted s now fd point value player hf hk hc hr,
    state_message_exact _ (by rw [add_at_length]; exact h1) (by rw [add_at_length]; exact h2)
      hfin]
  dsimp only
  by_cases hM : s.total_correct_puts + 1 ≥ s.M
  · rw [if_pos hM]
    obtain ⟨s7, h7⟩ := game_over_some _ (hsc hM)
    obtain ⟨hst, -, -, -, -, b5, b6, -, b8⟩ := game_over_messages _ _ h7
    have hfd := b8 fd
    rw [show find_player (put_counted s now fd player point value
        (state_line (add_at player.approximations point.toNat value))).players fd =
      some (counted_player player point value) from find_set_player _ _ _] at hfd
    cases hp : find_player s7.players fd with
    | none =>
      exfalso
      have : find_player ({ s7 with stopping := (put_counted s now fd player point value
        (state_line (add_at player.approximations point.toNat value))).stopping }).players fd =
          none := hp
      rw [this] at hfd
      simp at hfd
    | some p7 =>
      have : find_player ({ s7 with stopping := (put_counted s now fd player point value
        (state_line (add_at player.approximations point.toNat value))).stopping }).players fd =
          some p7 := hp
      rw [this] at hfd
      simp only [Option.map_some', Option.some.injEq] at hfd
      refine ⟨s7, p7, by rw [h7]; rfl, hp, hfd, b5, b6, ?_, fun hlt => ?_⟩
      · constructor
        · intro _; right; exact hM
        · intro _; exact hst
      · omega
  · rw [if_neg hM]
    refine ⟨_, _, rfl, find_set_player _ _ _, rfl, rfl, rfl, ?_, fun _ => rfl⟩
    constructor
    · intro h; left; exact h
    · intro h
      rcases h with h | h
      · exact h
      · omega

/-- The function `handle_put` where the match of the STATE line returns, that
is on a stack that holds the nested calls for the line
(`state_message_on_stack`). For every known player with `can_put = true` and
every PUT with `0 ≤ point ≤ K` and value within `[-5 - eps, 5 + eps]` (the
player's vector has `K + 1 ≤ 10001` entries, the updated entries are finite
doubles, and, when this put ends the game, every known player has an
alphanumeric id and a finite score): `handle_put` reports success; `correct_puts` and `total_correct_puts`
each grow by 1; `approximations[point]` grows by `value` while every other
entry and the length `K + 1` are unchanged; the penalty is unchanged; a STATE
reply carrying the whole updated vector is scheduled `delay` seconds later;
`can_put` is false after the put and true once that reply has run, which
queues the STATE line; and `stopping` is set exactly when `total_correct_puts`
has reached `M` after the put. -/
theorem handle_put_successful (s : ServerLogic) (now : Int) (fd : Int) (point : Int) (value : ℚ)
    (player : PlayerInfo) (hf : find_player s.players fd = some player)
    (hk : player.is_known = true) (hc : player.can_put = true)
    (hp0 : 0 ≤ point) (hpK : point ≤ s.K) (hv1 : -5 - eps ≤ value) (hv2 : value ≤ 5 + eps)
    (hlen : (player.approximations.length : Int) = s.K + 1) (hK : s.K ≤ 10000)
    (hfin : ∀ a ∈ add_at player.approximations point.toNat value, |a| ≤ DBL_MAX)
    (hsc : s.M ≤ s.total_correct_puts + 1 → scoring_ready (put_counted s now fd player point
      value (state_line (add_at player.approximations point.toNat value)))) :
    ∃ s1 p1 s2 p2, handle_put s now fd point value = some (s1, true) ∧
      find_player s1.players fd = some p1 ∧
      p1.correct_puts = player.correct_puts + 1 ∧
      s1.total_correct_puts = s.total_correct_puts + 1 ∧
      (p1.approximations.length : Int) = s.K + 1 ∧
      p1.approximations.getD point.toNat 0 = player.approximations.getD point.toNat 0 + value ∧
      (∀ j, j ≠ point.toNat → p1.approximations.getD j 0 = player.approximations.getD j 0) ∧
      p1.penalty = player.penalty ∧
      s1.events = insert_event s.events
        ⟨now + player.delay * 1000000000,
          .state fd (state_line p1.approximations) player.ip player.port player.id⟩ ∧
      p1.can_put = false ∧
      (s.total_correct_puts + 1 < s.M → p1.messages = player.messages) ∧
      (s1.stopping = true ↔ s.stopping = true ∨ s.M ≤ s1.total_correct_puts) ∧
      run_callback s1 (.state fd (state_line p1.approximations) player.ip player.port
        player.id) = some s2 ∧
      find_player s2.players fd = some p2 ∧ p2.can_put = true ∧
      p2.messages = p1.messages ++ [state_line p1.approximations] ∧
      p2.approximations = p1.approximations ∧ p2.correct_puts = p1.correct_puts ∧
      p2.penalty = p1.penalty ∧ s2.total_correct_puts = s1.total_correct_puts := by
  have hr : ¬ put_out_of_range s point value := by
    unfold put_out_of_range min_put_value max_put_value
    intro h
    rcases h with h | h | h | h
    · omega
    · omega
    · linarith
    · linarith
  have hlt : point.toNat < player.approximations.length := by omega
  obtain ⟨s1, p1, hput, hfind, hwm, htot, hev, hstop, hmsg⟩ :=
    handle_put_counted_result s now fd point value player hf hk hc hr (by omega) (by omega)
      hfin hsc
  have happ : p1.approximations = add_at player.approximations point.toNat value := by
    have h := congrArg PlayerInfo.approximations hwm; exact h
  have hcp : p1.correct_puts = player.correct_puts + 1 := by
    have h := congrArg PlayerInfo.correct_puts hwm; exact h
  have hpen : p1.penalty = player.penalty := by
    have h := congrArg PlayerInfo.penalty hwm; exact h
  have hcan : p1.can_put = false := by
    have h := congrArg PlayerInfo.can_put hwm; exact h
  have hip : p1.ip = player.ip := by
    have h := congrArg PlayerInfo.ip hwm; exact h
  have hport : p1.port = player.port := by
    have h := congrArg PlayerInfo.port hwm; exact h
  have hid : p1.id = player.id := by
    have h := congrArg PlayerInfo.id hwm; exact h
  have hcb := run_callback_state s1 fd (state_line p1.approximations) p1 hfind
  rw [hip, hport, hid] at hcb
  refine ⟨s1, p1, _, _, hput, hfind, hcp, htot, ?_, ?_, ?_, hpen, ?_, hcan, hmsg, ?_, hcb,
    find_set_player _ _ _, rfl, rfl, rfl, rfl, rfl, rfl⟩
  · rw [happ, add_at_length]; exact hlen
  · rw [happ]; exact add_at_getD_eq _ _ _ hlt
  · intro j hj
    rw [happ]; exact add_at_getD_ne _ _ _ _ hj
  · rw [hev, happ]; rfl
  · rw [htot]; exact hstop

theorem handle_put_successful_example :
    ∃ s1 p1 s2 p2, handle_put c17_server 1000000000 5 3 2 = some (s1, true) ∧
      find_player s1.players 5 = some p1 ∧
      p1.correct_puts = c17_player.correct_puts + 1 ∧
      s1.total_correct_puts = c17_server.total_correct_puts + 1 ∧
      (p1.approximations.length : Int) = c17_server.K + 1 ∧
      p1.approximations.getD (3 : Int).toNat 0 =
        c17_player.approximations.getD (3 : Int).toNat 0 + 2 ∧
      (∀ j, j ≠ (3 : Int).toNat →
        p1.approximations.getD j 0 = c17_player.approximations.getD j 0) ∧
      p1.penalty = c17_player.penalty ∧
      s1.events = insert_event c17_server.events
        ⟨1000000000 + c17_player.delay * 1000000000,
          .state 5 (state_line p1.approximations) c17_player.ip c17_player.port
            c17_player.id⟩ ∧
      p1.can_put = false ∧
      (c17_server.total_correct_puts + 1 < c17_server.M → p1.messages = c17_player.messages) ∧
      (s1.stopping = true ↔ c17_server.stopping = true ∨ c17_server.M ≤ s1.total_correct_puts) ∧
      run_callback s1 (.state 5 (state_line p1.approximations) c17_player.ip c17_player.port
        c17_player.id) = some s2 ∧
      find_player s2.players 5 = some p2 ∧ p2.can_put = true ∧
      p2.messages = p1.messages ++ [state_line p1.approximations] ∧
      p2.approximations = p1.approximations ∧ p2.correct_puts = p1.correct_puts ∧
      p2.penalty = p1.penalty ∧ s2.total_correct_puts = s1.total_correct_puts :=
  handle_put_successful c17_server 1000000000 5 3 2 c17_player (by decide!) rfl rfl
    (by decide) (by decide) (by decide!) (by decide!) (by decide) (by decide) (by decide!)
    (fun h => absurd h (by decide))

/-! ## The put counters -/

theorem same_game_inv (s s1 : ServerLogic) (h : same_game s s1) (hi : puts_inv s) :
    puts_inv s1 := by
  obtain ⟨h1, h2, h3⟩ := hi
  refine ⟨same_game_sorted s s1 h h1, ?_, same_game_nonneg s s1 h h3⟩
  rw [same_game_sum s s1 h, h.2.2.2.2.1]
  exact h2

theorem add_event_same (s : ServerLogic) (cb : Callback) (d : Int) :
    same_game s (add_event s cb d) := ⟨rfl, rfl, rfl, rfl, rfl, rfl⟩

theorem respond_with_bad_put_same (s : ServerLogic) (now fd point : Int) (value : ℚ)
    (hs : keys_sorted s) : same_game s (respond_with_bad_put s now fd point value) := by
  unfold respond_with_bad_put
  dsimp only
  have h1 := modify_player_same s fd (fun p => { p with penalty := p.penalty + bad_put_penalty })
    hs (fun _ => rfl)
  split
  · exact h1
  · exact same_game_trans _ _ _ h1 (add_event_same _ _ _)

theorem respond_with_penalty_same (s s1 : ServerLogic) (fd point : Int) (value : ℚ)
    (hs : keys_sorted s) (h : respond_with_penalty s fd point value = some s1) :
    same_game s s1 := by
  unfold respond_with_penalty at h
  dsimp only at h
  split at h
  · simp at h
  · simp only [Option.some.injEq] at h
    rw [← h]
    have h1 := modify_player_same s fd
      (fun p => { p with penalty := p.penalty + early_put_penalty, can_put := true })
      hs (fun _ => rfl)
    exact same_game_trans _ _ _ h1
      (modify_player_same _ fd _ (same_game_sorted _ _ h1 hs) (fun _ => rfl))

theorem handle_hello_same (s s1 : ServerLogic) (fd : Int) (id : Str) (b : Bool)
    (hs : keys_sorted s) (h : handle_hello s fd id = some (s1, b)) : same_game s s1 := by
  unfold handle_hello at h
  split at h
  · simp at h
  · rename_i player hp
    split_ifs at h with hk
    · simp only [Option.some.injEq, Prod.mk.injEq] at h
      rw [← h.1]; exact same_game_refl s
    · dsimp only at h
      have h1 := modify_player_same s fd (fun p =>
        { p with
          id := id
          delay := (id.filter Char.isLower).length
          is_known := true
          can_put := true }) hs (fun _ => rfl)
      split at h
      · simp at h
      · rename_i coeff_msg hm
        split at h
        · rename_i coeffs hc
          simp only [Option.some.injEq, Prod.mk.injEq] at h
          rw [← h.1]
          have h2 : same_game s { (modify_player s fd (fun p =>
              { p with
                id := id
                delay := (id.filter Char.isLower).length
                is_known := true
                can_put := true })) with
              coeff_file := (modify_player s fd (fun p =>
                { p with
                  id := id
                  delay := (id.filter Char.isLower).length
                  is_known := true
                  can_put := true })).coeff_file.tail } := h1
          have h3 := modify_player_same _ fd (fun p => { p with coefficients := coeffs })
            (same_game_sorted _ _ h2 hs) (fun _ => rfl)
          have h4 := same_game_trans _ _ _ h2 h3
          exact same_game_trans _ _ _ h4
            (modify_player_same _ fd _ (same_game_sorted _ _ h4 hs) (fun _ => rfl))
        · simp at h

/-- A PUT that is not counted changes no counter. -/
theorem handle_put_not_counted (s s1 : ServerLogic) (now fd point : Int) (value : ℚ) (b : Bool)
    (player : PlayerInfo) (hs : keys_sorted s) (hf : find_player s.players fd = some player)
    (hn : player.is_known = false ∨ player.can_put = false ∨ put_out_of_range s point value)
    (h : handle_put s now fd point value = some (s1, b)) : same_game s s1 := by
  by_cases hk : player.is_known = true
  · by_cases hc : player.can_put = true
    · have hr : put_out_of_range s point value := by
        rcases hn with hn | hn | hn
        · rw [hk] at hn; simp at hn
        · rw [hc] at hn; simp at hn
        · exact hn
      rw [handle_put_bad s now fd point value player hf hk hc hr] at h
      simp only [Option.some.injEq, Prod.mk.injEq] at h
      rw [← h.1]
      refine ⟨rfl, rfl, rfl, rfl, rfl, ?_⟩
      exact set_player_map (fun p => p.correct_puts) s.players fd player _ hs hf rfl
    · have hc' : player.can_put = false := by
        cases hcp : player.can_put with
        | true => exact absurd hcp hc
        | false => rfl
      unfold handle_put at h
      simp only [hf, hk, hc', Bool.not_true, Bool.false_eq_true, if_false, Bool.not_false,
        if_true, Bool.false_and] at h
      cases hp : respond_with_penalty s fd point value with
      | none => rw [hp] at h; simp at h
      | some sp =>
        rw [hp] at h
        dsimp only at h
        have h1 := respond_with_penalty_same s sp fd point value hs hp
        have h2 := modify_player_same sp fd (fun p => { p with can_put := false })
          (same_game_sorted _ _ h1 hs) (fun _ => rfl)
        have h12 := same_game_trans _ _ _ h1 h2
        split_ifs at h with ho
        · simp only [Option.some.injEq, Prod.mk.injEq] at h
          rw [← h.1]
          exact same_game_trans _ _ _ h12
            (respond_with_bad_put_same _ now fd point value (same_game_sorted _ _ h12 hs))
        · simp only [Option.some.injEq, Prod.mk.injEq] at h
          rw [← h.1]
          exact h12
  · have hk' : player.is_known = false := by
      cases hkp : player.is_known with
      | true => exact absurd hkp hk
      | false => rfl
    unfold handle_put at h
    simp only [hf, hk', Bool.not_false, if_true, Option.some.injEq, Prod.mk.injEq] at h
    rw [← h.1]
    exact same_game_refl s

/-- The state `put_counted` keeps the invariant of the put counters. -/
theorem put_counted_inv (s : ServerLogic) (now fd point : Int) (value : ℚ) (line : Str)
    (player : PlayerInfo) (hi : puts_inv s) (hf : find_player s.players fd = some player) :
    puts_inv (put_counted s now fd player point value line) := by
  obtain ⟨h1, h2, h3⟩ := hi
  refine ⟨set_player_sorted _ _ _ h1, ?_, ?_⟩
  · show s.total_correct_puts + 1 = (List.map _ (set_player s.players fd _)).sum
    rw [sum_set_player s.players fd player _ h1 hf, h2]
    show sum_correct_puts s + 1 = sum_correct_puts s - player.correct_puts +
      (player.correct_puts + 1)
    omega
  · intro e he
    rcases set_player_mem s.players fd _ e he with h | h
    · rw [h]
      have := h3 (fd, player) (find_player_mem _ _ _ hf)
      show 0 ≤ player.correct_puts + 1
      have hp : (fd, player).2.correct_puts = player.correct_puts := rfl
      omega
    · exact h3 e h

/-- The effect of `handle_put` on the put counters: either nothing changes, or
the put is counted and `stopping` is set if the total has reached `M`. -/
theorem handle_put_effect (s s1 : ServerLogic) (now fd point : Int) (value : ℚ) (b : Bool)
    (hi : puts_inv s) (h : handle_put s now fd point value = some (s1, b)) :
    puts_inv s1 ∧ s1.M = s.M ∧
      ((s1.total_correct_puts = s.total_correct_puts ∧ s1.stopping = s.stopping) ∨
        (s1.total_correct_puts = s.total_correct_puts + 1 ∧
          (s1.stopping = true ↔ s.stopping = true ∨ s.M ≤ s.total_correct_puts + 1))) := by
  cases hf : find_player s.players fd with
  | none =>
    unfold handle_put at h
    simp only [hf] at h
    simp at h
  | some player =>
    by_cases hn : player.is_known = false ∨ player.can_put = false ∨
        put_out_of_range s point value
    · have hsame := handle_put_not_counted s s1 now fd point value b player hi.1 hf hn h
      exact ⟨same_game_inv s s1 hsame hi, hsame.2.2.1, Or.inl ⟨hsame.2.2.2.2.1, hsame.2.2.2.1⟩⟩
    · have hk : player.is_known = true := by
        cases hkp : player.is_known with
        | true => rfl
        | false => exact absurd (Or.inl hkp) hn
      have hc : player.can_put = true := by
        cases hcp : player.can_put with
        | true => rfl
        | false => exact absurd (Or.inr (Or.inl hcp)) hn
      have hr : ¬ put_out_of_range s point value := fun hr => hn (Or.inr (Or.inr hr))
      rw [handle_put_counted s now fd point value player hf hk hc hr] at h
      split at h
      · simp at h
      · rename_i m hm
        have hinv := put_counted_inv s now fd point value m.raw_message player hi hf
        by_cases hM : s.total_correct_puts + 1 ≥ s.M
        · rw [if_pos hM] at h
          cases hg : game_over (put_counted s now fd player point value m.raw_message) with
          | none => rw [hg] at h; simp at h
          | some s7 =>
            rw [hg] at h
            simp only [Option.map_some', Option.some.injEq, Prod.mk.injEq] at h
            rw [← h.1]
            have hst := (game_over_messages _ _ hg).1
            have hsame := game_over_same _ _ hinv.1 hg
            have hinv7 := same_game_inv _ _ hsame hinv
            refine ⟨hinv7, hsame.2.2.1, Or.inr ⟨hsame.2.2.2.2.1, ?_⟩⟩
            constructor
            · intro _; right; exact hM
            · intro _; exact hst
        · rw [if_neg hM] at h
          simp only [Option.some.injEq, Prod.mk.injEq] at h
          rw [← h.1]
          refine ⟨hinv, rfl, Or.inr ⟨rfl, ?_⟩⟩
          constructor
          · intro hst; left; exact hst
          · intro hst
            rcases hst with hst | hst
            · exact hst
            · omega

theorem find_of_connected (s : ServerLogic) (fd : Int) (h : is_client_connected s fd = true) :
    ∃ p, find_player s.players fd = some p := by
  unfold is_client_connected at h
  cases hf : find_player s.players fd with
  | none => rw [hf] at h; simp at h
  | some p => exact ⟨p, rfl⟩

theorem find_of_not_connected (s : ServerLogic) (fd : Int)
    (h : is_client_connected s fd = false) : find_player s.players fd = none := by
  unfold is_client_connected at h
  cases hf : find_player s.players fd with
  | none => rfl
  | some p => rw [hf] at h; simp at h

/-- The effect of `handle_client_disconnect` on the put counters. -/
theorem handle_client_disconnect_effect (s : ServerLogic) (fd : Int) (hi : puts_inv s) :
    puts_inv (handle_client_disconnect s fd) ∧ (handle_client_disconnect s fd).M = s.M ∧
      (handle_client_disconnect s fd).total_correct_puts ≤ s.total_correct_puts ∧
      (handle_client_disconnect s fd).stopping = s.stopping := by
  unfold handle_client_disconnect
  split
  · exact ⟨hi, rfl, le_refl _, rfl⟩
  · rename_i p hp
    obtain ⟨h1, h2, h3⟩ := hi
    have hp0 := h3 (fd, p) (find_player_mem _ _ _ hp)
    have hp1 : (fd, p).2.correct_puts = p.correct_puts := rfl
    refine ⟨⟨erase_player_sorted _ _ h1, ?_, ?_⟩, rfl, ?_, rfl⟩
    · show s.total_correct_puts - p.correct_puts = (List.map _ (erase_player s.players fd)).sum
      rw [sum_erase_player s.players fd p hp, h2]
      rfl
    · intro e he
      exact h3 e (erase_player_mem _ _ _ he)
    · show s.total_correct_puts - p.correct_puts ≤ s.total_correct_puts
      omega

/-- The effect of `register_new_client` with a descriptor that is not
registered. -/
theorem register_new_client_effect (s : ServerLogic) (fd : Int) (ip : Str) (port : Int)
    (hi : puts_inv s) (hf : find_player s.players fd = none) :
    puts_inv (register_new_client s fd ip port) := by
  obtain ⟨h1, h2, h3⟩ := hi
  unfold register_new_client
  dsimp only
  refine ⟨set_player_sorted _ _ _ h1, ?_, ?_⟩
  · show s.total_correct_puts = (List.map _ (set_player s.players fd _)).sum
    rw [sum_set_player_fresh s.players fd _ hf, h2]
    show sum_correct_puts s = sum_correct_puts s + 0
    omega
  · intro e he
    rcases set_player_mem s.players fd _ e he with h | h
    · rw [h]
    · exact h3 e h

/-- A scheduled callback changes no counter, except that the hello-wait check
may disconnect its client. -/
theorem run_callback_effect (s s1 : ServerLogic) (cb : Callback) (hi : puts_inv s)
    (h : run_callback s cb = some s1) :
    puts_inv s1 ∧ s1.M = s.M ∧ s1.total_correct_puts ≤ s.total_correct_puts ∧
      s1.stopping = s.stopping := by
  have hsame : ∀ s2 : ServerLogic, same_game s s2 →
      puts_inv s2 ∧ s2.M = s.M ∧ s2.total_correct_puts ≤ s.total_correct_puts ∧
        s2.stopping = s.stopping :=
    fun s2 h2 => ⟨same_game_inv s s2 h2 hi, h2.2.2.1, le_of_eq h2.2.2.2.2.1, h2.2.2.2.1⟩
  cases cb with
  | bad_put fd point value ip port id =>
    unfold run_callback at h
    try dsimp only at h
    split_ifs at h
    · simp only [Option.some.injEq] at h
      rw [← h]; exact hsame s (same_game_refl s)
    · split at h
      · simp at h
      · simp only [Option.some.injEq] at h
        rw [← h]
        have h1 := modify_player_same s fd (fun p => { p with can_put := true }) hi.1
          (fun _ => rfl)
        exact hsame _ (same_game_trans _ _ _ h1
          (modify_player_same _ fd _ (same_game_sorted _ _ h1 hi.1) (fun _ => rfl)))
  | state fd line ip port id =>
    unfold run_callback at h
    try dsimp only at h
    split_ifs at h
    · simp only [Option.some.injEq] at h
      rw [← h]; exact hsame s (same_game_refl s)
    · simp only [Option.some.injEq] at h
      rw [← h]
      have h1 : same_game s (append_message_back s fd line) :=
        modify_player_same s fd _ hi.1 (fun _ => rfl)
      exact hsame _ (same_game_trans _ _ _ h1
        (modify_player_same _ fd _ (same_game_sorted _ _ h1 hi.1) (fun _ => rfl)))
  | hello_wait fd ip port =>
    unfold run_callback at h
    try dsimp only at h
    split_ifs at h
    · simp only [Option.some.injEq] at h
      rw [← h]; exact hsame s (same_game_refl s)
    · split at h
      · simp only [Option.some.injEq] at h
        rw [← h]; exact hsame s (same_game_refl s)
      · split_ifs at h
        · simp only [Option.some.injEq] at h
          rw [← h]; exact handle_client_disconnect_effect s fd hi
        · simp only [Option.some.injEq] at h
          rw [← h]; exact hsame s (same_game_refl s)

theorem check_timers_loop_effect (now : Int) :
    ∀ (fuel : Nat) (s s1 : ServerLogic), puts_inv s → check_timers_loop now fuel s = some s1 →
      puts_inv s1 ∧ s1.M = s.M ∧ s1.total_correct_puts ≤ s.total_correct_puts ∧
        s1.stopping = s.stopping := by
  intro fuel
  induction fuel with
  | zero =>
    intro s s1 hi h
    simp only [check_timers_loop, Option.some.injEq] at h
    rw [← h]; exact ⟨hi, rfl, le_refl _, rfl⟩
  | succ fuel ih =>
    intro s s1 hi h
    unfold check_timers_loop at h
    split at h
    · simp only [Option.some.injEq] at h
      rw [← h]; exact ⟨hi, rfl, le_refl _, rfl⟩
    · rename_i e rest he
      split_ifs at h
      · split at h
        · simp at h
        · rename_i s2 h2
          obtain ⟨a1, a2, a3, a4⟩ := run_callback_effect s s2 e.callback hi h2
          have a1' : puts_inv { s2 with events := rest } := a1
          obtain ⟨b1, b2, b3, b4⟩ := ih { s2 with events := rest } s1 a1' h
          exact ⟨b1, b2.trans a2, le_trans b3 a3, b4.trans a4⟩
      · simp only [Option.some.injEq] at h
        rw [← h]; exact ⟨hi, rfl, le_refl _, rfl⟩

/-- The effect of each call of the server loop on the put counters. -/
theorem apply_effect (s s1 : ServerLogic) (op : ServerOp) (hi : puts_inv s)
    (he : op.enabled s) (h : op.apply s = some s1) :
    puts_inv s1 ∧ s1.M = s.M ∧ op.effect s s1 := by
  have hsame : ∀ s2 : ServerLogic, same_game s s2 →
      puts_inv s2 ∧ s2.M = s.M ∧ s2.total_correct_puts = s.total_correct_puts ∧
        s2.stopping = s.stopping :=
    fun s2 h2 => ⟨same_game_inv s s2 h2 hi, h2.2.2.1, h2.2.2.2.2.1, h2.2.2.2.1⟩
  cases op with
  | register fd ip port =>
    simp only [ServerOp.apply, Option.some.injEq] at h
    rw [← h]
    exact ⟨register_new_client_effect s fd ip port hi (find_of_not_connected s fd he), rfl,
      rfl, rfl⟩
  | schedule now fd ip port =>
    simp only [ServerOp.apply, Option.some.injEq] at h
    rw [← h]
    exact hsame _ (add_event_same _ _ _)
  | message now fd msg =>
    simp only [ServerOp.apply] at h
    cases hm : handle_client_message s now fd msg with
    | none => rw [hm] at h; simp at h
    | some r =>
      obtain ⟨s2, b⟩ := r
      rw [hm] at h
      simp only [Option.map_some', Option.some.injEq] at h
      rw [← h]
      unfold handle_client_message at hm
      split_ifs at hm
      split at hm
      · obtain ⟨a1, a2, a3, a4⟩ := hsame _ (handle_hello_same s s2 fd _ b hi.1 hm)
        exact ⟨a1, a2, Or.inl ⟨a3, a4⟩⟩
      · exact handle_put_effect s s2 now fd _ _ b hi hm
      · simp only [Option.some.injEq, Prod.mk.injEq] at hm
        rw [← hm.1]
        exact ⟨hi, rfl, Or.inl ⟨rfl, rfl⟩⟩
  | disconnect fd =>
    simp only [ServerOp.apply] at h
    split_ifs at h
    simp only [Option.some.injEq] at h
    rw [← h]
    exact handle_client_disconnect_effect s fd hi
  | timers now =>
    simp only [ServerOp.apply] at h
    exact check_timers_loop_effect now _ s s1 hi h
  | take fd =>
    simp only [ServerOp.apply] at h
    split_ifs at h
    simp only [Option.some.injEq] at h
    rw [← h]
    exact hsame _ (modify_player_same s fd _ hi.1 (fun _ => rfl))
  | put_back fd msg =>
    simp only [ServerOp.apply] at h
    split_ifs at h
    simp only [Option.some.injEq] at h
    rw [← h]
    exact hsame _ (modify_player_same s fd _ hi.1 (fun _ => rfl))
  | restart =>
    simp only [ServerOp.apply, Option.some.injEq] at h
    rw [← h]
    refine ⟨⟨?_, rfl, ?_⟩, rfl, rfl, rfl⟩
    · show List.Pairwise _ (List.map Prod.fst [])
      exact List.Pairwise.nil
    · intro e he
      simp [reset] at he

theorem initial_server_inv (s : ServerLogic) (h : initial_server s) : puts_inv s := by
  obtain ⟨h1, h2, -⟩ := h
  unfold puts_inv keys_sorted sum_correct_puts puts_nonneg
  rw [h1, h2]
  simp

theorem server_reachable_inv (s : ServerLogic) (h : ServerReachable s) : puts_inv s := by
  induction h with
  | init s hs => exact initial_server_inv s hs
  | step s op s1 _ he ha ih => exact (apply_effect s s1 op ih he ha).1

theorem loop_reachable_server (s : ServerLogic) (h : LoopReachable s) : ServerReachable s := by
  induction h with
  | init s hs => exact ServerReachable.init s hs
  | step s op s1 _ he _ ha ih => exact ServerReachable.step s op s1 ih he ha

/-- In the server loop `stopping` is set exactly while `total_correct_puts`
equals `M`, and the total is below `M` otherwise. -/
theorem loop_reachable_bound (s : ServerLogic) (h : LoopReachable s) :
    1 ≤ s.M ∧ (s.stopping = true → s.total_correct_puts = s.M) ∧
      (s.stopping = false → s.total_correct_puts < s.M) := by
  induction h with
  | init s hs =>
    obtain ⟨h1, -, -, h4, -, -, -, -, h9, -⟩ := hs
    refine ⟨h9, fun h => ?_, fun _ => ?_⟩
    · rw [h4] at h; simp at h
    · omega
  | step s op s1 hr he hl ha ih =>
    obtain ⟨i1, i2, i3⟩ := ih
    have hi := server_reachable_inv s (loop_reachable_server s hr)
    obtain ⟨-, hM, heff⟩ := apply_effect s s1 op hi he ha
    rw [hM]
    cases op with
    | register fd ip port =>
      simp only [ServerOp.in_loop] at hl
      obtain ⟨e1, e2⟩ := heff
      rw [e1, e2]; exact ⟨i1, i2, i3⟩
    | schedule now fd ip port =>
      obtain ⟨e1, e2⟩ := heff
      rw [e1, e2]; exact ⟨i1, i2, i3⟩
    | message now fd msg =>
      simp only [ServerOp.in_loop] at hl
      have := i3 hl
      rcases heff with ⟨e1, e2⟩ | ⟨e1, e2⟩
      · rw [e1, e2]; exact ⟨i1, i2, i3⟩
      · rw [e1]
        refine ⟨i1, fun hst => ?_, fun hst => ?_⟩
        · rcases e2.mp hst with h | h
          · rw [hl] at h; simp at h
          · omega
        · by_contra hlt
          have := e2.mpr (Or.inr (by omega))
          rw [hst] at this; simp at this
    | disconnect fd =>
      simp only [ServerOp.in_loop] at hl
      obtain ⟨e1, e2⟩ := heff
      rw [e2]
      refine ⟨i1, fun hst => ?_, fun _ => ?_⟩
      · rw [hl] at hst; simp at hst
      · have := i3 hl; omega
    | timers now =>
      simp only [ServerOp.in_loop] at hl
      obtain ⟨e1, e2⟩ := heff
      rw [e2]
      refine ⟨i1, fun hst => ?_, fun _ => ?_⟩
      · rw [hl] at hst; simp at hst
      · have := i3 hl; omega
    | take fd =>
      obtain ⟨e1, e2⟩ := heff
      rw [e1, e2]; exact ⟨i1, i2, i3⟩
    | put_back fd msg =>
      obtain ⟨e1, e2⟩ := heff
      rw [e1, e2]; exact ⟨i1, i2, i3⟩
    | restart =>
      obtain ⟨e1, e2⟩ := heff
      rw [e1, e2]
      refine ⟨i1, fun hst => ?_, fun _ => ?_⟩
      · simp at hst
      · omega

/-- A player's `correct_puts` is at most the sum over all players when none is
negative. -/
theorem le_sum_correct_puts (l : List (Int × PlayerInfo)) (h : ∀ e ∈ l, 0 ≤ e.2.correct_puts) :
    ∀ e ∈ l, e.2.correct_puts ≤ (l.map (fun e => e.2.correct_puts)).sum := by
  induction l with
  | nil => intro e he; simp at he
  | cons a rest ih =>
    intro e he
    have ha := h a (List.mem_cons_self _ _)
    have hrest : 0 ≤ (rest.map (fun e => e.2.correct_puts)).sum :=
      List.sum_nonneg (by
        intro x hx
        obtain ⟨e1, he1, hx1⟩ := List.mem_map.mp hx
        rw [← hx1]
        exact h e1 (List.mem_cons_of_mem _ he1))
    rw [List.map_cons, List.sum_cons]
    rcases List.mem_cons.mp he with h1 | h1
    · rw [h1]; omega
    · have := ih (fun e he => h e (List.mem_cons_of_mem _ he)) e h1
      omega

/-! ## Reachable states of the server -/

theorem loop_reachable_run (ops : List ServerOp) :
    ∀ s : ServerLogic, LoopReachable s → ops_in_loop s ops = true →
      ∃ s1, run_ops s ops = some s1 ∧ LoopReachable s1 := by
  induction ops with
  | nil => intro s hs _; exact ⟨s, rfl, hs⟩
  | cons op ops ih =>
    intro s hs h
    unfold ops_in_loop at h
    unfold run_ops
    cases ha : op.apply s with
    | none => rw [ha] at h; simp at h
    | some s1 =>
      rw [ha] at h
      simp only [Bool.and_eq_true, decide_eq_true_eq] at h
      exact ih s1 (LoopReachable.step s op s1 hs h.1.1 h.1.2 ha) h.2

theorem c19_state_reachable : LoopReachable c19_state := by
  obtain ⟨s1, h1, h2⟩ := loop_reachable_run c19_ops c19_init
    (LoopReachable.init _ (by decide)) (by decide!)
  have : c19_state = s1 := by
    unfold c19_state
    rw [h1]; rfl
  rw [this]; exact h2

theorem c20_state_reachable : LoopReachable c20_state := by
  obtain ⟨s1, h1, h2⟩ := loop_reachable_run c19_ops c20_init
    (LoopReachable.init _ (by decide)) (by decide!)
  have : c20_state = s1 := by
    unfold c20_state
    rw [h1]; rfl
  rw [this]; exact h2

theorem total_nonneg (s : ServerLogic) (hi : puts_inv s) : 0 ≤ s.total_correct_puts := by
  obtain ⟨-, h2, h3⟩ := hi
  rw [h2]
  unfold sum_correct_puts
  apply List.sum_nonneg
  intro x hx
  obtain ⟨e, he, hxe⟩ := List.mem_map.mp hx
  rw [← hxe]
  exact h3 e he

/-- Claim C19. In every state reachable from the constructor's state through
`register_new_client` (with a descriptor that is not registered, as `accept`
returns it), `handle_client_message`, `handle_client_disconnect`, the scheduled
callbacks run by `check_timers`, the queue operations and `reset`,
`total_correct_puts` equals the sum of `correct_puts` over the registered
players. -/
theorem C19_total_is_sum (s : ServerLogic) (h : ServerReachable s) :
    s.total_correct_puts = (s.players.map (fun e => e.2.correct_puts)).sum :=
  (server_reachable_inv s h).2.1

theorem C19_total_is_sum_witness :
    c19_state.total_correct_puts = (c19_state.players.map (fun e => e.2.correct_puts)).sum :=
  C19_total_is_sum c19_state (loop_reachable_server _ c19_state_reachable)

/-- Claim C20. In every state reachable through the server loop (client
messages, disconnections, timers and new connections only while `stopping` is
not set; `reset` once it is set), `total_correct_puts` and every player's
`correct_puts` are at most `M`, and `stopping` is set exactly when
`total_correct_puts` equals `M`. A call raises the total by at most 1; a call
that sets `stopping` is a client message whose put brings the total to `M`;
and once `stopping` is set the total does not change until `reset` clears
it. -/
theorem C20_puts_bounded (s : ServerLogic) (h : LoopReachable s) :
    s.total_correct_puts ≤ s.M ∧ (∀ e ∈ s.players, e.2.correct_puts ≤ s.M) ∧
      (s.stopping = true ↔ s.total_correct_puts = s.M) ∧
      ∀ (op : ServerOp) (s1 : ServerLogic), op.enabled s → op.in_loop s →
        op.apply s = some s1 →
        s1.total_correct_puts ≤ s.total_correct_puts + 1 ∧
          (s.stopping = false → s1.stopping = true →
            (∃ now fd msg, op = .message now fd msg) ∧
              s1.total_correct_puts = s.total_correct_puts + 1 ∧
              s1.total_correct_puts = s1.M) ∧
          (s.stopping = true →
            s1.total_correct_puts = s.total_correct_puts ∨
              (op = .restart ∧ s1.total_correct_puts = 0 ∧ s1.stopping = false)) := by
  obtain ⟨i1, i2, i3⟩ := loop_reachable_bound s h
  have hi := server_reachable_inv s (loop_reachable_server s h)
  have htot : s.total_correct_puts ≤ s.M := by
    cases hst : s.stopping with
    | true => exact le_of_eq (i2 hst)
    | false => exact le_of_lt (i3 hst)
  refine ⟨htot, fun e he => ?_, ⟨i2, fun heq => ?_⟩, fun op s1 he hl ha => ?_⟩
  · have := le_sum_correct_puts s.players hi.2.2 e he
    have hsum : s.total_correct_puts = (s.players.map (fun e => e.2.correct_puts)).sum := hi.2.1
    omega
  · cases hst : s.stopping with
    | true => rfl
    | false => have := i3 hst; omega
  · obtain ⟨-, hM, heff⟩ := apply_effect s s1 op hi he ha
    obtain ⟨-, j2, -⟩ := loop_reachable_bound s1 (LoopReachable.step s op s1 h he hl ha)
    have h0 := total_nonneg s hi
    cases op with
    | register fd ip port =>
      obtain ⟨e1, e2⟩ := heff
      refine ⟨by omega, fun a b => ?_, fun _ => Or.inl e1⟩
      rw [e2, a] at b; simp at b
    | schedule now fd ip port =>
      obtain ⟨e1, e2⟩ := heff
      refine ⟨by omega, fun a b => ?_, fun _ => Or.inl e1⟩
      rw [e2, a] at b; simp at b
    | message now fd msg =>
      simp only [ServerOp.in_loop] at hl
      rcases heff with ⟨e1, e2⟩ | ⟨e1, e2⟩
      · refine ⟨by omega, fun a b => ?_, fun _ => Or.inl e1⟩
        rw [e2, a] at b; simp at b
      · refine ⟨by omega, fun _ b => ⟨⟨now, fd, msg, rfl⟩, e1, j2 b⟩, fun a => ?_⟩
        rw [hl] at a; simp at a
    | disconnect fd =>
      simp only [ServerOp.in_loop] at hl
      obtain ⟨e1, e2⟩ := heff
      refine ⟨by omega, fun a b => ?_, fun a => ?_⟩
      · rw [e2, a] at b; simp at b
      · rw [hl] at a; simp at a
    | timers now =>
      simp only [ServerOp.in_loop] at hl
      obtain ⟨e1, e2⟩ := heff
      refine ⟨by omega, fun a b => ?_, fun a => ?_⟩
      · rw [e2, a] at b; simp at b
      · rw [hl] at a; simp at a
    | take fd =>
      obtain ⟨e1, e2⟩ := heff
      refine ⟨by omega, fun a b => ?_, fun _ => Or.inl e1⟩
      rw [e2, a] at b; simp at b
    | put_back fd msg =>
      obtain ⟨e1, e2⟩ := heff
      refine ⟨by omega, fun a b => ?_, fun _ => Or.inl e1⟩
      rw [e2, a] at b; simp at b
    | restart =>
      obtain ⟨e1, e2⟩ := heff
      refine ⟨by omega, fun a b => ?_, fun _ => Or.inr ⟨rfl, e1, e2⟩⟩
      rw [e2] at b; simp at b

theorem C20_puts_bounded_witness :
    c20_state.total_correct_puts ≤ c20_state.M ∧
      (∀ e ∈ c20_state.players, e.2.correct_puts ≤ c20_state.M) ∧
      (c20_state.stopping = true ↔ c20_state.total_correct_puts = c20_state.M) :=
  ⟨(C20_puts_bounded c20_state c20_state_reachable).1,
    (C20_puts_bounded c20_state c20_state_reachable).2.1,
    (C20_puts_bounded c20_state c20_state_reachable).2.2.1⟩

/-- The scenario states: after the put the first game counts one put of two, and
the second game, with `M = 1`, is over. -/
theorem c19_c20_states :
    (c19_state.total_correct_puts, c19_state.stopping, counts c19_state) =
        (1, false, [(5, 1)]) ∧
      (c20_state.total_correct_puts, c20_state.stopping, counts c20_state) =
        (1, true, [(5, 1)]) := by
  decide!

/-! ## The coefficients a HELLO installs -/

theorem parse_coeffs_length : ∀ (params : List Str) (vs : List ℚ),
    parse_coeffs params = some vs → vs.length = params.length := by
  intro params
  induction params with
  | nil =>
    intro vs h
    simp only [parse_coeffs, Option.some.injEq] at h
    subst h
    rfl
  | cons p rest ih =>
    intro vs h
    simp only [parse_coeffs] at h
    split at h
    · exact Option.noConfusion h
    · split_ifs at h
      split at h
      · exact Option.noConfusion h
      · rename_i ws hw
        simp only [Option.some.injEq] at h
        rw [← h, List.length_cons, List.length_cons, ih ws hw]

/-- Only the COEFF parser produces coefficient fields. -/
theorem parse_fields_coeff (command_str : Str) (params : List Str) (coeffs : List ℚ)
    (h : parse_fields command_str params = some (.coeff coeffs)) :
    CoeffMessage.parseMessage params = some (.coeff coeffs) := by
  unfold parse_fields at h
  split_ifs at h
  · unfold HelloMessage.parseMessage at h
    split at h
    · split_ifs at h
      simp at h
    · exact Option.noConfusion h
  · exact h
  · simp [PutMessage.parseMessage] at h
  · simp [BadPutMessage.parseMessage] at h
  · unfold StateMessage.parseMessage at h
    split_ifs at h
    simp at h
  · simp [PenaltyMessage.parseMessage] at h
  · unfold ScoringMessage.parseMessage at h
    split_ifs at h
    simp at h

/-- A line that parses to a COEFF message carries between 1 and
`max_n + 1 = 9` coefficients, one per parameter, whatever `N` is. -/
theorem createMessage_coeff (line : Str) (msg : Message) (coeffs : List ℚ)
    (h : Message.createMessage line = some msg) (hf : msg.fields = .coeff coeffs) :
    coeffs.length = msg.params.length ∧ 1 ≤ coeffs.length ∧ coeffs.length ≤ 9 := by
  unfold Message.createMessage at h
  split_ifs at h
  dsimp only at h
  split at h
  · exact Option.noConfusion h
  · split at h
    · exact Option.noConfusion h
    · rename_i _ command_str params_str _ _ params _
      cases hp : parse_fields command_str params with
      | none => rw [hp] at h; exact Option.noConfusion h
      | some f =>
        rw [hp] at h
        simp only [Option.map_some', Option.some.injEq] at h
        rw [← h] at hf ⊢
        dsimp only at hf ⊢
        rw [hf] at hp
        have hc := parse_fields_coeff command_str params coeffs hp
        unfold CoeffMessage.parseMessage at hc
        split_ifs at hc with hlen
        cases hq : parse_coeffs params with
        | none => rw [hq] at hc; exact Option.noConfusion hc
        | some vs =>
          rw [hq] at hc
          simp only [Option.map_some', Option.some.injEq, Fields.coeff.injEq] at hc
          have hl := parse_coeffs_length params vs hq
          rw [hc] at hl
          simp only [max_n] at hlen
          omega

theorem modify_player_coeff_file (s : ServerLogic) (fd : Int) (f : PlayerInfo → PlayerInfo) :
    (modify_player s fd f).coeff_file = s.coeff_file ∧ (modify_player s fd f).N = s.N := by
  unfold modify_player
  split <;> exact ⟨rfl, rfl⟩

/-- An accepted HELLO installs the coefficients parsed from the next line of
the file: as many as the line has values (1 to 9), with no comparison to
`N + 1`. -/
theorem handle_hello_coefficients (s s1 : ServerLogic) (fd : Int) (id : Str)
    (h : handle_hello s fd id = some (s1, true)) :
    ∃ msg coeffs, Message.createMessage (s.coeff_file.headD [] ++ ['\n']) = some msg ∧
      msg.fields = .coeff coeffs ∧ coeffs.length = msg.params.length ∧
      1 ≤ coeffs.length ∧ coeffs.length ≤ 9 ∧ s1.N = s.N ∧
      (find_player s1.players fd).map (fun p => (p.is_known, p.coefficients)) =
        some (true, coeffs) := by
  unfold handle_hello at h
  split at h
  · exact Option.noConfusion h
  · rename_i player hp
    split_ifs at h with hk
    · simp at h
    · dsimp only at h
      rw [(modify_player_coeff_file s fd _).1] at h
      split at h
      · exact Option.noConfusion h
      · rename_i coeff_msg hm
        split at h
        · rename_i coeffs hc
          simp only [Option.some.injEq, Prod.mk.injEq, and_true] at h
          have hlen := createMessage_coeff _ coeff_msg coeffs hm hc
          refine ⟨coeff_msg, coeffs, hm, hc, hlen.1, hlen.2.1, hlen.2.2, ?_, ?_⟩
          · rw [← h]
            unfold append_message_back
            rw [(modify_player_coeff_file _ fd _).2, (modify_player_coeff_file _ fd _).2]
            exact (modify_player_coeff_file s fd _).2
          · rw [← h]
            unfold append_message_back
            rw [find_modify_player, find_modify_player]
            dsimp only
            rw [find_modify_player, hp]
            simp
        · exact Option.noConfusion h

theorem c21_state_reachable : LoopReachable c21_state := by
  obtain ⟨s1, h1, h2⟩ := loop_reachable_run c21_ops c21_init
    (LoopReachable.init _ (by decide)) (by decide!)
  have : c21_state = s1 := by
    unfold c21_state
    rw [h1]; rfl
  rw [this]; exact h2

/-- Claim C21, contradicted by the code. On the server with `N = 3` whose
coefficient file begins with the line `COEFF 1 2`, the HELLO of the client on
descriptor 5 is accepted and the player's coefficients become `[1, 2]`: two
entries, not `N + 1 = 4`, so the loop of `player_poly_at` over the indices
`0..3` reads positions 2 and 3 beyond the end of the vector. -/
theorem C21_coefficients_shorter_than_N_plus_1 :
    LoopReachable c21_state ∧ c21_state.N = 3 ∧
      (find_player c21_state.players 5).map (fun p => (p.is_known, p.coefficients)) =
        some (true, [1, 2]) ∧
      (find_player c21_state.players 5).map
          (fun p => decide (p.coefficients.length = (c21_state.N + 1).toNat)) = some false ∧
      (find_player c21_state.players 5).map
          (fun p => (List.range (c21_state.N + 1).toNat).filter
            (fun i => decide (p.coefficients.length ≤ i))) = some [2, 3] :=
  ⟨c21_state_reachable, by decide!, by decide!, by decide!, by decide!⟩

/-! ## The tokens `parseDouble` and `parseInteger` accept -/

theorem skip_point_of_ne (c : Char) (t : Str) (h : c ≠ '.') : skip_point (c :: t) = c :: t := by
  unfold skip_point
  split
  · rename_i heq
    exact absurd (List.cons.inj heq).1 h
  · rfl

theorem takeWhile_digits_stop (c : Char) (t : Str) (h : c.isDigit = false) :
    (c :: t).takeWhile Char.isDigit = [] ∧ (c :: t).dropWhile Char.isDigit = c :: t := by
  simp [List.takeWhile, List.dropWhile, h]

theorem forall_digit_takeWhile (s : Str) : ∀ c ∈ s.takeWhile Char.isDigit, c.isDigit = true :=
  fun _ hc => List.mem_takeWhile_imp hc

/-- The head of what the digit loop leaves is not a digit. -/
theorem dropWhile_digits_head (s t : Str) (c : Char) (h : s.dropWhile Char.isDigit = c :: t) :
    c.isDigit = false := by
  have hne : s.dropWhile Char.isDigit ≠ [] := by rw [h]; exact List.cons_ne_nil c t
  have := List.head_dropWhile_not Char.isDigit s hne
  simp only [h, List.head_cons] at this
  exact this

theorem isEmpty_eq_false (s : Str) (h : s ≠ []) : s.isEmpty = false := by
  cases s with
  | nil => exact absurd rfl h
  | cons _ _ => rfl

theorem ne_nil_of_isEmpty_false (s : Str) (h : s.isEmpty = false) : s ≠ [] := by
  intro e; rw [e] at h; exact Bool.noConfusion h

/-- The two digit loops on a text of the shape. -/
theorem digit_loops (lead : Str) (frac : Option Str) (h : decimal_shape lead frac) :
    (lead ++ fraction_text frac).takeWhile Char.isDigit = lead ∧
      (skip_point ((lead ++ fraction_text frac).dropWhile Char.isDigit)).takeWhile Char.isDigit =
        frac.getD [] ∧
      (skip_point ((lead ++ fraction_text frac).dropWhile Char.isDigit)).dropWhile Char.isDigit =
        [] := by
  have hdot : ('.' : Char).isDigit = false := by decide
  cases frac with
  | none =>
    have hl := h.1
    simp only [fraction_text, List.append_nil, takeWhile_digits_all lead hl,
      dropWhile_digits_all lead hl, Option.getD_none]
    exact ⟨trivial, rfl, rfl⟩
  | some f =>
    obtain ⟨hl, hf, -, -⟩ := h
    simp only [fraction_text, takeWhile_digits_append lead f '.' hl hdot,
      dropWhile_digits_append lead f '.' hl hdot, skip_point_dot, takeWhile_digits_all f hf,
      dropWhile_digits_all f hf, Option.getD_some]
    exact ⟨trivial, trivial, trivial⟩

/-- The format test after the sign accepts exactly the texts of the shape. -/
theorem double_format_digits_iff (s1 : Str) :
    double_format_digits s1 = true ↔
      ∃ lead frac, s1 = lead ++ fraction_text frac ∧ decimal_shape lead frac := by
  constructor
  · intro h
    have hsplit : s1.takeWhile Char.isDigit ++ s1.dropWhile Char.isDigit = s1 :=
      List.takeWhile_append_dropWhile Char.isDigit s1
    have hlead := forall_digit_takeWhile s1
    unfold double_format_digits at h
    dsimp only at h
    split_ifs at h with h1 h2 h3
    simp only [max_fractional_digits, not_lt] at h1
    simp only [Bool.and_eq_true, Bool.not_eq_true', Bool.not_eq_true, not_and,
      Bool.not_eq_false] at h2 h3
    cases hafter : s1.dropWhile Char.isDigit with
    | nil =>
      rw [hafter] at h2 hsplit
      refine ⟨s1.takeWhile Char.isDigit, none, ?_, hlead, ?_⟩
      · simpa [fraction_text] using hsplit.symm
      · intro e
        rw [e] at h2
        exact absurd (h2 rfl) (by decide)
    | cons c t =>
      rw [hafter] at h1 h2 h3 hsplit
      by_cases hc : c = '.'
      · subst hc
        rw [skip_point_dot] at h1 h2 h3
        have ht : t.takeWhile Char.isDigit = t := by
          have h4 := List.takeWhile_append_dropWhile Char.isDigit t
          have h5 : t.dropWhile Char.isDigit = [] := by
            cases hd : t.dropWhile Char.isDigit with
            | nil => rfl
            | cons _ _ => rw [hd] at h3; exact Bool.noConfusion h3
          rw [h5, List.append_nil] at h4
          exact h4
        refine ⟨s1.takeWhile Char.isDigit, some t, hsplit.symm, hlead, ?_, ?_, ?_⟩
        · intro x hx
          rw [← ht] at hx
          exact forall_digit_takeWhile t x hx
        · rw [ht] at h1; exact h1
        · by_cases hl : s1.takeWhile Char.isDigit = []
          · right
            intro e
            rw [hl, e] at h2
            exact absurd (h2 rfl) (by decide)
          · exact Or.inl hl
      · exfalso
        have hnd := dropWhile_digits_head s1 t c hafter
        rw [skip_point_of_ne c t hc, (takeWhile_digits_stop c t hnd).2] at h3
        exact Bool.noConfusion h3
  · rintro ⟨lead, frac, rfl, hs⟩
    obtain ⟨h1, h2, h3⟩ := digit_loops lead frac hs
    unfold double_format_digits
    dsimp only
    rw [h1, h2, h3]
    cases frac with
    | none =>
      simp only [Option.getD_none, List.length_nil, max_fractional_digits]
      rw [isEmpty_eq_false lead hs.2]
      rfl
    | some f =>
      obtain ⟨-, -, hlen, hne⟩ := hs
      simp only [Option.getD_some, max_fractional_digits]
      rw [if_neg (by omega)]
      rcases hne with hne | hne
      · rw [isEmpty_eq_false lead hne]; rfl
      · simp [isEmpty_eq_false f hne]

theorem stod_magnitude_shape (lead : Str) (frac : Option Str) (h : decimal_shape lead frac) :
    stod_magnitude (lead ++ fraction_text frac) = (decimal lead : ℚ) + fraction_value frac := by
  obtain ⟨h1, h2, -⟩ := digit_loops lead frac h
  unfold stod_magnitude
  dsimp only
  rw [h1, h2]
  cases frac with
  | none => simp [fraction_value, decimal]
  | some f => rfl

theorem stod_minus (rest : Str) :
    stod ('-' :: rest) =
      if stod_magnitude rest ≥ DBL_OVERFLOW then none else some (-stod_magnitude rest) := rfl

/-- A text of the shape is not empty and does not begin with `-`. -/
theorem shape_head (lead : Str) (frac : Option Str) (h : decimal_shape lead frac) :
    ∃ c t, lead ++ fraction_text frac = c :: t ∧ c ≠ '-' := by
  cases lead with
  | nil =>
    cases frac with
    | none => exact absurd rfl h.2
    | some f => exact ⟨'.', f, rfl, by decide⟩
  | cons c t =>
    refine ⟨c, t ++ fraction_text frac, rfl, isDigit_ne_minus c ?_⟩
    cases frac with
    | none => exact h.1 c (List.mem_cons_self c t)
    | some f => exact h.1 c (List.mem_cons_self c t)

/-- What `parseDouble` accepts and returns: the decimal tokens whose magnitude
is below the overflow threshold of `stod`, and their value. -/
theorem parseDouble_iff (str : Str) (v : ℚ) :
    parseDouble str = some v ↔
      ∃ neg lead frac, str = decimal_text neg lead frac ∧ decimal_shape lead frac ∧
        (decimal lead : ℚ) + fraction_value frac < DBL_OVERFLOW ∧
        v = decimal_value neg lead frac := by
  constructor
  · intro h
    unfold parseDouble at h
    split_ifs at h with hf
    simp only [Bool.not_eq_true', Bool.not_eq_false] at hf
    cases str with
    | nil => exact Bool.noConfusion hf
    | cons c rest =>
      unfold isValidDoubleStringFormat at hf
      dsimp only at hf
      by_cases hc : c = '-'
      · subst hc
        rw [if_pos rfl] at hf
        split_ifs at hf with hr
        obtain ⟨lead, frac, hrest, hs⟩ := (double_format_digits_iff rest).mp hf
        have hm := stod_magnitude_shape lead frac hs
        rw [← hrest] at hm
        rw [stod_minus, hm] at h
        split_ifs at h with hov
        simp only [Option.some.injEq] at h
        refine ⟨true, lead, frac, ?_, hs, not_le.mp hov, ?_⟩
        · rw [hrest]; rfl
        · rw [← h]; rfl
      · rw [if_neg hc] at hf
        obtain ⟨lead, frac, hstr, hs⟩ := (double_format_digits_iff (c :: rest)).mp hf
        have hm := stod_magnitude_shape lead frac hs
        rw [← hstr] at hm
        rw [stod_not_minus c rest hc, hm] at h
        split_ifs at h with hov
        simp only [Option.some.injEq] at h
        refine ⟨false, lead, frac, ?_, hs, not_le.mp hov, ?_⟩
        · rw [hstr]; rfl
        · rw [← h]; rfl
  · rintro ⟨neg, lead, frac, rfl, hs, hm, rfl⟩
    obtain ⟨c, t, hct, hc⟩ := shape_head lead frac hs
    have hfmt := (double_format_digits_iff (lead ++ fraction_text frac)).mpr ⟨lead, frac, rfl, hs⟩
    have hmag := stod_magnitude_shape lead frac hs
    have hnov : ¬ ((decimal lead : ℚ) + fraction_value frac ≥ DBL_OVERFLOW) := not_le.mpr hm
    cases neg with
    | true =>
      have htext : decimal_text true lead frac = '-' :: (lead ++ fraction_text frac) := rfl
      have hf : isValidDoubleStringFormat ('-' :: (lead ++ fraction_text frac)) = true := by
        unfold isValidDoubleStringFormat
        dsimp only
        rw [if_pos rfl, if_neg (by rw [hct]; exact List.cons_ne_nil c t), hfmt]
      have hv : stod ('-' :: (lead ++ fraction_text frac)) =
          some (-((decimal lead : ℚ) + fraction_value frac)) := by
        rw [stod_minus, hmag, if_neg hnov]
      rw [htext]
      unfold parseDouble
      rw [hf, hv]
      rfl
    | false =>
      have htext : decimal_text false lead frac = lead ++ fraction_text frac := rfl
      have hf : isValidDoubleStringFormat (lead ++ fraction_text frac) = true := by
        rw [hct]
        unfold isValidDoubleStringFormat
        dsimp only
        rw [if_neg hc, ← hct, hfmt]
      have hv : stod (lead ++ fraction_text frac) =
          some ((decimal lead : ℚ) + fraction_value frac) := by
        rw [hct, stod_not_minus c t hc, ← hct, hmag, if_neg hnov]
      rw [htext]
      unfold parseDouble
      rw [hf, hv]
      rfl

theorem digit_value_le (c : Char) (h : c.isDigit = true) : c.toNat - 48 ≤ 9 := by
  have h1 : c.toNat ≤ 57 := by
    simp only [Char.isDigit, Bool.and_eq_true, decide_eq_true_eq] at h
    exact h.2
  omega

theorem decimal_lt (s : Str) : (∀ c ∈ s, c.isDigit = true) → decimal s < 10 ^ s.length := by
  induction s using List.reverseRecOn with
  | nil => intro _; decide
  | append_singleton l c ih =>
    intro h
    have hl := ih (fun x hx => h x (List.mem_append_left _ hx))
    have hc := digit_value_le c (h c (List.mem_append_right _ (List.mem_singleton_self c)))
    rw [decimal_append_singleton, List.length_append, List.length_singleton, pow_succ]
    omega

/-- A token of the shape with at most 308 digits before the point is below the
overflow threshold of `stod`. -/
theorem shape_magnitude_lt (lead : Str) (frac : Option Str) (h : decimal_shape lead frac)
    (hl : lead.length ≤ 308) : (decimal lead : ℚ) + fraction_value frac < DBL_OVERFLOW := by
  have hlead : ∀ c ∈ lead, c.isDigit = true := by
    cases frac with
    | none => exact h.1
    | some f => exact h.1
  have h1 : (decimal lead : ℚ) + 1 ≤ 10 ^ lead.length := by
    have := decimal_lt lead hlead
    exact_mod_cast this
  have h2 : (10 : ℚ) ^ lead.length ≤ 10 ^ 308 := pow_le_pow_right₀ (by norm_num) hl
  have h3 : fraction_value frac < 1 := by
    cases frac with
    | none => simp [fraction_value]
    | some f =>
      have hf := decimal_lt f h.2.1
      have hq : (decimal f : ℚ) < 10 ^ f.length := by exact_mod_cast hf
      unfold fraction_value
      rw [div_lt_one (by positivity)]
      exact hq
  have h4 : (10 : ℚ) ^ 308 < DBL_OVERFLOW := by
    unfold DBL_OVERFLOW
    norm_num
  linarith

theorem c31_token_digits : ∀ c ∈ c31_token, c.isDigit = true := by
  intro c hc
  unfold c31_token at hc
  rcases List.mem_cons.mp hc with h | h
  · rw [h]; decide
  · rw [(List.mem_replicate.mp h).2]; decide

theorem decimal_append_zeros (n : Nat) (s : Str) :
    (decimal (s ++ List.replicate n '0') : ℚ) = (decimal s : ℚ) * 10 ^ n := by
  induction n generalizing s with
  | zero => simp
  | succ n ih =>
    have h : s ++ List.replicate (n + 1) '0' = (s ++ ['0']) ++ List.replicate n '0' := by
      rw [List.replicate_succ, List.append_assoc]; rfl
    rw [h, ih, decimal_append_singleton]
    have h0 : ('0' : Char).toNat - 48 = 0 := by decide
    rw [h0, pow_succ]
    push_cast
    ring

theorem c31_token_value : (decimal c31_token : ℚ) = 10 ^ 309 := by
  have h := decimal_append_zeros 309 ['1']
  have h1 : decimal ['1'] = 1 := by decide
  rw [h1, Nat.cast_one, one_mul] at h
  exact h

/-- Claim C31, refuted as stated: the token of 310 digits `1000...0` has the
shape the claim describes (digits only, no point) and passes
`isValidDoubleStringFormat`, but `stod` reports it as out of range and
`parseDouble` rejects it. -/
theorem C31_long_token_rejected :
    decimal_shape c31_token none ∧ isValidDoubleStringFormat c31_token = true ∧
      parseDouble c31_token = none := by
  have hs : decimal_shape c31_token none := ⟨c31_token_digits, List.cons_ne_nil _ _⟩
  have hfmt := (double_format_digits_iff c31_token).mpr ⟨c31_token, none, by simp [fraction_text], hs⟩
  have hf : isValidDoubleStringFormat c31_token = true := by
    have hc : c31_token = '1' :: List.replicate 309 '0' := rfl
    rw [hc] at hfmt ⊢
    unfold isValidDoubleStringFormat
    dsimp only
    rw [if_neg (by decide), hfmt]
  refine ⟨hs, hf, ?_⟩
  have hm := stod_magnitude_shape c31_token none hs
  simp only [fraction_text, List.append_nil, fraction_value, add_zero, c31_token_value] at hm
  have hov : stod_magnitude c31_token ≥ DBL_OVERFLOW := by
    rw [hm]
    unfold DBL_OVERFLOW
    norm_num
  have hst : stod c31_token = none := by
    have hc : c31_token = '1' :: List.replicate 309 '0' := rfl
    rw [hc] at hov ⊢
    rw [stod_not_minus '1' _ (by decide), if_pos hov]
  unfold parseDouble
  rw [hf, hst]
  rfl

/-- Claim C31, amended. `parseDouble` accepts a token, with the value `v`, if
and only if the token is an optional `-`, a run of digits, and optionally a
point with at most 7 further digits, with at least one digit overall, its
magnitude is below `2 ^ 1024 - 2 ^ 970` (where `stod` reports overflow), and `v`
is its decimal value. So `5.`, `.5`, `-.5` and `12` are accepted; `.`, `-`,
`+1`, `1e5` and `1.12345678` are rejected. Every token of the shape with at most
308 digits before the point is accepted. -/
theorem C31_parseDouble (str : Str) (v : ℚ) :
    (parseDouble str = some v ↔
        ∃ neg lead frac, str = decimal_text neg lead frac ∧ decimal_shape lead frac ∧
          (decimal lead : ℚ) + fraction_value frac < DBL_OVERFLOW ∧
          v = decimal_value neg lead frac) ∧
      (∀ neg lead frac, decimal_shape lead frac → lead.length ≤ 308 →
        parseDouble (decimal_text neg lead frac) = some (decimal_value neg lead frac)) ∧
      parseDouble "5.".toList = some 5 ∧ parseDouble ".5".toList = some (1 / 2) ∧
      parseDouble "-.5".toList = some (-1 / 2) ∧ parseDouble "12".toList = some 12 ∧
      parseDouble ".".toList = none ∧ parseDouble "-".toList = none ∧
      parseDouble "+1".toList = none ∧ parseDouble "1e5".toList = none ∧
      parseDouble "1.12345678".toList = none ∧ parseDouble "1.1234567".toList =
        some (11234567 / 10000000) :=
  ⟨parseDouble_iff str v,
    fun neg lead frac hs hl => (parseDouble_iff _ _).mpr
      ⟨neg, lead, frac, rfl, hs, shape_magnitude_lt lead frac hs hl, rfl⟩,
    by decide!, by decide!, by decide!, by decide!, by decide!, by decide!,
    by decide!, by decide!, by decide!, by decide!⟩

theorem C31_parseDouble_witness :
    decimal_shape "12".toList (some "5".toList) ∧
      parseDouble (decimal_text true "12".toList (some "5".toList)) =
        some (decimal_value true "12".toList (some "5".toList)) :=
  ⟨⟨by decide, by decide, by decide, Or.inl (by decide)⟩,
    (C31_parseDouble [] 0).2.1 true "12".toList (some "5".toList)
      ⟨by decide, by decide, by decide, Or.inl (by decide)⟩ (by decide)⟩

/-- Claim C32. `parseInteger` accepts a token, with the value `v`, if and only
if the token is an optional `-` followed by one or more decimal digits (leading
zeros allowed) whose value `v` lies in `[-2 ^ 31, 2 ^ 31 - 1]`; every other
token (empty, other characters, values beyond 32 or beyond 64 bits) gives
`none`, the model of returning false: the function is total. -/
theorem C32_parseInteger (str : Str) (v : Int) :
    (parseInteger str = some v ↔
        ∃ (neg : Bool) (digits : Str), str = (if neg then ['-'] else []) ++ digits ∧
          digits ≠ [] ∧ (∀ c ∈ digits, c.isDigit = true) ∧
          v = (if neg then -(decimal digits : Int) else (decimal digits : Int)) ∧
          -2 ^ 31 ≤ v ∧ v ≤ 2 ^ 31 - 1) ∧
      parseInteger "007".toList = some 7 ∧ parseInteger "-0".toList = some 0 ∧
      parseInteger "2147483647".toList = some 2147483647 ∧
      parseInteger "-2147483648".toList = some (-2147483648) ∧
      parseInteger "2147483648".toList = none ∧ parseInteger "-2147483649".toList = none ∧
      parseInteger "99999999999999999999".toList = none ∧ parseInteger [] = none ∧
      parseInteger "-".toList = none ∧ parseInteger "+1".toList = none ∧
      parseInteger "1 ".toList = none ∧ parseInteger "1.0".toList = none := by
  refine ⟨⟨fun h => ?_, ?_⟩, by decide, by decide, by decide, by decide, by decide, by decide,
    by decide, by decide, by decide, by decide, by decide, by decide⟩
  · have e31 : (2 : Int) ^ 31 = 2147483648 := by norm_num
    unfold parseInteger at h
    split_ifs at h with hf
    simp only [Bool.not_eq_true', Bool.not_eq_false] at hf
    cases str with
    | nil => exact Bool.noConfusion hf
    | cons c rest =>
      unfold isValidIntegerStringFormat at hf
      dsimp only at hf
      by_cases hc : c = '-'
      · subst hc
        rw [if_pos rfl] at hf
        split_ifs at hf with hr
        have hst : stoll ('-' :: rest) =
            if -(decimal rest : Int) < LLONG_MIN ∨ -(decimal rest : Int) > LLONG_MAX then none
            else some (-(decimal rest : Int)) := rfl
        rw [hst] at h
        split_ifs at h with h1
        dsimp only at h
        split_ifs at h with h2
        simp only [Option.some.injEq] at h
        simp only [INT_MIN, INT_MAX, not_or, not_lt] at h2
        refine ⟨true, rest, rfl, hr, List.all_eq_true.mp hf, h.symm, ?_, ?_⟩
        · rw [← h, e31]; omega
        · rw [← h, e31]; omega
      · rw [if_neg hc] at hf
        rw [stoll_digits (c :: rest) c rest rfl hc] at h
        split_ifs at h with h1
        dsimp only at h
        split_ifs at h with h2
        simp only [Option.some.injEq] at h
        simp only [INT_MIN, INT_MAX, not_or, not_lt] at h2
        refine ⟨false, c :: rest, rfl, List.cons_ne_nil c rest, List.all_eq_true.mp hf, h.symm,
          ?_, ?_⟩
        · rw [← h, e31]; omega
        · rw [← h, e31]; omega
  · rintro ⟨neg, digits, rfl, hne, hd, rfl, hlo, hhi⟩
    obtain ⟨c, rest, hcr⟩ := List.exists_cons_of_ne_nil hne
    have hc : c ≠ '-' := isDigit_ne_minus c (hd c (by rw [hcr]; exact List.mem_cons_self c rest))
    norm_num at hlo hhi
    cases neg with
    | true =>
      have hs : (if true = true then ['-'] else []) ++ digits = '-' :: digits := rfl
      have hf : isValidIntegerStringFormat ('-' :: digits) = true := by
        unfold isValidIntegerStringFormat
        dsimp only
        rw [if_pos rfl, if_neg hne]
        exact all_isDigit_of_forall _ hd
      have hst : stoll ('-' :: digits) =
          if -(decimal digits : Int) < LLONG_MIN ∨ -(decimal digits : Int) > LLONG_MAX then none
          else some (-(decimal digits : Int)) := rfl
      simp only [if_true] at hlo hhi
      rw [hs]
      unfold parseInteger
      rw [hf, hst]
      simp only [LLONG_MIN, LLONG_MAX, INT_MIN, INT_MAX]
      rw [if_neg (by simp), if_neg (by omega)]
      dsimp only
      rw [if_neg (by omega)]
      rfl
    | false =>
      have hs : (if false = true then ['-'] else []) ++ digits = digits := rfl
      have hf : isValidIntegerStringFormat digits = true := by
        rw [hcr]
        unfold isValidIntegerStringFormat
        dsimp only
        rw [if_neg hc, ← hcr]
        exact all_isDigit_of_forall _ hd
      simp only [Bool.false_eq_true, if_false] at hlo hhi
      rw [hs]
      unfold parseInteger
      rw [hf, stoll_digits digits c rest hcr hc]
      simp only [LLONG_MIN, LLONG_MAX, INT_MIN, INT_MAX]
      rw [if_neg (by simp), if_neg (by omega)]
      dsimp only
      rw [if_neg (by omega)]
      rfl

/-! ## The grammar of a line -/

theorem dropWhile_head_not (p : Char → Bool) (l t : Str) (c : Char)
    (h : l.dropWhile p = c :: t) : p c = false := by
  have hne : l.dropWhile p ≠ [] := by rw [h]; exact List.cons_ne_nil c t
  have := List.head_dropWhile_not p l hne
  simp only [h, List.head_cons] at this
  exact this

/-- What `extractCommandAndParams` returns: the whole line as command, or the
line cut at its first space, with text on both sides of it. -/
theorem extract_some (l cmd P : Str) (h : extractCommandAndParams l = some (cmd, P)) :
    (P = [] ∧ l = cmd) ∨ (P ≠ [] ∧ l = cmd ++ ' ' :: P) := by
  have hsplit := List.takeWhile_append_dropWhile (fun c => decide (c ≠ ' ')) l
  unfold extractCommandAndParams at h
  split_ifs at h
  simp only [List.span_eq_take_drop] at h
  split at h
  · rename_i x heq
    simp only [Prod.mk.injEq] at heq
    simp only [Option.some.injEq, Prod.mk.injEq] at h
    exact Or.inl ⟨h.2.symm, h.1⟩
  · exact Option.noConfusion h
  · exact Option.noConfusion h
  · rename_i _ command c params hn2 hn3 heq
    simp only [Prod.mk.injEq] at heq
    simp only [Option.some.injEq, Prod.mk.injEq] at h
    obtain ⟨h1, h2⟩ := h
    subst h1 h2
    have hc : c = ' ' := by
      have := dropWhile_head_not (fun c => decide (c ≠ ' ')) l params c heq.2
      simpa using this
    subst hc
    rw [heq.1, heq.2] at hsplit
    refine Or.inr ⟨?_, hsplit.symm⟩
    intro hP
    cases command with
    | nil => exact hn2 rfl
    | cons a b => exact hn3 a b rfl hP

/-- What `splitParams` returns: nothing for the empty string, otherwise the
tokens of a string made of tokens separated by single spaces. -/
theorem splitParams_some (P : Str) (params : List Str) (h : splitParams P = some params) :
    (P = [] ∧ params = []) ∨
      (P ≠ [] ∧ params ≠ [] ∧ (∀ t ∈ params, is_token t) ∧ [' '].intercalate params = P) := by
  unfold splitParams at h
  split_ifs at h with h1 h2
  · simp only [Option.some.injEq] at h
    left
    refine ⟨?_, h.symm⟩
    cases P with
    | nil => rfl
    | cons _ _ => exact Bool.noConfusion h1
  · simp only [Bool.not_eq_true', Bool.not_eq_false] at h2
    simp only [Option.some.injEq] at h
    unfold params_regex_match at h2
    rw [List.all_eq_true] at h2
    have hall : ∀ t ∈ P.splitOn ' ', (!t.isEmpty) = true := fun t ht => by
      have := h2 t ht
      rw [Bool.and_eq_true] at this
      exact this.1
    rw [List.filter_eq_self.mpr hall] at h
    right
    refine ⟨?_, ?_, ?_, ?_⟩
    · intro e; rw [e] at h1; exact h1 rfl
    · rw [← h]; exact List.splitOnP_ne_nil _ _
    · intro t ht
      rw [← h] at ht
      have := h2 t ht
      rw [Bool.and_eq_true, List.all_eq_true] at this
      refine ⟨?_, this.2⟩
      intro e
      rw [e] at this
      exact absurd this.1 (by decide)
    · rw [← h]; exact List.intercalate_splitOn _ _

theorem parse_fields_command (cmd : Str) (params : List Str) (f : Fields)
    (h : parse_fields cmd params = some f) : cmd ∈ command_names := by
  unfold parse_fields at h
  unfold command_names
  split_ifs at h with h1 h2 h3 h4 h5 h6 h7
  · rw [h1]; simp
  · rw [h2]; simp
  · rw [h3]; simp
  · rw [h4]; simp
  · rw [h5]; simp
  · rw [h6]; simp
  · rw [h7]; simp

/-- The lines `Message::createMessage` accepts are texts of the grammar. -/
theorem createMessage_grammar (line : Str) (msg : Message)
    (h : Message.createMessage line = some msg) :
    ∃ cmd params, cmd ∈ command_names ∧ (∀ t ∈ params, is_token t) ∧
      line = line_text cmd params ∧ msg.raw_message = line ∧ msg.params = params ∧
      parse_fields cmd params = some msg.fields := by
  unfold Message.createMessage at h
  split_ifs at h with hcr
  simp only [not_or, not_lt, ne_eq, not_not] at hcr
  have hline : line = line.take (line.length - 2) ++ crlf := by
    rw [← hcr.2, List.take_append_drop]
  dsimp only at h
  split at h
  · exact Option.noConfusion h
  · rename_i cmd P hex
    split at h
    · exact Option.noConfusion h
    · rename_i params hsp
      cases hpf : parse_fields cmd params with
      | none => rw [hpf] at h; exact Option.noConfusion h
      | some f =>
        rw [hpf] at h
        simp only [Option.map_some', Option.some.injEq] at h
        refine ⟨cmd, params, parse_fields_command cmd params f hpf, ?_, ?_, ?_, ?_, ?_⟩
        · rcases splitParams_some P params hsp with ⟨-, hp⟩ | ⟨-, -, ht, -⟩
          · rw [hp]; intro t ht; exact absurd ht (List.not_mem_nil t)
          · exact ht
        · rcases extract_some _ cmd P hex with ⟨hP, hl⟩ | ⟨hP, hl⟩
          · rcases splitParams_some P params hsp with ⟨-, hp⟩ | ⟨hP2, -, -, -⟩
            · rw [hp, hline, hl]; rfl
            · exact absurd hP hP2
          · rcases splitParams_some P params hsp with ⟨hP2, -⟩ | ⟨-, hne, -, hint⟩
            · exact absurd hP2 hP
            · obtain ⟨t, ts, hts⟩ := List.exists_cons_of_ne_nil hne
              rw [hts] at hint ⊢
              rw [hline, hl, ← hint]
              rfl
        · rw [← h]
        · rw [← h]
        · rw [← h]; exact hpf

/-- Claim C34. `Message::createMessage(line)` yields a message only if `line`
ends with CR LF and the text before it is one of the seven command names,
either alone or followed by exactly one space and a non-empty list of
parameters that are non-empty, consist only of letters, digits, `.` and `-`,
and are separated by single spaces; the message then holds that line and those
parameters. A leading space, a trailing space, a doubled space, an unknown or
lower-case command, another character or a missing CR make the result null. -/
theorem C34_createMessage_grammar (line : Str) (msg : Message) :
    (Message.createMessage line = some msg →
        ∃ cmd params, cmd ∈ command_names ∧ (∀ t ∈ params, is_token t) ∧
          line = line_text cmd params ∧ msg.raw_message = line ∧ msg.params = params) ∧
      Message.createMessage " PUT 1 2\r\n".toList = none ∧
      Message.createMessage "PUT 1 2 \r\n".toList = none ∧
      Message.createMessage "PUT  1 2\r\n".toList = none ∧
      Message.createMessage "PUT \r\n".toList = none ∧
      Message.createMessage "GET 1 2\r\n".toList = none ∧
      Message.createMessage "put 1 2\r\n".toList = none ∧
      Message.createMessage "PUT 1 2,5\r\n".toList = none ∧
      Message.createMessage "PUT\t1 2\r\n".toList = none ∧
      Message.createMessage "PUT 1 2\n".toList = none ∧
      Message.createMessage "PUT 1 2".toList = none ∧
      (Message.createMessage "PUT 1 2\r\n".toList).map (fun m => m.params) =
        some ["1".toList, "2".toList] := by
  refine ⟨fun h => ?_, by decide!, by decide!, by decide!, by decide!, by decide!, by decide!,
    by decide!, by decide!, by decide!, by decide!, by decide!⟩
  obtain ⟨cmd, params, h1, h2, h3, h4, h5, -⟩ := createMessage_grammar line msg h
  exact ⟨cmd, params, h1, h2, h3, h4, h5⟩

theorem C34_createMessage_grammar_witness :
    ∃ cmd params, cmd ∈ command_names ∧ (∀ t ∈ params, is_token t) ∧
      "PUT 1 2.5\r\n".toList = line_text cmd params ∧
      (⟨"PUT 1 2.5\r\n".toList, ["1".toList, "2.5".toList], .put 1 (5 / 2)⟩ :
        Message).raw_message = "PUT 1 2.5\r\n".toList ∧
      (⟨"PUT 1 2.5\r\n".toList, ["1".toList, "2.5".toList], .put 1 (5 / 2)⟩ :
        Message).params = params :=
  (C34_createMessage_grammar "PUT 1 2.5\r\n".toList
    ⟨"PUT 1 2.5\r\n".toList, ["1".toList, "2.5".toList], .put 1 (5 / 2)⟩).1 (by decide!)

/-! ## COEFF lines -/

/-- The guard of the BAD_PUT and STATE callbacks fails exactly for the client
that was captured. -/
theorem callback_guard (s : ServerLogic) (fd : Int) (ip : Str) (port : Int) (id : Str) :
    (!validate_client s fd ip port ||
        decide ((find_player s.players fd).map (fun p => p.id) ≠ some id)) = true ↔
      ¬ same_client s fd ip port id := by
  unfold validate_client same_client
  cases find_player s.players fd with
  | none => simp
  | some p =>
    simp only [Option.map_some', ne_eq, Option.some.injEq, Bool.or_eq_true, Bool.not_eq_true',
      Bool.and_eq_false_iff, decide_eq_false_iff_not, decide_eq_true_eq]
    tauto

theorem run_callback_skip (s : ServerLogic) (fd : Int) (ip : Str) (port : Int) (id : Str)
    (point : Int) (value : ℚ) (line : Str) (h : ¬ same_client s fd ip port id) :
    run_callback s (.bad_put fd point value ip port id) = some s ∧
      run_callback s (.state fd line ip port id) = some s := by
  have hg := (callback_guard s fd ip port id).mpr h
  constructor
  · simp only [run_callback]
    rw [if_pos hg]
  · simp only [run_callback]
    rw [if_pos hg]

/-- Claim C39. A scheduled BAD_PUT or STATE callback changes the server state
only if, when it runs, the client handle is registered with the ip, port and
player id captured when it was scheduled: otherwise (the client has
disconnected, or the handle belongs to a client with another ip, port or id)
it returns the state unchanged. For the captured client the STATE callback
appends its line and sets `can_put`, and the BAD_PUT callback (for a point and a
value that print) appends the BAD_PUT line and sets `can_put`. -/
theorem C39_callback_validates (s : ServerLogic) (fd : Int) (ip : Str) (port : Int) (id : Str)
    (point : Int) (value : ℚ) (line : Str) :
    (¬ same_client s fd ip port id →
        run_callback s (.bad_put fd point value ip port id) = some s ∧
          run_callback s (.state fd line ip port id) = some s) ∧
      (∀ s1, run_callback s (.bad_put fd point value ip port id) = some s1 → s1 ≠ s →
        same_client s fd ip port id) ∧
      (∀ s1, run_callback s (.state fd line ip port id) = some s1 → s1 ≠ s →
        same_client s fd ip port id) ∧
      (∀ p, find_player s.players fd = some p → p.ip = ip → p.port = port → p.id = id →
        run_callback s (.state fd line ip port id) =
            some { s with
              players := set_player s.players fd
                { p with messages := p.messages ++ [line], can_put := true } } ∧
          (INT_MIN ≤ point → point ≤ INT_MAX → |value| ≤ DBL_MAX →
            run_callback s (.bad_put fd point value ip port id) =
              some { s with
                players := set_player s.players fd
                  { p with
                    can_put := true
                    messages :=
                      p.messages ++ [point_value_line "BAD_PUT".toList point value] } })) := by
  refine ⟨run_callback_skip s fd ip port id point value line, fun s1 h1 hne => ?_,
    fun s1 h1 hne => ?_, fun p hf hip hport hid => ?_⟩
  · by_contra hn
    rw [(run_callback_skip s fd ip port id point value line hn).1] at h1
    exact hne (Option.some.inj h1).symm
  · by_contra hn
    rw [(run_callback_skip s fd ip port id point value line hn).2] at h1
    exact hne (Option.some.inj h1).symm
  · subst hip hport hid
    exact ⟨run_callback_state s fd line p hf,
      fun h1 h2 hv => run_callback_bad_put s fd point value p hf h1 h2 hv⟩

theorem C39_callback_validates_witness :
    ¬ same_client c39_server 5 "127.0.0.1".toList 40000 "abc".toList ∧
      run_callback c39_server (.bad_put 5 3 7 "127.0.0.1".toList 40000 "abc".toList) =
        some c39_server ∧
      run_callback c39_server
          (.state 5 "STATE 0\r\n".toList "127.0.0.1".toList 40000 "abc".toList) =
        some c39_server ∧
      run_callback c17_server
          (.state 5 "STATE 0\r\n".toList "127.0.0.1".toList 40000 "abc".toList) =
        some { c17_server with
          players := set_player c17_server.players 5
            { c17_player with
              messages := c17_player.messages ++ ["STATE 0\r\n".toList], can_put := true } } :=
  ⟨by decide,
    ((C39_callback_validates c39_server 5 "127.0.0.1".toList 40000 "abc".toList 3 7
      "STATE 0\r\n".toList).1 (by decide)).1,
    ((C39_callback_validates c39_server 5 "127.0.0.1".toList 40000 "abc".toList 3 7
      "STATE 0\r\n".toList).1 (by decide)).2,
    ((C39_callback_validates c17_server 5 "127.0.0.1".toList 40000 "abc".toList 3 7
      "STATE 0\r\n".toList).2.2.2 c17_player rfl rfl rfl rfl).1⟩

/-! ## The polynomial of the client -/

theorem wrap32_of_range (v : Int) (h1 : INT_MIN ≤ v) (h2 : v ≤ INT_MAX) : wrap32 v = v := by
  unfold INT_MIN at h1
  unfold INT_MAX at h2
  unfold wrap32
  omega

/-- While the powers of `x` that the loop uses fit an `int`, the client's loop
computes the result of the server's loop. -/
theorem client_poly_loop_eq (coeffs : List ℚ) (x : Int) :
    ∀ (is : List Nat) (r : ℚ) (xp : Int) (k : Nat), (is ≠ [] → xp = x ^ k) →
      (∀ j, j < is.length → INT_MIN ≤ x ^ (k + j) ∧ x ^ (k + j) ≤ INT_MAX) →
      (client_poly_loop coeffs x is (r, xp)).1 = (poly_loop coeffs x is (r, (x : ℚ) ^ k)).1 := by
  intro is
  induction is with
  | nil => intro r xp k _ _; rfl
  | cons i rest ih =>
    intro r xp k hxp hfit
    have hx := hxp (List.cons_ne_nil i rest)
    subst hx
    simp only [client_poly_loop, poly_loop]
    have h2 : ((x ^ k : Int) : ℚ) = (x : ℚ) ^ k := by push_cast; rfl
    have h3 : (x : ℚ) ^ k * (x : ℚ) = (x : ℚ) ^ (k + 1) := (pow_succ _ _).symm
    rw [h2, h3]
    apply ih
    · intro hne
      have hlen : 1 < (i :: rest).length := by
        cases rest with
        | nil => exact absurd rfl hne
        | cons _ _ => simp
      have := hfit 1 hlen
      rw [← pow_succ, wrap32_of_range _ this.1 this.2]
    · intro j hj
      have := hfit (j + 1) (by simp only [List.length_cons]; omega)
      rw [show k + 1 + j = k + (j + 1) by omega]
      exact this

/-- The client's `poly_at` agrees with the server's `player_poly_at` at the
points whose powers up to `x ^ N` fit an `int`. -/
theorem client_poly_at_eq (c : ClientLogic) (s : ServerLogic) (player : PlayerInfo) (x : Int)
    (hN : s.N = c.N) (hc : player.coefficients = c.coeffs)
    (hfit : ∀ j, j < (c.N + 1).toNat → INT_MIN ≤ x ^ j ∧ x ^ j ≤ INT_MAX) :
    c.poly_at x = player_poly_at s player x := by
  unfold ClientLogic.poly_at player_poly_at
  rw [hN, hc]
  have h := client_poly_loop_eq c.coeffs x (List.range (c.N + 1).toNat) 0 1 0 (fun _ => rfl)
    (fun j hj => by
      rw [List.length_range] at hj
      rw [Nat.zero_add]
      exact hfit j hj)
  rw [pow_zero] at h
  exact h

/-- Claim C40, contradicted by the code. For the coefficients `0 0 0 1`
(`N = 3`) and the point `x = 2000` (within `0..K` for `K = 10000`) the client's
`poly_at` accumulates `x_pow` in an `int`: `2000 ^ 3 = 8000000000` does not fit
32 bits, the wrapped value is `-589934592`, and `poly_at` returns `-589934592`
where the server's `player_poly_at` gives `8000000000`. No value of an `int`
equals that power, so no treatment of the overflow makes the two agree. The
client's `real_values[2000]` after the first STATE of a game with `K = 2000` is
that wrong value. -/
theorem C40_client_power_overflows :
    c40_client.poly_at 2000 = -589934592 ∧
      player_poly_at c40_server c40_player 2000 = 8000000000 ∧
      c40_server.N = c40_client.N ∧ c40_player.coefficients = c40_client.coeffs ∧
      (2000 : Int) ≤ c40_server.K ∧
      (∀ v : Int, INT_MIN ≤ v → v ≤ INT_MAX → v ≠ 2000 ^ 3) ∧
      ((c40_client.processStateMessage (List.replicate 2001 0)).real_values.getD 2000 0 =
        c40_client.poly_at 2000) := by
  refine ⟨by decide!, by decide!, rfl, rfl, by decide, ?_, ?_⟩
  · intro v _ h2 e
    unfold INT_MAX at h2
    rw [e] at h2
    norm_num at h2
  · have hlen : ((List.replicate 2001 (0 : ℚ)).length : Int) - 1 + 1 = 2001 := by
      rw [List.length_replicate]; rfl
    unfold ClientLogic.processStateMessage
    rw [if_pos (by decide)]
    dsimp only
    rw [hlen]
    rw [List.getD_eq_getElem?_getD, List.getElem?_map,
      List.getElem?_range (show 2000 < Int.toNat 2001 by decide)]
    rfl

theorem resize_length (v : List ℚ) (n : Nat) : (resize v n).length = n := by
  unfold resize
  rw [List.length_append, List.length_take, List.length_replicate]
  omega

/-- After the COEFF message the vectors hold the points 0 and 1. -/
theorem client_ready_after_coeff (c : ClientLogic) (coeffs : List ℚ) (h : c.K_set = false) :
    client_ready (c.processCoeffMessage coeffs) := by
  unfold client_ready ClientLogic.max_point ClientLogic.processCoeffMessage
  simp only [h, Bool.false_eq_true, if_false, List.length_cons, List.length_nil]
  omega

/-- After the first STATE message of an automatic client the vectors hold the
points `0..K`. -/
theorem client_ready_after_state (c : ClientLogic) (approx_values : List ℚ)
    (ha : c.is_auto_strategy = true) (hk : c.K_set = false) (hne : approx_values ≠ []) :
    client_ready (c.processStateMessage approx_values) := by
  have hpos : 0 < approx_values.length := List.length_pos.mpr hne
  unfold client_ready ClientLogic.max_point ClientLogic.processStateMessage
  simp only [ha, hk, Bool.not_false, Bool.and_self, if_true, resize_length, List.length_map,
    List.length_range]
  omega

/-! ## The best put of the client -/

/-- The loop of `std::max_element` returns the first index of a greatest
element. -/
theorem max_element_loop_spec (l : List ℚ) :
    ∀ (rest : List ℚ) (i largest : Nat), l.drop i = rest → largest < i → i ≤ l.length →
      (∀ j, j < i → l.getD j 0 ≤ l.getD largest 0) →
      (∀ j, j < largest → l.getD j 0 < l.getD largest 0) →
      max_element_loop largest (l.getD largest 0) i rest < l.length ∧
        (∀ j, j < l.length →
          l.getD j 0 ≤ l.getD (max_element_loop largest (l.getD largest 0) i rest) 0) ∧
        (∀ j, j < max_element_loop largest (l.getD largest 0) i rest →
          l.getD j 0 < l.getD (max_element_loop largest (l.getD largest 0) i rest) 0) := by
  intro rest
  induction rest with
  | nil =>
    intro i largest hd hlt hle hmax hfirst
    have hlen : l.length ≤ i := List.drop_eq_nil_iff.mp hd
    have hi : i = l.length := le_antisymm hle hlen
    simp only [max_element_loop]
    exact ⟨by omega, fun j hj => hmax j (by omega), hfirst⟩
  | cons v rest ih =>
    intro i largest hd hlt hle hmax hfirst
    have hil : i < l.length := by
      by_contra hn
      have : l.drop i = [] := List.drop_eq_nil_iff.mpr (by omega)
      rw [this] at hd
      exact List.noConfusion hd
    have hv : l.getD i 0 = v := by
      have h1 : (l.drop i)[0]? = l[i]? := by rw [List.getElem?_drop]; rfl
      rw [hd] at h1
      rw [List.getD_eq_getElem?_getD, ← h1]
      simp
    have hd1 : l.drop (i + 1) = rest := by
      have h1 : l.drop (i + 1) = (l.drop i).drop 1 := by rw [List.drop_drop]
      rw [h1, hd]
      rfl
    simp only [max_element_loop]
    split_ifs with hcmp
    · rw [← hv]
      rw [← hv] at hcmp
      apply ih (i + 1) i hd1 (by omega) (by omega)
      · intro j hj
        rcases Nat.lt_succ_iff_lt_or_eq.mp hj with h | h
        · exact le_of_lt (lt_of_le_of_lt (hmax j h) hcmp)
        · rw [h]
      · intro j hj
        exact lt_of_le_of_lt (hmax j hj) hcmp
    · apply ih (i + 1) largest hd1 (by omega) (by omega)
      · intro j hj
        rcases Nat.lt_succ_iff_lt_or_eq.mp hj with h | h
        · exact hmax j h
        · rw [h, hv]; exact not_lt.mp hcmp
      · exact hfirst

theorem max_element_spec (l : List ℚ) (hne : l ≠ []) :
    max_element l < l.length ∧ (∀ j, j < l.length → l.getD j 0 ≤ l.getD (max_element l) 0) ∧
      (∀ j, j < max_element l → l.getD j 0 < l.getD (max_element l) 0) := by
  obtain ⟨x, rest, rfl⟩ := List.exists_cons_of_ne_nil hne
  have h := max_element_loop_spec (x :: rest) rest 1 0 rfl (by omega)
    (by simp only [List.length_cons]; omega)
    (fun j hj => by
      have : j = 0 := by omega
      rw [this])
    (fun j hj => absurd hj (Nat.not_lt_zero j))
  exact h

theorem clamp_bounds (v lo hi : ℚ) (h : lo ≤ hi) : lo ≤ clamp v lo hi ∧ clamp v lo hi ≤ hi := by
  unfold clamp
  split_ifs with h1 h2
  · exact ⟨le_refl _, h⟩
  · exact ⟨h, le_refl _⟩
  · exact ⟨not_lt.mp h1, not_lt.mp h2⟩

/-- Claim C37. For every client state whose vectors hold the points
`0..max_point` (`max_point = K` when `K` is known and 1 otherwise),
`get_best_put` returns `(p, v)` where `p` in `[0, max_point]` maximizes
`(real[i] - approx[i]) ^ 2` over `i` in `[0, max_point]`, every smaller index
having a strictly smaller squared difference, and
`v = clamp(real[p] - approx[p], -5, 5)`, so `-5 ≤ v ≤ 5`; afterwards `approx[p]`
has grown by `v`, every other entry and every other field is unchanged. -/
theorem C37_get_best_put (c : ClientLogic) (h : client_ready c) :
    (0 ≤ c.get_best_put.1.1 ∧ c.get_best_put.1.1 ≤ c.max_point) ∧
      (∀ i : Nat, (i : Int) ≤ c.max_point →
        sq_diff c i ≤ sq_diff c c.get_best_put.1.1.toNat) ∧
      (∀ i : Nat, (i : Int) < c.get_best_put.1.1 →
        sq_diff c i < sq_diff c c.get_best_put.1.1.toNat) ∧
      c.get_best_put.1.2 =
        clamp (c.real_values.getD c.get_best_put.1.1.toNat 0 -
          c.current_approximation.getD c.get_best_put.1.1.toNat 0) (-5) 5 ∧
      (-5 ≤ c.get_best_put.1.2 ∧ c.get_best_put.1.2 ≤ 5) ∧
      c.get_best_put.2.current_approximation.length = c.current_approximation.length ∧
      c.get_best_put.2.current_approximation.getD c.get_best_put.1.1.toNat 0 =
        c.current_approximation.getD c.get_best_put.1.1.toNat 0 + c.get_best_put.1.2 ∧
      (∀ i : Nat, i ≠ c.get_best_put.1.1.toNat →
        c.get_best_put.2.current_approximation.getD i 0 = c.current_approximation.getD i 0) ∧
      c.get_best_put.2 =
        { c with current_approximation := c.get_best_put.2.current_approximation } := by
  obtain ⟨h0, ha, hr⟩ := h
  have hmp : c.max_point = if c.K_set then c.K else 1 := rfl
  generalize hsq : (List.range (c.max_point + 1).toNat).map (fun i =>
      (c.current_approximation.getD i 0 - c.real_values.getD i 0) *
        (c.current_approximation.getD i 0 - c.real_values.getD i 0)) = sq
  have hlen : sq.length = (c.max_point + 1).toNat := by
    rw [← hsq, List.length_map, List.length_range]
  have hget : ∀ i, i < sq.length → sq.getD i 0 = sq_diff c i := by
    intro i hi
    rw [← hsq] at hi ⊢
    rw [List.length_map, List.length_range] at hi
    rw [List.getD_eq_getElem?_getD, List.getElem?_map, List.getElem?_range hi]
    simp only [Option.map_some', Option.getD_some, sq_diff]
    ring
  have hne : sq ≠ [] := by
    intro e
    rw [e] at hlen
    simp only [List.length_nil] at hlen
    omega
  obtain ⟨h1, h2, h3⟩ := max_element_spec sq hne
  have hp : c.get_best_put.1.1 = (max_element sq : Int) := by
    unfold ClientLogic.get_best_put
    dsimp only
    rw [← hmp, hsq]
  have hv : c.get_best_put.1.2 =
      clamp (c.real_values.getD (max_element sq) 0 -
        c.current_approximation.getD (max_element sq) 0) (-5) 5 := by
    unfold ClientLogic.get_best_put
    dsimp only
    rw [← hmp, hsq]
    rfl
  have hs : c.get_best_put.2 =
      { c with
        current_approximation :=
          add_at c.current_approximation (max_element sq) c.get_best_put.1.2 } := by
    unfold ClientLogic.get_best_put
    dsimp only
    rw [← hmp, hsq]
  have hpn : c.get_best_put.1.1.toNat = max_element sq := by rw [hp]; rfl
  have hidx : max_element sq < c.current_approximation.length := by omega
  have hca : c.get_best_put.2.current_approximation =
      add_at c.current_approximation (max_element sq) c.get_best_put.1.2 := by rw [hs]
  refine ⟨⟨by rw [hp]; omega, by rw [hp]; omega⟩, ?_, ?_, ?_, ?_, ?_, ?_, ?_, ?_⟩
  · intro i hi
    rw [hpn, ← hget i (by omega), ← hget _ h1]
    exact h2 i (by omega)
  · intro i hi
    rw [hp] at hi
    rw [hpn, ← hget i (by omega), ← hget _ h1]
    exact h3 i (by omega)
  · rw [hpn]; exact hv
  · rw [hv]
    exact clamp_bounds _ (-5) 5 (by norm_num)
  · rw [hca, add_at_length]
  · rw [hca, hpn, add_at_getD_eq _ _ _ hidx]
  · intro i hi
    rw [hpn] at hi
    rw [hca, add_at_getD_ne _ _ _ _ hi]
  · rw [hs]

theorem C37_get_best_put_witness :
    client_ready c37_client ∧ c37_client.get_best_put.1 = (2, 5) ∧
      c37_client.get_best_put.2.current_approximation = [1, 0, 8] ∧
      (-5 ≤ c37_client.get_best_put.1.2 ∧ c37_client.get_best_put.1.2 ≤ 5) :=
  ⟨by decide, by decide!, by decide!, (C37_get_best_put c37_client (by decide)).2.2.2.2.1⟩

/-! ## The coefficient file -/

theorem createMessage_raw (line : Str) (msg : Message)
    (h : Message.createMessage line = some msg) : msg.raw_message = line := by
  unfold Message.createMessage at h
  split_ifs at h
  dsimp only at h
  split at h
  · exact Option.noConfusion h
  · split at h
    · exact Option.noConfusion h
    · rename_i _ cmd P _ _ params _
      cases hp : parse_fields cmd params with
      | none => rw [hp] at h; exact Option.noConfusion h
      | some f =>
        rw [hp] at h
        simp only [Option.map_some', Option.some.injEq] at h
        rw [← h]

/-- What `handle_hello` does for a registered player that is not known yet: it
takes the next line of the file and, if that line followed by LF parses as a
COEFF message, installs id, delay, flags and coefficients and queues the line;
otherwise the process ends. -/
theorem handle_hello_next_line (s : ServerLogic) (fd : Int) (id : Str) (p : PlayerInfo)
    (hf : find_player s.players fd = some p) (hk : p.is_known = false) :
    handle_hello s fd id =
      match Message.createMessage (s.coeff_file.headD [] ++ ['\n']) with
      | none => none
      | some coeff_msg =>
        match coeff_msg.fields with
        | .coeff coeffs =>
          some ({ s with
              coeff_file := s.coeff_file.tail
              players := set_player s.players fd
                { p with
                  id := id
                  delay := (id.filter Char.isLower).length
                  is_known := true
                  can_put := true
                  coefficients := coeffs
                  messages := p.messages ++ [s.coeff_file.headD [] ++ ['\n']] } }, true)
        | _ => none := by
  unfold handle_hello
  rw [hf]
  dsimp only
  rw [if_neg (by rw [hk]; exact Bool.false_ne_true)]
  rw [modify_player_of_find s fd _ p hf]
  dsimp only
  cases hm : Message.createMessage (s.coeff_file.headD [] ++ ['\n']) with
  | none => rfl
  | some coeff_msg =>
    dsimp only
    have hraw := createMessage_raw _ coeff_msg hm
    cases hc : coeff_msg.fields with
    | coeff coeffs =>
      dsimp only
      rw [modify_player_of_find _ fd _ _ (find_set_player _ _ _)]
      unfold append_message_back
      rw [modify_player_of_find _ fd _ _ (find_set_player _ _ _)]
      simp only [set_set_player, hraw]
    | hello _ => rfl
    | put _ _ => rfl
    | bad_put _ _ => rfl
    | state _ => rfl
    | penalty _ _ => rfl
    | scoring _ _ => rfl

theorem append_message_back_coeff_file (s : ServerLogic) (fd : Int) (msg : Str) :
    (append_message_back s fd msg).coeff_file = s.coeff_file :=
  (modify_player_coeff_file s fd _).1

theorem scoring_fold_coeff_file (msg : Str) (known : List (Int × PlayerInfo)) :
    ∀ s : ServerLogic,
      (known.foldl (fun acc e => append_message_back acc e.1 msg) s).coeff_file =
        s.coeff_file := by
  induction known with
  | nil => intro s; rfl
  | cons e rest ih =>
    intro s
    rw [List.foldl_cons, ih, append_message_back_coeff_file]

theorem game_over_coeff_file (s s1 : ServerLogic) (h : game_over s = some s1) :
    s1.coeff_file = s.coeff_file := by
  unfold game_over send_scoring_messages at h
  dsimp only at h
  split at h
  · exact Option.noConfusion h
  · simp only [Option.map_some', Option.some.injEq] at h
    rw [← h]
    exact scoring_fold_coeff_file _ _ s

theorem respond_with_penalty_coeff_file (s s1 : ServerLogic) (fd point : Int) (value : ℚ)
    (h : respond_with_penalty s fd point value = some s1) : s1.coeff_file = s.coeff_file := by
  unfold respond_with_penalty at h
  dsimp only at h
  split at h
  · exact Option.noConfusion h
  · simp only [Option.some.injEq] at h
    rw [← h, append_message_back_coeff_file, (modify_player_coeff_file s fd _).1]

theorem respond_with_bad_put_coeff_file (s : ServerLogic) (now fd point : Int) (value : ℚ) :
    (respond_with_bad_put s now fd point value).coeff_file = s.coeff_file := by
  unfold respond_with_bad_put
  dsimp only
  split
  · exact (modify_player_coeff_file s fd _).1
  · exact (modify_player_coeff_file s fd _).1

theorem respond_with_state_coeff_file (s : ServerLogic) (now fd : Int) (msg : Str) :
    (respond_with_state s now fd msg).coeff_file = s.coeff_file := by
  unfold respond_with_state
  split <;> rfl

theorem put_branch_coeff_file (sp : ServerLogic) (now fd point : Int) (value : ℚ) (oor : Bool)
    (f : PlayerInfo → PlayerInfo) :
    (if oor then respond_with_bad_put (modify_player sp fd f) now fd point value
      else modify_player sp fd f).coeff_file = sp.coeff_file := by
  split_ifs
  · rw [respond_with_bad_put_coeff_file, (modify_player_coeff_file sp fd f).1]
  · exact (modify_player_coeff_file sp fd f).1

/-- The part of `handle_put` after the range test keeps the file. -/
theorem handle_put_tail_coeff_file (s3 s1 : ServerLogic) (now fd point : Int) (value : ℚ)
    (b successful_put : Bool) (file : List Str) (h3 : s3.coeff_file = file)
    (h : (if !successful_put then some (s3, false)
        else
          let s4 := modify_player s3 fd (fun p =>
            { p with
              correct_puts := p.correct_puts + 1
              approximations := add_at p.approximations point.toNat value })
          let s5 := { s4 with total_correct_puts := s4.total_correct_puts + 1 }
          match find_player s5.players fd with
          | none => none
          | some p5 =>
            match StateMessage.createMessage p5.approximations with
            | none => none
            | some state_msg =>
              let s6 := respond_with_state s5 now fd state_msg.raw_message
              if s6.total_correct_puts ≥ s6.M then
                (game_over s6).map (fun s7 => (s7, true))
              else some (s6, true)) = some (s1, b)) : s1.coeff_file = file := by
  split_ifs at h with hsucc
  · simp only [Option.some.injEq, Prod.mk.injEq] at h
    rw [← h.1]
    exact h3
  · dsimp only at h
    split at h
    · exact Option.noConfusion h
    · split at h
      · exact Option.noConfusion h
      · split_ifs at h with hover
        · cases hg : game_over _ with
          | none => rw [hg] at h; exact Option.noConfusion h
          | some s7 =>
            rw [hg] at h
            simp only [Option.map_some', Option.some.injEq, Prod.mk.injEq] at h
            rw [← h.1, game_over_coeff_file _ s7 hg, respond_with_state_coeff_file]
            show (modify_player _ fd _).coeff_file = file
            rw [(modify_player_coeff_file _ fd _).1]
            exact h3
        · simp only [Option.some.injEq, Prod.mk.injEq] at h
          rw [← h.1, respond_with_state_coeff_file]
          show (modify_player _ fd _).coeff_file = file
          rw [(modify_player_coeff_file _ fd _).1]
          exact h3

theorem handle_put_coeff_file (s s1 : ServerLogic) (now fd point : Int) (value : ℚ) (b : Bool)
    (h : handle_put s now fd point value = some (s1, b)) : s1.coeff_file = s.coeff_file := by
  unfold handle_put at h
  split at h
  · exact Option.noConfusion h
  · rename_i player hf
    split_ifs at h with hk hcp
    · simp only [Option.some.injEq, Prod.mk.injEq] at h
      rw [← h.1]
    · dsimp only at h
      split at h
      · exact Option.noConfusion h
      · rename_i sp hsp
        exact handle_put_tail_coeff_file _ s1 now fd point value b _ s.coeff_file
          ((put_branch_coeff_file sp now fd point value _ _).trans
            (respond_with_penalty_coeff_file s sp fd point value hsp)) h
    · dsimp only at h
      exact handle_put_tail_coeff_file _ s1 now fd point value b _ s.coeff_file
        (put_branch_coeff_file s now fd point value _ _) h

theorem handle_client_disconnect_coeff_file (s : ServerLogic) (fd : Int) :
    (handle_client_disconnect s fd).coeff_file = s.coeff_file := by
  unfold handle_client_disconnect
  split <;> rfl

theorem run_callback_coeff_file (s s1 : ServerLogic) (cb : Callback)
    (h : run_callback s cb = some s1) : s1.coeff_file = s.coeff_file := by
  cases cb with
  | bad_put fd point value ip port id =>
    simp only [run_callback] at h
    split_ifs at h
    · simp only [Option.some.injEq] at h
      rw [← h]
    · split at h
      · exact Option.noConfusion h
      · simp only [Option.some.injEq] at h
        rw [← h, append_message_back_coeff_file, (modify_player_coeff_file s fd _).1]
  | state fd line ip port id =>
    simp only [run_callback] at h
    split_ifs at h
    · simp only [Option.some.injEq] at h
      rw [← h]
    · simp only [Option.some.injEq] at h
      rw [← h, (modify_player_coeff_file _ fd _).1, append_message_back_coeff_file]
  | hello_wait fd ip port =>
    simp only [run_callback] at h
    split_ifs at h
    · simp only [Option.some.injEq] at h
      rw [← h]
    · split at h
      · simp only [Option.some.injEq] at h
        rw [← h]
      · split_ifs at h
        · simp only [Option.some.injEq] at h
          rw [← h, handle_client_disconnect_coeff_file]
        · simp only [Option.some.injEq] at h
          rw [← h]

theorem check_timers_loop_coeff_file (now : Int) :
    ∀ (fuel : Nat) (s s1 : ServerLogic), check_timers_loop now fuel s = some s1 →
      s1.coeff_file = s.coeff_file := by
  intro fuel
  induction fuel with
  | zero =>
    intro s s1 h
    simp only [check_timers_loop, Option.some.injEq] at h
    rw [← h]
  | succ fuel ih =>
    intro s s1 h
    simp only [check_timers_loop] at h
    split at h
    · simp only [Option.some.injEq] at h
      rw [← h]
    · rename_i e rest _
      split_ifs at h
      · cases hr : run_callback s e.callback with
        | none => rw [hr] at h; exact Option.noConfusion h
        | some s2 =>
          rw [hr] at h
          dsimp only at h
          rw [ih _ s1 h]
          exact run_callback_coeff_file s s2 _ hr
      · simp only [Option.some.injEq] at h
        rw [← h]

/-- An accepted HELLO takes one line off the file; a refused one changes
nothing. -/
theorem handle_hello_coeff_file (s s1 : ServerLogic) (fd : Int) (id : Str) (b : Bool)
    (h : handle_hello s fd id = some (s1, b)) :
    (b = false ∧ s1 = s) ∨ (b = true ∧ s1.coeff_file = s.coeff_file.tail) := by
  unfold handle_hello at h
  split at h
  · exact Option.noConfusion h
  · split_ifs at h
    · simp only [Option.some.injEq, Prod.mk.injEq] at h
      exact Or.inl ⟨h.2.symm, h.1.symm⟩
    · dsimp only at h
      split at h
      · exact Option.noConfusion h
      · split at h
        all_goals first
          | exact Option.noConfusion h
          | (simp only [Option.some.injEq, Prod.mk.injEq] at h
             refine Or.inr ⟨h.2.symm, ?_⟩
             rw [← h.1, append_message_back_coeff_file, (modify_player_coeff_file _ fd _).1]
             show (modify_player s fd _).coeff_file.tail = _
             rw [(modify_player_coeff_file s fd _).1])

/-- A call of the server loop leaves the coefficient file alone, unless it is an
accepted HELLO, which takes one line off it. -/
theorem apply_coeff_file (s s1 : ServerLogic) (op : ServerOp) (h : op.apply s = some s1) :
    s1.coeff_file = s.coeff_file.drop (if accepted_hello s op then 1 else 0) := by
  cases op with
  | register fd ip port =>
    simp only [ServerOp.apply, Option.some.injEq] at h
    rw [← h]; rfl
  | schedule now fd ip port =>
    simp only [ServerOp.apply, Option.some.injEq] at h
    rw [← h]; rfl
  | message now fd msg =>
    simp only [ServerOp.apply, Option.map_eq_some', Prod.exists, exists_and_right,
      exists_eq_right] at h
    obtain ⟨b, hb⟩ := h
    unfold handle_client_message at hb
    split_ifs at hb with hconn
    simp only [Bool.not_eq_true', Bool.not_eq_false] at hconn
    have hno : ∀ f, msg.fields = f → (∀ id, f ≠ .hello id) →
        accepted_hello s (.message now fd msg) = false := by
      intro f hf hne
      simp only [accepted_hello]
      rw [hf]
      cases f with
      | hello id => exact absurd rfl (hne id)
      | _ => rfl
    cases hfl : msg.fields with
    | hello id =>
      rw [hfl] at hb
      dsimp only at hb
      have hacc : accepted_hello s (.message now fd msg) = b := by
        simp only [accepted_hello]
        rw [hfl]
        dsimp only
        rw [hb, hconn]
        cases b <;> rfl
      rw [hacc]
      rcases handle_hello_coeff_file s s1 fd id b hb with ⟨hb1, hs⟩ | ⟨hb1, hs⟩
      · subst hb1; rw [hs]; rfl
      · subst hb1; rw [hs]; cases s.coeff_file <;> rfl
    | put point value =>
      rw [hfl] at hb
      dsimp only at hb
      rw [hno _ hfl (fun _ => Fields.noConfusion)]
      exact handle_put_coeff_file s s1 now fd point value b hb
    | coeff _ =>
      rw [hfl] at hb
      simp only [Option.some.injEq, Prod.mk.injEq] at hb
      rw [hno _ hfl (fun _ => Fields.noConfusion), ← hb.1]; rfl
    | bad_put _ _ =>
      rw [hfl] at hb
      simp only [Option.some.injEq, Prod.mk.injEq] at hb
      rw [hno _ hfl (fun _ => Fields.noConfusion), ← hb.1]; rfl
    | state _ =>
      rw [hfl] at hb
      simp only [Option.some.injEq, Prod.mk.injEq] at hb
      rw [hno _ hfl (fun _ => Fields.noConfusion), ← hb.1]; rfl
    | penalty _ _ =>
      rw [hfl] at hb
      simp only [Option.some.injEq, Prod.mk.injEq] at hb
      rw [hno _ hfl (fun _ => Fields.noConfusion), ← hb.1]; rfl
    | scoring _ _ =>
      rw [hfl] at hb
      simp only [Option.some.injEq, Prod.mk.injEq] at hb
      rw [hno _ hfl (fun _ => Fields.noConfusion), ← hb.1]; rfl
  | disconnect fd =>
    simp only [ServerOp.apply] at h
    split_ifs at h
    simp only [Option.some.injEq] at h
    rw [← h]
    exact handle_client_disconnect_coeff_file s fd
  | timers now =>
    simp only [ServerOp.apply] at h
    exact check_timers_loop_coeff_file now _ s s1 h
  | take fd =>
    simp only [ServerOp.apply] at h
    split_ifs at h
    simp only [Option.some.injEq] at h
    rw [← h]
    exact (modify_player_coeff_file s fd _).1
  | put_back fd msg =>
    simp only [ServerOp.apply] at h
    split_ifs at h
    simp only [Option.some.injEq] at h
    rw [← h]
    exact (modify_player_coeff_file s fd _).1
  | restart =>
    simp only [ServerOp.apply, Option.some.injEq] at h
    rw [← h]; rfl

/-- After a list of calls the file has lost one line per accepted HELLO, in
order, whatever resets happened in between. -/
theorem run_ops_coeff_file (ops : List ServerOp) :
    ∀ s s1 : ServerLogic, run_ops s ops = some s1 →
      s1.coeff_file = s.coeff_file.drop (hellos_accepted s ops) := by
  induction ops with
  | nil =>
    intro s s1 h
    simp only [run_ops, Option.some.injEq] at h
    rw [← h]; rfl
  | cons op ops ih =>
    intro s s1 h
    simp only [run_ops] at h
    cases ha : op.apply s with
    | none => rw [ha] at h; exact Option.noConfusion h
    | some s2 =>
      rw [ha] at h
      dsimp only at h
      simp only [hellos_accepted, ha]
      rw [ih s2 s1 h, apply_coeff_file s s2 op ha, List.drop_drop, Nat.add_comm]

theorem c36_state_reachable : LoopReachable c36_state := by
  obtain ⟨s1, h1, h2⟩ := loop_reachable_run c36_ops c36_init
    (LoopReachable.init _ (by decide)) (by decide!)
  have : c36_state = s1 := by
    unfold c36_state
    rw [h1]; rfl
  rw [this]; exact h2

/-- Claim C36, refuted as stated: at the reachable server `c36_state`, whose
coefficient file begins with an empty line followed by `COEFF 1 2`, the client
on descriptor 5 is registered and not known; its HELLO makes `handle_hello` read
the empty line, which is no COEFF message, and the process ends, although the
next non-empty line is a valid COEFF line. -/
theorem C36_empty_line_not_skipped :
    LoopReachable c36_state ∧
      (find_player c36_state.players 5).map (fun p => p.is_known) = some false ∧
      c36_state.coeff_file = [[], "COEFF 1 2\r".toList] ∧
      handle_hello c36_state 5 "abc".toList = none ∧
      (Message.createMessage ("COEFF 1 2\r".toList ++ ['\n'])).map (fun m => m.fields) =
        some (.coeff [1, 2]) :=
  ⟨c36_state_reachable, by decide!, by decide!, by decide!, by decide!⟩

/-- Claim C36, amended. For every registered player that is not yet known and
every HELLO id, `handle_hello` reads the next line of the coefficient file
(empty or not). If that line followed by LF is a COEFF message, then afterwards
the player's id is the id, `delay` is the number of lowercase letters in it,
`is_known` and `can_put` are true, the coefficients are the values of that
line, exactly that line is appended to the player's queue, and the file has
lost that line; otherwise the process ends. `reset` leaves the file as it is,
and after any list of calls of the server loop the file has lost exactly one
line per accepted HELLO, so every accepted HELLO reads the line after the one
the previous accepted HELLO read, also across resets. -/
theorem C36_hello_takes_next_line (s : ServerLogic) (fd : Int) (id : Str) (p : PlayerInfo)
    (hf : find_player s.players fd = some p) (hk : p.is_known = false) :
    handle_hello s fd id =
        (match Message.createMessage (s.coeff_file.headD [] ++ ['\n']) with
        | none => none
        | some coeff_msg =>
          match coeff_msg.fields with
          | .coeff coeffs =>
            some ({ s with
                coeff_file := s.coeff_file.tail
                players := set_player s.players fd
                  { p with
                    id := id
                    delay := (id.filter Char.isLower).length
                    is_known := true
                    can_put := true
                    coefficients := coeffs
                    messages := p.messages ++ [s.coeff_file.headD [] ++ ['\n']] } }, true)
          | _ => none) ∧
      (reset s).coeff_file = s.coeff_file ∧
      ∀ (ops : List ServerOp) (s1 : ServerLogic), run_ops s ops = some s1 →
        s1.coeff_file = s.coeff_file.drop (hellos_accepted s ops) :=
  ⟨handle_hello_next_line s fd id p hf hk, rfl, fun ops s1 h => run_ops_coeff_file ops s s1 h⟩

theorem C36_hello_takes_next_line_witness :
    (find_player c36_server.players 5).map (fun p => p.is_known) = some false ∧
      hellos_accepted c36_server c36_two_games = 2 ∧
      (run_ops c36_server c36_two_games).map (fun s => s.coeff_file) =
        some ["COEFF 5 6\r".toList] ∧
      ∀ s1 : ServerLogic, run_ops c36_server c36_two_games = some s1 →
        s1.coeff_file = c36_server.coeff_file.drop (hellos_accepted c36_server c36_two_games) :=
  ⟨by decide!, by decide!, by decide!,
    (C36_hello_takes_next_line c36_server 5 "abc".toList
      { id := "UNKNOWN".toList, ip := "127.0.0.1".toList, port := 40000, messages := [],
        approximations := [0, 0, 0], coefficients := [0, 0], penalty := 0, is_known := false,
        correct_puts := 0, can_put := false, delay := 0 } (by decide!) rfl).2.2 c36_two_games⟩

/-! ## The SCORING broadcast -/

theorem regex_walk_cons_class (b : Bool) (c : Char) (rest : Str) (hc : param_char c = true) :
    regex_walk b (c :: rest) = regex_walk true rest + 1 := by
  rw [regex_walk, if_pos hc]

theorem regex_walk_space (rest : Str) :
    regex_walk true (' ' :: rest) = regex_walk false rest + 1 := by
  rw [regex_walk, if_neg (by decide), if_pos ⟨rfl, rfl⟩]

theorem regex_walk_le (params : Str) : ∀ b, regex_walk b params ≤ params.length := by
  induction params with
  | nil => intro b; simp [regex_walk]
  | cons c rest ih =>
    intro b
    rw [regex_walk]
    split_ifs
    · have := ih true; simp only [List.length_cons]; omega
    · have := ih false; simp only [List.length_cons]; omega
    · exact Nat.zero_le _

theorem regex_walk_class (t rest : Str) (h : ∀ c ∈ t, param_char c = true) :
    regex_walk true (t ++ rest) = t.length + regex_walk true rest := by
  induction t with
  | nil => simp
  | cons c t ih =>
    have hc := h c (List.mem_cons_self _ _)
    have ih' := ih (fun d hd => h d (List.mem_cons_of_mem _ hd))
    rw [List.cons_append, regex_walk_cons_class true c _ hc, ih']
    simp only [List.length_cons]
    omega

theorem regex_walk_token (t rest : Str) (h : is_token t) (b : Bool) :
    regex_walk b (t ++ rest) = t.length + regex_walk true rest := by
  obtain ⟨hne, hall⟩ := h
  cases t with
  | nil => exact absurd rfl hne
  | cons c t =>
    have hc := hall c (List.mem_cons_self _ _)
    rw [List.cons_append, regex_walk_cons_class b c _ hc,
      regex_walk_class t rest (fun d hd => hall d (List.mem_cons_of_mem _ hd))]
    simp only [List.length_cons]
    omega

theorem intercalate_cons_cons (t u : Str) (us : List Str) :
    [' '].intercalate (t :: u :: us) = t ++ ' ' :: [' '].intercalate (u :: us) := by
  simp [List.intercalate, List.intersperse]

/-- On parameters that match, the matcher consumes every character. -/
theorem regex_walk_intercalate (tokens : List Str) (htok : tokens ≠ [])
    (h : ∀ t ∈ tokens, is_token t) (b : Bool) :
    regex_walk b ([' '].intercalate tokens) = ([' '].intercalate tokens).length := by
  induction tokens generalizing b with
  | nil => exact absurd rfl htok
  | cons t ts ih =>
    have ht := h t (List.mem_cons_self _ _)
    cases ts with
    | nil =>
      have e : [' '].intercalate [t] = t ++ [] := by simp [List.intercalate]
      rw [e, regex_walk_token t [] ht b]
      simp [regex_walk]
    | cons u us =>
      have ih' := ih (by simp) (fun x hx => h x (List.mem_cons_of_mem _ hx)) false
      rw [intercalate_cons_cons, regex_walk_token t _ ht b, regex_walk_space, ih']
      simp only [List.length_append, List.length_cons]

theorem regex_match_intercalate (stack_chars : Nat) (tokens : List Str) (htok : tokens ≠ [])
    (h : ∀ t ∈ tokens, is_token t) :
    regex_match stack_chars ([' '].intercalate tokens) =
      if stack_chars < ([' '].intercalate tokens).length then none else some true := by
  have hsplit : ([' '].intercalate tokens).splitOn ' ' = tokens :=
    List.splitOn_intercalate tokens ' ' (fun l hl => is_token_no_space l (h l hl)) htok
  have hre : params_regex_match ([' '].intercalate tokens) = true := by
    unfold params_regex_match
    rw [hsplit, List.all_eq_true]
    intro t ht
    rw [Bool.and_eq_true, List.all_eq_true]
    refine ⟨?_, (h t ht).2⟩
    have := (h t ht).1
    cases t with
    | nil => exact absurd rfl this
    | cons _ _ => rfl
  unfold regex_match
  rw [regex_walk_intercalate tokens htok h false, hre]

/-- Parameters that fit the stack are matched and split as `splitParams` says. -/
theorem splitParams_fits (stack_chars : Nat) (params : Str)
    (h : params.length ≤ stack_chars) :
    OnStack.splitParams stack_chars params = some (splitParams params) := by
  have hw := regex_walk_le params false
  unfold OnStack.splitParams splitParams regex_match
  by_cases he : params.isEmpty = true
  · rw [if_pos he, if_pos he]
  · rw [if_neg he, if_neg he, if_neg (by omega)]
    dsimp only
    by_cases hm : params_regex_match params = true
    · simp [hm]
    · have hm' : params_regex_match params = false := by
        cases hx : params_regex_match params with
        | true => exact absurd hx hm
        | false => rfl
      simp [hm']

theorem splitParams_intercalate_on_stack (stack_chars : Nat) (tokens : List Str)
    (htok : tokens ≠ []) (h : ∀ t ∈ tokens, is_token t) :
    OnStack.splitParams stack_chars ([' '].intercalate tokens) =
      if stack_chars < ([' '].intercalate tokens).length then none
      else some (some tokens) := by
  by_cases hlt : stack_chars < ([' '].intercalate tokens).length
  · rw [if_pos hlt]
    have hne := intercalate_ne_nil tokens htok h
    have hE : ([' '].intercalate tokens).isEmpty = false := by
      cases hx : [' '].intercalate tokens with
      | nil => exact absurd hx hne
      | cons _ _ => rfl
    unfold OnStack.splitParams
    rw [hE, regex_match_intercalate stack_chars tokens htok h, if_pos hlt]
    simp
  · rw [if_neg hlt, splitParams_fits stack_chars _ (by omega),
      splitParams_intercalate tokens htok h]

/-- A command word followed by parameters and CR LF, on a stack of
`stack_chars`: the process is killed where the parameters are longer than the
stack holds, otherwise the line is parsed as `Message.createMessage` says. -/
theorem createMessage_on_stack (stack_chars : Nat) (cmd : Str) (tokens : List Str)
    (hcmd : cmd ≠ []) (hsp : ' ' ∉ cmd) (htok : tokens ≠ []) (h : ∀ t ∈ tokens, is_token t) :
    OnStack.Message.createMessage stack_chars (cmd ++ ' ' :: [' '].intercalate tokens ++ crlf) =
      if stack_chars < ([' '].intercalate tokens).length then none
      else some (Message.createMessage (cmd ++ ' ' :: [' '].intercalate tokens ++ crlf)) := by
  obtain ⟨h1, h2⟩ := strip_crlf (cmd ++ ' ' :: [' '].intercalate tokens)
  rw [createMessage_with_params cmd tokens hcmd hsp htok h]
  unfold OnStack.Message.createMessage
  rw [if_neg h1]
  simp only [h2, extract_with_params cmd _ hcmd hsp (intercalate_ne_nil tokens htok h),
    splitParams_intercalate_on_stack stack_chars tokens htok h]
  split_ifs <;> rfl

/-- The function `StateMessage::createMessage` on a stack of `stack_chars`. -/
theorem state_message_on_stack (stack_chars : Nat) (vals : List ℚ) (hne : vals ≠ []) :
    OnStack.StateMessage.createMessage stack_chars vals =
      if stack_chars < (doubles_str vals).length then none
      else some (StateMessage.createMessage vals) := by
  have hE : vals.isEmpty = false := by
    cases vals with
    | nil => exact absurd rfl hne
    | cons _ _ => rfl
  have e : StateMessage.createMessage vals = Message.createMessage
      ("STATE".toList ++ ' ' :: [' '].intercalate (vals.map doubleToString) ++ crlf) := by
    simp [StateMessage.createMessage, hE, Message.createMessageWithCRLF, doubles_str_eq vals hne]
  have e2 : OnStack.StateMessage.createMessage stack_chars vals =
      OnStack.Message.createMessage stack_chars
        ("STATE".toList ++ ' ' :: [' '].intercalate (vals.map doubleToString) ++ crlf) := by
    simp [OnStack.StateMessage.createMessage, hE, OnStack.Message.createMessageWithCRLF,
      doubles_str_eq vals hne]
  rw [e, e2, doubles_str_eq vals hne]
  exact createMessage_on_stack stack_chars _ _ (by decide) (by decide) (by simpa using hne)
    (doubles_tokens vals)

theorem doubleToString_length (v : ℚ) : 9 ≤ (doubleToString v).length := by
  unfold doubleToString
  simp only [max_fractional_digits]
  generalize round_half_even (|v| * 10 ^ 7) = n
  obtain ⟨hne, -, -⟩ := toDigits_spec (n / 10 ^ 7)
  have h7 : (seven_digits (n % 10 ^ 7)).length = 7 := rfl
  have h1 : 1 ≤ (Nat.toDigits 10 (n / 10 ^ 7)).length := by
    cases hx : Nat.toDigits 10 (n / 10 ^ 7) with
    | nil => exact absurd hx hne
    | cons _ _ => simp
  simp only [List.length_append, List.length_cons, h7]
  omega

theorem join_sp_length_ge (ts : List Str) (h : ∀ t ∈ ts, 9 ≤ t.length) :
    10 * ts.length ≤ (join_sp ts).length := by
  induction ts with
  | nil => simp [join_sp]
  | cons t ts ih =>
    have := ih (fun x hx => h x (List.mem_cons_of_mem _ hx))
    have := h t (List.mem_cons_self _ _)
    simp only [join_sp, List.length_append, List.length_cons]
    omega

theorem doubles_str_join (vals : List ℚ) :
    doubles_str vals = (join_sp (vals.map doubleToString)).dropLast := by
  unfold doubles_str
  rw [foldl_append_sp doubleToString vals [], List.nil_append]

/-- A line of `n` doubles has at least `10 * n - 1` characters: each double
has a digit, the point and seven digits, and a space separates two. -/
theorem doubles_str_length_ge (vals : List ℚ) :
    10 * vals.length ≤ (doubles_str vals).length + 1 := by
  rw [doubles_str_join, List.length_dropLast]
  have := join_sp_length_ge (vals.map doubleToString) (by
    intro t ht
    obtain ⟨v, -, hv⟩ := List.mem_map.mp ht
    rw [← hv]; exact doubleToString_length v)
  rw [List.length_map] at this
  omega

/-- What `handle_put` does on a stack of `stack_chars` with an in-range PUT of a
known player whose `can_put` is true. -/
theorem handle_put_counted_on_stack (stack_chars : Nat) (s : ServerLogic) (now : Int) (fd : Int)
    (point : Int) (value : ℚ) (player : PlayerInfo)
    (hf : find_player s.players fd = some player)
    (hk : player.is_known = true) (hc : player.can_put = true)
    (hr : ¬ put_out_of_range s point value) :
    OnStack.handle_put stack_chars s now fd point value =
      match OnStack.StateMessage.createMessage stack_chars
          (add_at player.approximations point.toNat value) with
      | none => none
      | some none => none
      | some (some state_msg) =>
        if s.total_correct_puts + 1 ≥ s.M then
          (OnStack.game_over stack_chars
            (put_counted s now fd player point value state_msg.raw_message)).map
            (fun s7 => (s7, true))
        else some (put_counted s now fd player point value state_msg.raw_message, true) := by
  have hr' : ¬ (point < 0 ∨ point > s.K ∨ value + eps < min_put_value ∨
      value - eps > max_put_value) := hr
  unfold OnStack.handle_put
  simp only [hf, hk, hc, Bool.not_true, Bool.false_eq_true, if_false, hr', decide_False,
    Bool.not_false, Bool.and_true, if_true]
  rw [modify_player_of_find s fd _ player hf]
  rw [modify_player_of_find _ fd _ _ (find_set_player _ _ _)]
  simp only [set_set_player, find_set_player]
  cases hm : OnStack.StateMessage.createMessage stack_chars
      (add_at player.approximations point.toNat value) with
  | none => rfl
  | some r =>
    cases r with
    | none => rfl
    | some m =>
      simp only [respond_with_state, find_set_player, add_event, put_counted, counted_player, hk]

theorem c18_approximations_length : c18_approximations.length = 10001 := by
  unfold c18_approximations
  exact List.length_replicate _ _

/-- Claim C7, contradicted by the code: every factory parses the line it has
built through `Message::createMessage`, whose `std::regex_match` nests one call
per character of the parameters. On a stack that holds the nested calls of
`stack_chars` characters, `StateMessage::createMessage` on a non-empty vector
kills the process exactly when the text of the values has more than
`stack_chars` characters; `n` values take at least `10 * n - 1` characters, so
it does whenever `stack_chars + 1 < 10 * n`; otherwise it returns what the parse
of the line returns. -/
theorem C7_state_line_overflows_stack (stack_chars : Nat) (vals : List ℚ)
    (h1 : 1 ≤ vals.length) :
    (OnStack.StateMessage.createMessage stack_chars vals = none ↔
        stack_chars < (doubles_str vals).length) ∧
      ((doubles_str vals).length ≤ stack_chars →
        OnStack.StateMessage.createMessage stack_chars vals =
          some (StateMessage.createMessage vals)) ∧
      (stack_chars + 1 < 10 * vals.length →
        OnStack.StateMessage.createMessage stack_chars vals = none) := by
  have hne : vals ≠ [] := by intro e; rw [e] at h1; simp at h1
  have hge := doubles_str_length_ge vals
  rw [state_message_on_stack stack_chars vals hne]
  refine ⟨⟨fun h => ?_, fun h => if_pos h⟩, fun h => if_neg (by omega),
    fun h => if_pos (by omega)⟩
  by_contra hlt
  rw [if_neg hlt] at h
  exact Option.noConfusion h

theorem C7_state_line_overflows_stack_witness :
    OnStack.StateMessage.createMessage 26000 (List.replicate 10001 0) = none :=
  (C7_state_line_overflows_stack 26000 (List.replicate 10001 0)
    (by rw [List.length_replicate]; decide)).2.2 (by rw [List.length_replicate]; decide)

/-- Claim C18, contradicted by the code: `handle_put` builds the STATE reply
through `StateMessage::createMessage`, whose `std::regex_match` nests one call
per character of the `K + 1` values. For every known player with
`can_put = true` and every PUT with `0 ≤ point ≤ K` and value within
`[-5 - eps, 5 + eps]`, on a stack that holds the nested calls of `stack_chars`
characters: the text of the updated vector has at least `10 * K + 9`
characters; if it has more than `stack_chars`, in particular if
`stack_chars < 10 * K + 9`, the process is killed inside `handle_put`; if it
fits and the put does not end the game, `handle_put` does what it does with an
unbounded stack. -/
theorem C18_put_overflows_stack (stack_chars : Nat) (s : ServerLogic) (now : Int) (fd : Int)
    (point : Int) (value : ℚ) (player : PlayerInfo)
    (hf : find_player s.players fd = some player)
    (hk : player.is_known = true) (hc : player.can_put = true)
    (hp0 : 0 ≤ point) (hpK : point ≤ s.K) (hv1 : -5 - eps ≤ value) (hv2 : value ≤ 5 + eps)
    (hlen : (player.approximations.length : Int) = s.K + 1) :
    10 * s.K.toNat + 9 ≤
        (doubles_str (add_at player.approximations point.toNat value)).length ∧
      (stack_chars < (doubles_str (add_at player.approximations point.toNat value)).length →
        OnStack.handle_put stack_chars s now fd point value = none) ∧
      (stack_chars < 10 * s.K.toNat + 9 →
        OnStack.handle_put stack_chars s now fd point value = none) ∧
      ((doubles_str (add_at player.approximations point.toNat value)).length ≤ stack_chars →
        s.total_correct_puts + 1 < s.M →
        OnStack.handle_put stack_chars s now fd point value =
          handle_put s now fd point value) := by
  have hr : ¬ put_out_of_range s point value := by
    unfold put_out_of_range min_put_value max_put_value
    intro h
    rcases h with h | h | h | h
    · omega
    · omega
    · linarith
    · linarith
  have hl : (add_at player.approximations point.toNat value).length = s.K.toNat + 1 := by
    rw [add_at_length]; omega
  have hne : add_at player.approximations point.toNat value ≠ [] := by
    intro e; rw [e] at hl; simp at hl
  have hge := doubles_str_length_ge (add_at player.approximations point.toNat value)
  rw [hl] at hge
  have hdie : stack_chars <
      (doubles_str (add_at player.approximations point.toNat value)).length →
      OnStack.handle_put stack_chars s now fd point value = none := by
    intro h
    rw [handle_put_counted_on_stack stack_chars s now fd point value player hf hk hc hr,
      state_message_on_stack stack_chars _ hne, if_pos h]
  refine ⟨by omega, hdie, fun h => hdie (by omega), fun hfit hM => ?_⟩
  rw [handle_put_counted_on_stack stack_chars s now fd point value player hf hk hc hr,
    handle_put_counted s now fd point value player hf hk hc hr,
    state_message_on_stack stack_chars _ hne, if_neg (by omega)]
  cases StateMessage.createMessage (add_at player.approximations point.toNat value) with
  | none => rfl
  | some m =>
    dsimp only
    rw [if_neg (by omega), if_neg (by omega)]

theorem C18_put_overflows_stack_witness :
    c18_server.K = max_k ∧ OnStack.handle_put 26000 c18_server 1000000000 5 3 2 = none :=
  ⟨rfl,
    (C18_put_overflows_stack 26000 c18_server 1000000000 5 3 2 c18_player rfl rfl rfl
      (by decide) (by decide) (by decide!) (by decide!)
      (by
        rw [show c18_player.approximations = c18_approximations from rfl,
          c18_approximations_length]
        rfl)).2.2.1 (by decide)⟩

end APX
